import Mathlib

/-! libqi: transport socket cache and gateway router

A shallow embedding of `src/messaging/transportsocketcache.cpp` and of
`libqimessaging/src/gateway.cpp`.

Conventions of the embedding.

* A `std::map` is an association list whose keys follow the key order;
  `find`, `operator[]`, `erase` and iteration are the functions of `StdMap`.
* Objects held through shared pointers (`ConnectionAttemptPtr`, the shared
  state of a `Promise`) live in a heap, a list indexed by the reference.
* Calls made on collaborators that are not part of these files (sockets,
  signals) are appended to a trace, in call order.
* Every function is one atomic step of a state machine: the cache functions
  hold `_socketMutex` over their map operations, and `close()` works on the
  maps it swapped out under the lock.
-/

set_option autoImplicit false

namespace qi

/-! ## std::map -/

namespace StdMap

variable {κ : Type} {α : Type} [DecidableEq κ]

/-- Source `std::map::find`: the value stored under `k`, if any. -/
def find (k : κ) : List (κ × α) → Option α
  | [] => none
  | (k', v) :: rest => if k' = k then some v else find k rest

/-- Membership of a key. -/
def contains (k : κ) (m : List (κ × α)) : Bool :=
  (find k m).isSome

/-- Position a new key according to the key order `lt`. -/
def place (lt : κ → κ → Bool) (k : κ) (v : α) : List (κ × α) → List (κ × α)
  | [] => [(k, v)]
  | (k', v') :: rest =>
    if lt k k' then (k, v) :: (k', v') :: rest else (k', v') :: place lt k v rest

/-- Overwrite the value of a key that is present. -/
def replace (k : κ) (v : α) : List (κ × α) → List (κ × α)
  | [] => []
  | (k', v') :: rest =>
    if k' = k then (k, v) :: rest else (k', v') :: replace k v rest

/-- The assignment `m[k] = v`. -/
def set (lt : κ → κ → Bool) (k : κ) (v : α) (m : List (κ × α)) : List (κ × α) :=
  if contains k m then replace k v m else place lt k v m

/-- Source `std::map::erase(key)`. -/
def erase (k : κ) (m : List (κ × α)) : List (κ × α) :=
  m.filter (fun e => decide (e.1 ≠ k))

end StdMap

/-! ## Url and ServiceInfo -/

/-- Modelled from the spec: `url.hpp` is not part of the sources. A url is
`protocol://host:port`; two urls are equal iff these fields match. -/
structure Url where
  protocol : String
  host : String
  port : Nat
deriving DecidableEq, Repr

/-- Modelled from the spec: a url is valid when scheme, host and port were
all found by the parser (`Url::isValid` is not part of the sources). -/
def Url.isValid (u : Url) : Bool :=
  u.protocol ≠ "" && u.host ≠ "" && u.port ≠ 0

/-- Modelled from the spec: the key order of `std::map<Url, _>`
(`Url::operator<` is not part of the sources), lexicographic on the
fields. Only iteration order depends on it. -/
def Url.lt (a b : Url) : Bool :=
  decide (a.protocol.data < b.protocol.data) ||
  (a.protocol = b.protocol &&
    (decide (a.host.data < b.host.data) ||
      (a.host = b.host && decide (a.port < b.port))))

/-- Key order of `std::map<std::string, _>`. -/
def strLt (a b : String) : Bool :=
  decide (a.data < b.data)

/-- The part of `ServiceInfo` that the cache reads. -/
structure ServiceInfo where
  serviceId : Nat
  machineId : String
  endpoints : List Url
deriving DecidableEq, Repr

/-! ## TransportSocketCache -/

/-- The state of a connection attempt. -/
inductive State where
  | State_Pending
  | State_Connected
  | State_Error
deriving DecidableEq, Repr

/-- A `MessageSocketPtr`: the identity of a socket object. -/
abbrev MessageSocketPtr := Nat

/-- What a promise was set to. -/
inductive Outcome where
  | value (socket : MessageSocketPtr)
  | error (msg : String)
deriving DecidableEq, Repr

/-- Modelled from the spec: the shared state of a `Promise<MessageSocketPtr>`
(`future.hpp` is not part of the sources): the `setValue` / `setError`
calls made on it, oldest first. Its future holds the first of them. A
promise is fulfilled once: a record with a second element stands for a call
on a promise that was already set, which the promise refuses by throwing, so
that the function that made the call is left at that call. -/
abbrev PromiseState := List Outcome

/-- The record `ConnectionAttempt`; `promise` refers to the promise heap. -/
structure ConnectionAttempt where
  promise : Nat
  endpoint : Option MessageSocketPtr
  relatedUrls : List Url
  attemptCount : Int
  state : State
  disconnectionTracking : Option Nat
deriving DecidableEq, Repr

/-- Calls made on sockets and on their signals. -/
inductive SocketCall where
  | makeMessageSocket (socket : MessageSocketPtr) (protocol : String)
  | connect (socket : MessageSocketPtr) (url : Url) (info : ServiceInfo)
  | disconnect (socket : MessageSocketPtr)
  | track (socket : MessageSocketPtr) (link : Nat) (url : Url) (info : ServiceInfo)
  | untrack (socket : MessageSocketPtr) (link : Option Nat)
deriving DecidableEq, Repr

/-- Source `ConnectionMap`: machine id to (url to attempt reference). -/
abbrev ConnectionMap := List (String × List (Url × Nat))

/-- The cache, with the heaps of the objects it shares and the trace of
the calls it made. -/
structure TransportSocketCache where
  _dying : Bool
  _connections : ConnectionMap
  _allPendingConnections : List MessageSocketPtr
  attempts : List ConnectionAttempt
  promises : List PromiseState
  calls : List SocketCall
  nextSocket : Nat
  nextLink : Nat
deriving DecidableEq, Repr

namespace TransportSocketCache

/-- The constructor: `_dying(false)` and empty containers. -/
def new : TransportSocketCache :=
  { _dying := false, _connections := [], _allPendingConnections := [],
    attempts := [], promises := [], calls := [], nextSocket := 0, nextLink := 0 }

/-- Dereference of an attempt pointer. -/
def attempt (c : TransportSocketCache) (r : Nat) : ConnectionAttempt :=
  c.attempts.getD r
    { promise := 0, endpoint := none, relatedUrls := [], attemptCount := 0,
      state := State.State_Pending, disconnectionTracking := none }

/-- Write through an attempt pointer. -/
def setAttempt (c : TransportSocketCache) (r : Nat) (a : ConnectionAttempt) :
    TransportSocketCache :=
  { c with attempts := c.attempts.set r a }

/-- The shared state of the promise `p`. -/
def promise (c : TransportSocketCache) (p : Nat) : PromiseState :=
  c.promises.getD p []

/-- Source `Promise<MessageSocketPtr>()`: a new, unset promise. -/
def newPromise (c : TransportSocketCache) : Nat × TransportSocketCache :=
  (c.promises.length, { c with promises := c.promises ++ [[]] })

/-- Source `promise.setValue(socket)` / `promise.setError(msg)`: the call is
added to the record of the promise, also when the promise is already set (see
`PromiseState`). -/
def setPromise (c : TransportSocketCache) (p : Nat) (o : Outcome) : TransportSocketCache :=
  { c with promises := c.promises.set p (c.promise p ++ [o]) }

/-- What the future of promise `p` holds: nothing while the promise is unset. -/
def futureValue (c : TransportSocketCache) (p : Nat) : Option Outcome :=
  (c.promise p).head?

/-- Source `boost::make_shared<ConnectionAttempt>()`, with its own new promise. -/
def newAttempt (c : TransportSocketCache) : Nat × TransportSocketCache :=
  let (p, c1) := c.newPromise
  (c1.attempts.length,
    { c1 with attempts := c1.attempts ++
        [{ promise := p, endpoint := none, relatedUrls := [], attemptCount := 0,
           state := State.State_Pending, disconnectionTracking := none }] })

/-- Source `makeFutureError<MessageSocketPtr>(msg)`: a future that already failed. -/
def makeFutureError (c : TransportSocketCache) (msg : String) : Nat × TransportSocketCache :=
  let (p, c1) := c.newPromise
  (p, c1.setPromise p (Outcome.error msg))

/-- Append a call to the trace. -/
def call (c : TransportSocketCache) (e : SocketCall) : TransportSocketCache :=
  { c with calls := c.calls ++ [e] }

/-- Source `socket->disconnected.connect(&onSocketDisconnected, this, url, info)`. -/
def trackDisconnection (c : TransportSocketCache) (socket : MessageSocketPtr) (url : Url)
    (info : ServiceInfo) : Nat × TransportSocketCache :=
  (c.nextLink,
    { c with calls := c.calls ++ [SocketCall.track socket c.nextLink url info],
             nextLink := c.nextLink + 1 })

/-- Source `void TransportSocketCache::init()`. -/
def init (c : TransportSocketCache) : TransportSocketCache :=
  { c with _dying := false }

/-- The url map of a machine, empty when the machine has no entry. -/
def urlMap (c : TransportSocketCache) (machineId : String) : List (Url × Nat) :=
  (StdMap.find machineId c._connections).getD []

/-- The attempt installed at `(machineId, url)`. -/
def lookup (c : TransportSocketCache) (machineId : String) (url : Url) : Option Nat :=
  (StdMap.find machineId c._connections).bind (StdMap.find url)

end TransportSocketCache

/-- Source `bool isLocalHost(const std::string& host)`. -/
def isLocalHost (host : String) : Bool :=
  "127.".data.isPrefixOf host.data || host = "localhost"

/-- Source `static UrlVector localhost_only(const UrlVector& input)`. -/
def localhost_only (input : List Url) : List Url :=
  input.filter (fun url => isLocalHost url.host)

namespace TransportSocketCache

/-- One attempt of the inner loop of `close()`; in the branch without an
endpoint the state is written before `setError` is called. -/
def closeAttempt (c : TransportSocketCache) (r : Nat) : TransportSocketCache :=
  let connectionAttempt := c.attempt r
  match connectionAttempt.endpoint with
  | some endpoint =>
    (c.call (SocketCall.disconnect endpoint)).call
      (SocketCall.untrack endpoint connectionAttempt.disconnectionTracking)
  | none =>
    let c1 := c.setAttempt r { connectionAttempt with state := State.State_Error }
    c1.setPromise (c1.attempt r).promise (Outcome.error "TransportSocketCache is closing.")

/-- Source `void TransportSocketCache::close()`. The loops are run to their
end; when an attempt without endpoint is installed under several urls, the
second `setError` on its promise is where the source leaves `close()`. -/
def close (c : TransportSocketCache) : TransportSocketCache :=
  let map := c._connections
  let pending := c._allPendingConnections
  let c1 := { c with _dying := true, _connections := [], _allPendingConnections := [] }
  let c2 := map.foldl
    (fun acc mIt => mIt.2.foldl (fun acc2 uIt => acc2.closeAttempt uIt.2) acc) c1
  let c3 := pending.foldl (fun acc it => acc.call (SocketCall.disconnect it)) c2
  { c3 with _connections := [] }

/-- The search of `socket()` through the url map of the machine: the first
entry, in key order, whose url is one of `vurls`. -/
def findMatching (vurls : List Url) : List (Url × Nat) → Option Nat
  | [] => none
  | b :: rest => if b.1 ∈ vurls then some b.2 else findMatching vurls rest

/-- The lookup at the start of `socket()`: the machine entry, if there is
one, is searched for a url of `vurls`. -/
def findConnection (c : TransportSocketCache) (machineId : String) (vurls : List Url) :
    Option Nat :=
  match StdMap.find machineId c._connections with
  | some m => findMatching vurls m
  | none => none

/-- The reference `_connections[machineId]`: `operator[]` adds an empty url
map when the machine has no entry. -/
def touch (c : TransportSocketCache) (machineId : String) : TransportSocketCache :=
  if StdMap.contains machineId c._connections then c
  else { c with _connections := StdMap.place strLt machineId [] c._connections }

/-- The assignment `_connections[machineId][url] = couple`. -/
def install (c : TransportSocketCache) (machineId : String) (url : Url) (couple : Nat) :
    TransportSocketCache :=
  let m := StdMap.set Url.lt url couple (c.urlMap machineId)
  { c with _connections := StdMap.set strLt machineId m c._connections }

/-- The body of the loop of `socket()` for a url that is not skipped: the
attempt is installed under the url, a socket is made, listed as pending and
connected; its completion will call `onSocketParallelConnectionAttempt`. -/
def dialOne (servInfo : ServiceInfo) (couple : Nat) (url : Url) (c : TransportSocketCache) :
    TransportSocketCache :=
  let c1 := c.install servInfo.machineId url couple
  let socket := c1.nextSocket
  let c2 := { c1 with nextSocket := c1.nextSocket + 1,
                      calls := c1.calls ++ [SocketCall.makeMessageSocket socket url.protocol] }
  let c3 := { c2 with _allPendingConnections := c2._allPendingConnections ++ [socket] }
  c3.call (SocketCall.connect socket url servInfo)

/-- The loop of `socket()` over the connection candidates. -/
def dial (isLocal : Bool) (servInfo : ServiceInfo) (couple : Nat) :
    List Url → TransportSocketCache → TransportSocketCache
  | [], c => c
  | url :: rest, c =>
    if !url.isValid then dial isLocal servInfo couple rest c
    else if !isLocal && isLocalHost url.host then dial isLocal servInfo couple rest c
    else dial isLocal servInfo couple rest (c.dialOne servInfo couple url)

/-- The candidates computed at the start of `socket()`. -/
def connectionCandidates (isLocal : Bool) (servInfo : ServiceInfo) : List Url :=
  let candidates := if isLocal then localhost_only servInfo.endpoints else []
  if candidates.length = 0 then servInfo.endpoints else candidates

/-- Source `Future<MessageSocketPtr> TransportSocketCache::socket(servInfo, url)`.
`getMachineId` is the value of `os::getMachineId()`. The result is the promise
whose future is returned. -/
def socket (getMachineId : String) (c : TransportSocketCache) (servInfo : ServiceInfo)
    (_url : String) : Nat × TransportSocketCache :=
  let machineId := servInfo.machineId
  let (couple, c0) := c.newAttempt
  let c1 := c0.setAttempt couple { c0.attempt couple with relatedUrls := servInfo.endpoints }
  let isLocal : Bool := decide (machineId = getMachineId)
  let candidates := connectionCandidates isLocal servInfo
  let c2 := c1.setAttempt couple
    { c1.attempt couple with endpoint := none, state := State.State_Pending }
  if c2._dying then
    c2.makeFutureError "TransportSocketCache is closed."
  else
    match c2.findConnection machineId (c2.attempt couple).relatedUrls with
    | some b => ((c2.attempt b).promise, c2)
    | none =>
      let c3 := c2.setAttempt couple
        { c2.attempt couple with attemptCount := (candidates.length : Int) }
      let c4 := c3.touch machineId
      let c5 := dial isLocal servInfo couple candidates c4
      ((c5.attempt couple).promise, c5)

/-- Source `void TransportSocketCache::insert(machineId, url, socket)`. The
assertion `QI_ASSERT(!connectionAttempt.endpoint)` is compiled out. -/
def insert (c : TransportSocketCache) (machineId : String) (url : Url)
    (socket : MessageSocketPtr) : TransportSocketCache :=
  if c._dying then c
  else
    let info : ServiceInfo := { serviceId := 0, machineId := machineId, endpoints := [] }
    let (disconnectionTracking, c1) := c.trackDisconnection socket url info
    match c1.lookup machineId url with
    | some r =>
      let c2 :=
        if (c1.attempt r).state ≠ State.State_Pending then
          let (p, c1p) := c1.newPromise
          c1p.setAttempt r { c1p.attempt r with promise := p }
        else c1
      let c3 := c2.setAttempt r { c2.attempt r with state := State.State_Connected }
      let c4 := c3.setAttempt r { c3.attempt r with endpoint := some socket }
      let c5 := c4.setPromise (c4.attempt r).promise (Outcome.value socket)
      c5.setAttempt r { c5.attempt r with disconnectionTracking := some disconnectionTracking }
    | none =>
      let (couple, c2) := c1.newAttempt
      let (p, c3) := c2.newPromise
      let c4 := c3.setAttempt couple
        { c3.attempt couple with
            promise := p, endpoint := some socket, state := State.State_Connected,
            relatedUrls := (c3.attempt couple).relatedUrls ++ [url] }
      let c5 := c4.install machineId url couple
      c5.setPromise (c5.attempt couple).promise (Outcome.value socket)

/-- Source `void TransportSocketCache::checkClear(attempt, machineId)`. -/
def checkClear (c : TransportSocketCache) (attempt : Nat) (machineId : String) :
    TransportSocketCache :=
  let a := c.attempt attempt
  if (a.attemptCount ≤ 0 ∧ a.state ≠ State.State_Connected) ∨ a.state = State.State_Error then
    match StdMap.find machineId c._connections with
    | none => c
    | some m =>
      let m1 := a.relatedUrls.foldl (fun acc uit => StdMap.erase uit acc) m
      if m1.length = 0 then
        { c with _connections := StdMap.erase machineId c._connections }
      else
        { c with _connections := StdMap.replace machineId m1 c._connections }
  else c

/-- Source `_allPendingConnections.remove(socket)`. -/
def removePending (c : TransportSocketCache) (socket : MessageSocketPtr) :
    TransportSocketCache :=
  { c with _allPendingConnections :=
      c._allPendingConnections.filter (fun s => decide (s ≠ socket)) }

/-- Source `void TransportSocketCache::onSocketParallelConnectionAttempt(fut, socket,
url, info)`; `hasError` is `fut.hasError()`. -/
def onSocketParallelConnectionAttempt (c : TransportSocketCache) (hasError : Bool)
    (socket : MessageSocketPtr) (url : Url) (info : ServiceInfo) : TransportSocketCache :=
  if c._dying then
    if !hasError then
      (c.removePending socket).call (SocketCall.disconnect socket)
    else c
  else
    match c.lookup info.machineId url with
    | none =>
      (c.removePending socket).call (SocketCall.disconnect socket)
    | some attempt =>
      let c1 := c.setAttempt attempt
        { c.attempt attempt with attemptCount := (c.attempt attempt).attemptCount - 1 }
      if (c1.attempt attempt).state ≠ State.State_Pending then
        let c2 := (c1.removePending socket).call (SocketCall.disconnect socket)
        c2.checkClear attempt info.machineId
      else if hasError then
        let c2 := c1.removePending socket
        if (c2.attempt attempt).attemptCount = 0 then
          let err := "Could not connect to service #" ++ toString info.serviceId ++
            ": no endpoint replied."
          let c3 := c2.setPromise (c2.attempt attempt).promise (Outcome.error err)
          let c4 := c3.setAttempt attempt { c3.attempt attempt with state := State.State_Error }
          c4.checkClear attempt info.machineId
        else c2
      else
        let (disconnectionTracking, c2) := c1.trackDisconnection socket url info
        let c3 := c2.setAttempt attempt { c2.attempt attempt with state := State.State_Connected }
        let c4 := c3.setAttempt attempt { c3.attempt attempt with endpoint := some socket }
        let c5 := c4.setPromise (c4.attempt attempt).promise (Outcome.value socket)
        c5.setAttempt attempt
          { c5.attempt attempt with disconnectionTracking := some disconnectionTracking }

/-- Source `void TransportSocketCache::onSocketDisconnected(url, info)`. When the
machine has an entry but `url` is not a key of it, `machineIt->second[url]`
is a null pointer and the function dereferences it: the result is `none`. -/
def onSocketDisconnected (c : TransportSocketCache) (url : Url) (info : ServiceInfo) :
    Option TransportSocketCache :=
  match StdMap.find info.machineId c._connections with
  | none => some c
  | some m =>
    match StdMap.find url m with
    | none => none
    | some r =>
      let c1 := c.setAttempt r { c.attempt r with state := State.State_Error }
      some (c1.checkClear r info.machineId)

end TransportSocketCache

/-! ## Observations on the trace of the cache -/

/-- The candidates that the loop of `socket()` does not skip: valid urls,
and for a remote service only those that are not loopback. -/
def dialable (isLocal : Bool) (url : Url) : Bool :=
  url.isValid && (isLocal || !isLocalHost url.host)

/-- The attempt that `socket()` builds in `couple` before it takes the lock,
with `n` for its `attemptCount`. -/
def freshAttempt (c : TransportSocketCache) (servInfo : ServiceInfo) (n : Int) :
    ConnectionAttempt :=
  { promise := c.promises.length, endpoint := none, relatedUrls := servInfo.endpoints,
    attemptCount := n, state := State.State_Pending, disconnectionTracking := none }

/-- The cache with that attempt and its promise added to the heaps. -/
def withFresh (c : TransportSocketCache) (servInfo : ServiceInfo) (n : Int) :
    TransportSocketCache :=
  { c with attempts := c.attempts ++ [freshAttempt c servInfo n],
           promises := c.promises ++ [[]] }

/-- The dials of a trace: socket and url of each `connect`, in call order. -/
def startedDials : List SocketCall → List (MessageSocketPtr × Url)
  | [] => []
  | SocketCall.connect s u _ :: rest => (s, u) :: startedDials rest
  | _ :: rest => startedDials rest

/-- The urls dialed in a trace, in call order. -/
def dialedUrls (calls : List SocketCall) : List Url :=
  (startedDials calls).map (fun d => d.2)

/-- The calls that the loop of `socket()` makes for the urls it dials, the
first socket being `n`. -/
def dialCalls (servInfo : ServiceInfo) : Nat → List Url → List SocketCall
  | _, [] => []
  | n, url :: rest =>
    SocketCall.makeMessageSocket n url.protocol :: SocketCall.connect n url servInfo ::
      dialCalls servInfo (n + 1) rest

namespace TransportSocketCache

/-- The calls that a step added to the trace. -/
def addedCalls (before after : TransportSocketCache) : List SocketCall :=
  after.calls.drop before.calls.length

/-- The observable state of a dial campaign in which every dial so far
failed: the cache is open, every url of `us` leads to the attempt `a`, which
is pending with `n` dials outstanding and an unset promise `p`. -/
def Campaign (c : TransportSocketCache) (m : String) (us : List Url) (a p : Nat) (n : Int) :
    Prop :=
  c._dying = false ∧ (∀ u ∈ us, c.lookup m u = some a) ∧ a < c.attempts.length ∧
  (c.attempt a).state = State.State_Pending ∧ (c.attempt a).attemptCount = n ∧
  (c.attempt a).promise = p ∧ p < c.promises.length ∧ c.promise p = []

/-- The attempt references held by `_connections`, in the iteration order of
`close()`; a reference appears once for each url it is installed under. -/
def installedRefs (c : TransportSocketCache) : List Nat :=
  (c._connections.map (fun mIt => mIt.2.map (fun uIt => uIt.2))).flatten

/-- The references of the cache point into its heaps: every installed attempt
exists, and so does its promise. -/
def RefsValid (c : TransportSocketCache) : Prop :=
  ∀ r ∈ c.installedRefs, r < c.attempts.length ∧ (c.attempt r).promise < c.promises.length

/-- What the loop of `close()` over the attempts may change between two
states: the trace grows, promises receive the closing error, attempts turn to
`State_Error`; the maps, the heaps' sizes and the other fields of the attempts
stay. -/
def Closes (c c2 : TransportSocketCache) : Prop :=
  c2._dying = c._dying ∧ c2._connections = c._connections ∧
  c2._allPendingConnections = c._allPendingConnections ∧
  c2.attempts.length = c.attempts.length ∧ c2.promises.length = c.promises.length ∧
  (∀ r, (c2.attempt r).endpoint = (c.attempt r).endpoint ∧
        (c2.attempt r).promise = (c.attempt r).promise ∧
        ((c.attempt r).state = State.State_Error → (c2.attempt r).state = State.State_Error)) ∧
  (∀ x ∈ c.calls, x ∈ c2.calls) ∧
  (∀ p, ∃ k, c2.promise p =
    c.promise p ++ List.replicate k (Outcome.error "TransportSocketCache is closing."))

/-- The cache when `close()` leaves its locked block: dying, with the maps
swapped out. -/
def swappedOut (c : TransportSocketCache) : TransportSocketCache :=
  { c with _dying := true, _connections := [], _allPendingConnections := [] }

/-- The cache after the loop of `close()` over the attempts it swapped out. -/
def closeLoop (c : TransportSocketCache) : TransportSocketCache :=
  c.installedRefs.foldl (fun acc r => acc.closeAttempt r) c.swappedOut

/-- Scenario: service 41 of the machine `alpha`, at `tcp://1.2.3.4:9`. -/
def scenarioAlpha : ServiceInfo :=
  { serviceId := 41, machineId := "alpha", endpoints := [⟨"tcp", "1.2.3.4", 9⟩] }

/-- Scenario: service 42 of the machine `beta`, at `tcp://5.6.7.8:9`. -/
def scenarioBeta : ServiceInfo :=
  { serviceId := 42, machineId := "beta", endpoints := [⟨"tcp", "5.6.7.8", 9⟩] }

/-- The `ServiceInfo` that `insert` binds to the disconnection handler: only
its machine id is set. -/
def insertInfo (machineId : String) : ServiceInfo :=
  { serviceId := 0, machineId := machineId, endpoints := [] }

/-- The attempt that `insert` writes over an existing one: connected, with
the inserted socket as endpoint and the new signal link. -/
def adopted (c : TransportSocketCache) (a : ConnectionAttempt) (socket : MessageSocketPtr) :
    ConnectionAttempt :=
  { a with state := State.State_Connected, endpoint := some socket,
           disconnectionTracking := some c.nextLink }

/-- The attempt that `insert` creates when none is installed: connected, with
the inserted socket as endpoint, the url as only related url, and the second
promise made for it. -/
def insertedAttempt (c : TransportSocketCache) (url : Url) (socket : MessageSocketPtr) :
    ConnectionAttempt :=
  { promise := c.promises.length + 1, endpoint := some socket, relatedUrls := [url],
    attemptCount := 0, state := State.State_Connected, disconnectionTracking := none }

/-- The cache after `insert` made its attempt, before the map assignment. -/
def withInserted (c : TransportSocketCache) (machineId : String) (url : Url)
    (socket : MessageSocketPtr) : TransportSocketCache :=
  { c with attempts := c.attempts ++ [insertedAttempt c url socket],
           promises := c.promises ++ [[], [Outcome.value socket]],
           calls := c.calls ++ [SocketCall.track socket c.nextLink url (insertInfo machineId)],
           nextLink := c.nextLink + 1 }

/-- Scenario: the cache on the machine `self` right after `socket()` started
the dial of socket 0 to `beta` (attempt 0, promise 0, pending). -/
def scenarioPending : TransportSocketCache :=
  (socket "self" TransportSocketCache.new scenarioBeta "tcp://5.6.7.8:9").2

/-- The state of a dial campaign that was won: the cache is open with the map
`conns`, and the attempt `a` is connected with the socket `s` as endpoint and
the promise `p`, which was set once, to `s`. -/
def Settled (c : TransportSocketCache) (conns : ConnectionMap) (a : Nat)
    (s : MessageSocketPtr) (p : Nat) : Prop :=
  c._dying = false ∧ c._connections = conns ∧ a < c.attempts.length ∧
  (c.attempt a).state = State.State_Connected ∧ (c.attempt a).endpoint = some s ∧
  (c.attempt a).promise = p ∧ c.promise p = [Outcome.value s]

/-- A sequence of dial completions `(hasError, socket, url)` for the service
`info`, handled one after the other. -/
def completions (info : ServiceInfo) (done : List (Bool × MessageSocketPtr × Url))
    (c : TransportSocketCache) : TransportSocketCache :=
  done.foldl (fun acc d => acc.onSocketParallelConnectionAttempt d.1 d.2.1 d.2.2 info) c

/-- Scenario: service 43 of the machine `gamma`, at `tcp://1.2.3.4:9` and at
`tcp://5.6.7.8:9`. -/
def scenarioGamma : ServiceInfo :=
  { serviceId := 43, machineId := "gamma",
    endpoints := [⟨"tcp", "1.2.3.4", 9⟩, ⟨"tcp", "5.6.7.8", 9⟩] }

/-- Scenario: the cache on the machine `self` right after `socket()` started
the two dials for `gamma`: socket 0 to `tcp://1.2.3.4:9` and socket 1 to
`tcp://5.6.7.8:9` (attempt 0, promise 0, pending). -/
def scenarioRace : TransportSocketCache :=
  (socket "self" TransportSocketCache.new scenarioGamma "tcp://1.2.3.4:9").2

/-- The cache after the attempt `a` was marked `State_Error`, as
`onSocketDisconnected` does before it calls `checkClear`. -/
def markError (c : TransportSocketCache) (a : Nat) : TransportSocketCache :=
  c.setAttempt a { c.attempt a with state := State.State_Error }

/-- Scenario: service 44 of the local machine `self`, at the loopback url
`tcp://127.0.0.1:9` and at `tcp://10.0.0.1:9`. -/
def scenarioLocal : ServiceInfo :=
  { serviceId := 44, machineId := "self",
    endpoints := [⟨"tcp", "127.0.0.1", 9⟩, ⟨"tcp", "10.0.0.1", 9⟩] }

/-- Scenario: the same service seen with the endpoint `tcp://10.0.0.1:9`
only. -/
def scenarioLocalPublic : ServiceInfo :=
  { serviceId := 44, machineId := "self", endpoints := [⟨"tcp", "10.0.0.1", 9⟩] }

/-- Scenario: the cache on the machine `self` after `socket()` started the
dial of socket 0 to the loopback url of the local service 44 (attempt 0,
whose related urls are `tcp://127.0.0.1:9` and `tcp://10.0.0.1:9`), and after
the connected sockets 70 and 71 were inserted for the same machine under
`tcp://10.0.0.1:9` (attempt 1) and `tcp://10.0.0.2:9` (attempt 2). -/
def scenarioShared : TransportSocketCache :=
  (((socket "self" TransportSocketCache.new scenarioLocal "tcp://127.0.0.1:9").2.insert "self"
    ⟨"tcp", "10.0.0.1", 9⟩ 70).insert "self" ⟨"tcp", "10.0.0.2", 9⟩ 71)

/-- Scenario: service 45 of the machine `delta`, which advertises no
endpoint. -/
def scenarioDelta : ServiceInfo :=
  { serviceId := 45, machineId := "delta", endpoints := [] }

/-- Scenario: service 46 of the remote machine `epsilon`, which advertises a
loopback endpoint only. -/
def scenarioEpsilon : ServiceInfo :=
  { serviceId := 46, machineId := "epsilon", endpoints := [⟨"tcp", "127.0.0.1", 9⟩] }

/-- An attempt as `_connections` is meant to hold it: Pending with no
endpoint, or Connected with an endpoint. -/
def Live (a : ConnectionAttempt) : Prop :=
  (a.state = State.State_Pending ∧ a.endpoint = none) ∨
  (a.state = State.State_Connected ∧ a.endpoint ≠ none)

/-- The invariant of the map: every entry leads to an attempt of the heap
that is `Live` and lists the url of the entry among its related urls, and an
attempt is installed under one machine only. -/
def Installed (c : TransportSocketCache) : Prop :=
  (∀ m u r, c.lookup m u = some r →
    r < c.attempts.length ∧ u ∈ (c.attempt r).relatedUrls ∧ Live (c.attempt r)) ∧
  (∀ m m2 u u2 r, c.lookup m u = some r → c.lookup m2 u2 = some r → m = m2)

/-- The cache states that the operations of the cache reach from the new
cache of the machine `getMachineId`, whatever their arguments:
`socket`, `insert`, the completion of a dial, the `disconnected` signal of a
socket (when the handler does not dereference a null attempt), `close` and
`init`. -/
inductive Reachable (getMachineId : String) : TransportSocketCache → Prop where
  | start : Reachable getMachineId TransportSocketCache.new
  | socket (c : TransportSocketCache) (servInfo : ServiceInfo) (url : String) :
    Reachable getMachineId c →
    Reachable getMachineId (TransportSocketCache.socket getMachineId c servInfo url).2
  | insert (c : TransportSocketCache) (machineId : String) (url : Url)
      (socket : MessageSocketPtr) :
    Reachable getMachineId c → Reachable getMachineId (c.insert machineId url socket)
  | dialed (c : TransportSocketCache) (hasError : Bool) (socket : MessageSocketPtr)
      (url : Url) (info : ServiceInfo) :
    Reachable getMachineId c →
    Reachable getMachineId (c.onSocketParallelConnectionAttempt hasError socket url info)
  | disconnected (c c2 : TransportSocketCache) (url : Url) (info : ServiceInfo) :
    Reachable getMachineId c → c.onSocketDisconnected url info = some c2 →
    Reachable getMachineId c2
  | close (c : TransportSocketCache) : Reachable getMachineId c → Reachable getMachineId c.close
  | init (c : TransportSocketCache) : Reachable getMachineId c → Reachable getMachineId c.init

end TransportSocketCache

/-! ## Gateway -/

namespace Gateway

/-- A `TransportSocket *`: the address of a socket object, `NULL` being 0. -/
abbrev TransportSocket := Nat

/-- The null pointer. -/
def NULL : TransportSocket := 0

/-- Modelled from the spec: the record returned by the service directory
(`serviceinfo.hpp` is not part of the sources); its endpoints are strings. -/
structure ServiceInfo where
  serviceId : Nat
  name : String
  machineId : String
  processId : Nat
  endpoints : List String
deriving DecidableEq, Repr

/-- Modelled from the spec: what a `DataStream` wrote into a message buffer
(`datastream.hpp` is not part of the sources): nothing, an unsigned integer, a
`ServiceInfo`, or bytes whose layout is not known to the gateway. -/
inductive Buffer where
  | empty
  | uint (n : Nat)
  | serviceInfo (info : ServiceInfo)
  | raw (bytes : List Nat)
deriving DecidableEq, Repr

/-- Modelled from the spec: `ds >> result`, which leaves a default
`ServiceInfo` when the buffer holds something else. -/
def Buffer.readServiceInfo : Buffer → ServiceInfo
  | Buffer.serviceInfo info => info
  | _ => { serviceId := 0, name := "", machineId := "", processId := 0, endpoints := [] }

/-- Modelled from the spec: `Message::Type`. -/
inductive MessageType where
  | Type_None
  | Type_Call
  | Type_Reply
  | Type_Error
  | Type_Post
  | Type_Event
deriving DecidableEq, Repr

/-- Modelled from the spec: the header and payload of a `qi::Message`
(`message.hpp` is not part of the sources). -/
structure Message where
  id : Nat
  type : MessageType
  service : Nat
  path : Nat
  function : Nat
  buffer : Buffer
deriving DecidableEq, Repr

/-- Modelled from the spec: `Message::Service_ServiceDirectory`. -/
def Service_ServiceDirectory : Nat := 1

/-- Modelled from the spec: `Message::Path_Main`; the spec names the
constant without its value, none of the properties depends on it. -/
def Path_Main : Nat := 0

/-- Modelled from the spec: `Message::ServiceDirectoryFunction_Service`; the
spec names the constant without its value, none of the properties depends
on it. -/
def ServiceDirectoryFunction_Service : Nat := 1

/-- Modelled from the spec: `Message::buildForwardFrom` copies the header of
`msg` and keeps the id the new message was constructed with. -/
def Message.buildForwardFrom (m msg : Message) : Message :=
  { m with type := msg.type, service := msg.service, path := msg.path,
           function := msg.function }

/-- Modelled from the spec: `Message::buildReplyFrom` copies the id and the
header of `call` and makes the message a reply. -/
def Message.buildReplyFrom (m call : Message) : Message :=
  { m with id := call.id, type := MessageType.Type_Reply, service := call.service,
           path := call.path, function := call.function }

/-- Source `ClientRequestIdMap`: forwarded id to (original id, client socket). -/
abbrev ClientRequestIdMap := List (Nat × (Nat × TransportSocket))

/-- Where a run of the gateway leaves the behaviour that C++ defines: a member
call through the null socket pointer, `endpoints()[0]` on an empty vector, or
a read through a queued `qi::Message *` whose message no longer exists. -/
inductive Undefined where
  | nullSocket
  | emptyEndpoints
  | danglingMessage
deriving DecidableEq, Repr

/-- The tables of `GatewayPrivate`, followed by what the gateway reads from
and writes to its collaborators: the id the next `Message` constructor hands
out, the address of the next `new TransportSocket()`, the sockets whose
`isConnected()` holds, and the traces of `send` and `connect` calls (a `send`
through a null pointer is recorded with target `NULL`). The last field tells
whether, and where, the run left defined behaviour: a function that reaches
such a point stops there, and a state with the field set is the state at that
point, the program having no defined state afterwards. -/
structure GatewayPrivate where
  _services : List (Nat × TransportSocket)
  _clients : List TransportSocket
  _endpoints : List String
  _socketToServiceDirectory : TransportSocket
  _serviceToClient : List (TransportSocket × ClientRequestIdMap)
  _pendingMessage : List (Nat × List (Message × TransportSocket))
  messageId : Nat
  nextSocket : Nat
  connected : List TransportSocket
  sent : List (TransportSocket × Message)
  connects : List (TransportSocket × String)
  undefined : Option Undefined := none
deriving DecidableEq, Repr

namespace GatewayPrivate

/-- Source `new GatewayPrivate()`: empty tables, no directory socket yet. -/
def new : GatewayPrivate :=
  { _services := [], _clients := [], _endpoints := [], _socketToServiceDirectory := NULL,
    _serviceToClient := [], _pendingMessage := [], messageId := 1, nextSocket := 1,
    connected := [], sent := [], connects := [] }

/-- Modelled from the spec: the constructors `Message()` and
`Message(buffer)`; the id is allocated from the process-wide counter. -/
def newMessage (g : GatewayPrivate) (buffer : Buffer) : Message × GatewayPrivate :=
  ({ id := g.messageId, type := MessageType.Type_None, service := 0, path := 0,
     function := 0, buffer := buffer },
   { g with messageId := g.messageId + 1 })

/-- Source `socket->send(msg)`. The call is recorded in the trace; through
the null pointer it is undefined behaviour, which the state records. -/
def send (g : GatewayPrivate) (socket : TransportSocket) (msg : Message) : GatewayPrivate :=
  { g with sent := g.sent ++ [(socket, msg)],
           undefined := if socket = NULL then some (g.undefined.getD Undefined.nullSocket)
                        else g.undefined }

/-- Source `socket->isConnected()`; false on the null pointer. -/
def isConnected (g : GatewayPrivate) (socket : TransportSocket) : Bool :=
  decide (socket ≠ NULL) && decide (socket ∈ g.connected)

/-- The table `_serviceToClient[service]`, empty when absent. -/
def requests (g : GatewayPrivate) (service : TransportSocket) : ClientRequestIdMap :=
  (StdMap.find service g._serviceToClient).getD []

/-- The assignment `_serviceToClient[service][id] = entry`. -/
def record (g : GatewayPrivate) (service : TransportSocket) (id : Nat)
    (entry : Nat × TransportSocket) : GatewayPrivate :=
  let reqIdMap := StdMap.set (fun a b => decide (a < b)) id entry (g.requests service)
  { g with _serviceToClient :=
      StdMap.set (fun a b => decide (a < b)) service reqIdMap g._serviceToClient }

/-- Source `void GatewayPrivate::newConnection()`; `socket` is what
`nextPendingConnection()` returned. -/
def newConnection (g : GatewayPrivate) (socket : TransportSocket) : GatewayPrivate :=
  if socket = NULL then g
  else { g with _clients := g._clients ++ [socket] }

/-- Source `void GatewayPrivate::forwardClientMessage(client, service, msg)`. -/
def forwardClientMessage (g : GatewayPrivate) (client service : TransportSocket)
    (msg : Message) : GatewayPrivate :=
  let (m0, g1) := g.newMessage msg.buffer
  let msgToService := m0.buildForwardFrom msg
  let g2 := g1.record service msgToService.id (msg.id, client)
  g2.send service msgToService

/-- The resolve request built in branch C.2 of `handleClientRead`. -/
def masterMsg (g : GatewayPrivate) (msg : Message) : Message × GatewayPrivate :=
  let (m0, g1) := g.newMessage Buffer.empty
  ({ m0 with buffer := Buffer.uint msg.service, type := MessageType.Type_Call,
             service := Service_ServiceDirectory, path := Path_Main,
             function := ServiceDirectoryFunction_Service }, g1)

/-- The queueing of `(msg, client)` in `_pendingMessage[msg->service()]`.
The source pushes the pointer `msg`, not a copy of the message: an entry of
the model stands for that pointer and shows the message it points to while
`handleClientRead` runs. The one caller, `onSocketReadyRead`, passes the
address of its local `qi::Message`, which is destroyed when the callback
returns; the vector keeps the pointer. -/
def storePending (g : GatewayPrivate) (client : TransportSocket) (msg : Message) :
    GatewayPrivate :=
  match StdMap.find msg.service g._pendingMessage with
  | none =>
    { g with _pendingMessage :=
        StdMap.set (fun a b => decide (a < b)) msg.service [(msg, client)] g._pendingMessage }
  | some pendingMsg =>
    { g with _pendingMessage :=
        StdMap.replace msg.service (pendingMsg ++ [(msg, client)]) g._pendingMessage }

/-- Source `void GatewayPrivate::handleClientRead(client, msg)`; `msg` is the
message that the pointer argument points to during the call. -/
def handleClientRead (g : GatewayPrivate) (client : TransportSocket) (msg : Message) :
    GatewayPrivate :=
  match (StdMap.find msg.service g._services).filter g.isConnected with
  | some s => g.forwardClientMessage client s msg
  | none =>
    let (mm, g1) := g.masterMsg msg
    let g2 := g1.record g1._socketToServiceDirectory mm.id (0, NULL)
    let g3 := g2.storePending client msg
    g3.send g3._socketToServiceDirectory mm

/-- Branch S.1 of `handleServiceRead`: a directory reply is rewritten, sent
to the client of the routing entry, and the backend socket is opened. The
branch stops where it leaves defined behaviour: at `result.endpoints()[0]`
when the directory sent no endpoint, and at `itReq->second.second->send(ans)`
when the client of the routing entry is the null pointer; in both cases
`_services.find` and `new qi::TransportSocket()` are not reached. -/
def handleDirectoryReply (g : GatewayPrivate) (msg : Message)
    (entry : Nat × TransportSocket) : GatewayPrivate :=
  let result := msg.buffer.readServiceInfo
  match result.endpoints with
  | [] => { g with undefined := some (g.undefined.getD Undefined.emptyEndpoints) }
  | url :: _ =>
    let result1 := { result with endpoints := g._endpoints }
    let (a0, g1) := g.newMessage Buffer.empty
    let a1 := a0.buildReplyFrom msg
    let a2 := { a1 with buffer := Buffer.serviceInfo result1 }
    let ans := { a2 with id := entry.1 }
    let g2 := g1.send entry.2 ans
    if entry.2 = NULL then g2
    else
      let serviceId := result1.serviceId
      match StdMap.find serviceId g2._services with
      | some _ => g2
      | none =>
        let servSocket := g2.nextSocket
        let g3 := { g2 with nextSocket := g2.nextSocket + 1,
                            connects := g2.connects ++ [(servSocket, url)] }
        { g3 with _services :=
            StdMap.set (fun a b => decide (a < b)) serviceId servSocket g3._services }

/-- Branch S.3 of `handleServiceRead`: any other backend message goes back
to the client of the routing entry under the original id; the `send` is the
last statement of the branch. -/
def forwardServiceMessage (g : GatewayPrivate) (msg : Message)
    (entry : Nat × TransportSocket) : GatewayPrivate :=
  let (a0, g1) := g.newMessage msg.buffer
  let a1 := a0.buildReplyFrom msg
  let ans := { a1 with id := entry.1 }
  g1.send entry.2 ans

/-- Source `void GatewayPrivate::handleServiceRead(service, msg)`. -/
def handleServiceRead (g : GatewayPrivate) (service : TransportSocket) (msg : Message) :
    GatewayPrivate :=
  match StdMap.find service g._serviceToClient with
  | none => g
  | some request =>
    match StdMap.find msg.id request with
    | none => g
    | some entry =>
      if msg.service = Service_ServiceDirectory ∧
          msg.function = ServiceDirectoryFunction_Service ∧
          msg.type = MessageType.Type_Reply then
        g.handleDirectoryReply msg entry
      else
        g.forwardServiceMessage msg entry

/-- Source `void GatewayPrivate::onSocketReadyRead(client, id)`; `msg` is the
message that `client->read(id, &msg)` delivers into the local `qi::Message`,
whose constructor took a message id. The handlers receive the address of that
local, which is destroyed when the callback returns. -/
def onSocketReadyRead (g : GatewayPrivate) (client : TransportSocket) (msg : Message) :
    GatewayPrivate :=
  let (_, g1) := g.newMessage Buffer.empty
  if client ∈ g1._clients then g1.handleClientRead client msg
  else g1.handleServiceRead client msg

/-- The loop of `onSocketConnected` over `_services`: the first service id,
in key order, whose socket is `service`. -/
def findService (service : TransportSocket) : List (Nat × TransportSocket) → Option Nat
  | [] => none
  | it :: rest => if it.2 = service then some it.1 else findService service rest

/-- The reference `_pendingMessage[serviceId]`: `operator[]` adds an empty
vector when the service has none. -/
def touchPending (g : GatewayPrivate) (serviceId : Nat) : GatewayPrivate :=
  if StdMap.contains serviceId g._pendingMessage then g
  else { g with _pendingMessage :=
           StdMap.place (fun a b => decide (a < b)) serviceId [] g._pendingMessage }

/-- The loop of `onSocketConnected` over the pending messages. The source
calls `forwardClientMessage(client, service, msg)` with the queued pointer
`msg = itPending->first`, and `forwardClientMessage` starts by reading
`msg->buffer()`. Every queued pointer was pushed by `handleClientRead` and is
the address of the local `qi::Message` of the `onSocketReadyRead` call that
queued it (the only caller, which has returned when a socket callback runs):
the message is gone, so the first iteration leaves defined behaviour and
nothing is forwarded. On an empty vector the loop does nothing. -/
def forwardPending (_service : TransportSocket) :
    List (Message × TransportSocket) → GatewayPrivate → GatewayPrivate
  | [], g => g
  | _ :: _, g => { g with undefined := some (g.undefined.getD Undefined.danglingMessage) }

/-- Source `void GatewayPrivate::onSocketConnected(service)`. -/
def onSocketConnected (g : GatewayPrivate) (service : TransportSocket) : GatewayPrivate :=
  if service = g._socketToServiceDirectory then g
  else
    match findService service g._services with
    | none => g
    | some serviceId =>
      let g1 := g.touchPending serviceId
      let pmv := (StdMap.find serviceId g1._pendingMessage).getD []
      forwardPending service pmv g1

/-- Source `void Gateway::listen(session, addr)`: the directory socket is created,
connected (`waitForConnected`) and installed as service 1, and `addr` becomes
a published endpoint. -/
def listen (g : GatewayPrivate) (addr : String) : GatewayPrivate :=
  let sd := g.nextSocket
  let g1 := { g with nextSocket := g.nextSocket + 1, _socketToServiceDirectory := sd,
                     connects := g.connects ++ [(sd, "tcp://127.0.0.1:5555")],
                     connected := g.connected ++ [sd] }
  { g1 with _services :=
              StdMap.set (fun a b => decide (a < b)) Service_ServiceDirectory sd g1._services,
            _endpoints := g1._endpoints ++ [addr] }

end GatewayPrivate

end Gateway

/-! ## Observations on the gateway and scenarios -/

namespace Gateway
namespace GatewayPrivate

/-- The message that `forwardClientMessage` sends for `msg` when the next
message id is `id`. -/
def forwarded (id : Nat) (msg : Message) : Message :=
  { id := id, type := msg.type, service := msg.service, path := msg.path,
    function := msg.function, buffer := msg.buffer }

/-- The resolve request of branch C.2 for the service `service` when the next
message id is `id`. -/
def resolveRequest (id : Nat) (service : Nat) : Message :=
  { id := id, type := MessageType.Type_Call, service := Service_ServiceDirectory,
    path := Path_Main, function := ServiceDirectoryFunction_Service,
    buffer := Buffer.uint service }

/-- Scenario: a gateway listening on `tcp://gw:1` (its directory socket is
socket 1) with one client, socket 100. -/
def scenarioGateway : GatewayPrivate :=
  (GatewayPrivate.new.listen "tcp://gw:1").newConnection 100

/-- Scenario: the client message `Call{id=7, service=42}`. -/
def scenarioCall : Message :=
  { id := 7, type := MessageType.Type_Call, service := 42, path := 0, function := 5,
    buffer := Buffer.raw [1, 2] }

/-- Scenario: a second client message for service 42, `Call{id=8}`. -/
def scenarioCall2 : Message :=
  { id := 8, type := MessageType.Type_Call, service := 42, path := 0, function := 6,
    buffer := Buffer.raw [3] }

/-- Scenario: the reply of the directory to the resolve request `id`, with
the `ServiceInfo` of service 42 at `tcp://backend:1`. -/
def scenarioDirectoryReply (id : Nat) : Message :=
  { id := id, type := MessageType.Type_Reply, service := Service_ServiceDirectory,
    path := Path_Main, function := ServiceDirectoryFunction_Service,
    buffer := Buffer.serviceInfo
      { serviceId := 42, name := "motion", machineId := "robot", processId := 3,
        endpoints := ["tcp://backend:1"] } }

/-- Scenario: a gateway state in which the backend socket of service 42 is
socket 2, the vector `_pendingMessage[42]` has two entries, and `connected`
tells which sockets are connected. -/
def scenarioBackend (connected : List TransportSocket) : GatewayPrivate :=
  { _services := [(1, 1), (42, 2)], _clients := [100, 101], _endpoints := ["tcp://gw:1"],
    _socketToServiceDirectory := 1, _serviceToClient := [],
    _pendingMessage := [(42, [(scenarioCall, 100), (scenarioCall2, 101)])],
    messageId := 10, nextSocket := 3, connected := connected, sent := [], connects := [] }

/-- Scenario: the directory answers the request `id` with an Error
message. -/
def scenarioDirectoryError (id : Nat) : Message :=
  { id := id, type := MessageType.Type_Error, service := Service_ServiceDirectory,
    path := Path_Main, function := ServiceDirectoryFunction_Service,
    buffer := Buffer.raw [4] }

/-- Scenario: the client message `Call{id=7}` that asks the directory,
through the gateway, for the `ServiceInfo` of service 42. -/
def scenarioAsk : Message :=
  { id := 7, type := MessageType.Type_Call, service := Service_ServiceDirectory,
    path := Path_Main, function := ServiceDirectoryFunction_Service,
    buffer := Buffer.uint 42 }

/-- Scenario: the reply of the directory to the request `id` with a
`ServiceInfo` of service 42 that has no endpoint. -/
def scenarioDirectoryReplyNoEndpoint (id : Nat) : Message :=
  { id := id, type := MessageType.Type_Reply, service := Service_ServiceDirectory,
    path := Path_Main, function := ServiceDirectoryFunction_Service,
    buffer := Buffer.serviceInfo
      { serviceId := 42, name := "motion", machineId := "robot", processId := 3,
        endpoints := [] } }

/-- Scenario: a run of the callbacks of the listening gateway. Client 100
asks the directory for service 42 (the local message of the callback takes
id 1, the request is forwarded under id 2); the directory answers, the
gateway sends the rewritten reply to client 100 and opens socket 2 to the
backend of service 42. -/
def scenarioOpened : GatewayPrivate :=
  (scenarioGateway.onSocketReadyRead 100 scenarioAsk).onSocketReadyRead 1
    (scenarioDirectoryReply 2)

/-- Scenario: after `scenarioOpened`, and before socket 2 is connected,
client 100 calls service 42: the call is queued and a resolve request is
sent. -/
def scenarioQueued : GatewayPrivate :=
  scenarioOpened.onSocketReadyRead 100 scenarioCall

end GatewayPrivate
end Gateway

/-! ## JSON decoder -/

/-- The byte of a character literal of the source. -/
def ch (c : Char) : Nat := c.toNat

/-- The byte of the character literal for the double quote. -/
def dquote : Nat := 34

/-- The byte of the character literal for the backslash. -/
def backslash : Nat := 92

/-- The bytes of an ASCII string literal of the source. -/
def lit (s : String) : List Nat := s.data.map ch

/-- Source `struct ParseError` (jsoncodec.hpp): the reason given to the
constructor and the location. -/
structure ParseError where
  reason : String
  line : Nat
  column : Nat
deriving DecidableEq, Repr

/-- Source `ParseError::ParseError`: the text handed to `std::runtime_error`. -/
def ParseError.what (e : ParseError) : String :=
  "parse error at line " ++ toString e.line ++ ", column " ++ toString e.column ++ ": " ++
    e.reason

/-- The values of `qi::AnyValue` that the decoder builds. `invalid` is the
default constructed `AnyValue()`, `void` is `AnyValue(qi::typeOf<void>())`.
A `double` is kept as the text that the decoder hands to
`boost::lexical_cast<double>`; the conversion itself is outside this
development. A `std::map<std::string, AnyValue>` is its list of entries in
key order. -/
inductive AnyValue where
  | invalid
  | void
  | bool (b : Bool)
  | int (i : Int)
  | double (text : List Nat)
  | string (s : List Nat)
  | list (l : List AnyValue)
  | map (m : List (List Nat × AnyValue))

/-- Source `std::string::operator<`: the lexicographic order on bytes. -/
def stringLt : List Nat → List Nat → Bool
  | [], [] => false
  | [], _ :: _ => true
  | _ :: _, [] => false
  | a :: as, b :: bs => decide (a < b) || (decide (a = b) && stringLt as bs)

/-- The value of a run of decimal digits. -/
def decimal (digits : List Nat) : Nat :=
  digits.foldl (fun acc c => acc * 10 + (c - ch '0')) 0

/-- Source `::atol` on the text `-?[0-9]+` that `getInteger` produces, for a
64-bit `long`: the decimal value, saturated to the range of `long` as
`strtol` does. -/
def atol (s : List Nat) : Int :=
  let v : Int :=
    match s with
    | [] => 0
    | c :: rest =>
      if c = ch '-' then -((decimal rest : Nat) : Int) else ((decimal s : Nat) : Int)
  if v < -(2 ^ 63) then -(2 ^ 63) else if 2 ^ 63 - 1 < v then 2 ^ 63 - 1 else v

namespace detail

/-- Source `struct DocumentConstIterator` (jsoncodec_p.hpp). The iterators
`_begin` and `_it` into the `std::string` are the indexes of the bytes they
point at in the buffer of that string. The counters are `size_t`; they are
bounded by the length of the buffer, so they do not wrap. -/
structure DocumentConstIterator where
  _begin : Nat
  _it : Nat
  _line : Nat
  _column : Nat
deriving DecidableEq, Repr

namespace DocumentConstIterator

/-- Source `dereference()`, the read `*_it` in the buffer `doc` of the
string. The buffer of a `std::string` is followed by a terminating zero
byte: this is what a read at the index `doc.length` yields. The members of
the decoder never read at a higher index, except the loop of
`getCleanString`, where such a read is `undefined`. -/
def dereference (doc : List Nat) (d : DocumentConstIterator) : Nat :=
  doc.getD d._it 0

/-- Source `equal(jt)`; the `QI_ASSERT` on the lines and columns is not a
part of the result. -/
def equal (d jt : DocumentConstIterator) : Bool :=
  decide (d._begin = jt._begin) && decide (d._it = jt._it)

/-- Source `increment()`. -/
def increment (doc : List Nat) (d : DocumentConstIterator) : DocumentConstIterator :=
  if d.dereference doc = ch '\n' then
    { d with _line := d._line + 1, _column := 1, _it := d._it + 1 }
  else if d.dereference doc &&& 0xc0 ≠ 0x80 then
    { d with _column := d._column + 1, _it := d._it + 1 }
  else
    { d with _it := d._it + 1 }

/-- The loop `while (_it != it) ++*this` of the constructor, for at most `n`
rounds. -/
def countLoop (doc : List Nat) (it : Nat) : Nat → DocumentConstIterator → DocumentConstIterator
  | 0, d => d
  | n + 1, d => if d._it ≠ it then countLoop doc it n (d.increment doc) else d

/-- Source `DocumentConstIterator(it, begin)`, for `begin <= it`: the loop
needs `it - begin` rounds. -/
def new (doc : List Nat) (it begin : Nat) : DocumentConstIterator :=
  countLoop doc it (it - begin) { _begin := begin, _it := begin, _line := 1, _column := 1 }

/-- Source `DocumentConstIterator::begin(str)`. -/
def begin (str : List Nat) : DocumentConstIterator :=
  new str 0 0

/-- Source `DocumentConstIterator::end(str)`. -/
def end_ (str : List Nat) : DocumentConstIterator :=
  new str str.length 0

end DocumentConstIterator

end detail

open detail

/-- Source `makeParseError(reason, it)`. -/
def makeParseError (reason : String) (it : DocumentConstIterator) : ParseError :=
  { reason := reason, line := it._line, column := it._column }

/-- How a member function of the decoder whose result is an `α` is left: it
returns with `_it` at `it`, it throws, it reads beyond the terminating zero
of the buffer (`undefined`), or the rounds allotted to its loop are used up
(`fuel`). -/
inductive Step (α : Type) where
  | ret (result : α) (it : DocumentConstIterator)
  | raise (error : ParseError)
  | undefined
  | fuel

/-- How a member function `bool f(AnyValue &value)` of the decoder is left.
`value` is what the referenced `AnyValue` holds at that moment, also when the
function throws. The decoder throws `ParseError` (`raise`); the exception
`boost::bad_lexical_cast` of the conversion in `getFloat`, which no member
catches, passes through every member (`bad_lexical_cast`). -/
inductive Decoded where
  | ret (result : Bool) (value : AnyValue) (it : DocumentConstIterator)
  | raise (error : ParseError) (value : AnyValue)
  | bad_lexical_cast (value : AnyValue)
  | undefined
  | fuel

/-- Source `a(value) || b(value)` on two members of the decoder: `b` runs
when `a` returned false. -/
def Decoded.orElse (r : Decoded) (f : DocumentConstIterator → AnyValue → Decoded) : Decoded :=
  match r with
  | Decoded.ret false value it => f it value
  | _ => r

/-- Source `class JsonDecoderPrivate` (jsoncodec_p.hpp), with the buffer `doc`
of the string that its iterators point into. -/
structure JsonDecoderPrivate where
  doc : List Nat
  _begin : DocumentConstIterator
  _end : DocumentConstIterator
  _it : DocumentConstIterator

namespace JsonDecoderPrivate

/-- Source `JsonDecoderPrivate::JsonDecoderPrivate(const std::string &in)`. -/
def ofString (in_ : List Nat) : JsonDecoderPrivate :=
  { doc := in_, _begin := DocumentConstIterator.begin in_,
    _end := DocumentConstIterator.end_ in_, _it := DocumentConstIterator.begin in_ }

/-- Source `JsonDecoderPrivate::JsonDecoderPrivate(begin, end)`; `doc` is the
buffer of the string that `begin` and `end` point into. -/
def ofRange (doc : List Nat) (begin end_ : Nat) : JsonDecoderPrivate :=
  { doc := doc, _begin := DocumentConstIterator.new doc begin begin,
    _end := DocumentConstIterator.new doc end_ begin,
    _it := DocumentConstIterator.new doc begin begin }

/-- The loop of `skipWhiteSpaces`, for at most `n` rounds. -/
def skipLoop (doc : List Nat) (_end : DocumentConstIterator) :
    Nat → DocumentConstIterator → DocumentConstIterator
  | 0, it => it
  | n + 1, it =>
    if !it.equal _end && (it.dereference doc = ch ' ' || it.dereference doc = ch '\n') then
      skipLoop doc _end n (it.increment doc)
    else it

/-- Source `void JsonDecoderPrivate::skipWhiteSpaces()`. A round of the loop
steps over a byte of the buffer, so `doc.length - it._it` rounds are
enough. -/
def skipWhiteSpaces (doc : List Nat) (_end it : DocumentConstIterator) :
    DocumentConstIterator :=
  skipLoop doc _end (doc.length - it._it) it

/-- The loop of `getDigits`, for at most `n` rounds. -/
def digitsLoop (doc : List Nat) (_end : DocumentConstIterator) :
    Nat → DocumentConstIterator → DocumentConstIterator
  | 0, it => it
  | n + 1, it =>
    if !it.equal _end && decide (ch '0' ≤ it.dereference doc) &&
        decide (it.dereference doc ≤ ch '9') then
      digitsLoop doc _end n (it.increment doc)
    else it

/-- Source `bool JsonDecoderPrivate::getDigits(std::string &result)`; the
result is `none` when the function returns false (`result` is then not
assigned). -/
def getDigits (doc : List Nat) (_end it : DocumentConstIterator) :
    Option (List Nat) × DocumentConstIterator :=
  let begin := it
  let it1 := digitsLoop doc _end (doc.length - it._it) it
  if it1.equal begin then (none, it1)
  else (some ((doc.drop begin._it).take (it1._it - begin._it)), it1)

/-- Source `bool JsonDecoderPrivate::getInteger(std::string &result)`. -/
def getInteger (doc : List Nat) (_end it : DocumentConstIterator) :
    Option (List Nat) × DocumentConstIterator :=
  let save := it
  if it.equal _end then (none, it)
  else
    let (integerStr, it1) :=
      if it.dereference doc = ch '-' then ([ch '-'], it.increment doc) else ([], it)
    match getDigits doc _end it1 with
    | (none, _) => (none, save)
    | (some digitsStr, it2) => (some (integerStr ++ digitsStr), it2)

/-- Source `bool JsonDecoderPrivate::getInteger(qi::int64_t &result)`. -/
def getIntegerInt64 (doc : List Nat) (_end it : DocumentConstIterator) :
    Option Int × DocumentConstIterator :=
  match getInteger doc _end it with
  | (none, it1) => (none, it1)
  | (some integerStr, it1) => (some (atol integerStr), it1)

/-- Source `bool JsonDecoderPrivate::getExponent(std::string &result)`. The read
of `*_it` after the `e` is not preceded by a comparison with `_end`. -/
def getExponent (doc : List Nat) (_end it : DocumentConstIterator) :
    Option (List Nat) × DocumentConstIterator :=
  let save := it
  if it.equal _end || (it.dereference doc ≠ ch 'e' && it.dereference doc ≠ ch 'E') then
    (none, it)
  else
    let it1 := it.increment doc
    let (exponentStr, it2) :=
      if it1.dereference doc = ch '+' || it1.dereference doc = ch '-' then
        ([ch 'e', it1.dereference doc], it1.increment doc)
      else ([ch 'e', ch '+'], it1)
    match getDigits doc _end it2 with
    | (none, _) => (none, save)
    | (some integerStr, it3) => (some (exponentStr ++ integerStr), it3)

/-- The digits at the start of `s`, and what follows them. -/
def spanDigits (s : List Nat) : List Nat × List Nat :=
  s.span (fun c => decide (ch '0' ≤ c) && decide (c ≤ ch '9'))

/-- The number that a text `-?D+(.D+)?(e[+-]D+)?` writes, without its sign:
the digits before and after the point as one natural number `m` and the
decimal exponent `e`, for the number `m * 10 ^ e`. -/
def floatParts (floatStr : List Nat) : Nat × Int :=
  let s :=
    match floatStr with
    | [] => []
    | c :: rest => if c = ch '-' then rest else floatStr
  let (beforePoint, r1) := spanDigits s
  let (afterPoint, r2) :=
    match r1 with
    | [] => ([], [])
    | c :: rest => if c = ch '.' then spanDigits rest else ([], r1)
  let exponent : Int :=
    match r2 with
    | _ :: sign :: digits =>
      if sign = ch '-' then -((decimal digits : Nat) : Int) else ((decimal digits : Nat) : Int)
    | _ => 0
  (decimal (beforePoint ++ afterPoint), exponent - (afterPoint.length : Int))

/-- The power `10 ^ n`, by `n` multiplications. -/
def pow10 : Nat → Nat
  | 0 => 1
  | n + 1 => 10 * pow10 n

/-- Source `boost::lexical_cast<double>(floatStr.c_str())`, a function of the
Boost library that `getFloat` calls: it throws `boost::bad_lexical_cast` when
the text does not convert. On the texts that `getFloat` builds, a sign,
digits, an optional point with digits and an optional exponent, the
conversion fails when the number is too large for a `double`: when it rounds
to infinity, that is from `2^1024 - 2^970` on, half a unit in the last place
above the largest `double`. The result is `true` when the call throws. -/
def lexicalCastThrows (floatStr : List Nat) : Bool :=
  let (m, e) := floatParts floatStr
  if 0 ≤ e then decide ((2 ^ 256) ^ 4 - (2 ^ 194) ^ 5 ≤ m * pow10 e.toNat)
  else decide (((2 ^ 256) ^ 4 - (2 ^ 194) ^ 5) * pow10 (-e).toNat ≤ m)

/-- How `getFloat` is left: it returns, false (`none`) or true with the
`double`, which the embedding keeps as the text it was converted from, or
`boost::lexical_cast<double>` throws. -/
inductive FloatStep where
  | ret (result : Option (List Nat)) (it : DocumentConstIterator)
  | bad_lexical_cast

/-- The part of `getFloat` that reads the number and builds the text
`floatStr`; the result is `none` when `getFloat` returns false. -/
def getFloatStr (doc : List Nat) (_end it : DocumentConstIterator) :
    Option (List Nat) × DocumentConstIterator :=
  let save := it
  match getInteger doc _end it with
  | (none, it1) => (none, it1)
  | (some beforePoint, it1) =>
    match getExponent doc _end it1 with
    | (none, it2) =>
      if it2.equal _end || it2.dereference doc ≠ ch '.' then (none, save)
      else
        let it3 := it2.increment doc
        match getDigits doc _end it3 with
        | (none, _) => (none, save)
        | (some afterPoint, it4) =>
          match getExponent doc _end it4 with
          | (none, it5) => (some (beforePoint ++ lit "." ++ afterPoint), it5)
          | (some exponent, it5) =>
            (some (beforePoint ++ lit "." ++ afterPoint ++ exponent), it5)
    | (some exponent, it2) => (some (beforePoint ++ exponent), it2)

/-- Source `bool JsonDecoderPrivate::getFloat(double &result)`: the number is read,
and `result = boost::lexical_cast<double>(floatStr.c_str())` converts its
text, or throws. -/
def getFloat (doc : List Nat) (_end it : DocumentConstIterator) : FloatStep :=
  match getFloatStr doc _end it with
  | (none, it1) => FloatStep.ret none it1
  | (some floatStr, it1) =>
    if lexicalCastThrows floatStr then FloatStep.bad_lexical_cast
    else FloatStep.ret (some floatStr) it1

/-- The character that follows the backslash of an escape sequence, in a
build without `WITH_BOOST_LOCALE`: the byte appended to the string, `none`
for the `default` case of the `switch`. -/
def escape (c : Nat) : Option Nat :=
  if c = dquote then some dquote
  else if c = backslash then some backslash
  else if c = ch '/' then some (ch '/')
  else if c = ch 'b' then some 8
  else if c = ch 'f' then some 12
  else if c = ch 'n' then some (ch '\n')
  else if c = ch 'r' then some 13
  else if c = ch 't' then some 9
  else none

/-- The loop of `getCleanString`, for at most `n` rounds; the result is
`tmpString` when the loop is left. A read at `_it` beyond the terminating
zero of the buffer is `undefined`. -/
def stringLoop (doc : List Nat) (_end : DocumentConstIterator) :
    Nat → List Nat → DocumentConstIterator → Step (List Nat)
  | 0, _, _ => Step.fuel
  | n + 1, tmpString, it =>
    if it.equal _end then Step.ret tmpString it
    else if doc.length < it._it then Step.undefined
    else if it.dereference doc = dquote then Step.ret tmpString it
    else if it.dereference doc = backslash then
      let nextIt := it.increment doc
      if nextIt.equal _end then
        Step.raise (makeParseError "incomplete escape sequence" it)
      else
        match escape (nextIt.dereference doc) with
        | some c => stringLoop doc _end n (tmpString ++ [c]) (nextIt.increment doc)
        | none => Step.raise (makeParseError "incomplete escape sequence" it)
    else
      stringLoop doc _end n (tmpString ++ [it.dereference doc]) (it.increment doc)

/-- Source `bool JsonDecoderPrivate::getCleanString(std::string &result)`, in a
build without `WITH_BOOST_LOCALE`; the result is `none` when the function
returns false. A round of the loop steps over a byte of the buffer or over
its terminating zero, so `doc.length + 2 - _it` rounds are enough. -/
def getCleanString (doc : List Nat) (_end it : DocumentConstIterator) :
    Step (Option (List Nat)) :=
  if it.equal _end || it.dereference doc ≠ dquote then Step.ret none it
  else
    let it1 := it.increment doc
    match stringLoop doc _end (doc.length + 2 - it1._it) [] it1 with
    | Step.ret tmpString it2 =>
      if it2.equal _end then Step.raise (makeParseError "unterminated string" it2)
      else Step.ret (some tmpString) (it2.increment doc)
    | Step.raise error => Step.raise error
    | Step.undefined => Step.undefined
    | Step.fuel => Step.fuel

/-- Source `bool JsonDecoderPrivate::decodeString(AnyValue &value)`. -/
def decodeString (doc : List Nat) (_end it : DocumentConstIterator) (value : AnyValue) :
    Decoded :=
  match getCleanString doc _end it with
  | Step.ret none it1 => Decoded.ret false value it1
  | Step.ret (some tmpString) it1 => Decoded.ret true (AnyValue.string tmpString) it1
  | Step.raise error => Decoded.raise error value
  | Step.undefined => Decoded.undefined
  | Step.fuel => Decoded.fuel

/-- Source `bool JsonDecoderPrivate::decodeFloat(AnyValue &value)`. -/
def decodeFloat (doc : List Nat) (_end it : DocumentConstIterator) (value : AnyValue) :
    Decoded :=
  match getFloat doc _end it with
  | FloatStep.ret none it1 => Decoded.ret false value it1
  | FloatStep.ret (some tmpFloat) it1 => Decoded.ret true (AnyValue.double tmpFloat) it1
  | FloatStep.bad_lexical_cast => Decoded.bad_lexical_cast value

/-- Source `bool JsonDecoderPrivate::decodeInteger(AnyValue &value)`. -/
def decodeInteger (doc : List Nat) (_end it : DocumentConstIterator) (value : AnyValue) :
    Decoded :=
  match getIntegerInt64 doc _end it with
  | (none, it1) => Decoded.ret false value it1
  | (some tmpInteger, it1) => Decoded.ret true (AnyValue.int tmpInteger) it1

/-- The loop of `match` over the bytes of `expected` that are left; `none`
when the function restores `_it` and returns false. -/
def matchLoop (doc : List Nat) (_end : DocumentConstIterator) :
    List Nat → DocumentConstIterator → Option DocumentConstIterator
  | [], it => some it
  | c :: rest, it =>
    if it.equal _end then none
    else if it.dereference doc ≠ c then none
    else matchLoop doc _end rest (it.increment doc)

/-- Source `bool JsonDecoderPrivate::match(std::string const& expected)`. -/
def match_ (doc : List Nat) (_end it : DocumentConstIterator) (expected : List Nat) :
    Bool × DocumentConstIterator :=
  let save := it
  match matchLoop doc _end expected it with
  | some it1 => (true, it1)
  | none => (false, save)

/-- Source `bool JsonDecoderPrivate::decodeSpecial(AnyValue &value)`. -/
def decodeSpecial (doc : List Nat) (_end it : DocumentConstIterator) (value : AnyValue) :
    Decoded :=
  if it.equal _end then Decoded.ret false value it
  else
    match match_ doc _end it (lit "true") with
    | (true, it1) => Decoded.ret true (AnyValue.bool true) it1
    | (false, it1) =>
      match match_ doc _end it1 (lit "false") with
      | (true, it2) => Decoded.ret true (AnyValue.bool false) it2
      | (false, it2) =>
        match match_ doc _end it2 (lit "null") with
        | (true, it3) => Decoded.ret true AnyValue.void it3
        | (false, it3) => Decoded.ret false value it3

/-- The end of `decodeArray`, after its loop. The read of `*_it` is not
preceded by a comparison with `_end`. -/
def closeArray (doc : List Nat) (tmpArray : List AnyValue) (it : DocumentConstIterator)
    (value : AnyValue) : Decoded :=
  if it.dereference doc ≠ ch ']' then
    Decoded.raise (makeParseError "unterminated list" it) value
  else Decoded.ret true (AnyValue.list tmpArray) (it.increment doc)

/-- The loop of `decodeArray`, for at most `n` rounds, followed by the end of
the function; `decodeValue` is the member called on the elements. The read of
`*_it` after an element is not preceded by a comparison with `_end`. -/
def arrayLoop (doc : List Nat) (_end : DocumentConstIterator)
    (decodeValue : DocumentConstIterator → AnyValue → Decoded) :
    Nat → List AnyValue → DocumentConstIterator → AnyValue → Decoded
  | 0, _, _, _ => Decoded.fuel
  | n + 1, tmpArray, it, value =>
    let it1 := skipWhiteSpaces doc _end it
    match decodeValue it1 AnyValue.invalid with
    | Decoded.ret false _ it2 => closeArray doc tmpArray it2 value
    | Decoded.ret true subElement it2 =>
      if it2.dereference doc ≠ ch ',' then
        closeArray doc (tmpArray ++ [subElement]) it2 value
      else
        arrayLoop doc _end decodeValue n (tmpArray ++ [subElement]) (it2.increment doc) value
    | Decoded.raise error _ => Decoded.raise error value
    | Decoded.bad_lexical_cast _ => Decoded.bad_lexical_cast value
    | Decoded.undefined => Decoded.undefined
    | Decoded.fuel => Decoded.fuel

/-- Source `bool JsonDecoderPrivate::decodeArray(AnyValue &value)`. A round of the
loop that is followed by another steps over a comma, so
`doc.length + 1 - _it` rounds are enough. -/
def decodeArray (doc : List Nat) (_end : DocumentConstIterator)
    (decodeValue : DocumentConstIterator → AnyValue → Decoded)
    (it : DocumentConstIterator) (value : AnyValue) : Decoded :=
  if it.equal _end || it.dereference doc ≠ ch '[' then Decoded.ret false value it
  else
    arrayLoop doc _end decodeValue (doc.length + 1 - (it.increment doc)._it) []
      (it.increment doc) value

/-- The end of `decodeObject`, after its loop. -/
def closeObject (doc : List Nat) (_end : DocumentConstIterator)
    (tmpMap : List (List Nat × AnyValue)) (it : DocumentConstIterator) (value : AnyValue) :
    Decoded :=
  if it.equal _end || it.dereference doc ≠ ch '}' then
    Decoded.raise (makeParseError "unterminated object" it) value
  else Decoded.ret true (AnyValue.map tmpMap) (it.increment doc)

/-- The loop of `decodeObject`, for at most `n` rounds, followed by the end
of the function; `decodeValue` is the member called on the field values. -/
def objectLoop (doc : List Nat) (_end : DocumentConstIterator)
    (decodeValue : DocumentConstIterator → AnyValue → Decoded) :
    Nat → List (List Nat × AnyValue) → DocumentConstIterator → AnyValue → Decoded
  | 0, _, _, _ => Decoded.fuel
  | n + 1, tmpMap, it, value =>
    let it1 := skipWhiteSpaces doc _end it
    match getCleanString doc _end it1 with
    | Step.ret none it2 => closeObject doc _end tmpMap it2 value
    | Step.ret (some key) it2 =>
      let it3 := skipWhiteSpaces doc _end it2
      if it3.equal _end || it3.dereference doc ≠ ch ':' then
        Decoded.raise (makeParseError "missing ':' after field" it3) value
      else
        match decodeValue (it3.increment doc) AnyValue.invalid with
        | Decoded.ret false _ it4 =>
          Decoded.raise (makeParseError "failed to decode value" it4) value
        | Decoded.ret true tmpValue it4 =>
          if it4.equal _end then closeObject doc _end tmpMap it4 value
          else if it4.dereference doc ≠ ch ',' then
            closeObject doc _end (StdMap.set stringLt key tmpValue tmpMap) it4 value
          else
            objectLoop doc _end decodeValue n (StdMap.set stringLt key tmpValue tmpMap)
              (it4.increment doc) value
        | Decoded.raise error _ => Decoded.raise error value
        | Decoded.bad_lexical_cast _ => Decoded.bad_lexical_cast value
        | Decoded.undefined => Decoded.undefined
        | Decoded.fuel => Decoded.fuel
    | Step.raise error => Decoded.raise error value
    | Step.undefined => Decoded.undefined
    | Step.fuel => Decoded.fuel

/-- Source `bool JsonDecoderPrivate::decodeObject(AnyValue &value)`. A round of
the loop that is followed by another steps over a comma, so
`doc.length + 1 - _it` rounds are enough. -/
def decodeObject (doc : List Nat) (_end : DocumentConstIterator)
    (decodeValue : DocumentConstIterator → AnyValue → Decoded)
    (it : DocumentConstIterator) (value : AnyValue) : Decoded :=
  if it.equal _end || it.dereference doc ≠ ch '{' then Decoded.ret false value it
  else
    objectLoop doc _end decodeValue (doc.length + 1 - (it.increment doc)._it) []
      (it.increment doc) value

/-- The body of `decodeValue`; `decodeValue` is the member that
`decodeArray` and `decodeObject` call on the nested values. -/
def decodeValueBody (doc : List Nat) (_end : DocumentConstIterator)
    (decodeValue : DocumentConstIterator → AnyValue → Decoded)
    (it : DocumentConstIterator) (value : AnyValue) : Decoded :=
  match (((((decodeSpecial doc _end (skipWhiteSpaces doc _end it) value).orElse
      (decodeString doc _end)).orElse
      (decodeFloat doc _end)).orElse
      (decodeInteger doc _end)).orElse
      (decodeArray doc _end decodeValue)).orElse
      (decodeObject doc _end decodeValue) with
  | Decoded.ret true value1 it1 => Decoded.ret true value1 (skipWhiteSpaces doc _end it1)
  | r => r

/-- Source `bool JsonDecoderPrivate::decodeValue(AnyValue &value)`, for values
nested at most `depth` deep: the recursion through `decodeArray` and
`decodeObject` goes one level down at each call, and is `fuel` when no level
is left. -/
def decodeValue (doc : List Nat) (_end : DocumentConstIterator) :
    Nat → DocumentConstIterator → AnyValue → Decoded
  | 0 => fun _ _ => Decoded.fuel
  | depth + 1 => decodeValueBody doc _end (decodeValue doc _end depth)

/-- Source `std::string::const_iterator JsonDecoderPrivate::decode(AnyValue &out)`.
Every level of nesting steps over a byte of the buffer, so the depth
`doc.length + 1` is enough. A normal return is `Decoded.ret true out it`,
with `it` the iterator returned. -/
def decode (p : JsonDecoderPrivate) (out : AnyValue) : Decoded :=
  match decodeValue p.doc p._end (p.doc.length + 1) p._begin out with
  | Decoded.ret false out1 it => Decoded.raise (makeParseError "unknown" it) out1
  | r => r

end JsonDecoderPrivate

/-- Source `decodeJSON(begin, end, target)`, the overload on iterators; `doc` is
the buffer of the string that `begin` and `end` point into. The result holds
what `target` holds when the function is left and, on a normal return, the
iterator returned. -/
def decodeJSONIt (doc : List Nat) (begin end_ : Nat) (target : AnyValue) : Decoded :=
  (JsonDecoderPrivate.ofRange doc begin end_).decode target

/-- What a call of `decodeJSON(in)` yields: the value returned, the
`ParseError` thrown, or the `boost::bad_lexical_cast` that escapes. -/
inductive Returned where
  | value (v : AnyValue)
  | raise (error : ParseError)
  | bad_lexical_cast
  | undefined
  | fuel

/-- Source `AnyValue decodeJSON(const std::string &in)`. -/
def decodeJSON (in_ : List Nat) : Returned :=
  let value := AnyValue.invalid
  match (JsonDecoderPrivate.ofString in_).decode value with
  | Decoded.ret _ value1 _ => Returned.value value1
  | Decoded.raise error _ => Returned.raise error
  | Decoded.bad_lexical_cast _ => Returned.bad_lexical_cast
  | Decoded.undefined => Returned.undefined
  | Decoded.fuel => Returned.fuel

/-! ## Observations on the JSON decoder -/

/-- A UTF-8 continuation byte: `byte & 0xC0 == 0x80`. -/
def isContinuation (b : Nat) : Bool :=
  decide (b &&& 0xc0 = 0x80)

/-- The line that the specification gives to a position of a document, from
the bytes `before` it: 1 plus the number of newline bytes before the
position. -/
def specLine (before : List Nat) : Nat :=
  1 + before.count (ch '\n')

/-- The column that the specification gives to a position of a document, from
the bytes `before` it: 1 plus the number of bytes between the last newline
before the position (or the start) and the position that are not UTF-8
continuation bytes. -/
def specColumn (before : List Nat) : Nat :=
  1 + ((before.reverse.takeWhile (fun b => decide (b ≠ ch '\n'))).filter
    (fun b => !isContinuation b)).length

/-- The result `r` of a member `bool f(AnyValue &value)` seen by a caller
whose `AnyValue` held `value`: what the member assigned on a true return,
and `value` when it returned false or threw. -/
def Decoded.onto (value : AnyValue) : Decoded → Decoded
  | Decoded.ret true value1 it => Decoded.ret true value1 it
  | Decoded.ret false _ it => Decoded.ret false value it
  | Decoded.raise error _ => Decoded.raise error value
  | Decoded.bad_lexical_cast _ => Decoded.bad_lexical_cast value
  | Decoded.undefined => Decoded.undefined
  | Decoded.fuel => Decoded.fuel

/-- The decoder whose end iterator is `_end` works on a whole string: `_end`
points at the terminating zero of the buffer `doc`, and `it` is an iterator
of that decoder. -/
def Whole (doc : List Nat) (_end it : DocumentConstIterator) : Prop :=
  _end._it = doc.length ∧ it._begin = _end._begin

/-- A member of the decoder entered at `it` is left at `it1`: `_it` still
points into the buffer or at its terminating zero, it is not moved back, and
it is moved forward when the member found what it looks for. -/
def Advanced (doc : List Nat) (it : DocumentConstIterator) (found : Bool)
    (it1 : DocumentConstIterator) : Prop :=
  it1._begin = it._begin ∧ it1._it ≤ doc.length ∧ it._it ≤ it1._it ∧
  (found = true → it._it < it1._it)

/-- A member of the decoder entered at `it` is left within the rounds
allotted to its loops, by a return that is `Advanced` or by a throw; a read
beyond the terminating zero of the buffer happens only when the decoder does
not work on a whole string. -/
def Step.Good {α : Type} (doc : List Nat) (_end it : DocumentConstIterator)
    (found : α → Bool) : Step α → Prop
  | Step.ret result it1 => Advanced doc it (found result) it1
  | Step.raise _ => True
  | Step.undefined => ¬ Whole doc _end it
  | Step.fuel => False

/-- A member `bool f(AnyValue &value)` of the decoder entered at `it` is left
within the rounds allotted to its loops, by a return that is `Advanced` or by
a throw; a read beyond the terminating zero of the buffer happens only when
the decoder does not work on a whole string. -/
def Decoded.Good (doc : List Nat) (_end it : DocumentConstIterator) : Decoded → Prop
  | Decoded.ret result _ it1 => Advanced doc it result it1
  | Decoded.raise _ _ => True
  | Decoded.bad_lexical_cast _ => True
  | Decoded.undefined => ¬ Whole doc _end it
  | Decoded.fuel => False

/-- The escapes of a string literal in the words of the specification: the
character after the backslash, among the quote, the backslash, the slash and
the letters b, f, n, r, t, and the character that the escape stands for:
quote, backslash, slash, 0x08, 0x0C, 0x0A, 0x0D, 0x09. -/
def specEscape (letter : Nat) : Option Nat :=
  [(34, 34), (92, 92), (47, 47), (98, 0x08), (102, 0x0C), (110, 0x0A), (114, 0x0D),
    (116, 0x09)].lookup letter

/-- A piece of the text between the quotes of a string literal: a character
that stands for itself, or a backslash and the character after it. -/
inductive StringPiece where
  | plain (c : Nat)
  | escaped (letter : Nat)

namespace StringPiece

/-- The bytes of the piece in the input. -/
def bytes : StringPiece → List Nat
  | plain c => [c]
  | escaped letter => [backslash, letter]

/-- The pieces that the specification lists: a character other than the
quote and the backslash, or one of the eight escapes. -/
def Valid : StringPiece → Prop
  | plain c => c ≠ dquote ∧ c ≠ backslash
  | escaped letter => (specEscape letter).isSome = true

/-- The character that the piece stands for. -/
def value : StringPiece → Nat
  | plain c => c
  | escaped letter => (specEscape letter).getD 0

end StringPiece

/-- The bytes between the quotes of the literal made of the pieces `ps`. -/
def literalBody (ps : List StringPiece) : List Nat :=
  (ps.map StringPiece.bytes).flatten

/-- The text that the literal made of the pieces `ps` stands for. -/
def literalText (ps : List StringPiece) : List Nat :=
  ps.map StringPiece.value

/-- Scenario: the pieces of the literal with the character `a` and the escape
for the line feed. -/
def scenarioPieces : List StringPiece :=
  [StringPiece.plain (ch 'a'), StringPiece.escaped (ch 'n')]

/-- Scenario: the opening quote and the bytes of `scenarioPieces`: a quote,
`a`, a backslash and `n`. -/
def scenarioLiteral : List Nat :=
  [dquote, ch 'a', backslash, ch 'n']

/-- A decimal digit. -/
def IsDigit (c : Nat) : Prop :=
  ch '0' ≤ c ∧ c ≤ ch '9'

/-- The text of an integer literal: an optional `-` and the digits. -/
def integerText (negative : Bool) (digits : List Nat) : List Nat :=
  (if negative then [ch '-'] else []) ++ digits

/-- A character after which a value of an array or of an object ends: the
comma, the closing bracket or the closing brace. -/
def Delimiter (c : Nat) : Prop :=
  c = ch ',' ∨ c = ch ']' ∨ c = ch '}'

/-- The text `s` is decoded as the value `v`: wherever the bytes `s` stand in
a buffer, inside the range to decode and followed by the end of the range
or by a delimiter, `decodeValue` called at the first of them, with a depth
of at least the length of `s`, returns true with the value `v` and leaves
the position after the last of them. -/
def DecodesAs (s : List Nat) (v : AnyValue) : Prop :=
  ∀ (doc : List Nat) (_end it : DocumentConstIterator) (rest : List Nat) (depth : Nat)
    (value : AnyValue),
    doc.drop it._it = s ++ rest → it._begin = _end._begin → it._it + s.length ≤ _end._it →
    (it._it + s.length = _end._it ∨ Delimiter (rest.headD 0)) → s.length ≤ depth →
    JsonDecoderPrivate.decodeValue doc _end depth it value =
      Decoded.ret true v (Nat.iterate (DocumentConstIterator.increment doc) s.length it)

/-- The texts `texts` with a comma between one and the next. -/
def commaSeparated : List (List Nat) → List Nat
  | [] => []
  | [s] => s
  | s :: t :: rest => s ++ ch ',' :: commaSeparated (t :: rest)

/-- The end of the text of an array or of an object: the closing character
`close`, after a comma when `trailing` is set. -/
def closingText (trailing : Bool) (close : Nat) : List Nat :=
  if trailing then [ch ',', close] else [close]

/-- The text `[v1,...,vn]` of an array, `[v1,...,vn,]` when `trailing` is
set. -/
def arrayText (texts : List (List Nat)) (trailing : Bool) : List Nat :=
  ch '[' :: (commaSeparated texts ++ closingText trailing (ch ']'))

/-- A field of the text of an object: the pieces of the key, between quotes
in the text, the text of the value, and the value that this text is decoded
as. -/
structure Field where
  key : List StringPiece
  text : List Nat
  value : AnyValue

/-- The text `k:v` of a field, the key between quotes. -/
def Field.bytes (f : Field) : List Nat :=
  dquote :: (literalBody f.key ++ dquote :: ch ':' :: f.text)

/-- The text `{k1:v1,...,kn:vn}` of an object, `{k1:v1,...,kn:vn,}` when
`trailing` is set. -/
def objectText (fields : List Field) (trailing : Bool) : List Nat :=
  ch '{' :: (commaSeparated (fields.map Field.bytes) ++ closingText trailing (ch '}'))

/-- The map that the assignments `tmpMap[key] = value` build from `tmpMap`,
one for each field in turn. -/
def assignFields (fields : List Field) (tmpMap : List (List Nat × AnyValue)) :
    List (List Nat × AnyValue) :=
  fields.foldl (fun acc f => StdMap.set stringLt (literalText f.key) f.value acc) tmpMap

/-- Scenario: the texts `1`, `[2,]` and `-3` with the values they are decoded
as. -/
def scenarioItems : List (List Nat × AnyValue) :=
  [(lit "1", AnyValue.int 1), (lit "[2,]", AnyValue.list [AnyValue.int 2]),
    (lit "-3", AnyValue.int (-3))]

/-- Scenario: the field of key `scenarioPieces` with the text `1`, and the
field of key `b` with the text `[2]`. -/
def scenarioFields : List Field :=
  [{ key := scenarioPieces, text := lit "1", value := AnyValue.int 1 },
    { key := [StringPiece.plain (ch 'b')], text := lit "[2]",
      value := AnyValue.list [AnyValue.int 2] }]

/-! ## Lemmas on std::map -/

namespace StdMap
variable {κ : Type} {α : Type} [DecidableEq κ]

theorem find_place_ne (lt : κ → κ → Bool) (k k' : κ) (v : α) (m : List (κ × α)) (h : k' ≠ k) :
    find k' (place lt k v m) = find k' m := by
  induction m with
  | nil => simp [place, find, Ne.symm h]
  | cons e rest ih =>
    obtain ⟨a, b⟩ := e
    by_cases hlt : lt k a = true
    · simp [place, hlt, find, Ne.symm h]
    · simp [place, hlt, find, ih]

theorem find_place_new (lt : κ → κ → Bool) (k : κ) (v : α) (m : List (κ × α))
    (h : find k m = none) : find k (place lt k v m) = some v := by
  induction m with
  | nil => simp [place, find]
  | cons e rest ih =>
    obtain ⟨a, b⟩ := e
    by_cases hak : a = k
    · simp [find, hak] at h
    · simp [find, hak] at h
      by_cases hlt : lt k a = true
      · simp [place, hlt, find]
      · simp [place, hlt, find, hak, ih h]

theorem find_replace_ne (k k' : κ) (v : α) (m : List (κ × α)) (h : k' ≠ k) :
    find k' (replace k v m) = find k' m := by
  induction m with
  | nil => simp [replace]
  | cons e rest ih =>
    obtain ⟨a, b⟩ := e
    by_cases hak : a = k
    · subst hak
      simp [replace, find, Ne.symm h]
    · simp [replace, hak, find, ih]

theorem find_replace_same (k : κ) (v : α) (m : List (κ × α)) (h : (find k m).isSome = true) :
    find k (replace k v m) = some v := by
  induction m with
  | nil => simp [find] at h
  | cons e rest ih =>
    obtain ⟨a, b⟩ := e
    by_cases hak : a = k
    · simp [replace, find, hak]
    · simp [find, hak] at h
      simp [replace, hak, find, ih h]

theorem find_set (lt : κ → κ → Bool) (k k' : κ) (v : α) (m : List (κ × α)) :
    find k' (set lt k v m) = if k' = k then some v else find k' m := by
  unfold set contains
  by_cases hk : k' = k
  · subst hk
    cases hc : (find k' m).isSome
    · simp at hc
      simp [find_place_new lt k' v m hc]
    · simp [find_replace_same k' v m hc]
  · cases hc : (find k m).isSome
    · simp [hk, find_place_ne lt k k' v m hk]
    · simp [hk, find_replace_ne k k' v m hk]

theorem find_erase (k k' : κ) (m : List (κ × α)) :
    find k' (erase k m) = if k' = k then none else find k' m := by
  induction m with
  | nil => simp [erase, find]
  | cons e rest ih =>
    obtain ⟨a, b⟩ := e
    unfold erase at ih ⊢
    by_cases hak : a = k
    · subst hak
      by_cases hk : k' = a
      · simp [List.filter, hk] at ih ⊢
        simpa [hk] using ih
      · simp [List.filter, find, hk, Ne.symm hk] at ih ⊢
        simpa [hk] using ih
    · by_cases hk : k' = k
      · subst hk
        simp [List.filter, hak, find] at ih ⊢
        simpa using ih
      · simp [List.filter, hak, find, hk] at ih ⊢
        simp [ih]

theorem find_eq_none_iff (k : κ) (m : List (κ × α)) :
    find k m = none ↔ ∀ e ∈ m, e.1 ≠ k := by
  induction m with
  | nil => simp [find]
  | cons e rest ih =>
    obtain ⟨a, b⟩ := e
    by_cases hak : a = k
    · simp [find, hak]
    · simp [find, hak, ih]

theorem mem_of_find (k : κ) (v : α) (m : List (κ × α)) (h : find k m = some v) :
    (k, v) ∈ m := by
  induction m with
  | nil => simp [find] at h
  | cons e rest ih =>
    obtain ⟨a, b⟩ := e
    by_cases hak : a = k
    · simp [find, hak] at h
      simp [hak, h]
    · simp [find, hak] at h
      simp [ih h]

theorem mem_place (lt : κ → κ → Bool) (k : κ) (v : α) (m : List (κ × α)) (e : κ × α) :
    e ∈ place lt k v m ↔ e = (k, v) ∨ e ∈ m := by
  induction m with
  | nil => simp [place]
  | cons x rest ih =>
    by_cases hlt : lt k x.1 = true
    · simp [place, hlt]
    · simp [place, hlt, ih]
      tauto

theorem mem_replace (k : κ) (v : α) (m : List (κ × α)) (e : κ × α) (h : e ∈ replace k v m) :
    e = (k, v) ∨ e ∈ m := by
  induction m with
  | nil => simp [replace] at h
  | cons x rest ih =>
    by_cases hx : x.1 = k
    · simp [replace, hx] at h
      rcases h with h | h
      · exact Or.inl h
      · exact Or.inr (List.mem_cons_of_mem _ h)
    · simp [replace, hx] at h
      rcases h with h | h
      · exact Or.inr (by simp [h])
      · rcases ih h with h2 | h2
        · exact Or.inl h2
        · exact Or.inr (List.mem_cons_of_mem _ h2)

theorem mem_set (lt : κ → κ → Bool) (k : κ) (v : α) (m : List (κ × α)) (e : κ × α)
    (h : e ∈ set lt k v m) : e = (k, v) ∨ e ∈ m := by
  unfold set at h
  split at h
  · exact mem_replace k v m e h
  · exact (mem_place lt k v m e).1 h

end StdMap

/-! ## The cache: the paths of socket() and the dial loop -/

namespace TransportSocketCache

theorem startedDials_dialCalls (servInfo : ServiceInfo) (n : Nat) (us : List Url) :
    startedDials (dialCalls servInfo n us) = (List.range' n us.length).zip us := by
  induction us generalizing n with
  | nil => simp [dialCalls, startedDials]
  | cons u rest ih => simp [dialCalls, startedDials, ih, List.range'_succ]

theorem dialedUrls_dialCalls (servInfo : ServiceInfo) (n : Nat) (us : List Url) :
    dialedUrls (dialCalls servInfo n us) = us := by
  induction us generalizing n with
  | nil => simp [dialCalls, dialedUrls, startedDials]
  | cons u rest ih =>
    have := ih (n + 1)
    simp [dialedUrls] at this
    simp [dialCalls, dialedUrls, startedDials, this]

theorem socket_prepare (c : TransportSocketCache) (servInfo : ServiceInfo) :
    let r := c.newAttempt
    let c1 := r.2.setAttempt r.1 { r.2.attempt r.1 with relatedUrls := servInfo.endpoints }
    r.1 = c.attempts.length ∧
    c1.setAttempt r.1 { c1.attempt r.1 with endpoint := none, state := State.State_Pending } =
      withFresh c servInfo 0 := by
  simp [newAttempt, newPromise, setAttempt, attempt, withFresh, freshAttempt, List.getD_eq_getElem?_getD]

theorem attempt_withFresh (c : TransportSocketCache) (servInfo : ServiceInfo) (n : Int) :
    (withFresh c servInfo n).attempt c.attempts.length = freshAttempt c servInfo n := by
  simp [withFresh, attempt, List.getD_eq_getElem?_getD]

theorem attempt_withFresh_old (c : TransportSocketCache) (servInfo : ServiceInfo) (n : Int)
    (r : Nat) (h : r < c.attempts.length) :
    (withFresh c servInfo n).attempt r = c.attempt r := by
  simp [withFresh, attempt, List.getD_eq_getElem?_getD, List.getElem?_append_left h]

theorem socket_dying (getMachineId : String) (c : TransportSocketCache)
    (servInfo : ServiceInfo) (url : String) (h : c._dying = true) :
    socket getMachineId c servInfo url =
      (withFresh c servInfo 0).makeFutureError "TransportSocketCache is closed." := by
  have hp := socket_prepare c servInfo
  simp only at hp
  unfold socket
  simp only [hp.2]
  simp [withFresh, h]

theorem socket_reuse (getMachineId : String) (c : TransportSocketCache)
    (servInfo : ServiceInfo) (url : String) (h : c._dying = false) (b : Nat)
    (hb : c.findConnection servInfo.machineId servInfo.endpoints = some b) :
    socket getMachineId c servInfo url =
      (((withFresh c servInfo 0).attempt b).promise, withFresh c servInfo 0) := by
  have hp := socket_prepare c servInfo
  simp only at hp
  have hf : (withFresh c servInfo 0).findConnection servInfo.machineId servInfo.endpoints
      = some b := by
    simpa [findConnection, withFresh] using hb
  unfold socket
  simp only [hp.2]
  have ha : (c.newAttempt).1 = c.attempts.length := hp.1
  simp only [ha, attempt_withFresh]
  simp [withFresh, h, freshAttempt] at hf ⊢
  simp [hf]

theorem socket_fresh (getMachineId : String) (c : TransportSocketCache)
    (servInfo : ServiceInfo) (url : String) (h : c._dying = false)
    (hb : c.findConnection servInfo.machineId servInfo.endpoints = none) :
    socket getMachineId c servInfo url =
      let isLocal : Bool := decide (servInfo.machineId = getMachineId)
      let candidates := connectionCandidates isLocal servInfo
      let c5 := dial isLocal servInfo c.attempts.length candidates
        ((withFresh c servInfo (candidates.length : Int)).touch servInfo.machineId)
      ((c5.attempt c.attempts.length).promise, c5) := by
  have hp := socket_prepare c servInfo
  simp only at hp
  have hf : (withFresh c servInfo 0).findConnection servInfo.machineId servInfo.endpoints
      = none := by
    simpa [findConnection, withFresh] using hb
  unfold socket
  simp only [hp.2]
  have ha : (c.newAttempt).1 = c.attempts.length := hp.1
  simp only [ha, attempt_withFresh]
  have hd : (withFresh c servInfo 0)._dying = false := by simp [withFresh, h]
  have hw : ∀ n : Int, (withFresh c servInfo 0).setAttempt c.attempts.length
      { promise := c.promises.length, endpoint := none, relatedUrls := servInfo.endpoints,
        attemptCount := n, state := State.State_Pending, disconnectionTracking := none } =
      withFresh c servInfo n := by
    intro n
    simp [withFresh, setAttempt, freshAttempt]
  simp [hd, freshAttempt, hf, hw]

theorem dial_eq_foldl (isLocal : Bool) (servInfo : ServiceInfo) (couple : Nat)
    (cands : List Url) (c : TransportSocketCache) :
    dial isLocal servInfo couple cands c =
      (cands.filter (dialable isLocal)).foldl (fun acc u => acc.dialOne servInfo couple u) c := by
  induction cands generalizing c with
  | nil => simp [dial]
  | cons u rest ih =>
    unfold dial
    by_cases hv : u.isValid = true
    · by_cases hl : (!isLocal && isLocalHost u.host) = true
      · have hd : dialable isLocal u = false := by
          simp [dialable, hv] at hl ⊢
          simp [hl]
        simp [hv, hl, ih, List.filter, hd]
      · have hd : dialable isLocal u = true := by
          simp [dialable, hv] at hl ⊢
          cases isLocal <;> simp_all
        simp [hv, hl, ih, List.filter, hd]
    · have hd : dialable isLocal u = false := by simp [dialable, hv]
      simp [hv, ih, List.filter, hd]

theorem urlMap_eq (c : TransportSocketCache) (m : String) (u : Url) :
    c.lookup m u = StdMap.find u (c.urlMap m) := by
  unfold lookup urlMap
  cases StdMap.find m c._connections <;> simp [StdMap.find]

theorem urlMap_install (c : TransportSocketCache) (m : String) (u : Url) (r : Nat) :
    (c.install m u r).urlMap m = StdMap.set Url.lt u r (c.urlMap m) := by
  simp [install, urlMap, StdMap.find_set]

theorem urlMap_install_ne (c : TransportSocketCache) (m m' : String) (u : Url) (r : Nat)
    (h : m' ≠ m) : (c.install m u r).urlMap m' = c.urlMap m' := by
  simp [install, urlMap, StdMap.find_set, h]

theorem lookup_install (c : TransportSocketCache) (m m' : String) (u u' : Url) (r : Nat) :
    (c.install m u r).lookup m' u' =
      if m' = m ∧ u' = u then some r else c.lookup m' u' := by
  rw [urlMap_eq, urlMap_eq]
  by_cases hm : m' = m
  · subst hm
    rw [urlMap_install, StdMap.find_set]
    simp
  · rw [urlMap_install_ne c m m' u r hm]
    simp [hm]

theorem urlMap_touch (c : TransportSocketCache) (m m' : String) :
    (c.touch m).urlMap m' = c.urlMap m' := by
  unfold touch StdMap.contains
  cases hc : (StdMap.find m c._connections).isSome
  · simp at hc
    by_cases hm : m' = m
    · subst hm
      simp [urlMap, StdMap.find_place_new strLt m' [] c._connections hc, hc]
    · simp [urlMap, StdMap.find_place_ne strLt m m' [] c._connections hm]
  · simp

theorem lookup_touch (c : TransportSocketCache) (m m' : String) (u : Url) :
    (c.touch m).lookup m' u = c.lookup m' u := by
  rw [urlMap_eq, urlMap_eq, urlMap_touch]

theorem findMatching_eq_none (vurls : List Url) (m : List (Url × Nat)) :
    findMatching vurls m = none ↔ ∀ e ∈ m, e.1 ∉ vurls := by
  induction m with
  | nil => simp [findMatching]
  | cons e rest ih =>
    by_cases he : e.1 ∈ vurls
    · simp [findMatching, he]
    · simp [findMatching, he, ih]

theorem findMatching_eq_some (vurls : List Url) (m : List (Url × Nat)) (b : Nat)
    (h : findMatching vurls m = some b) : ∃ e ∈ m, e.1 ∈ vurls ∧ e.2 = b := by
  induction m with
  | nil => simp [findMatching] at h
  | cons e rest ih =>
    by_cases he : e.1 ∈ vurls
    · simp [findMatching, he] at h
      exact ⟨e, by simp, he, h⟩
    · simp [findMatching, he] at h
      obtain ⟨e', hm, h1, h2⟩ := ih h
      exact ⟨e', List.mem_cons_of_mem _ hm, h1, h2⟩

theorem findConnection_eq (c : TransportSocketCache) (m : String) (vurls : List Url) :
    c.findConnection m vurls = findMatching vurls (c.urlMap m) := by
  unfold findConnection urlMap
  cases StdMap.find m c._connections <;> simp [findMatching]

theorem findConnection_eq_none (c : TransportSocketCache) (m : String) (vurls : List Url) :
    c.findConnection m vurls = none ↔ ∀ u ∈ vurls, c.lookup m u = none := by
  rw [findConnection_eq, findMatching_eq_none]
  constructor
  · intro h u hu
    rw [urlMap_eq, StdMap.find_eq_none_iff]
    intro e he heq
    exact h e he (heq ▸ hu)
  · intro h e he hmem
    have := h e.1 hmem
    rw [urlMap_eq, StdMap.find_eq_none_iff] at this
    exact this e he rfl

theorem dials_calls (servInfo : ServiceInfo) (couple : Nat) (us : List Url)
    (c : TransportSocketCache) :
    (us.foldl (fun acc u => acc.dialOne servInfo couple u) c).calls =
      c.calls ++ dialCalls servInfo c.nextSocket us := by
  induction us generalizing c with
  | nil => simp [dialCalls]
  | cons u rest ih =>
    simp only [List.foldl_cons, ih]
    simp [dialOne, install, call, dialCalls]

theorem dials_frame (servInfo : ServiceInfo) (couple : Nat) (us : List Url)
    (c : TransportSocketCache) :
    let c' := us.foldl (fun acc u => acc.dialOne servInfo couple u) c
    c'.attempts = c.attempts ∧ c'.promises = c.promises ∧ c'._dying = c._dying ∧
    c'.nextLink = c.nextLink ∧ c'.nextSocket = c.nextSocket + us.length ∧
    c'._allPendingConnections = c._allPendingConnections ++ List.range' c.nextSocket us.length := by
  induction us generalizing c with
  | nil => simp
  | cons u rest ih =>
    have h := ih (c.dialOne servInfo couple u)
    simp only [List.foldl_cons] at h ⊢
    obtain ⟨h1, h2, h3, h4, h5, h6⟩ := h
    refine ⟨?_, ?_, ?_, ?_, ?_, ?_⟩
    · rw [h1]; simp [dialOne, install, call]
    · rw [h2]; simp [dialOne, install, call]
    · rw [h3]; simp [dialOne, install, call]
    · rw [h4]; simp [dialOne, install, call]
    · rw [h5]; simp [dialOne, install, call]; omega
    · rw [h6]; simp [dialOne, install, call, List.range'_succ]

theorem lookup_dialOne (servInfo : ServiceInfo) (couple : Nat) (u : Url)
    (c : TransportSocketCache) (m' : String) (u' : Url) :
    (c.dialOne servInfo couple u).lookup m' u' =
      if m' = servInfo.machineId ∧ u' = u then some couple else c.lookup m' u' := by
  have : (c.dialOne servInfo couple u).lookup m' u' =
      (c.install servInfo.machineId u couple).lookup m' u' := by
    simp [dialOne, lookup, call]
  rw [this, lookup_install]

theorem dials_lookup (servInfo : ServiceInfo) (couple : Nat) (us : List Url)
    (c : TransportSocketCache) (m' : String) (u' : Url) :
    (us.foldl (fun acc u => acc.dialOne servInfo couple u) c).lookup m' u' =
      if m' = servInfo.machineId ∧ u' ∈ us then some couple else c.lookup m' u' := by
  induction us generalizing c with
  | nil => simp
  | cons u rest ih =>
    simp only [List.foldl_cons, ih, lookup_dialOne]
    by_cases hm : m' = servInfo.machineId
    · by_cases h1 : u' ∈ rest
      · simp [hm, h1]
      · by_cases h2 : u' = u
        · simp [hm, h2]
        · simp [hm, h1, h2]
    · simp [hm]

theorem dials_urlMap_mem (servInfo : ServiceInfo) (couple : Nat) (us : List Url)
    (c : TransportSocketCache) (e : Url × Nat)
    (h : e ∈ (us.foldl (fun acc u => acc.dialOne servInfo couple u) c).urlMap servInfo.machineId) :
    e.2 = couple ∨ e ∈ c.urlMap servInfo.machineId := by
  induction us generalizing c with
  | nil => exact Or.inr h
  | cons u rest ih =>
    simp only [List.foldl_cons] at h
    rcases ih _ h with h1 | h1
    · exact Or.inl h1
    · have hu : (c.dialOne servInfo couple u).urlMap servInfo.machineId =
          (c.install servInfo.machineId u couple).urlMap servInfo.machineId := by
        simp [dialOne, urlMap, call]
      rw [hu, urlMap_install] at h1
      rcases StdMap.mem_set _ _ _ _ _ h1 with h2 | h2
      · exact Or.inl (by rw [h2])
      · exact Or.inr h2

theorem connectionCandidates_subset (isLocal : Bool) (servInfo : ServiceInfo) (u : Url)
    (h : u ∈ connectionCandidates isLocal servInfo) : u ∈ servInfo.endpoints := by
  unfold connectionCandidates at h
  cases isLocal
  · simpa using h
  · simp only [if_true] at h
    split at h
    · exact h
    · simp [localhost_only] at h
      exact h.1

theorem withFresh_urlMap (c : TransportSocketCache) (servInfo : ServiceInfo) (n : Int)
    (m : String) : (withFresh c servInfo n).urlMap m = c.urlMap m := by
  simp [withFresh, urlMap]

theorem withFresh_lookup (c : TransportSocketCache) (servInfo : ServiceInfo) (n : Int)
    (m : String) (u : Url) : (withFresh c servInfo n).lookup m u = c.lookup m u := by
  simp [withFresh, lookup]

/-- What `socket()` does to the trace and to the pending list on each path:
nothing when the cache is closed or an attempt is reused, and the calls of
the dial loop otherwise. -/
theorem socket_calls (getMachineId : String) (c : TransportSocketCache)
    (servInfo : ServiceInfo) (url : String) :
    (socket getMachineId c servInfo url).2.calls =
      c.calls ++
        (if c._dying = false ∧ c.findConnection servInfo.machineId servInfo.endpoints = none then
          dialCalls servInfo c.nextSocket
            ((connectionCandidates (decide (servInfo.machineId = getMachineId)) servInfo).filter
              (dialable (decide (servInfo.machineId = getMachineId))))
        else []) := by
  cases hd : c._dying
  · cases hf : c.findConnection servInfo.machineId servInfo.endpoints
    · rw [socket_fresh getMachineId c servInfo url hd hf]
      simp only [dial_eq_foldl, dials_calls]
      simp [touch, withFresh]
      split <;> rfl
    · rw [socket_reuse getMachineId c servInfo url hd _ hf]
      simp [withFresh]
  · rw [socket_dying getMachineId c servInfo url hd]
    simp [makeFutureError, newPromise, setPromise, withFresh]

theorem socket_lookup (getMachineId : String) (c : TransportSocketCache)
    (servInfo : ServiceInfo) (url : String) (m : String) (u : Url) :
    (socket getMachineId c servInfo url).2.lookup m u =
      if c._dying = false ∧ c.findConnection servInfo.machineId servInfo.endpoints = none ∧
          m = servInfo.machineId ∧
          u ∈ (connectionCandidates (decide (servInfo.machineId = getMachineId)) servInfo).filter
              (dialable (decide (servInfo.machineId = getMachineId))) then
        some c.attempts.length
      else c.lookup m u := by
  cases hd : c._dying
  · cases hf : c.findConnection servInfo.machineId servInfo.endpoints
    · rw [socket_fresh getMachineId c servInfo url hd hf]
      simp only [dial_eq_foldl, dials_lookup, lookup_touch, withFresh_lookup]
      simp
    · rw [socket_reuse getMachineId c servInfo url hd _ hf]
      simp [withFresh_lookup]
  · rw [socket_dying getMachineId c servInfo url hd]
    simp [makeFutureError, newPromise, setPromise, withFresh, lookup]

theorem socket_frame (getMachineId : String) (c : TransportSocketCache)
    (servInfo : ServiceInfo) (url : String)
    (h : ¬ (c._dying = false ∧ c.findConnection servInfo.machineId servInfo.endpoints = none)) :
    (socket getMachineId c servInfo url).2._connections = c._connections ∧
    (socket getMachineId c servInfo url).2._allPendingConnections = c._allPendingConnections ∧
    (socket getMachineId c servInfo url).2.nextSocket = c.nextSocket ∧
    (socket getMachineId c servInfo url).2.calls = c.calls := by
  cases hd : c._dying
  · cases hf : c.findConnection servInfo.machineId servInfo.endpoints
    · exact absurd ⟨hd, hf⟩ h
    · rw [socket_reuse getMachineId c servInfo url hd _ hf]
      simp [withFresh]
  · rw [socket_dying getMachineId c servInfo url hd]
    simp [makeFutureError, newPromise, setPromise, withFresh]

theorem makeFutureError_futureValue (c : TransportSocketCache) (msg : String) :
    (c.makeFutureError msg).2.futureValue (c.makeFutureError msg).1 =
      some (Outcome.error msg) := by
  simp [makeFutureError, newPromise, setPromise, futureValue, promise,
    List.getD_eq_getElem?_getD]

/-- C10: on a closed cache (`_dying` set), `socket(info, url)` returns a future
that already holds the error "TransportSocketCache is closed.", makes no call
on any socket and opens none, and leaves `_connections` and
`_allPendingConnections` unchanged. -/
theorem socket_on_closed_cache (getMachineId : String) (c : TransportSocketCache)
    (servInfo : ServiceInfo) (url : String) (h : c._dying = true) :
    (socket getMachineId c servInfo url).2.futureValue (socket getMachineId c servInfo url).1 =
      some (Outcome.error "TransportSocketCache is closed.") ∧
    (socket getMachineId c servInfo url).2.calls = c.calls ∧
    (socket getMachineId c servInfo url).2.nextSocket = c.nextSocket ∧
    (socket getMachineId c servInfo url).2._connections = c._connections ∧
    (socket getMachineId c servInfo url).2._allPendingConnections = c._allPendingConnections := by
  rw [socket_dying getMachineId c servInfo url h]
  refine ⟨makeFutureError_futureValue _ _, ?_⟩
  simp [makeFutureError, newPromise, setPromise, withFresh]

/-- Instance of C10: a new cache that was closed, asked for a remote service. -/
theorem socket_on_closed_cache_witness :
    (close TransportSocketCache.new)._dying = true ∧
    (socket "self" (close TransportSocketCache.new)
        ⟨42, "other", [⟨"tcp", "1.2.3.4", 9⟩]⟩ "tcp://1.2.3.4:9").2.futureValue
      (socket "self" (close TransportSocketCache.new)
        ⟨42, "other", [⟨"tcp", "1.2.3.4", 9⟩]⟩ "tcp://1.2.3.4:9").1 =
      some (Outcome.error "TransportSocketCache is closed.") :=
  ⟨by decide,
   (socket_on_closed_cache "self" (close TransportSocketCache.new)
      ⟨42, "other", [⟨"tcp", "1.2.3.4", 9⟩]⟩ "tcp://1.2.3.4:9" (by decide)).1⟩

/-- C5: for a service of another machine, every socket call that `socket()`
adds to the trace dials a url whose host is not loopback, no map entry
changes under a loopback url, and with endpoints
`[tcp://127.0.0.1:9, tcp://1.2.3.4:9]` on a new cache the only dial is
`tcp://1.2.3.4:9`. -/
theorem socket_remote_avoids_loopback (getMachineId : String) (c : TransportSocketCache)
    (servInfo : ServiceInfo) (url : String) (hremote : servInfo.machineId ≠ getMachineId) :
    (∃ added, (socket getMachineId c servInfo url).2.calls = c.calls ++ added ∧
      ∀ u ∈ dialedUrls added, isLocalHost u.host = false) ∧
    (∀ m u, isLocalHost u.host = true →
      (socket getMachineId c servInfo url).2.lookup m u = c.lookup m u) ∧
    dialedUrls (socket getMachineId TransportSocketCache.new
      ⟨servInfo.serviceId, servInfo.machineId,
        [⟨"tcp", "127.0.0.1", 9⟩, ⟨"tcp", "1.2.3.4", 9⟩]⟩ url).2.calls =
      [⟨"tcp", "1.2.3.4", 9⟩] := by
  have hl : decide (servInfo.machineId = getMachineId) = false := by simp [hremote]
  refine ⟨⟨_, socket_calls getMachineId c servInfo url, ?_⟩, ?_, ?_⟩
  · intro u hu
    split at hu
    · rw [dialedUrls_dialCalls, hl] at hu
      simp [dialable] at hu
      simp [hu.2.2]
    · simp [dialedUrls, startedDials] at hu
  · intro m u hu
    rw [socket_lookup, hl]
    have : dialable false u = false := by simp [dialable, hu]
    simp [this]
  · have hf : List.filter (dialable false)
        [(⟨"tcp", "127.0.0.1", 9⟩ : Url), ⟨"tcp", "1.2.3.4", 9⟩] = [⟨"tcp", "1.2.3.4", 9⟩] := by
      decide
    rw [socket_calls]
    simp only [hl]
    simp [TransportSocketCache.new, findConnection, StdMap.find, dialedUrls_dialCalls,
      connectionCandidates, hf]

/-- Instance of C5: machine `other` seen from machine `self`. -/
theorem socket_remote_avoids_loopback_witness :
    ("other" : String) ≠ "self" ∧
    dialedUrls (socket "self" TransportSocketCache.new
      ⟨42, "other", [⟨"tcp", "127.0.0.1", 9⟩, ⟨"tcp", "1.2.3.4", 9⟩]⟩ "tcp://1.2.3.4:9").2.calls =
      [⟨"tcp", "1.2.3.4", 9⟩] :=
  ⟨by decide,
   (socket_remote_avoids_loopback "self" TransportSocketCache.new
      ⟨42, "other", [⟨"tcp", "127.0.0.1", 9⟩, ⟨"tcp", "1.2.3.4", 9⟩]⟩ "tcp://1.2.3.4:9"
      (by decide)).2.2⟩

/-- C6: for a service of the local machine, on an open cache with no entry
under any of its endpoints, `socket()` dials exactly the valid loopback
endpoints, in endpoint order, when some endpoint is loopback, and exactly the
valid endpoints when none is; with endpoints
`[tcp://10.0.0.1:9, tcp://127.0.0.1:9]` on a new cache the only dial is
`tcp://127.0.0.1:9`. -/
theorem socket_local_preference (getMachineId : String) (c : TransportSocketCache)
    (servInfo : ServiceInfo) (url : String) (hopen : c._dying = false)
    (hlocal : servInfo.machineId = getMachineId)
    (hnone : ∀ u ∈ servInfo.endpoints, c.lookup servInfo.machineId u = none) :
    (∃ added, (socket getMachineId c servInfo url).2.calls = c.calls ++ added ∧
      ((∃ u ∈ servInfo.endpoints, isLocalHost u.host = true) →
        dialedUrls added =
          servInfo.endpoints.filter (fun u => isLocalHost u.host && u.isValid)) ∧
      ((∀ u ∈ servInfo.endpoints, isLocalHost u.host = false) →
        dialedUrls added = servInfo.endpoints.filter (fun u => u.isValid))) ∧
    dialedUrls (socket getMachineId TransportSocketCache.new
      ⟨servInfo.serviceId, getMachineId,
        [⟨"tcp", "10.0.0.1", 9⟩, ⟨"tcp", "127.0.0.1", 9⟩]⟩ url).2.calls =
      [⟨"tcp", "127.0.0.1", 9⟩] := by
  have hl : decide (servInfo.machineId = getMachineId) = true := by simp [hlocal]
  have hf := (findConnection_eq_none c servInfo.machineId servInfo.endpoints).2 hnone
  have hdl : ∀ l : List Url, l.filter (dialable true) = l.filter (fun u => u.isValid) := by
    intro l
    congr 1
    funext u
    simp [dialable]
  refine ⟨⟨_, socket_calls getMachineId c servInfo url, ?_, ?_⟩, ?_⟩
  · rintro ⟨u, hu, hloop⟩
    have hne : (localhost_only servInfo.endpoints).length ≠ 0 := by
      have : u ∈ localhost_only servInfo.endpoints := by simp [localhost_only, hu, hloop]
      intro h0
      rw [List.length_eq_zero] at h0
      rw [h0] at this
      simp at this
    simp only [hopen, hf, hl, and_self, if_true, dialedUrls_dialCalls, connectionCandidates, hne,
      if_false, hdl]
    simp [localhost_only, List.filter_filter, Bool.and_comm]
  · intro hall
    have he : (localhost_only servInfo.endpoints).length = 0 := by
      rw [List.length_eq_zero]
      simp [localhost_only, List.filter_eq_nil_iff]
      intro u hu
      simp [hall u hu]
    simp only [hopen, hf, hl, and_self, if_true, dialedUrls_dialCalls, connectionCandidates, he,
      hdl]
  · have hfl : List.filter (dialable true)
        (connectionCandidates true ⟨servInfo.serviceId, getMachineId,
          [(⟨"tcp", "10.0.0.1", 9⟩ : Url), ⟨"tcp", "127.0.0.1", 9⟩]⟩) =
        [⟨"tcp", "127.0.0.1", 9⟩] := by
      have h1 : localhost_only [(⟨"tcp", "10.0.0.1", 9⟩ : Url), ⟨"tcp", "127.0.0.1", 9⟩] =
          [⟨"tcp", "127.0.0.1", 9⟩] := by decide
      have h2 : List.filter (dialable true) [(⟨"tcp", "127.0.0.1", 9⟩ : Url)] =
          [⟨"tcp", "127.0.0.1", 9⟩] := by decide
      simp [connectionCandidates, h1, h2]
    rw [socket_calls]
    simp [TransportSocketCache.new, findConnection, StdMap.find, dialedUrls_dialCalls, hfl]

/-- Instance of C6: a service of the local machine `self` on a new cache. -/
theorem socket_local_preference_witness :
    TransportSocketCache.new._dying = false ∧
    dialedUrls (socket "self" TransportSocketCache.new
      ⟨42, "self", [⟨"tcp", "10.0.0.1", 9⟩, ⟨"tcp", "127.0.0.1", 9⟩]⟩ "tcp://10.0.0.1:9").2.calls =
      [⟨"tcp", "127.0.0.1", 9⟩] :=
  ⟨by decide,
   (socket_local_preference "self" TransportSocketCache.new
      ⟨42, "self", [⟨"tcp", "10.0.0.1", 9⟩, ⟨"tcp", "127.0.0.1", 9⟩]⟩ "tcp://10.0.0.1:9"
      (by decide) (by decide) (by decide)).2⟩

/-- C1: on an open cache, when a call `socket(info, url)` made at least one
socket call (it dialed), a second call for the same `info` issued right after
it returns the same promise, the promise of the attempt that the first call
installed, adds no call to the trace, opens no socket, and leaves
`_connections`, `_allPendingConnections` and that attempt unchanged. -/
theorem socket_deduplicates (getMachineId : String) (c : TransportSocketCache)
    (servInfo : ServiceInfo) (url url2 : String) (hopen : c._dying = false)
    (hdial : (socket getMachineId c servInfo url).2.calls ≠ c.calls) :
    (socket getMachineId (socket getMachineId c servInfo url).2 servInfo url2).1 =
      (socket getMachineId c servInfo url).1 ∧
    (socket getMachineId c servInfo url).1 =
      ((socket getMachineId c servInfo url).2.attempt c.attempts.length).promise ∧
    (socket getMachineId (socket getMachineId c servInfo url).2 servInfo url2).2.attempt
        c.attempts.length =
      (socket getMachineId c servInfo url).2.attempt c.attempts.length ∧
    (socket getMachineId (socket getMachineId c servInfo url).2 servInfo url2).2.calls =
      (socket getMachineId c servInfo url).2.calls ∧
    (socket getMachineId (socket getMachineId c servInfo url).2 servInfo url2).2.nextSocket =
      (socket getMachineId c servInfo url).2.nextSocket ∧
    (socket getMachineId (socket getMachineId c servInfo url).2 servInfo url2).2._connections =
      (socket getMachineId c servInfo url).2._connections ∧
    (socket getMachineId (socket getMachineId c servInfo url).2 servInfo url2).2._allPendingConnections =
      (socket getMachineId c servInfo url).2._allPendingConnections := by
  -- the first call took the path that creates an attempt and dials
  have hf : c.findConnection servInfo.machineId servInfo.endpoints = none := by
    by_contra hne
    exact hdial (socket_frame getMachineId c servInfo url (fun h => hne h.2)).2.2.2
  have hcalls := socket_calls getMachineId c servInfo url
  simp only [hopen, hf, and_self, if_true] at hcalls
  generalize hL : (connectionCandidates (decide (servInfo.machineId = getMachineId))
    servInfo).filter (dialable (decide (servInfo.machineId = getMachineId))) = L at hcalls
  have hLne : L ≠ [] := by
    intro h0
    rw [h0] at hcalls
    exact hdial (by simpa [dialCalls] using hcalls)
  obtain ⟨u0, hu0⟩ := List.exists_mem_of_ne_nil L hLne
  have hu0e : u0 ∈ servInfo.endpoints := by
    rw [← hL] at hu0
    exact connectionCandidates_subset _ servInfo u0 (List.mem_filter.1 hu0).1
  have hs := socket_fresh getMachineId c servInfo url hopen hf
  simp only [dial_eq_foldl, hL] at hs
  generalize hc5 : (L.foldl (fun acc u => acc.dialOne servInfo c.attempts.length u)
    ((withFresh c servInfo ((connectionCandidates (decide (servInfo.machineId = getMachineId))
      servInfo).length : Int)).touch servInfo.machineId)) = c5 at hs
  have hfr := dials_frame servInfo c.attempts.length L
    ((withFresh c servInfo ((connectionCandidates (decide (servInfo.machineId = getMachineId))
      servInfo).length : Int)).touch servInfo.machineId)
  simp only [hc5] at hfr
  obtain ⟨hatt, -, hdy, -, -, -⟩ := hfr
  have hdy5 : c5._dying = false := by
    rw [hdy]
    unfold touch
    split <;> simp [withFresh, hopen]
  have hlen : c5.attempts.length = c.attempts.length + 1 := by
    rw [hatt]
    unfold touch
    split <;> simp [withFresh]
  -- the second call finds the attempt of the first
  have hfound : c5.findConnection servInfo.machineId servInfo.endpoints =
      some c.attempts.length := by
    cases hfc : c5.findConnection servInfo.machineId servInfo.endpoints with
    | none =>
      have h1 := (findConnection_eq_none c5 _ _).1 hfc u0 hu0e
      rw [← hc5, dials_lookup] at h1
      simp [hu0] at h1
    | some b =>
      rw [findConnection_eq] at hfc
      obtain ⟨e, hem, he1, he2⟩ := findMatching_eq_some _ _ _ hfc
      rw [← hc5] at hem
      rcases dials_urlMap_mem _ _ _ _ _ hem with h1 | h1
      · rw [← he2, h1]
      · rw [urlMap_touch, withFresh_urlMap] at h1
        rw [findConnection_eq, findMatching_eq_none] at hf
        exact absurd he1 (hf e h1)
  rw [hs]
  simp only
  rw [socket_reuse getMachineId c5 servInfo url2 hdy5 _ hfound]
  have hold := attempt_withFresh_old c5 servInfo 0 c.attempts.length (by omega)
  refine ⟨by rw [hold], trivial, hold, ?_, ?_, ?_, ?_⟩ <;> simp [withFresh]

/-- Instance of C1: two calls for a remote service with two public endpoints. -/
theorem socket_deduplicates_witness :
    TransportSocketCache.new._dying = false ∧
    (socket "self" (socket "self" TransportSocketCache.new
        ⟨42, "other", [⟨"tcp", "1.2.3.4", 9⟩, ⟨"tcp", "5.6.7.8", 9⟩]⟩ "a").2
        ⟨42, "other", [⟨"tcp", "1.2.3.4", 9⟩, ⟨"tcp", "5.6.7.8", 9⟩]⟩ "b").1 =
      (socket "self" TransportSocketCache.new
        ⟨42, "other", [⟨"tcp", "1.2.3.4", 9⟩, ⟨"tcp", "5.6.7.8", 9⟩]⟩ "a").1 :=
  ⟨by decide,
   (socket_deduplicates "self" TransportSocketCache.new
      ⟨42, "other", [⟨"tcp", "1.2.3.4", 9⟩, ⟨"tcp", "5.6.7.8", 9⟩]⟩ "a" "b"
      (by decide) (by decide)).1⟩

/-! ### Dial completions -/

theorem attempt_setAttempt_same (c : TransportSocketCache) (r : Nat) (a : ConnectionAttempt)
    (h : r < c.attempts.length) : (c.setAttempt r a).attempt r = a := by
  simp [setAttempt, attempt, List.getD_eq_getElem?_getD, List.getElem?_set, h]

theorem attempt_setAttempt_ne (c : TransportSocketCache) (r r' : Nat) (a : ConnectionAttempt)
    (h : r' ≠ r) : (c.setAttempt r a).attempt r' = c.attempt r' := by
  simp [setAttempt, attempt, List.getD_eq_getElem?_getD, List.getElem?_set, Ne.symm h]

theorem promise_setPromise_same (c : TransportSocketCache) (p : Nat) (o : Outcome)
    (h : p < c.promises.length) : (c.setPromise p o).promise p = c.promise p ++ [o] := by
  simp [setPromise, promise, List.getD_eq_getElem?_getD, List.getElem?_set, h]

theorem attempt_removePending (c : TransportSocketCache) (s : MessageSocketPtr) (r : Nat) :
    (c.removePending s).attempt r = c.attempt r := rfl

theorem attempt_setPromise (c : TransportSocketCache) (p : Nat) (o : Outcome) (r : Nat) :
    (c.setPromise p o).attempt r = c.attempt r := rfl

theorem attempt_call (c : TransportSocketCache) (e : SocketCall) (r : Nat) :
    (c.call e).attempt r = c.attempt r := rfl

theorem promise_removePending (c : TransportSocketCache) (s : MessageSocketPtr) (p : Nat) :
    (c.removePending s).promise p = c.promise p := rfl

theorem promise_setAttempt (c : TransportSocketCache) (r : Nat) (a : ConnectionAttempt)
    (p : Nat) : (c.setAttempt r a).promise p = c.promise p := rfl

theorem promise_call (c : TransportSocketCache) (e : SocketCall) (p : Nat) :
    (c.call e).promise p = c.promise p := rfl

theorem checkClear_promise (c : TransportSocketCache) (a : Nat) (m : String) (p : Nat) :
    (c.checkClear a m).promise p = c.promise p := by
  unfold checkClear
  simp only
  split
  · split
    · rfl
    · split <;> rfl
  · rfl

/-- A failed dial completion on an open cache whose record is present and
pending: the count goes down and the socket leaves the pending list; when the
count reaches 0 the promise fails, the attempt becomes `State_Error` and
`checkClear` runs. -/
theorem failed_dial_eq (c : TransportSocketCache) (info : ServiceInfo) (s : MessageSocketPtr)
    (u : Url) (a : Nat) (hd : c._dying = false) (hl : c.lookup info.machineId u = some a)
    (ha : a < c.attempts.length) (hs : (c.attempt a).state = State.State_Pending) :
    c.onSocketParallelConnectionAttempt true s u info =
      if (c.attempt a).attemptCount - 1 = 0 then
        ((((c.setAttempt a
            { c.attempt a with attemptCount := (c.attempt a).attemptCount - 1 }).removePending
            s).setPromise (c.attempt a).promise
            (Outcome.error ("Could not connect to service #" ++ toString info.serviceId ++
              ": no endpoint replied."))).setAttempt a
            { c.attempt a with attemptCount := (c.attempt a).attemptCount - 1,
                               state := State.State_Error }).checkClear a info.machineId
      else
        (c.setAttempt a
          { c.attempt a with attemptCount := (c.attempt a).attemptCount - 1 }).removePending
          s := by
  unfold onSocketParallelConnectionAttempt
  simp only [hd, hl, attempt_removePending, attempt_setPromise,
    attempt_setAttempt_same c a _ ha, hs]
  simp

theorem failed_dial_waits (c : TransportSocketCache) (info : ServiceInfo) (us : List Url)
    (a p : Nat) (n : Int) (s : MessageSocketPtr) (u : Url) (hu : u ∈ us) (hn : n - 1 ≠ 0)
    (h : Campaign c info.machineId us a p n) :
    Campaign (c.onSocketParallelConnectionAttempt true s u info) info.machineId us a p
      (n - 1) := by
  obtain ⟨hd, hl, ha, hs, hc, hp, hpl, hpe⟩ := h
  rw [failed_dial_eq c info s u a hd (hl u hu) ha hs, hc, if_neg hn]
  refine ⟨hd, hl, ?_, ?_, ?_, ?_, hpl, hpe⟩
  · simpa [removePending, setAttempt] using ha
  · rw [attempt_removePending, attempt_setAttempt_same c a _ ha]; exact hs
  · rw [attempt_removePending, attempt_setAttempt_same c a _ ha]
  · rw [attempt_removePending, attempt_setAttempt_same c a _ ha]; exact hp

theorem failed_dial_last (c : TransportSocketCache) (info : ServiceInfo) (us : List Url)
    (a p : Nat) (s : MessageSocketPtr) (u : Url) (hu : u ∈ us)
    (h : Campaign c info.machineId us a p 1) :
    (c.onSocketParallelConnectionAttempt true s u info).promise p =
      [Outcome.error ("Could not connect to service #" ++ toString info.serviceId ++
        ": no endpoint replied.")] := by
  obtain ⟨hd, hl, ha, hs, hc, hp, hpl, hpe⟩ := h
  rw [failed_dial_eq c info s u a hd (hl u hu) ha hs, hc]
  simp only [sub_self, if_true, checkClear_promise, promise_setAttempt, hp]
  rw [promise_setPromise_same _ _ _ (by simpa [removePending, setAttempt] using hpl),
    promise_removePending, promise_setAttempt, hpe]
  rfl

theorem failed_dials_exhaust (info : ServiceInfo) (us : List Url) (a p : Nat)
    (done : List (MessageSocketPtr × Url)) (c : TransportSocketCache)
    (hne : done ≠ []) (hus : ∀ d ∈ done, d.2 ∈ us)
    (h : Campaign c info.machineId us a p (done.length : Int)) :
    (done.foldl (fun acc d => acc.onSocketParallelConnectionAttempt true d.1 d.2 info)
      c).promise p =
      [Outcome.error ("Could not connect to service #" ++ toString info.serviceId ++
        ": no endpoint replied.")] := by
  induction done generalizing c with
  | nil => exact absurd rfl hne
  | cons d rest ih =>
    simp only [List.foldl_cons]
    cases rest with
    | nil =>
      simp only [List.foldl_nil]
      exact failed_dial_last c info us a p d.1 d.2 (hus d (by simp)) (by simpa using h)
    | cons d2 rest2 =>
      apply ih
      · simp
      · intro x hx
        exact hus x (List.mem_cons_of_mem _ hx)
      · have hstep := failed_dial_waits c info us a p _ d.1 d.2 (hus d (by simp))
          (by simp only [List.length_cons]; push_cast; omega) h
        have he : (((d :: d2 :: rest2).length : Int) - 1) = ((d2 :: rest2).length : Int) := by
          simp
        rw [he] at hstep
        exact hstep

theorem touch_frame (c : TransportSocketCache) (m : String) :
    (c.touch m).attempts = c.attempts ∧ (c.touch m).promises = c.promises ∧
    (c.touch m)._dying = c._dying ∧ (c.touch m).nextSocket = c.nextSocket ∧
    (c.touch m).calls = c.calls ∧
    (c.touch m)._allPendingConnections = c._allPendingConnections := by
  unfold touch
  split <;> simp

/-- After `socket()` created an attempt, the dial campaign is in its initial
state: every dialed url leads to the new attempt, which is pending, counts the
candidates and holds the unset promise that was returned. -/
theorem socket_starts_campaign (getMachineId : String) (c : TransportSocketCache)
    (servInfo : ServiceInfo) (url : String) (hopen : c._dying = false)
    (hf : c.findConnection servInfo.machineId servInfo.endpoints = none) :
    Campaign (socket getMachineId c servInfo url).2 servInfo.machineId
      ((connectionCandidates (decide (servInfo.machineId = getMachineId)) servInfo).filter
        (dialable (decide (servInfo.machineId = getMachineId))))
      c.attempts.length c.promises.length
      ((connectionCandidates (decide (servInfo.machineId = getMachineId)) servInfo).length : Int) ∧
    (socket getMachineId c servInfo url).1 = c.promises.length := by
  rw [socket_fresh getMachineId c servInfo url hopen hf]
  simp only [dial_eq_foldl]
  generalize (connectionCandidates (decide (servInfo.machineId = getMachineId))
    servInfo).filter (dialable (decide (servInfo.machineId = getMachineId))) = L
  generalize ((connectionCandidates (decide (servInfo.machineId = getMachineId))
    servInfo).length : Int) = n
  have hfr := dials_frame servInfo c.attempts.length L ((withFresh c servInfo n).touch
    servInfo.machineId)
  have htf := touch_frame (withFresh c servInfo n) servInfo.machineId
  obtain ⟨h1, h2, h3, -, -, -⟩ := hfr
  obtain ⟨t1, t2, t3, -, -, -⟩ := htf
  have hatt : ∀ r, (L.foldl (fun acc u => acc.dialOne servInfo c.attempts.length u)
      ((withFresh c servInfo n).touch servInfo.machineId)).attempt r =
      (withFresh c servInfo n).attempt r := by
    intro r
    simp only [attempt, h1, t1]
  have hpr : ∀ p, (L.foldl (fun acc u => acc.dialOne servInfo c.attempts.length u)
      ((withFresh c servInfo n).touch servInfo.machineId)).promise p =
      (withFresh c servInfo n).promise p := by
    intro p
    simp only [promise, h2, t2]
  refine ⟨⟨?_, ?_, ?_, ?_, ?_, ?_, ?_, ?_⟩, ?_⟩
  · rw [h3, t3]; simp [withFresh, hopen]
  · intro u hu
    rw [dials_lookup]
    simp [hu]
  · rw [h1, t1]; simp [withFresh]
  · rw [hatt, attempt_withFresh]; rfl
  · rw [hatt, attempt_withFresh]; rfl
  · rw [hatt, attempt_withFresh]; rfl
  · rw [h2, t2]; simp [withFresh]
  · rw [hpr]; simp [withFresh, promise, List.getD_eq_getElem?_getD]
  · simp only [hatt, attempt_withFresh]; rfl

/-- C3 (the code at the failing input): a service of another machine
advertises one valid endpoint and one url that is not valid. `socket()` dials
the valid url, the only dial it starts, and sets `attemptCount` to 2, the
number of candidates; after that dial has failed the promise is still unset.
The same happens when the skipped candidate is a loopback url of a remote
service: of two valid endpoints one is dialed, `attemptCount` is 2, and the
promise stays unset after the only started dial has failed. -/
theorem skipped_candidate_leaves_promise_pending :
    ((⟨42, "other", [⟨"tcp", "1.2.3.4", 9⟩, ⟨"tcp", "", 0⟩]⟩ :
        ServiceInfo).endpoints.filter (fun u => u.isValid)).length = 1 ∧
    startedDials (socket "self" TransportSocketCache.new
      ⟨42, "other", [⟨"tcp", "1.2.3.4", 9⟩, ⟨"tcp", "", 0⟩]⟩ "tcp://1.2.3.4:9").2.calls =
      [(0, ⟨"tcp", "1.2.3.4", 9⟩)] ∧
    ((socket "self" TransportSocketCache.new
      ⟨42, "other", [⟨"tcp", "1.2.3.4", 9⟩, ⟨"tcp", "", 0⟩]⟩ "tcp://1.2.3.4:9").2.attempt
        0).attemptCount = 2 ∧
    (socket "self" TransportSocketCache.new
      ⟨42, "other", [⟨"tcp", "1.2.3.4", 9⟩, ⟨"tcp", "", 0⟩]⟩ "tcp://1.2.3.4:9").1 = 0 ∧
    (((socket "self" TransportSocketCache.new
      ⟨42, "other", [⟨"tcp", "1.2.3.4", 9⟩, ⟨"tcp", "", 0⟩]⟩
        "tcp://1.2.3.4:9").2.onSocketParallelConnectionAttempt true 0 ⟨"tcp", "1.2.3.4", 9⟩
      ⟨42, "other", [⟨"tcp", "1.2.3.4", 9⟩, ⟨"tcp", "", 0⟩]⟩).attempt 0).attemptCount = 1 ∧
    ((socket "self" TransportSocketCache.new
      ⟨42, "other", [⟨"tcp", "1.2.3.4", 9⟩, ⟨"tcp", "", 0⟩]⟩
        "tcp://1.2.3.4:9").2.onSocketParallelConnectionAttempt true 0 ⟨"tcp", "1.2.3.4", 9⟩
      ⟨42, "other", [⟨"tcp", "1.2.3.4", 9⟩, ⟨"tcp", "", 0⟩]⟩).futureValue 0 = none ∧
    ((⟨42, "other", [⟨"tcp", "127.0.0.1", 9⟩, ⟨"tcp", "1.2.3.4", 9⟩]⟩ :
        ServiceInfo).endpoints.filter (fun u => u.isValid)).length = 2 ∧
    startedDials (socket "self" TransportSocketCache.new
      ⟨42, "other", [⟨"tcp", "127.0.0.1", 9⟩, ⟨"tcp", "1.2.3.4", 9⟩]⟩ "tcp://1.2.3.4:9").2.calls =
      [(0, ⟨"tcp", "1.2.3.4", 9⟩)] ∧
    ((socket "self" TransportSocketCache.new
      ⟨42, "other", [⟨"tcp", "127.0.0.1", 9⟩, ⟨"tcp", "1.2.3.4", 9⟩]⟩ "tcp://1.2.3.4:9").2.attempt
        0).attemptCount = 2 ∧
    ((socket "self" TransportSocketCache.new
      ⟨42, "other", [⟨"tcp", "127.0.0.1", 9⟩, ⟨"tcp", "1.2.3.4", 9⟩]⟩
        "tcp://1.2.3.4:9").2.onSocketParallelConnectionAttempt true 0 ⟨"tcp", "1.2.3.4", 9⟩
      ⟨42, "other", [⟨"tcp", "127.0.0.1", 9⟩, ⟨"tcp", "1.2.3.4", 9⟩]⟩).futureValue 0 = none := by
  decide

/-- The dial campaign of `socket()` on an open cache with no entry under any
endpoint of the service: one dial is started per candidate that is valid and,
for a remote service, not loopback, in candidate order, and `attemptCount` is
the number of candidates. When no candidate is skipped and there is at least
one, then once every started dial has completed with an error, in any order,
the returned promise has been set exactly once, to the error "Could not
connect to service #id: no endpoint replied.". -/
theorem socket_exhausted_endpoints (getMachineId : String) (c : TransportSocketCache)
    (servInfo : ServiceInfo) (url : String) (hopen : c._dying = false)
    (hnone : ∀ u ∈ servInfo.endpoints, c.lookup servInfo.machineId u = none) :
    (socket getMachineId c servInfo url).2.calls =
      c.calls ++ addedCalls c (socket getMachineId c servInfo url).2 ∧
    dialedUrls (addedCalls c (socket getMachineId c servInfo url).2) =
      (connectionCandidates (decide (servInfo.machineId = getMachineId)) servInfo).filter
        (dialable (decide (servInfo.machineId = getMachineId))) ∧
    ((socket getMachineId c servInfo url).2.attempt c.attempts.length).attemptCount =
      ((connectionCandidates (decide (servInfo.machineId = getMachineId)) servInfo).length : Int) ∧
    (socket getMachineId c servInfo url).1 =
      ((socket getMachineId c servInfo url).2.attempt c.attempts.length).promise ∧
    (connectionCandidates (decide (servInfo.machineId = getMachineId)) servInfo ≠ [] →
      (∀ u ∈ connectionCandidates (decide (servInfo.machineId = getMachineId)) servInfo,
        dialable (decide (servInfo.machineId = getMachineId)) u = true) →
      ∀ done : List (MessageSocketPtr × Url),
        List.Perm done (startedDials (addedCalls c (socket getMachineId c servInfo url).2)) →
        (done.foldl (fun acc d => acc.onSocketParallelConnectionAttempt true d.1 d.2 servInfo)
          (socket getMachineId c servInfo url).2).promise
            (socket getMachineId c servInfo url).1 =
          [Outcome.error ("Could not connect to service #" ++ toString servInfo.serviceId ++
            ": no endpoint replied.")]) := by
  have hf := (findConnection_eq_none c servInfo.machineId servInfo.endpoints).2 hnone
  have hcalls := socket_calls getMachineId c servInfo url
  simp only [hopen, hf, and_self, if_true] at hcalls
  have hadded : addedCalls c (socket getMachineId c servInfo url).2 =
      dialCalls servInfo c.nextSocket
        ((connectionCandidates (decide (servInfo.machineId = getMachineId)) servInfo).filter
          (dialable (decide (servInfo.machineId = getMachineId)))) := by
    simp [addedCalls, hcalls]
  obtain ⟨hcamp, hret⟩ := socket_starts_campaign getMachineId c servInfo url hopen hf
  have hcamp2 := hcamp
  obtain ⟨-, -, -, -, hcount, hprom, -, -⟩ := hcamp2
  refine ⟨by rw [hadded]; exact hcalls, by rw [hadded, dialedUrls_dialCalls], hcount,
    by rw [hret, hprom], ?_⟩
  intro hne hall done hperm
  have hfil : (connectionCandidates (decide (servInfo.machineId = getMachineId))
      servInfo).filter (dialable (decide (servInfo.machineId = getMachineId))) =
      connectionCandidates (decide (servInfo.machineId = getMachineId)) servInfo :=
    List.filter_eq_self.2 hall
  rw [hadded, startedDials_dialCalls, hfil] at hperm
  rw [hfil] at hcamp
  have hlen : done.length =
      (connectionCandidates (decide (servInfo.machineId = getMachineId)) servInfo).length := by
    rw [hperm.length_eq]
    simp
  rw [hret]
  apply failed_dials_exhaust servInfo _ c.attempts.length c.promises.length done
  · intro h0
    rw [h0] at hlen
    exact hne (List.length_eq_zero.1 hlen.symm)
  · intro d hd
    have := hperm.subset hd
    exact (List.of_mem_zip this).2
  · rw [hlen]
    exact hcamp

/-- The dial campaign for a remote service with two endpoints, both dialed:
they fail, the second dial first. -/
theorem socket_exhausted_endpoints_witness :
    TransportSocketCache.new._dying = false ∧
    (∀ u ∈ (⟨42, "other", [⟨"tcp", "1.2.3.4", 9⟩, ⟨"tcp", "5.6.7.8", 9⟩]⟩ :
      ServiceInfo).endpoints, TransportSocketCache.new.lookup "other" u = none) ∧
    (([(1, ⟨"tcp", "5.6.7.8", 9⟩), (0, ⟨"tcp", "1.2.3.4", 9⟩)] :
        List (MessageSocketPtr × Url)).foldl
      (fun acc d => acc.onSocketParallelConnectionAttempt true d.1 d.2
        ⟨42, "other", [⟨"tcp", "1.2.3.4", 9⟩, ⟨"tcp", "5.6.7.8", 9⟩]⟩)
      (socket "self" TransportSocketCache.new
        ⟨42, "other", [⟨"tcp", "1.2.3.4", 9⟩, ⟨"tcp", "5.6.7.8", 9⟩]⟩ "tcp://1.2.3.4:9").2).promise
      (socket "self" TransportSocketCache.new
        ⟨42, "other", [⟨"tcp", "1.2.3.4", 9⟩, ⟨"tcp", "5.6.7.8", 9⟩]⟩ "tcp://1.2.3.4:9").1 =
      [Outcome.error ("Could not connect to service #" ++ toString 42 ++
        ": no endpoint replied.")] :=
  ⟨by decide, by decide,
   (socket_exhausted_endpoints "self" TransportSocketCache.new
      ⟨42, "other", [⟨"tcp", "1.2.3.4", 9⟩, ⟨"tcp", "5.6.7.8", 9⟩]⟩ "tcp://1.2.3.4:9"
      (by decide) (by decide)).2.2.2.2 (by decide) (by decide) _
      (List.Perm.swap _ _ [])⟩

/-- C4 (the code at the failing input): `socket()` for a remote service with
two valid endpoints installs one pending attempt, attempt 0 with the unset
promise 0, under both urls; `close()` then visits the attempt once per url and
calls `setError` on its promise twice. -/
theorem close_sets_shared_promise_twice :
    (socket "self" TransportSocketCache.new
      ⟨42, "other", [⟨"tcp", "1.2.3.4", 9⟩, ⟨"tcp", "5.6.7.8", 9⟩]⟩ "tcp://1.2.3.4:9").2._connections =
      [("other", [(⟨"tcp", "1.2.3.4", 9⟩, 0), (⟨"tcp", "5.6.7.8", 9⟩, 0)])] ∧
    ((socket "self" TransportSocketCache.new
      ⟨42, "other", [⟨"tcp", "1.2.3.4", 9⟩, ⟨"tcp", "5.6.7.8", 9⟩]⟩ "tcp://1.2.3.4:9").2.attempt
        0).promise = 0 ∧
    (socket "self" TransportSocketCache.new
      ⟨42, "other", [⟨"tcp", "1.2.3.4", 9⟩, ⟨"tcp", "5.6.7.8", 9⟩]⟩ "tcp://1.2.3.4:9").2.promise
        0 = [] ∧
    (socket "self" TransportSocketCache.new
      ⟨42, "other", [⟨"tcp", "1.2.3.4", 9⟩, ⟨"tcp", "5.6.7.8", 9⟩]⟩
        "tcp://1.2.3.4:9").2.close.promise 0 =
      [Outcome.error "TransportSocketCache is closing.",
       Outcome.error "TransportSocketCache is closing."] := by
  decide

end TransportSocketCache

/-! ## The gateway -/

namespace Gateway
namespace GatewayPrivate

theorem requests_record (g : GatewayPrivate) (service service2 : TransportSocket) (id : Nat)
    (entry : Nat × TransportSocket) :
    (g.record service id entry).requests service2 =
      if service2 = service then
        StdMap.set (fun a b => decide (a < b)) id entry (g.requests service)
      else g.requests service2 := by
  unfold record requests
  simp only [StdMap.find_set]
  split <;> simp

theorem find_record (g : GatewayPrivate) (service : TransportSocket) (id : Nat)
    (entry : Nat × TransportSocket) :
    StdMap.find service (g.record service id entry)._serviceToClient =
      some (StdMap.set (fun a b => decide (a < b)) id entry (g.requests service)) := by
  unfold record
  simp [StdMap.find_set]

theorem forwardClientMessage_eq (g : GatewayPrivate) (client service : TransportSocket)
    (msg : Message) :
    g.forwardClientMessage client service msg =
      (({ g with messageId := g.messageId + 1 }).record service g.messageId
        (msg.id, client)).send service (forwarded g.messageId msg) := by
  simp [forwardClientMessage, newMessage, Message.buildForwardFrom, forwarded]

/-- C2: when the backend socket `s` of the service of a client message `m` is
installed and connected, `handleClientRead` sends `m` to `s` under the fresh
id and nothing else; a backend message then read on `s` with that id, other
than a directory Service reply, makes the gateway send exactly one message,
to the client `c`, with the id of `m` and the payload of the backend
message. -/
theorem reply_round_trip (g : GatewayPrivate) (c s : TransportSocket) (m : Message)
    (hs : StdMap.find m.service g._services = some s) (hc : g.isConnected s = true) :
    (g.handleClientRead c m).sent = g.sent ++ [(s, forwarded g.messageId m)] ∧
    ∀ reply : Message, reply.id = g.messageId →
      ¬ (reply.service = Service_ServiceDirectory ∧
         reply.function = ServiceDirectoryFunction_Service ∧
         reply.type = MessageType.Type_Reply) →
      ((g.handleClientRead c m).handleServiceRead s reply).sent =
        (g.handleClientRead c m).sent ++
          [(c, { id := m.id, type := MessageType.Type_Reply, service := reply.service,
                 path := reply.path, function := reply.function, buffer := reply.buffer })] := by
  have hfw : g.handleClientRead c m = g.forwardClientMessage c s m := by
    simp [handleClientRead, hs, hc, Option.filter]
  rw [hfw, forwardClientMessage_eq]
  refine ⟨by simp [send, record], ?_⟩
  intro reply hid hnd
  unfold handleServiceRead
  have h1 : StdMap.find s ((({ g with messageId := g.messageId + 1 }).record s g.messageId
      (m.id, c)).send s (forwarded g.messageId m))._serviceToClient =
      some (StdMap.set (fun a b => decide (a < b)) g.messageId (m.id, c)
        (({ g with messageId := g.messageId + 1 } : GatewayPrivate).requests s)) := by
    have := find_record ({ g with messageId := g.messageId + 1 }) s g.messageId (m.id, c)
    simpa [send] using this
  rw [h1]
  simp only [hid, StdMap.find_set, if_true, if_neg hnd]
  simp [forwardServiceMessage, newMessage, Message.buildReplyFrom, send]

/-- Instance of C2: client 100 calls function 5 of the directory service through
the gateway and the directory answers. -/
theorem reply_round_trip_witness :
    StdMap.find 1 (GatewayPrivate.new.listen "tcp://gw:1")._services = some 1 ∧
    (GatewayPrivate.new.listen "tcp://gw:1").isConnected 1 = true ∧
    (((GatewayPrivate.new.listen "tcp://gw:1").handleClientRead 100
        ⟨7, MessageType.Type_Call, 1, 0, 5, Buffer.raw [1, 2]⟩).handleServiceRead 1
        ⟨1, MessageType.Type_Reply, 1, 0, 5, Buffer.raw [3]⟩).sent =
      ((GatewayPrivate.new.listen "tcp://gw:1").handleClientRead 100
        ⟨7, MessageType.Type_Call, 1, 0, 5, Buffer.raw [1, 2]⟩).sent ++
        [(100, ⟨7, MessageType.Type_Reply, 1, 0, 5, Buffer.raw [3]⟩)] :=
  ⟨by decide, by decide,
   (reply_round_trip (GatewayPrivate.new.listen "tcp://gw:1") 100 1
      ⟨7, MessageType.Type_Call, 1, 0, 5, Buffer.raw [1, 2]⟩ (by decide) (by decide)).2
      ⟨1, MessageType.Type_Reply, 1, 0, 5, Buffer.raw [3]⟩ (by decide) (by decide)⟩

theorem forwardClientMessage_frame (g : GatewayPrivate) (client service : TransportSocket)
    (msg : Message) :
    (g.forwardClientMessage client service msg).sent =
      g.sent ++ [(service, forwarded g.messageId msg)] ∧
    (g.forwardClientMessage client service msg).messageId = g.messageId + 1 ∧
    (g.forwardClientMessage client service msg).requests service =
      StdMap.set (fun a b => decide (a < b)) g.messageId (msg.id, client) (g.requests service) := by
  rw [forwardClientMessage_eq]
  refine ⟨by simp [send, record], by simp [send, record], ?_⟩
  have := requests_record ({ g with messageId := g.messageId + 1 }) service service g.messageId
    (msg.id, client)
  simpa [send, requests] using this

theorem findService_of_installed (service : TransportSocket) (serviceId : Nat)
    (l : List (Nat × TransportSocket)) (hin : (serviceId, service) ∈ l)
    (honly : ∀ e ∈ l, e.2 = service → e.1 = serviceId) :
    findService service l = some serviceId := by
  induction l with
  | nil => simp at hin
  | cons e rest ih =>
    by_cases he : e.2 = service
    · simp [findService, he, honly e (by simp) he]
    · have hin2 : (serviceId, service) ∈ rest := by
        rcases List.mem_cons.1 hin with h | h
        · exact absurd (by rw [← h]) he
        · exact h
      simp only [findService, he, if_false]
      exact ih hin2 (fun x hx => honly x (List.mem_cons_of_mem _ hx))

/-- The callback `onSocketConnected` for the backend socket `s` of the
service `serviceId` (and of no other service, and not the directory socket)
when the vector of pending messages of the service is not empty: the first
read through a queued pointer leaves defined behaviour; nothing is sent and
no table changes. -/
theorem onSocketConnected_dangling (g : GatewayPrivate) (s : TransportSocket)
    (serviceId : Nat) (pmv : List (Message × TransportSocket))
    (hs : s ≠ g._socketToServiceDirectory)
    (hinst : StdMap.find serviceId g._services = some s)
    (honly : ∀ e ∈ g._services, e.2 = s → e.1 = serviceId)
    (hp : StdMap.find serviceId g._pendingMessage = some pmv) (hne : pmv ≠ []) :
    g.onSocketConnected s =
      { g with undefined := some (g.undefined.getD Undefined.danglingMessage) } := by
  have hfs := findService_of_installed s serviceId g._services
    (StdMap.mem_of_find _ _ _ hinst) honly
  have ht : g.touchPending serviceId = g := by
    simp [touchPending, StdMap.contains, hp]
  obtain ⟨x, rest, rfl⟩ := List.exists_cons_of_ne_nil hne
  simp [onSocketConnected, hs, hfs, ht, hp, forwardPending]

/-- C8 (the code at the failing input): a run of the callbacks in which
every step before the last is defined. Client 100 asks the directory for
service 42, the directory answers and the gateway opens socket 2 to the
backend; before socket 2 is connected, client 100 calls service 42, and
`handleClientRead` queues the address of the local message of that
`onSocketReadyRead` call, which then returns. When socket 2 connects,
`onSocketConnected(2)` reads through the queued pointer: the run leaves
defined behaviour there, and no message is sent to the backend socket 2. -/
theorem queued_message_is_gone_at_connect :
    scenarioOpened.undefined = none ∧
    StdMap.find 42 scenarioOpened._services = some 2 ∧
    scenarioOpened.isConnected 2 = false ∧
    scenarioQueued.undefined = none ∧
    StdMap.find 42 scenarioQueued._pendingMessage = some [(scenarioCall, 100)] ∧
    scenarioQueued.sent = scenarioOpened.sent ++ [(1, resolveRequest 6 42)] ∧
    (scenarioQueued.onSocketConnected 2).undefined = some Undefined.danglingMessage ∧
    (scenarioQueued.onSocketConnected 2).sent = scenarioQueued.sent ∧
    (∀ e ∈ (scenarioQueued.onSocketConnected 2).sent, e.1 ≠ 2) ∧
    (scenarioQueued.onSocketConnected 2).requests 2 = [] := by
  decide

/-- C9 (as a counterexample): after one client message for the unknown
service 42 has been queued and its resolve request sent, a second client
message for service 42 makes the gateway send a second resolve Call to the
directory, so that two resolve requests for service 42 are outstanding; the
same happens when the backend socket of service 42 is installed but not yet
connected. -/
theorem single_resolve_counterexample :
    StdMap.find 42 (scenarioGateway.handleClientRead 100 scenarioCall)._pendingMessage =
      some [(scenarioCall, 100)] ∧
    (scenarioGateway.handleClientRead 100 scenarioCall).sent = [(1, resolveRequest 1 42)] ∧
    ((scenarioGateway.handleClientRead 100 scenarioCall).handleClientRead 100 scenarioCall2).sent =
      [(1, resolveRequest 1 42), (1, resolveRequest 2 42)] ∧
    ((scenarioGateway.handleClientRead 100 scenarioCall).handleClientRead 100
        scenarioCall2).requests 1 = [(1, (0, NULL)), (2, (0, NULL))] ∧
    StdMap.find 42 (scenarioBackend [1])._services = some 2 ∧
    (scenarioBackend [1]).isConnected 2 = false ∧
    ((scenarioBackend [1]).handleClientRead 100 scenarioCall).sent =
      [(1, resolveRequest 10 42)] := by
  decide

theorem find_storePending (g : GatewayPrivate) (client : TransportSocket) (msg : Message) :
    StdMap.find msg.service (g.storePending client msg)._pendingMessage =
      some ((StdMap.find msg.service g._pendingMessage).getD [] ++ [(msg, client)]) := by
  unfold storePending
  cases h : StdMap.find msg.service g._pendingMessage with
  | none => simp [StdMap.find_set]
  | some pendingMsg =>
    simp only [Option.getD_some]
    exact StdMap.find_replace_same _ _ _ (by simp [h])

/-- C9 (amended): every client message for a service that is absent from
`services`, or whose backend socket is not connected, is appended to
`pending[service]` and makes the gateway send exactly one resolve Call to the
directory socket, whether or not messages are already queued for that
service. -/
theorem unroutable_message_is_queued_and_resolved (g : GatewayPrivate) (c : TransportSocket)
    (m : Message)
    (h : ∀ s, StdMap.find m.service g._services = some s → g.isConnected s = false) :
    (g.handleClientRead c m).sent =
      g.sent ++ [(g._socketToServiceDirectory, resolveRequest g.messageId m.service)] ∧
    StdMap.find m.service (g.handleClientRead c m)._pendingMessage =
      some ((StdMap.find m.service g._pendingMessage).getD [] ++ [(m, c)]) := by
  have hnone : (StdMap.find m.service g._services).filter g.isConnected = none := by
    cases hf : StdMap.find m.service g._services with
    | none => rfl
    | some s => simp [Option.filter, h s hf]
  unfold handleClientRead
  rw [hnone]
  simp only
  constructor
  · simp [send, storePending, record, masterMsg, newMessage, resolveRequest]
    split <;> rfl
  · have := find_storePending (((g.masterMsg m).2).record (g.masterMsg m).2._socketToServiceDirectory
      (g.masterMsg m).1.id (0, NULL)) c m
    simpa [send, record, masterMsg, newMessage] using this

/-- Instance of C9 (amended): a second message for service 42 while the first is
queued. -/
theorem unroutable_message_is_queued_and_resolved_witness :
    (∀ s, StdMap.find scenarioCall2.service
        (scenarioGateway.handleClientRead 100 scenarioCall)._services = some s →
      (scenarioGateway.handleClientRead 100 scenarioCall).isConnected s = false) ∧
    StdMap.find scenarioCall2.service ((scenarioGateway.handleClientRead 100
        scenarioCall).handleClientRead 100 scenarioCall2)._pendingMessage =
      some ((StdMap.find scenarioCall2.service
        (scenarioGateway.handleClientRead 100 scenarioCall)._pendingMessage).getD [] ++
        [(scenarioCall2, 100)]) :=
  ⟨by decide,
   (unroutable_message_is_queued_and_resolved
      (scenarioGateway.handleClientRead 100 scenarioCall) 100 scenarioCall2 (by decide)).2⟩

/-- C7 (the code at the failing input): the client 100 sends
`Call{id=7, service=42}` for the unknown service 42 and the gateway sends the
resolve request with id 1; when the directory answers it, the routing entry
found is the marker `(0, NULL)`, so the rewritten reply gets id 0 and `send`
is called through the null client pointer. Nothing is sent to the client. -/
theorem resolve_reply_reaches_null_client :
    (scenarioGateway.handleClientRead 100 scenarioCall).sent = [(1, resolveRequest 1 42)] ∧
    StdMap.find 1 ((scenarioGateway.handleClientRead 100 scenarioCall).requests 1) =
      some (0, NULL) ∧
    ((scenarioGateway.handleClientRead 100 scenarioCall).handleServiceRead 1
        (scenarioDirectoryReply 1)).sent =
      [(1, resolveRequest 1 42),
       (NULL, { id := 0, type := MessageType.Type_Reply, service := Service_ServiceDirectory,
                path := Path_Main, function := ServiceDirectoryFunction_Service,
                buffer := Buffer.serviceInfo
                  { serviceId := 42, name := "motion", machineId := "robot", processId := 3,
                    endpoints := ["tcp://gw:1"] } })] ∧
    (∀ e ∈ ((scenarioGateway.handleClientRead 100 scenarioCall).handleServiceRead 1
        (scenarioDirectoryReply 1)).sent, e.1 ≠ 100) := by
  decide

end GatewayPrivate
end Gateway

/-! ## The cache: close, insert, dial completions, disconnection -/

namespace TransportSocketCache

theorem closes_refl (c : TransportSocketCache) : Closes c c :=
  ⟨rfl, rfl, rfl, rfl, rfl, fun _ => ⟨rfl, rfl, id⟩, fun _ h => h, fun _ => ⟨0, by simp⟩⟩

theorem closes_trans (a b c : TransportSocketCache) (h1 : Closes a b) (h2 : Closes b c) :
    Closes a c := by
  obtain ⟨a1, a2, a3, a4, a5, a6, a7, a8⟩ := h1
  obtain ⟨b1, b2, b3, b4, b5, b6, b7, b8⟩ := h2
  refine ⟨b1.trans a1, b2.trans a2, b3.trans a3, b4.trans a4, b5.trans a5, ?_, ?_, ?_⟩
  · intro r
    exact ⟨(b6 r).1.trans (a6 r).1, (b6 r).2.1.trans (a6 r).2.1,
      fun h => (b6 r).2.2 ((a6 r).2.2 h)⟩
  · intro x hx
    exact b7 x (a7 x hx)
  · intro p
    obtain ⟨k1, hk1⟩ := a8 p
    obtain ⟨k2, hk2⟩ := b8 p
    refine ⟨k1 + k2, ?_⟩
    rw [hk2, hk1, List.append_assoc, List.replicate_add]

theorem closeAttempt_of_endpoint (c : TransportSocketCache) (r : Nat) (e : MessageSocketPtr)
    (h : (c.attempt r).endpoint = some e) :
    c.closeAttempt r = (c.call (SocketCall.disconnect e)).call
      (SocketCall.untrack e (c.attempt r).disconnectionTracking) := by
  simp [closeAttempt, h]

theorem setAttempt_out_of_range (c : TransportSocketCache) (r : Nat) (a : ConnectionAttempt)
    (h : ¬ r < c.attempts.length) : c.setAttempt r a = c := by
  simp [setAttempt, List.set_eq_of_length_le (Nat.le_of_not_lt h)]

theorem setPromise_out_of_range (c : TransportSocketCache) (p : Nat) (o : Outcome)
    (h : ¬ p < c.promises.length) : c.setPromise p o = c := by
  simp [setPromise, List.set_eq_of_length_le (Nat.le_of_not_lt h)]

theorem attempt_setAttempt (c : TransportSocketCache) (r q : Nat) (a : ConnectionAttempt) :
    (c.setAttempt r a).attempt q =
      if q = r ∧ r < c.attempts.length then a else c.attempt q := by
  by_cases hl : r < c.attempts.length
  · by_cases hq : q = r
    · subst hq
      simp [hl, attempt_setAttempt_same c q a hl]
    · simp [hq, attempt_setAttempt_ne c r q a hq]
  · simp [hl, setAttempt_out_of_range c r a hl]

theorem promise_setPromise (c : TransportSocketCache) (p q : Nat) (o : Outcome) :
    (c.setPromise p o).promise q =
      if q = p ∧ p < c.promises.length then c.promise p ++ [o] else c.promise q := by
  by_cases hl : p < c.promises.length
  · by_cases hq : q = p
    · subst hq
      simp [hl, promise_setPromise_same c q o hl]
    · simp [hq, setPromise, promise, List.getD_eq_getElem?_getD, List.getElem?_set, Ne.symm hq]
  · simp [hl, setPromise_out_of_range c p o hl]

theorem closeAttempt_of_no_endpoint (c : TransportSocketCache) (r : Nat)
    (h : (c.attempt r).endpoint = none) :
    c.closeAttempt r =
      (c.setAttempt r { c.attempt r with state := State.State_Error }).setPromise
        (c.attempt r).promise (Outcome.error "TransportSocketCache is closing.") := by
  have hp : ((c.setAttempt r { c.attempt r with state := State.State_Error }).attempt
      r).promise = (c.attempt r).promise := by
    rw [attempt_setAttempt]
    split <;> rfl
  unfold closeAttempt
  simp only
  split
  · rename_i e he
    rw [h] at he
    cases he
  · rw [hp]

theorem closes_closeAttempt (c : TransportSocketCache) (r : Nat) : Closes c (c.closeAttempt r) := by
  cases he : (c.attempt r).endpoint with
  | some e =>
    rw [closeAttempt_of_endpoint c r e he]
    refine ⟨rfl, rfl, rfl, rfl, rfl, fun _ => ⟨rfl, rfl, id⟩, ?_, fun _ => ⟨0, by simp [promise_call]⟩⟩
    intro x hx
    simp [call, hx]
  | none =>
    rw [closeAttempt_of_no_endpoint c r he]
    refine ⟨rfl, rfl, rfl, ?_, ?_, ?_, ?_, ?_⟩
    · simp [setPromise, setAttempt]
    · simp [setPromise, setAttempt]
    · intro q
      rw [attempt_setPromise, attempt_setAttempt]
      split
      · rename_i h
        rw [h.1]
        exact ⟨rfl, rfl, fun _ => rfl⟩
      · exact ⟨rfl, rfl, id⟩
    · intro x hx
      simpa [setPromise, setAttempt] using hx
    · intro p
      rw [promise_setPromise]
      split
      · rename_i h
        rw [h.1]
        exact ⟨1, by simp [promise_setAttempt]⟩
      · exact ⟨0, by simp [promise_setAttempt]⟩

theorem closes_foldl (refs : List Nat) (c : TransportSocketCache) :
    Closes c (refs.foldl (fun acc r => acc.closeAttempt r) c) := by
  induction refs generalizing c with
  | nil => exact closes_refl c
  | cons r rest ih =>
    exact closes_trans _ _ _ (closes_closeAttempt c r) (ih (c.closeAttempt r))

/-- The function `close()` as two loops: over the installed attempts, then
over the pending sockets. -/
theorem close_eq (c : TransportSocketCache) :
    c.close =
      { (c._allPendingConnections.foldl (fun acc it => acc.call (SocketCall.disconnect it))
          c.closeLoop) with
        _connections := [] } := by
  unfold close closeLoop installedRefs swappedOut
  simp only [List.foldl_flatten, List.foldl_map]

theorem disconnects_frame (pending : List MessageSocketPtr) (c : TransportSocketCache) :
    (pending.foldl (fun acc it => acc.call (SocketCall.disconnect it)) c) =
      { c with calls := c.calls ++ pending.map (fun it => SocketCall.disconnect it) } := by
  induction pending generalizing c with
  | nil => simp
  | cons s rest ih =>
    simp only [List.foldl_cons, ih]
    simp [call]

theorem closes_closeLoop (c : TransportSocketCache) : Closes c.swappedOut c.closeLoop :=
  closes_foldl c.installedRefs c.swappedOut

theorem close_frame (c : TransportSocketCache) :
    c.close._dying = true ∧ c.close._connections = [] ∧ c.close._allPendingConnections = [] ∧
    (∀ r, c.close.attempt r = c.closeLoop.attempt r) ∧
    (∀ p, c.close.promise p = c.closeLoop.promise p) ∧
    c.close.calls =
      c.closeLoop.calls ++
      c._allPendingConnections.map (fun it => SocketCall.disconnect it) := by
  rw [close_eq, disconnects_frame]
  obtain ⟨h1, h2, h3, -⟩ := closes_closeLoop c
  exact ⟨h1, rfl, h3, fun _ => rfl, fun _ => rfl, rfl⟩

/-- C12 (the code at the failing input): the cache right after `socket()`
started the two dials for a remote service with two endpoints holds the
pending attempt 0 under both urls, and the sockets 0 and 1 in
`_allPendingConnections`. The loop of `close()` visits attempt 0 once per
url: the first visit sets its state to `State_Error` and its promise to the
closing error; at the second visit the attempt still has no endpoint and
`setError` is called on the promise that is already set. At that point
`disconnect` has been called on no socket: the loop over the pending sockets
comes after the loop over the map. -/
theorem second_setError_precedes_disconnects :
    scenarioRace.installedRefs = [0, 0] ∧
    scenarioRace._allPendingConnections = [0, 1] ∧
    (scenarioRace.attempt 0).endpoint = none ∧
    scenarioRace.promise (scenarioRace.attempt 0).promise = [] ∧
    ((scenarioRace.swappedOut.closeAttempt 0).attempt 0).state = State.State_Error ∧
    ((scenarioRace.swappedOut.closeAttempt 0).attempt 0).endpoint = none ∧
    (scenarioRace.swappedOut.closeAttempt 0).promise
      ((scenarioRace.swappedOut.closeAttempt 0).attempt 0).promise =
      [Outcome.error "TransportSocketCache is closing."] ∧
    (∀ s ∈ scenarioRace._allPendingConnections,
      SocketCall.disconnect s ∉ (scenarioRace.swappedOut.closeAttempt 0).calls) ∧
    ((scenarioRace.swappedOut.closeAttempt 0).closeAttempt 0).promise
      ((scenarioRace.swappedOut.closeAttempt 0).attempt 0).promise =
      [Outcome.error "TransportSocketCache is closing.",
       Outcome.error "TransportSocketCache is closing."] ∧
    (∀ s ∈ scenarioRace._allPendingConnections,
      SocketCall.disconnect s ∉
        ((scenarioRace.swappedOut.closeAttempt 0).closeAttempt 0).calls) := by
  decide

/-- The function `insert` on an open cache over an installed attempt that is
pending: the attempt keeps its promise, which is set to the socket. -/
theorem insert_pending_eq (c : TransportSocketCache) (m : String) (u : Url)
    (s : MessageSocketPtr) (r : Nat) (hopen : c._dying = false)
    (hl : c.lookup m u = some r) (hr : r < c.attempts.length)
    (hs : (c.attempt r).state = State.State_Pending) :
    c.insert m u s =
      { c with attempts := c.attempts.set r (adopted c (c.attempt r) s),
               promises := c.promises.set (c.attempt r).promise
                 (c.promise (c.attempt r).promise ++ [Outcome.value s]),
               calls := c.calls ++ [SocketCall.track s c.nextLink u (insertInfo m)],
               nextLink := c.nextLink + 1 } := by
  obtain ⟨dy, conns, pend, atts, proms, calls, ns, nl⟩ := c
  simp only at hopen hr
  subst hopen
  simp only [lookup] at hl
  simp [attempt, List.getD_eq_getElem?_getD, hr] at hs
  simp [insert, trackDisconnection, lookup, attempt, setAttempt, setPromise, promise, adopted,
    insertInfo, hl, hs, hr, List.getD_eq_getElem?_getD, List.getElem?_set]

/-- The function `insert` on an open cache with no attempt at the key. -/
theorem insert_fresh_eq (c : TransportSocketCache) (m : String) (u : Url)
    (s : MessageSocketPtr) (hopen : c._dying = false) (hl : c.lookup m u = none) :
    c.insert m u s = (c.withInserted m u s).install m u c.attempts.length := by
  obtain ⟨dy, conns, pend, atts, proms, calls, ns, nl⟩ := c
  simp only at hopen
  subst hopen
  simp only [lookup] at hl
  simp [insert, trackDisconnection, lookup, attempt, setAttempt, setPromise, promise,
    insertInfo, hl, List.getD_eq_getElem?_getD, List.getElem?_set, newAttempt, newPromise,
    install, withInserted, insertedAttempt, urlMap]
  rw [List.getElem_append_right (by simp)]
  simp

/-- When every key of the machine's url map that is an endpoint of `servInfo`
leads to the attempt `a`, and there is such a key, `socket()` on an open cache
returns the promise of `a` and only adds its unused attempt to the heap. -/
theorem socket_returns_installed (getMachineId : String) (c : TransportSocketCache)
    (servInfo : ServiceInfo) (url : String) (a : Nat) (u0 : Url) (hopen : c._dying = false)
    (hu0 : u0 ∈ servInfo.endpoints) (hl : c.lookup servInfo.machineId u0 = some a)
    (hall : ∀ e ∈ c.urlMap servInfo.machineId, e.1 ∈ servInfo.endpoints → e.2 = a)
    (ha : a < c.attempts.length) :
    socket getMachineId c servInfo url = ((c.attempt a).promise, withFresh c servInfo 0) := by
  have hfound : c.findConnection servInfo.machineId servInfo.endpoints = some a := by
    cases hfc : c.findConnection servInfo.machineId servInfo.endpoints with
    | none =>
      have h1 := (findConnection_eq_none c _ _).1 hfc u0 hu0
      rw [hl] at h1
      cases h1
    | some b =>
      rw [findConnection_eq] at hfc
      obtain ⟨e, hem, he1, he2⟩ := findMatching_eq_some _ _ _ hfc
      rw [← he2, hall e hem he1]
  rw [socket_reuse getMachineId c servInfo url hopen _ hfound,
    attempt_withFresh_old c servInfo 0 a ha]

/-- C13 (as a counterexample): socket 0 is being dialed for `beta` and the
caller holds the future of promise 0, unset. `insert` of socket 70 at the same
machine and url keeps promise 0 on the attempt, makes no new promise, and sets
promise 0: the future obtained earlier now holds socket 70. -/
theorem insert_over_pending_counterexample :
    scenarioPending.lookup "beta" ⟨"tcp", "5.6.7.8", 9⟩ = some 0 ∧
    (scenarioPending.attempt 0).state = State.State_Pending ∧
    (scenarioPending.attempt 0).promise = 0 ∧
    scenarioPending.futureValue 0 = none ∧
    ((scenarioPending.insert "beta" ⟨"tcp", "5.6.7.8", 9⟩ 70).attempt 0).promise = 0 ∧
    (scenarioPending.insert "beta" ⟨"tcp", "5.6.7.8", 9⟩ 70).promises.length =
      scenarioPending.promises.length ∧
    (scenarioPending.insert "beta" ⟨"tcp", "5.6.7.8", 9⟩ 70).futureValue 0 =
      some (Outcome.value 70) := by
  decide

/-- C13 (amended): for `insert(machineId, url, socket)` on an open cache where
a pending attempt `r` is installed at `(machineId, url)`, the attempt keeps its
promise (no promise is made), that promise is set to `socket`, so a future
obtained earlier from it holds `socket` when the promise was unset, the
attempt becomes connected with `socket` as endpoint, the map is unchanged, and
a later `socket()` call that finds the attempt returns the same promise. -/
theorem insert_over_pending (c : TransportSocketCache) (m : String) (u : Url)
    (s : MessageSocketPtr) (r : Nat) (hopen : c._dying = false)
    (hl : c.lookup m u = some r) (hr : r < c.attempts.length)
    (hs : (c.attempt r).state = State.State_Pending)
    (hp : (c.attempt r).promise < c.promises.length) :
    ((c.insert m u s).attempt r).promise = (c.attempt r).promise ∧
    (c.insert m u s).promises.length = c.promises.length ∧
    (c.insert m u s).promise (c.attempt r).promise =
      c.promise (c.attempt r).promise ++ [Outcome.value s] ∧
    (c.promise (c.attempt r).promise = [] →
      (c.insert m u s).futureValue (c.attempt r).promise = some (Outcome.value s)) ∧
    ((c.insert m u s).attempt r).state = State.State_Connected ∧
    ((c.insert m u s).attempt r).endpoint = some s ∧
    (c.insert m u s)._connections = c._connections ∧
    (∀ (getMachineId : String) (servInfo : ServiceInfo) (url : String),
      (c.insert m u s).findConnection servInfo.machineId servInfo.endpoints = some r →
      (socket getMachineId (c.insert m u s) servInfo url).1 = (c.attempt r).promise) := by
  have heq := insert_pending_eq c m u s r hopen hl hr hs
  have hxa : (c.insert m u s).attempts = c.attempts.set r (adopted c (c.attempt r) s) := by
    rw [heq]
  have hxp : (c.insert m u s).promises = c.promises.set (c.attempt r).promise
      (c.promise (c.attempt r).promise ++ [Outcome.value s]) := by
    rw [heq]
  have hxd : (c.insert m u s)._dying = false := by
    rw [heq]
    exact hopen
  have hxc : (c.insert m u s)._connections = c._connections := by
    rw [heq]
  have hatt : (c.insert m u s).attempt r = adopted c (c.attempt r) s := by
    simp [attempt, hxa, List.getD_eq_getElem?_getD, List.getElem?_set, hr]
  have hprom : (c.insert m u s).promise (c.attempt r).promise =
      c.promise (c.attempt r).promise ++ [Outcome.value s] := by
    simp [promise, hxp, List.getD_eq_getElem?_getD, List.getElem?_set, hp]
  refine ⟨by rw [hatt]; rfl, by rw [hxp]; simp, hprom, ?_, by rw [hatt]; rfl,
    by rw [hatt]; rfl, hxc, ?_⟩
  · intro hunset
    unfold futureValue
    rw [hprom, hunset]
    rfl
  · intro g servInfo url hfound
    rw [socket_reuse g (c.insert m u s) servInfo url hxd r hfound,
      attempt_withFresh_old (c.insert m u s) servInfo 0 r (by rw [hxa]; simpa using hr), hatt]
    rfl

/-- Instance of C13 (amended): socket 70 is inserted over the pending dial to
`beta`. -/
theorem insert_over_pending_witness :
    scenarioPending._dying = false ∧
    scenarioPending.lookup "beta" ⟨"tcp", "5.6.7.8", 9⟩ = some 0 ∧
    (scenarioPending.attempt 0).state = State.State_Pending ∧
    ((scenarioPending.insert "beta" ⟨"tcp", "5.6.7.8", 9⟩ 70).attempt 0).promise =
      (scenarioPending.attempt 0).promise ∧
    (scenarioPending.insert "beta" ⟨"tcp", "5.6.7.8", 9⟩ 70).promises.length =
      scenarioPending.promises.length :=
  ⟨by decide, by decide, by decide,
   (insert_over_pending scenarioPending "beta" ⟨"tcp", "5.6.7.8", 9⟩ 70 0 (by decide)
      (by decide) (by decide) (by decide) (by decide)).1,
   (insert_over_pending scenarioPending "beta" ⟨"tcp", "5.6.7.8", 9⟩ 70 0 (by decide)
      (by decide) (by decide) (by decide) (by decide)).2.1⟩

theorem promise_withFresh_old (c : TransportSocketCache) (servInfo : ServiceInfo) (n : Int)
    (p : Nat) (h : p < c.promises.length) :
    (withFresh c servInfo n).promise p = c.promise p := by
  simp [withFresh, promise, List.getD_eq_getElem?_getD, List.getElem?_append_left h]

theorem install_frame (c : TransportSocketCache) (m : String) (u : Url) (r : Nat) :
    (c.install m u r).attempts = c.attempts ∧ (c.install m u r).promises = c.promises ∧
    (c.install m u r)._dying = c._dying ∧ (c.install m u r).calls = c.calls ∧
    (c.install m u r).nextSocket = c.nextSocket ∧
    (c.install m u r)._allPendingConnections = c._allPendingConnections :=
  ⟨rfl, rfl, rfl, rfl, rfl, rfl⟩

/-- C14: on an open cache with no attempt at `(machineId, url)`,
`insert(machineId, url, socket)` installs at that key a new attempt that is
connected, has `socket` as endpoint, `[url]` as related urls and a promise
whose future already holds `socket`; every other key keeps its attempt; and a
later `socket(info, _)` for that machine whose endpoints contain `url` and no
other key of the machine returns a future holding `socket`, makes no call on
any socket and leaves the map and the pending list unchanged. -/
theorem insert_without_attempt (c : TransportSocketCache) (m : String) (u : Url)
    (s : MessageSocketPtr) (hopen : c._dying = false) (hnone : c.lookup m u = none) :
    (c.insert m u s).lookup m u = some c.attempts.length ∧
    ((c.insert m u s).attempt c.attempts.length).state = State.State_Connected ∧
    ((c.insert m u s).attempt c.attempts.length).endpoint = some s ∧
    ((c.insert m u s).attempt c.attempts.length).relatedUrls = [u] ∧
    (c.insert m u s).futureValue ((c.insert m u s).attempt c.attempts.length).promise =
      some (Outcome.value s) ∧
    (∀ m2 u2, ¬ (m2 = m ∧ u2 = u) → (c.insert m u s).lookup m2 u2 = c.lookup m2 u2) ∧
    (∀ (getMachineId : String) (servInfo : ServiceInfo) (url : String),
      servInfo.machineId = m → u ∈ servInfo.endpoints →
      (∀ u2 ∈ servInfo.endpoints, u2 ≠ u → c.lookup m u2 = none) →
      (socket getMachineId (c.insert m u s) servInfo url).2.futureValue
          (socket getMachineId (c.insert m u s) servInfo url).1 = some (Outcome.value s) ∧
      (socket getMachineId (c.insert m u s) servInfo url).2.calls = (c.insert m u s).calls ∧
      (socket getMachineId (c.insert m u s) servInfo url).2.nextSocket =
        (c.insert m u s).nextSocket ∧
      (socket getMachineId (c.insert m u s) servInfo url).2._connections =
        (c.insert m u s)._connections ∧
      (socket getMachineId (c.insert m u s) servInfo url).2._allPendingConnections =
        (c.insert m u s)._allPendingConnections) := by
  have heq := insert_fresh_eq c m u s hopen hnone
  obtain ⟨f1, f2, f3, -, -, -⟩ := install_frame (c.withInserted m u s) m u c.attempts.length
  have hxa : (c.insert m u s).attempts = c.attempts ++ [insertedAttempt c u s] := by
    rw [heq, f1]; rfl
  have hxp : (c.insert m u s).promises = c.promises ++ [[], [Outcome.value s]] := by
    rw [heq, f2]; rfl
  have hxd : (c.insert m u s)._dying = false := by
    rw [heq, f3]; exact hopen
  have hlook : ∀ m2 u2, (c.insert m u s).lookup m2 u2 =
      if m2 = m ∧ u2 = u then some c.attempts.length else c.lookup m2 u2 := by
    intro m2 u2
    rw [heq, lookup_install]
    rfl
  have hatt : (c.insert m u s).attempt c.attempts.length = insertedAttempt c u s := by
    simp [attempt, hxa, List.getD_eq_getElem?_getD]
  have hprom : (c.insert m u s).promise (c.promises.length + 1) = [Outcome.value s] := by
    simp only [promise, hxp, List.getD_eq_getElem?_getD]
    rw [List.getElem?_append_right (by omega)]
    simp
  have hfut : (c.insert m u s).futureValue ((c.insert m u s).attempt c.attempts.length).promise =
      some (Outcome.value s) := by
    unfold futureValue
    rw [hatt]
    simp only [insertedAttempt]
    rw [hprom]
    rfl
  refine ⟨by rw [hlook]; simp, by rw [hatt]; rfl, by rw [hatt]; rfl, by rw [hatt]; rfl, hfut,
    ?_, ?_⟩
  · intro m2 u2 hne
    rw [hlook, if_neg hne]
  · intro g servInfo url hm hu hothers
    have hmap : (c.insert m u s).urlMap m = StdMap.set Url.lt u c.attempts.length (c.urlMap m) := by
      rw [heq, urlMap_install]
      rfl
    have hall : ∀ e ∈ (c.insert m u s).urlMap servInfo.machineId,
        e.1 ∈ servInfo.endpoints → e.2 = c.attempts.length := by
      intro e he hin
      rw [hm, hmap] at he
      rcases StdMap.mem_set _ _ _ _ _ he with h1 | h1
      · rw [h1]
      · exfalso
        have hk : c.lookup m e.1 = none := by
          by_cases hk : e.1 = u
          · rw [hk]; exact hnone
          · exact hothers e.1 hin hk
        rw [urlMap_eq, StdMap.find_eq_none_iff] at hk
        exact hk e h1 rfl
    have hs := socket_returns_installed g (c.insert m u s) servInfo url c.attempts.length u hxd
      hu (by rw [hm, hlook]; simp) hall (by rw [hxa]; simp)
    rw [hs]
    refine ⟨?_, by simp [withFresh], by simp [withFresh], by simp [withFresh],
      by simp [withFresh]⟩
    simp only
    unfold futureValue
    rw [promise_withFresh_old _ _ _ _ (by rw [hatt, hxp]; simp [insertedAttempt])]
    exact hfut

/-- Instance of C14: socket 70 is inserted for the machine `beta` into a new
cache. -/
theorem insert_without_attempt_witness :
    TransportSocketCache.new._dying = false ∧
    TransportSocketCache.new.lookup "beta" ⟨"tcp", "5.6.7.8", 9⟩ = none ∧
    (TransportSocketCache.new.insert "beta" ⟨"tcp", "5.6.7.8", 9⟩ 70).lookup "beta"
      ⟨"tcp", "5.6.7.8", 9⟩ = some TransportSocketCache.new.attempts.length ∧
    (socket "self" (TransportSocketCache.new.insert "beta" ⟨"tcp", "5.6.7.8", 9⟩ 70)
        scenarioBeta "tcp://5.6.7.8:9").2.futureValue
      (socket "self" (TransportSocketCache.new.insert "beta" ⟨"tcp", "5.6.7.8", 9⟩ 70)
        scenarioBeta "tcp://5.6.7.8:9").1 = some (Outcome.value 70) :=
  ⟨by decide, by decide,
   (insert_without_attempt TransportSocketCache.new "beta" ⟨"tcp", "5.6.7.8", 9⟩ 70 (by decide)
      (by decide)).1,
   ((insert_without_attempt TransportSocketCache.new "beta" ⟨"tcp", "5.6.7.8", 9⟩ 70 (by decide)
      (by decide)).2.2.2.2.2.2 "self" scenarioBeta "tcp://5.6.7.8:9" (by decide) (by decide)
      (by decide)).1⟩

/-- A successful dial completion on an open cache whose record is present and
pending: the attempt becomes connected with the socket as endpoint, its
promise is set to the socket and the disconnection of the socket is tracked.
The socket stays in `_allPendingConnections`. -/
theorem dial_success_eq (c : TransportSocketCache) (info : ServiceInfo)
    (s : MessageSocketPtr) (u : Url) (a : Nat) (hd : c._dying = false)
    (hl : c.lookup info.machineId u = some a) (ha : a < c.attempts.length)
    (hs : (c.attempt a).state = State.State_Pending) :
    c.onSocketParallelConnectionAttempt false s u info =
      { c with attempts := c.attempts.set a
                 { c.attempt a with attemptCount := (c.attempt a).attemptCount - 1,
                                    state := State.State_Connected, endpoint := some s,
                                    disconnectionTracking := some c.nextLink },
               promises := c.promises.set (c.attempt a).promise
                 (c.promise (c.attempt a).promise ++ [Outcome.value s]),
               calls := c.calls ++ [SocketCall.track s c.nextLink u info],
               nextLink := c.nextLink + 1 } := by
  obtain ⟨dy, conns, pend, atts, proms, calls, ns, nl⟩ := c
  simp only at hd ha
  subst hd
  simp only [lookup] at hl
  simp [attempt, List.getD_eq_getElem?_getD, ha] at hs
  simp [onSocketParallelConnectionAttempt, trackDisconnection, lookup, attempt, setAttempt,
    setPromise, promise, hl, hs, ha, List.getD_eq_getElem?_getD, List.getElem?_set]

/-- A dial completion, successful or not, on an open cache whose record is
present and already connected: the count goes down, the socket leaves the
pending list and is disconnected, and `checkClear` erases nothing. -/
theorem dial_rejected_eq (c : TransportSocketCache) (hasError : Bool) (info : ServiceInfo)
    (s : MessageSocketPtr) (u : Url) (a : Nat) (hd : c._dying = false)
    (hl : c.lookup info.machineId u = some a) (ha : a < c.attempts.length)
    (hs : (c.attempt a).state = State.State_Connected) :
    c.onSocketParallelConnectionAttempt hasError s u info =
      { c with attempts := c.attempts.set a
                 { c.attempt a with attemptCount := (c.attempt a).attemptCount - 1 },
               _allPendingConnections :=
                 c._allPendingConnections.filter (fun x => decide (x ≠ s)),
               calls := c.calls ++ [SocketCall.disconnect s] } := by
  obtain ⟨dy, conns, pend, atts, proms, calls, ns, nl⟩ := c
  simp only at hd ha
  subst hd
  simp only [lookup] at hl
  simp [attempt, List.getD_eq_getElem?_getD, ha] at hs
  simp [onSocketParallelConnectionAttempt, lookup, attempt, setAttempt, removePending, call,
    checkClear, hl, hs, ha, List.getD_eq_getElem?_getD, List.getElem?_set]

theorem promise_of_set (c x : TransportSocketCache) (p : Nat) (l : PromiseState)
    (hx : x.promises = c.promises.set p l) (hp : p < c.promises.length) :
    x.promise p = l := by
  simp [promise, hx, List.getD_eq_getElem?_getD, List.getElem?_set, hp]

theorem settled_of_success (c : TransportSocketCache) (info : ServiceInfo)
    (s : MessageSocketPtr) (u : Url) (a : Nat) (hd : c._dying = false)
    (hl : c.lookup info.machineId u = some a) (ha : a < c.attempts.length)
    (hs : (c.attempt a).state = State.State_Pending)
    (hp : (c.attempt a).promise < c.promises.length)
    (hunset : c.promise (c.attempt a).promise = []) :
    Settled (c.onSocketParallelConnectionAttempt false s u info) c._connections a s
      (c.attempt a).promise := by
  rw [dial_success_eq c info s u a hd hl ha hs]
  refine ⟨hd, rfl, by simpa using ha, ?_, ?_, ?_, ?_⟩
  · simp [attempt, List.getD_eq_getElem?_getD, List.getElem?_set, ha]
  · simp [attempt, List.getD_eq_getElem?_getD, List.getElem?_set, ha]
  · simp [attempt, List.getD_eq_getElem?_getD, List.getElem?_set, ha]
  · rw [promise_of_set c _ (c.attempt a).promise _ rfl hp, hunset]
    rfl

theorem settled_step (c : TransportSocketCache) (conns : ConnectionMap) (hasError : Bool)
    (info : ServiceInfo) (s s2 : MessageSocketPtr) (u : Url) (a p : Nat)
    (h : Settled c conns a s p)
    (hl : (StdMap.find info.machineId conns).bind (StdMap.find u) = some a) :
    Settled (c.onSocketParallelConnectionAttempt hasError s2 u info) conns a s p ∧
    (c.onSocketParallelConnectionAttempt hasError s2 u info)._allPendingConnections =
      c._allPendingConnections.filter (fun x => decide (x ≠ s2)) ∧
    (c.onSocketParallelConnectionAttempt hasError s2 u info).calls =
      c.calls ++ [SocketCall.disconnect s2] := by
  obtain ⟨hd, hc, ha, hs, he, hp, hv⟩ := h
  have hl2 : c.lookup info.machineId u = some a := by
    unfold lookup
    rw [hc]
    exact hl
  rw [dial_rejected_eq c hasError info s2 u a hd hl2 ha hs]
  refine ⟨⟨hd, hc, by simpa using ha, ?_, ?_, ?_, hv⟩, rfl, rfl⟩
  · simpa [attempt, List.getD_eq_getElem?_getD, List.getElem?_set, ha] using hs
  · simpa [attempt, List.getD_eq_getElem?_getD, List.getElem?_set, ha] using he
  · simpa [attempt, List.getD_eq_getElem?_getD, List.getElem?_set, ha] using hp

theorem settled_completions (conns : ConnectionMap) (info : ServiceInfo)
    (s : MessageSocketPtr) (a p : Nat) (done : List (Bool × MessageSocketPtr × Url))
    (c : TransportSocketCache) (h : Settled c conns a s p)
    (hl : ∀ d ∈ done, (StdMap.find info.machineId conns).bind (StdMap.find d.2.2) = some a) :
    Settled (completions info done c) conns a s p ∧
    (∀ x, x ∉ c._allPendingConnections → x ∉ (completions info done c)._allPendingConnections) ∧
    (∀ e ∈ c.calls, e ∈ (completions info done c).calls) ∧
    (∀ d ∈ done, d.2.1 ∉ (completions info done c)._allPendingConnections ∧
      SocketCall.disconnect d.2.1 ∈ (completions info done c).calls) := by
  induction done generalizing c with
  | nil => exact ⟨h, fun _ hx => hx, fun _ he => he, by simp⟩
  | cons d rest ih =>
    obtain ⟨hset, hpend, hcalls⟩ := settled_step c conns d.1 info s d.2.1 d.2.2 a p h
      (hl d (by simp))
    obtain ⟨i1, i2, i3, i4⟩ := ih (c.onSocketParallelConnectionAttempt d.1 d.2.1 d.2.2 info)
      hset (fun x hx => hl x (List.mem_cons_of_mem _ hx))
    have hunf : completions info (d :: rest) c =
        completions info rest (c.onSocketParallelConnectionAttempt d.1 d.2.1 d.2.2 info) := rfl
    rw [hunf]
    refine ⟨i1, ?_, ?_, ?_⟩
    · intro x hx
      apply i2
      rw [hpend]
      intro hmem
      exact hx (List.mem_filter.1 hmem).1
    · intro e he
      apply i3
      rw [hcalls]
      exact List.mem_append_left _ he
    · intro x hx
      rcases List.mem_cons.1 hx with h0 | hin
      · subst h0
        constructor
        · apply i2
          rw [hpend]
          simp
        · apply i3
          rw [hcalls]
          simp
      · exact i4 x hin

/-- C15: on an open cache, for an attempt `a` that is installed at the url of
a dial and pending with an unset promise, the successful completion of that
dial makes the attempt connected with the socket `s` as endpoint and sets the
promise to `s`; after every sequence of later completions, successful or
failed, of dials whose url leads to the same attempt, the attempt is still
connected with endpoint `s` and the same promise, which still holds `s` and
nothing else, the map is unchanged, and every later socket has been removed
from `_allPendingConnections` and disconnected. -/
theorem first_success_is_final (c : TransportSocketCache) (info : ServiceInfo)
    (s : MessageSocketPtr) (u : Url) (a : Nat) (hopen : c._dying = false)
    (hl : c.lookup info.machineId u = some a) (ha : a < c.attempts.length)
    (hs : (c.attempt a).state = State.State_Pending)
    (hp : (c.attempt a).promise < c.promises.length)
    (hunset : c.promise (c.attempt a).promise = []) :
    Settled (c.onSocketParallelConnectionAttempt false s u info) c._connections a s
      (c.attempt a).promise ∧
    ∀ later : List (Bool × MessageSocketPtr × Url),
      (∀ d ∈ later, c.lookup info.machineId d.2.2 = some a) →
      Settled (completions info later (c.onSocketParallelConnectionAttempt false s u info))
        c._connections a s (c.attempt a).promise ∧
      (∀ d ∈ later,
        d.2.1 ∉ (completions info later
          (c.onSocketParallelConnectionAttempt false s u info))._allPendingConnections ∧
        SocketCall.disconnect d.2.1 ∈ (completions info later
          (c.onSocketParallelConnectionAttempt false s u info)).calls) := by
  have h1 := settled_of_success c info s u a hopen hl ha hs hp hunset
  refine ⟨h1, ?_⟩
  intro later hlater
  obtain ⟨i1, -, -, i4⟩ := settled_completions c._connections info s a (c.attempt a).promise
    later _ h1 hlater
  exact ⟨i1, i4⟩

theorem find_eraseAll (us : List Url) (m : List (Url × Nat)) (u : Url) :
    StdMap.find u (us.foldl (fun acc uit => StdMap.erase uit acc) m) =
      if u ∈ us then none else StdMap.find u m := by
  induction us generalizing m with
  | nil => simp
  | cons v rest ih =>
    simp only [List.foldl_cons, ih, StdMap.find_erase, List.mem_cons]
    by_cases h1 : u ∈ rest
    · simp [h1]
    · by_cases h2 : u = v
      · simp [h2]
      · simp [h1, h2]

theorem checkClear_frame (c : TransportSocketCache) (a : Nat) (m : String) :
    (c.checkClear a m).attempts = c.attempts ∧ (c.checkClear a m).promises = c.promises ∧
    (c.checkClear a m)._dying = c._dying ∧ (c.checkClear a m).calls = c.calls ∧
    (c.checkClear a m).nextSocket = c.nextSocket ∧
    (c.checkClear a m)._allPendingConnections = c._allPendingConnections := by
  unfold checkClear
  simp only
  split
  · split
    · exact ⟨rfl, rfl, rfl, rfl, rfl, rfl⟩
    · split <;> exact ⟨rfl, rfl, rfl, rfl, rfl, rfl⟩
  · exact ⟨rfl, rfl, rfl, rfl, rfl, rfl⟩

theorem checkClear_connections_of_error (c : TransportSocketCache) (a : Nat) (m : String)
    (hs : (c.attempt a).state = State.State_Error) :
    (c.checkClear a m)._connections =
      match StdMap.find m c._connections with
      | none => c._connections
      | some urls =>
        if ((c.attempt a).relatedUrls.foldl (fun acc uit => StdMap.erase uit acc)
            urls).length = 0 then
          StdMap.erase m c._connections
        else
          StdMap.replace m ((c.attempt a).relatedUrls.foldl
            (fun acc uit => StdMap.erase uit acc) urls) c._connections := by
  unfold checkClear
  simp only [hs, or_true, if_true]
  split
  · rfl
  · split <;> rfl

/-- What `checkClear` does for an attempt in `State_Error`: under the machine
`m` the related urls of the attempt are no longer keys, every other key keeps
its attempt, and the machine entry is not left empty. -/
theorem checkClear_of_error (c : TransportSocketCache) (a : Nat) (m : String)
    (hs : (c.attempt a).state = State.State_Error) :
    (∀ m2 u, (c.checkClear a m).lookup m2 u =
      if m2 = m ∧ u ∈ (c.attempt a).relatedUrls then none else c.lookup m2 u) ∧
    StdMap.find m (c.checkClear a m)._connections ≠ some [] := by
  have hc := checkClear_connections_of_error c a m hs
  unfold lookup
  rw [hc]
  cases hf : StdMap.find m c._connections with
  | none =>
    simp only
    refine ⟨?_, by simp [hf]⟩
    intro m2 u
    by_cases hm : m2 = m
    · subst hm
      simp [hf]
    · simp [hm]
  | some urls =>
    simp only
    have hfu := find_eraseAll (c.attempt a).relatedUrls urls
    by_cases hlen : ((c.attempt a).relatedUrls.foldl (fun acc uit => StdMap.erase uit acc)
        urls).length = 0
    · simp only [hlen, if_true]
      refine ⟨?_, by simp [StdMap.find_erase]⟩
      intro m2 u
      by_cases hm : m2 = m
      · subst hm
        have hnil := List.length_eq_zero.1 hlen
        have hfu2 := hfu u
        rw [hnil] at hfu2
        by_cases hu : u ∈ (c.attempt a).relatedUrls
        · simp [hu, StdMap.find_erase]
        · simp only [hu, if_false] at hfu2
          simp [hu, StdMap.find_erase, hf, ← hfu2, StdMap.find]
      · simp [StdMap.find_erase, hm]
    · simp only [hlen, if_false]
      have hsome : (StdMap.find m c._connections).isSome = true := by simp [hf]
      refine ⟨?_, ?_⟩
      · intro m2 u
        by_cases hm : m2 = m
        · subst hm
          simp only [StdMap.find_replace_same _ _ _ hsome, hf, true_and]
          simp only [Option.bind, hfu]
        · simp [StdMap.find_replace_ne _ _ _ _ hm, hm]
      · simp only [StdMap.find_replace_same _ _ _ hsome, ne_eq, Option.some.injEq]
        intro h0
        rw [h0] at hlen
        exact hlen rfl

/-- Instance of C15: of the two dials for `gamma`, socket 0 succeeds first and
socket 1 succeeds later. -/
theorem first_success_is_final_witness :
    scenarioRace._dying = false ∧
    scenarioRace.lookup scenarioGamma.machineId ⟨"tcp", "1.2.3.4", 9⟩ = some 0 ∧
    (scenarioRace.attempt 0).state = State.State_Pending ∧
    scenarioRace.promise (scenarioRace.attempt 0).promise = [] ∧
    Settled (completions scenarioGamma [(false, 1, ⟨"tcp", "5.6.7.8", 9⟩)]
        (scenarioRace.onSocketParallelConnectionAttempt false 0 ⟨"tcp", "1.2.3.4", 9⟩
          scenarioGamma))
      scenarioRace._connections 0 0 (scenarioRace.attempt 0).promise :=
  ⟨by decide, by decide, by decide, by decide,
   ((first_success_is_final scenarioRace scenarioGamma 0 ⟨"tcp", "1.2.3.4", 9⟩ 0 (by decide)
      (by decide) (by decide) (by decide) (by decide) (by decide)).2
      [(false, 1, ⟨"tcp", "5.6.7.8", 9⟩)] (by decide)).1⟩

/-- C16 (the code at the failing input): the two dials for `gamma`, socket 0
and socket 1, complete successfully one after the other. The promise handed to
the caller holds socket 0 and socket 1 has been disconnected, but
`_allPendingConnections` still contains socket 0: the success path does not
remove the socket from the list. -/
theorem race_leaves_winner_pending :
    scenarioRace._allPendingConnections = [0, 1] ∧
    (completions scenarioGamma
      [(false, 0, ⟨"tcp", "1.2.3.4", 9⟩), (false, 1, ⟨"tcp", "5.6.7.8", 9⟩)]
      scenarioRace)._allPendingConnections = [0] ∧
    (completions scenarioGamma
      [(false, 0, ⟨"tcp", "1.2.3.4", 9⟩), (false, 1, ⟨"tcp", "5.6.7.8", 9⟩)]
      scenarioRace).promise 0 = [Outcome.value 0] ∧
    SocketCall.disconnect 1 ∈ (completions scenarioGamma
      [(false, 0, ⟨"tcp", "1.2.3.4", 9⟩), (false, 1, ⟨"tcp", "5.6.7.8", 9⟩)]
      scenarioRace).calls ∧
    SocketCall.disconnect 0 ∉ (completions scenarioGamma
      [(false, 0, ⟨"tcp", "1.2.3.4", 9⟩), (false, 1, ⟨"tcp", "5.6.7.8", 9⟩)]
      scenarioRace).calls := by
  decide

theorem onSocketDisconnected_eq (c : TransportSocketCache) (url : Url) (info : ServiceInfo)
    (a : Nat) (hl : c.lookup info.machineId url = some a) :
    c.onSocketDisconnected url info = some ((c.markError a).checkClear a info.machineId) := by
  unfold lookup at hl
  unfold onSocketDisconnected
  cases hf : StdMap.find info.machineId c._connections with
  | none => simp [hf] at hl
  | some urls =>
    have hl2 : StdMap.find url urls = some a := by simpa [hf] using hl
    simp only [hl2]
    rfl

/-- C17: on an open cache, when the attempt `a` installed at
`(info.machineId, url)` lists the endpoints of `info` as related urls (as the
attempt made by `socket(info, _)` does), `onSocketDisconnected(url, info)`
marks it `State_Error` and erases every endpoint of `info` from the url map of
the machine, without leaving an empty machine entry and without touching
other keys; the next `socket(info, _)` then returns a new promise, installs a
new pending attempt under the urls it dials, and dials every candidate that
is not skipped. -/
theorem disconnection_evicts (getMachineId : String) (c : TransportSocketCache)
    (info : ServiceInfo) (url : Url) (next : String) (a : Nat) (hopen : c._dying = false)
    (hl : c.lookup info.machineId url = some a) (ha : a < c.attempts.length)
    (hrel : (c.attempt a).relatedUrls = info.endpoints) :
    ∃ c2, c.onSocketDisconnected url info = some c2 ∧
      (c2.attempt a).state = State.State_Error ∧
      (∀ u ∈ info.endpoints, c2.lookup info.machineId u = none) ∧
      StdMap.find info.machineId c2._connections ≠ some [] ∧
      (∀ m u, ¬ (m = info.machineId ∧ u ∈ info.endpoints) → c2.lookup m u = c.lookup m u) ∧
      (socket getMachineId c2 info next).1 = c2.promises.length ∧
      Campaign (socket getMachineId c2 info next).2 info.machineId
        ((connectionCandidates (decide (info.machineId = getMachineId)) info).filter
          (dialable (decide (info.machineId = getMachineId))))
        c2.attempts.length c2.promises.length
        ((connectionCandidates (decide (info.machineId = getMachineId)) info).length : Int) ∧
      (socket getMachineId c2 info next).2.calls =
        c2.calls ++ dialCalls info c2.nextSocket
          ((connectionCandidates (decide (info.machineId = getMachineId)) info).filter
            (dialable (decide (info.machineId = getMachineId)))) := by
  refine ⟨_, onSocketDisconnected_eq c url info a hl, ?_⟩
  have hatt : (c.markError a).attempt a = { c.attempt a with state := State.State_Error } :=
    attempt_setAttempt_same c a _ ha
  have hs : ((c.markError a).attempt a).state = State.State_Error := by rw [hatt]
  have hrel2 : ((c.markError a).attempt a).relatedUrls = info.endpoints := by
    rw [hatt]
    exact hrel
  obtain ⟨hlook, hfind⟩ := checkClear_of_error (c.markError a) a info.machineId hs
  obtain ⟨f1, f2, f3, -, -, -⟩ := checkClear_frame (c.markError a) a info.machineId
  rw [hrel2] at hlook
  have hnone : ∀ u ∈ info.endpoints,
      ((c.markError a).checkClear a info.machineId).lookup info.machineId u = none := by
    intro u hu
    rw [hlook]
    simp [hu]
  have hopen2 : ((c.markError a).checkClear a info.machineId)._dying = false := by
    rw [f3]
    exact hopen
  have hf := (findConnection_eq_none _ info.machineId info.endpoints).2 hnone
  have hcalls := socket_calls getMachineId ((c.markError a).checkClear a info.machineId)
    info next
  simp only [hopen2, hf, and_self, if_true] at hcalls
  obtain ⟨hcamp, hret⟩ := socket_starts_campaign getMachineId _ info next hopen2 hf
  refine ⟨?_, hnone, hfind, ?_, hret, hcamp, hcalls⟩
  · have : ((c.markError a).checkClear a info.machineId).attempt a =
        (c.markError a).attempt a := by
      simp only [attempt, f1]
    rw [this, hs]
  · intro m u hne
    rw [hlook, if_neg hne]
    rfl

/-- Instance of C17: socket 0 was dialed for `alpha` by `socket()`, connected,
and is now disconnected. -/
theorem disconnection_evicts_witness :
    ((socket "self" TransportSocketCache.new scenarioAlpha
        "tcp://1.2.3.4:9").2.onSocketParallelConnectionAttempt false 0 ⟨"tcp", "1.2.3.4", 9⟩
      scenarioAlpha).lookup scenarioAlpha.machineId ⟨"tcp", "1.2.3.4", 9⟩ = some 0 ∧
    ∃ c2, ((socket "self" TransportSocketCache.new scenarioAlpha
        "tcp://1.2.3.4:9").2.onSocketParallelConnectionAttempt false 0 ⟨"tcp", "1.2.3.4", 9⟩
      scenarioAlpha).onSocketDisconnected ⟨"tcp", "1.2.3.4", 9⟩ scenarioAlpha = some c2 ∧
      (c2.attempt 0).state = State.State_Error ∧
      (∀ u ∈ scenarioAlpha.endpoints, c2.lookup scenarioAlpha.machineId u = none) :=
  ⟨by decide,
   match disconnection_evicts "self"
      ((socket "self" TransportSocketCache.new scenarioAlpha
        "tcp://1.2.3.4:9").2.onSocketParallelConnectionAttempt false 0 ⟨"tcp", "1.2.3.4", 9⟩
      scenarioAlpha) scenarioAlpha ⟨"tcp", "1.2.3.4", 9⟩ "tcp://1.2.3.4:9" 0 (by decide)
      (by decide) (by decide) (by decide) with
   | ⟨c2, h1, h2, h3, _⟩ => ⟨c2, h1, h2, h3⟩⟩

/-- C18 (as a counterexample): two calls for the local machine whose endpoint
lists share `tcp://10.0.0.1:9`. The first dials the loopback url only, so the
shared url is not a key of the map; the second call, issued while the first
attempt is pending, returns another promise, installs a second attempt and
dials `tcp://10.0.0.1:9`. -/
theorem overlapping_urls_counterexample :
    (⟨"tcp", "10.0.0.1", 9⟩ : Url) ∈ scenarioLocal.endpoints ∧
    (⟨"tcp", "10.0.0.1", 9⟩ : Url) ∈ scenarioLocalPublic.endpoints ∧
    (socket "self" TransportSocketCache.new scenarioLocal "tcp://127.0.0.1:9").1 = 0 ∧
    ((socket "self" TransportSocketCache.new scenarioLocal "tcp://127.0.0.1:9").2.attempt
      0).state = State.State_Pending ∧
    dialedUrls (socket "self" TransportSocketCache.new scenarioLocal
      "tcp://127.0.0.1:9").2.calls = [⟨"tcp", "127.0.0.1", 9⟩] ∧
    (socket "self" (socket "self" TransportSocketCache.new scenarioLocal "tcp://127.0.0.1:9").2
      scenarioLocalPublic "tcp://10.0.0.1:9").1 = 1 ∧
    (socket "self" (socket "self" TransportSocketCache.new scenarioLocal "tcp://127.0.0.1:9").2
      scenarioLocalPublic "tcp://10.0.0.1:9").2.lookup "self" ⟨"tcp", "10.0.0.1", 9⟩ = some 1 ∧
    dialedUrls (socket "self"
      (socket "self" TransportSocketCache.new scenarioLocal "tcp://127.0.0.1:9").2
      scenarioLocalPublic "tcp://10.0.0.1:9").2.calls =
      [⟨"tcp", "127.0.0.1", 9⟩, ⟨"tcp", "10.0.0.1", 9⟩] := by
  decide

/-- C18 (amended): on an open cache that has no entry under any endpoint of
either call, for two `socket()` calls with the same machine id, when the
endpoints of the second contain a url that the first call dialed, the second
call, issued right after the first, returns the promise of the first
attempt, makes no call on any socket and leaves the map and the pending list
unchanged. -/
theorem socket_shares_dialed_url (getMachineId : String) (c : TransportSocketCache)
    (info1 info2 : ServiceInfo) (url1 url2 : String) (u0 : Url) (hopen : c._dying = false)
    (hm : info2.machineId = info1.machineId)
    (hnone1 : ∀ u ∈ info1.endpoints, c.lookup info1.machineId u = none)
    (hnone2 : ∀ u ∈ info2.endpoints, c.lookup info1.machineId u = none)
    (hu0 : u0 ∈ info2.endpoints)
    (hdialed : u0 ∈ dialedUrls (addedCalls c (socket getMachineId c info1 url1).2)) :
    (socket getMachineId (socket getMachineId c info1 url1).2 info2 url2).1 =
      (socket getMachineId c info1 url1).1 ∧
    (socket getMachineId c info1 url1).1 =
      ((socket getMachineId c info1 url1).2.attempt c.attempts.length).promise ∧
    (socket getMachineId (socket getMachineId c info1 url1).2 info2 url2).2.calls =
      (socket getMachineId c info1 url1).2.calls ∧
    (socket getMachineId (socket getMachineId c info1 url1).2 info2 url2).2.nextSocket =
      (socket getMachineId c info1 url1).2.nextSocket ∧
    (socket getMachineId (socket getMachineId c info1 url1).2 info2 url2).2._connections =
      (socket getMachineId c info1 url1).2._connections ∧
    (socket getMachineId (socket getMachineId c info1 url1).2 info2 url2).2._allPendingConnections =
      (socket getMachineId c info1 url1).2._allPendingConnections := by
  have hf := (findConnection_eq_none c info1.machineId info1.endpoints).2 hnone1
  have hcalls := socket_calls getMachineId c info1 url1
  simp only [hopen, hf, and_self, if_true] at hcalls
  have hadded : addedCalls c (socket getMachineId c info1 url1).2 =
      dialCalls info1 c.nextSocket
        ((connectionCandidates (decide (info1.machineId = getMachineId)) info1).filter
          (dialable (decide (info1.machineId = getMachineId)))) := by
    simp [addedCalls, hcalls]
  rw [hadded, dialedUrls_dialCalls] at hdialed
  obtain ⟨hcamp, hret⟩ := socket_starts_campaign getMachineId c info1 url1 hopen hf
  obtain ⟨hd5, hl5, ha5, -, -, hp5, -, -⟩ := hcamp
  have hall : ∀ e ∈ (socket getMachineId c info1 url1).2.urlMap info2.machineId,
      e.1 ∈ info2.endpoints → e.2 = c.attempts.length := by
    intro e he hin
    rw [hm, socket_fresh getMachineId c info1 url1 hopen hf] at he
    simp only [dial_eq_foldl] at he
    rcases dials_urlMap_mem _ _ _ _ _ he with h1 | h1
    · exact h1
    · exfalso
      rw [urlMap_touch, withFresh_urlMap] at h1
      have hk := hnone2 e.1 hin
      rw [urlMap_eq, StdMap.find_eq_none_iff] at hk
      exact hk e h1 rfl
  have hs := socket_returns_installed getMachineId (socket getMachineId c info1 url1).2 info2
    url2 c.attempts.length u0 hd5 hu0 (by rw [hm]; exact hl5 u0 hdialed) hall ha5
  rw [hs]
  refine ⟨by rw [hp5, hret], by rw [hp5, hret], ?_, ?_, ?_, ?_⟩ <;> simp [withFresh]

/-- Instance of C18 (amended): two calls for `gamma`, the second with the
endpoint `tcp://5.6.7.8:9` only, which the first call dialed. -/
theorem socket_shares_dialed_url_witness :
    TransportSocketCache.new._dying = false ∧
    (⟨"tcp", "5.6.7.8", 9⟩ : Url) ∈ dialedUrls (addedCalls TransportSocketCache.new
      (socket "self" TransportSocketCache.new scenarioGamma "tcp://1.2.3.4:9").2) ∧
    (socket "self" (socket "self" TransportSocketCache.new scenarioGamma "tcp://1.2.3.4:9").2
      ⟨43, "gamma", [⟨"tcp", "5.6.7.8", 9⟩]⟩ "tcp://5.6.7.8:9").1 =
      (socket "self" TransportSocketCache.new scenarioGamma "tcp://1.2.3.4:9").1 :=
  ⟨by decide, by decide,
   (socket_shares_dialed_url "self" TransportSocketCache.new scenarioGamma
      ⟨43, "gamma", [⟨"tcp", "5.6.7.8", 9⟩]⟩ "tcp://1.2.3.4:9" "tcp://5.6.7.8:9"
      ⟨"tcp", "5.6.7.8", 9⟩ (by decide) (by decide) (by decide) (by decide) (by decide)
      (by decide)).1⟩

end TransportSocketCache

/-! ## The gateway: directory replies and routing misses -/

namespace Gateway
namespace GatewayPrivate

/-- C19: when `handleServiceRead` finds the routing entry of a directory
Service Reply whose `ServiceInfo` has an endpoint (so that the read of
`endpoints()[0]` that precedes the rewriting is defined), it sends exactly one
message, to the client of the entry: a Reply with the original id of the
entry whose `ServiceInfo` is the one of the directory reply (same service
id) with the endpoint list replaced by the published endpoints `_endpoints`
of the gateway, so that every endpoint in it is a gateway endpoint; and
`listen(addr)` publishes `addr`. -/
theorem directory_reply_rewritten (g : GatewayPrivate) (service : TransportSocket)
    (msg : Message) (table : ClientRequestIdMap) (entry : Nat × TransportSocket)
    (addr : String)
    (htable : StdMap.find service g._serviceToClient = some table)
    (hentry : StdMap.find msg.id table = some entry)
    (hdir : msg.service = Service_ServiceDirectory ∧
      msg.function = ServiceDirectoryFunction_Service ∧ msg.type = MessageType.Type_Reply)
    (_hend : msg.buffer.readServiceInfo.endpoints ≠ []) :
    (g.handleServiceRead service msg).sent =
      g.sent ++
        [(entry.2,
          { id := entry.1, type := MessageType.Type_Reply, service := msg.service,
            path := msg.path, function := msg.function,
            buffer := Buffer.serviceInfo
              { serviceId := msg.buffer.readServiceInfo.serviceId,
                name := msg.buffer.readServiceInfo.name,
                machineId := msg.buffer.readServiceInfo.machineId,
                processId := msg.buffer.readServiceInfo.processId,
                endpoints := g._endpoints } })] ∧
    (g.listen addr)._endpoints = g._endpoints ++ [addr] := by
  refine ⟨?_, rfl⟩
  unfold handleServiceRead
  simp only [htable, hentry]
  rw [if_pos hdir]
  unfold handleDirectoryReply
  obtain ⟨url, rest, hurl⟩ := List.exists_cons_of_ne_nil _hend
  simp only [hurl, newMessage, Message.buildReplyFrom, send]
  split
  · rfl
  · split <;> rfl

/-- Instance of C19: client 100 asked the directory for service 42 through the
gateway (forwarded under id 1) and the directory answers. -/
theorem directory_reply_rewritten_witness :
    StdMap.find 1 (scenarioGateway.handleClientRead 100
      ⟨7, MessageType.Type_Call, 1, 0, 1, Buffer.uint 42⟩)._serviceToClient =
      some [(1, (7, 100))] ∧
    ((scenarioGateway.handleClientRead 100
      ⟨7, MessageType.Type_Call, 1, 0, 1, Buffer.uint 42⟩).handleServiceRead 1
      (scenarioDirectoryReply 1)).sent =
      (scenarioGateway.handleClientRead 100
        ⟨7, MessageType.Type_Call, 1, 0, 1, Buffer.uint 42⟩).sent ++
        [(100,
          { id := 7, type := MessageType.Type_Reply, service := 1, path := 0, function := 1,
            buffer := Buffer.serviceInfo
              { serviceId := 42, name := "motion", machineId := "robot", processId := 3,
                endpoints := ["tcp://gw:1"] } })] :=
  ⟨by decide,
   (directory_reply_rewritten
      (scenarioGateway.handleClientRead 100 ⟨7, MessageType.Type_Call, 1, 0, 1, Buffer.uint 42⟩)
      1 (scenarioDirectoryReply 1) [(1, (7, 100))] (7, 100) "tcp://gw:2" (by decide) (by decide)
      (by decide) (by decide)).1⟩

/-- C20: for a backend message whose socket has no table in
`_serviceToClient`, or whose id has no entry in the table of its socket,
`handleServiceRead` returns the gateway unchanged: nothing is sent, and
`_services`, `_serviceToClient` and `_pendingMessage` are what they were. -/
theorem routing_miss_dropped (g : GatewayPrivate) (service : TransportSocket) (msg : Message)
    (h : ∀ table, StdMap.find service g._serviceToClient = some table →
      StdMap.find msg.id table = none) :
    g.handleServiceRead service msg = g ∧
    (g.handleServiceRead service msg).sent = g.sent ∧
    (g.handleServiceRead service msg)._services = g._services ∧
    (g.handleServiceRead service msg)._serviceToClient = g._serviceToClient ∧
    (g.handleServiceRead service msg)._pendingMessage = g._pendingMessage := by
  have heq : g.handleServiceRead service msg = g := by
    unfold handleServiceRead
    cases hf : StdMap.find service g._serviceToClient with
    | none => rfl
    | some table => simp only [h table hf]
  rw [heq]
  exact ⟨rfl, rfl, rfl, rfl, rfl⟩

/-- Instance of C20: after the resolve request with id 1, the directory socket
delivers a message with id 99, and socket 5 (no table) delivers one. -/
theorem routing_miss_dropped_witness :
    (∀ table, StdMap.find 1 (scenarioGateway.handleClientRead 100
        scenarioCall)._serviceToClient = some table →
      StdMap.find (scenarioDirectoryReply 99).id table = none) ∧
    (scenarioGateway.handleClientRead 100 scenarioCall).handleServiceRead 1
      (scenarioDirectoryReply 99) = scenarioGateway.handleClientRead 100 scenarioCall :=
  ⟨by decide,
   (routing_miss_dropped (scenarioGateway.handleClientRead 100 scenarioCall) 1
      (scenarioDirectoryReply 99) (by decide)).1⟩

end GatewayPrivate
end Gateway

namespace TransportSocketCache

/-! ## The cache: reuse, failed dials and checkClear -/

/-- C26 (as a counterexample): socket 70 was inserted for the local machine
under `tcp://10.0.0.1:9`. For the local service at `tcp://127.0.0.1:9` and
`tcp://10.0.0.1:9` the only candidate is the loopback url, which is not a
key of the map; `socket()` nevertheless reuses the inserted attempt: it
returns its promise, which holds socket 70, and dials nothing. -/
theorem reuse_on_candidates_counterexample :
    connectionCandidates (decide (scenarioLocal.machineId = "self")) scenarioLocal =
      [⟨"tcp", "127.0.0.1", 9⟩] ∧
    (∀ u ∈ connectionCandidates (decide (scenarioLocal.machineId = "self")) scenarioLocal,
      (TransportSocketCache.new.insert "self" ⟨"tcp", "10.0.0.1", 9⟩ 70).lookup "self" u =
        none) ∧
    (TransportSocketCache.new.insert "self" ⟨"tcp", "10.0.0.1", 9⟩ 70).lookup "self"
      ⟨"tcp", "10.0.0.1", 9⟩ = some 0 ∧
    (socket "self" (TransportSocketCache.new.insert "self" ⟨"tcp", "10.0.0.1", 9⟩ 70)
      scenarioLocal "tcp://127.0.0.1:9").1 =
      ((TransportSocketCache.new.insert "self" ⟨"tcp", "10.0.0.1", 9⟩ 70).attempt 0).promise ∧
    (socket "self" (TransportSocketCache.new.insert "self" ⟨"tcp", "10.0.0.1", 9⟩ 70)
      scenarioLocal "tcp://127.0.0.1:9").2.futureValue
      (socket "self" (TransportSocketCache.new.insert "self" ⟨"tcp", "10.0.0.1", 9⟩ 70)
        scenarioLocal "tcp://127.0.0.1:9").1 = some (Outcome.value 70) ∧
    dialedUrls (addedCalls (TransportSocketCache.new.insert "self" ⟨"tcp", "10.0.0.1", 9⟩ 70)
      (socket "self" (TransportSocketCache.new.insert "self" ⟨"tcp", "10.0.0.1", 9⟩ 70)
        scenarioLocal "tcp://127.0.0.1:9").2) = [] := by
  decide

/-- C26 (amended): on an open cache reuse is decided on all the endpoints of
`servInfo`, candidates or not. When some endpoint is a key of
`_connections[machineId]`, `socket()` returns the promise of an attempt
installed under an endpoint, makes no call on any socket and leaves the
map and the pending list unchanged; when no endpoint is a key, it returns
the new promise of a new pending attempt. -/
theorem socket_reuse_on_endpoints (getMachineId : String) (c : TransportSocketCache)
    (servInfo : ServiceInfo) (url : String) (hopen : c._dying = false) :
    ((∃ u ∈ servInfo.endpoints, c.lookup servInfo.machineId u ≠ none) →
      ∃ e ∈ c.urlMap servInfo.machineId, e.1 ∈ servInfo.endpoints ∧
        (socket getMachineId c servInfo url).1 =
          ((socket getMachineId c servInfo url).2.attempt e.2).promise ∧
        (socket getMachineId c servInfo url).2.calls = c.calls ∧
        (socket getMachineId c servInfo url).2._connections = c._connections ∧
        (socket getMachineId c servInfo url).2._allPendingConnections =
          c._allPendingConnections) ∧
    ((∀ u ∈ servInfo.endpoints, c.lookup servInfo.machineId u = none) →
      (socket getMachineId c servInfo url).1 = c.promises.length ∧
      (socket getMachineId c servInfo url).2.promises.length = c.promises.length + 1 ∧
      ((socket getMachineId c servInfo url).2.attempt c.attempts.length).promise =
        c.promises.length ∧
      ((socket getMachineId c servInfo url).2.attempt c.attempts.length).state =
        State.State_Pending) := by
  constructor
  · rintro ⟨u, hu, hne⟩
    cases hfc : c.findConnection servInfo.machineId servInfo.endpoints with
    | none =>
      exact absurd ((findConnection_eq_none c _ _).1 hfc u hu) hne
    | some b =>
      have hfm := hfc
      rw [findConnection_eq] at hfm
      obtain ⟨e, hem, he1, he2⟩ := findMatching_eq_some _ _ _ hfm
      refine ⟨e, hem, he1, ?_⟩
      rw [socket_reuse getMachineId c servInfo url hopen b hfc, he2]
      refine ⟨rfl, ?_, ?_, ?_⟩ <;> simp [withFresh]
  · intro hnone
    have hf := (findConnection_eq_none c servInfo.machineId servInfo.endpoints).2 hnone
    obtain ⟨hcamp, hret⟩ := socket_starts_campaign getMachineId c servInfo url hopen hf
    obtain ⟨-, -, -, hs, -, hp, -, -⟩ := hcamp
    refine ⟨hret, ?_, hp, hs⟩
    rw [socket_fresh getMachineId c servInfo url hopen hf]
    simp only [dial_eq_foldl]
    rw [(dials_frame _ _ _ _).2.1, (touch_frame _ _).2.1]
    simp [withFresh]

/-- Instance of C26 (amended): the local service is asked for after socket 70
was inserted under its endpoint `tcp://10.0.0.1:9`, which is not a
candidate. -/
theorem socket_reuse_on_endpoints_witness :
    (TransportSocketCache.new.insert "self" ⟨"tcp", "10.0.0.1", 9⟩ 70)._dying = false ∧
    ((∃ u ∈ scenarioLocal.endpoints,
        (TransportSocketCache.new.insert "self" ⟨"tcp", "10.0.0.1", 9⟩ 70).lookup
          scenarioLocal.machineId u ≠ none) →
      ∃ e ∈ (TransportSocketCache.new.insert "self" ⟨"tcp", "10.0.0.1", 9⟩ 70).urlMap
          scenarioLocal.machineId, e.1 ∈ scenarioLocal.endpoints ∧
        (socket "self" (TransportSocketCache.new.insert "self" ⟨"tcp", "10.0.0.1", 9⟩ 70)
          scenarioLocal "tcp://127.0.0.1:9").1 =
          ((socket "self" (TransportSocketCache.new.insert "self" ⟨"tcp", "10.0.0.1", 9⟩ 70)
            scenarioLocal "tcp://127.0.0.1:9").2.attempt e.2).promise ∧
        (socket "self" (TransportSocketCache.new.insert "self" ⟨"tcp", "10.0.0.1", 9⟩ 70)
          scenarioLocal "tcp://127.0.0.1:9").2.calls =
          (TransportSocketCache.new.insert "self" ⟨"tcp", "10.0.0.1", 9⟩ 70).calls ∧
        (socket "self" (TransportSocketCache.new.insert "self" ⟨"tcp", "10.0.0.1", 9⟩ 70)
          scenarioLocal "tcp://127.0.0.1:9").2._connections =
          (TransportSocketCache.new.insert "self" ⟨"tcp", "10.0.0.1", 9⟩ 70)._connections ∧
        (socket "self" (TransportSocketCache.new.insert "self" ⟨"tcp", "10.0.0.1", 9⟩ 70)
          scenarioLocal "tcp://127.0.0.1:9").2._allPendingConnections =
          (TransportSocketCache.new.insert "self" ⟨"tcp", "10.0.0.1", 9⟩
            70)._allPendingConnections) ∧
    (∃ u ∈ scenarioLocal.endpoints,
        (TransportSocketCache.new.insert "self" ⟨"tcp", "10.0.0.1", 9⟩ 70).lookup
          scenarioLocal.machineId u ≠ none) :=
  ⟨by decide,
   (socket_reuse_on_endpoints "self"
      (TransportSocketCache.new.insert "self" ⟨"tcp", "10.0.0.1", 9⟩ 70) scenarioLocal
      "tcp://127.0.0.1:9" (by decide)).1,
   ⟨⟨"tcp", "10.0.0.1", 9⟩, by decide, by decide⟩⟩

theorem lookup_of_cleared (c x : TransportSocketCache) (us : List Url) (m : String)
    (hc : x._connections =
      match StdMap.find m c._connections with
      | none => c._connections
      | some urls =>
        if (us.foldl (fun acc uit => StdMap.erase uit acc) urls).length = 0 then
          StdMap.erase m c._connections
        else
          StdMap.replace m (us.foldl (fun acc uit => StdMap.erase uit acc) urls)
            c._connections) :
    (∀ m2 u, x.lookup m2 u = if m2 = m ∧ u ∈ us then none else c.lookup m2 u) ∧
    StdMap.find m x._connections ≠ some [] := by
  unfold lookup
  rw [hc]
  cases hf : StdMap.find m c._connections with
  | none =>
    simp only
    refine ⟨?_, by simp [hf]⟩
    intro m2 u
    by_cases hm : m2 = m
    · subst hm
      simp [hf]
    · simp [hm]
  | some urls =>
    simp only
    have hfu := find_eraseAll us urls
    by_cases hlen : (us.foldl (fun acc uit => StdMap.erase uit acc) urls).length = 0
    · simp only [hlen, if_true]
      refine ⟨?_, by simp [StdMap.find_erase]⟩
      intro m2 u
      by_cases hm : m2 = m
      · subst hm
        have hnil := List.length_eq_zero.1 hlen
        have hfu2 := hfu u
        rw [hnil] at hfu2
        by_cases hu : u ∈ us
        · simp [hu, StdMap.find_erase]
        · simp only [hu, if_false] at hfu2
          simp [hu, StdMap.find_erase, hf, ← hfu2, StdMap.find]
      · simp [StdMap.find_erase, hm]
    · simp only [hlen, if_false]
      have hsome : (StdMap.find m c._connections).isSome = true := by simp [hf]
      refine ⟨?_, ?_⟩
      · intro m2 u
        by_cases hm : m2 = m
        · subst hm
          simp only [StdMap.find_replace_same _ _ _ hsome, hf, true_and]
          simp only [Option.bind, hfu]
        · simp [StdMap.find_replace_ne _ _ _ _ hm, hm]
      · simp only [StdMap.find_replace_same _ _ _ hsome, ne_eq, Option.some.injEq]
        intro h0
        rw [h0] at hlen
        exact hlen rfl

theorem checkClear_connections_of_rule (c : TransportSocketCache) (a : Nat) (m : String)
    (hr : ((c.attempt a).attemptCount ≤ 0 ∧ (c.attempt a).state ≠ State.State_Connected) ∨
      (c.attempt a).state = State.State_Error) :
    (c.checkClear a m)._connections =
      match StdMap.find m c._connections with
      | none => c._connections
      | some urls =>
        if ((c.attempt a).relatedUrls.foldl (fun acc uit => StdMap.erase uit acc)
            urls).length = 0 then
          StdMap.erase m c._connections
        else
          StdMap.replace m ((c.attempt a).relatedUrls.foldl
            (fun acc uit => StdMap.erase uit acc) urls) c._connections := by
  unfold checkClear
  simp only [hr, if_true]
  split
  · rfl
  · split <;> rfl

/-- C28: `checkClear(attempt, machineId)` erases exactly when
`attemptCount <= 0` and the state is not Connected, or the state is Error.
When it erases, afterwards no related url of the attempt is a key of
`_connections[machineId]`, the other keys keep their attempts, and the
machine has no empty url map left; otherwise `_connections` is unchanged. -/
theorem checkClear_rule (c : TransportSocketCache) (a : Nat) (m : String) :
    ((((c.attempt a).attemptCount ≤ 0 ∧ (c.attempt a).state ≠ State.State_Connected) ∨
        (c.attempt a).state = State.State_Error) →
      (∀ u ∈ (c.attempt a).relatedUrls, (c.checkClear a m).lookup m u = none) ∧
      (∀ m2 u, ¬ (m2 = m ∧ u ∈ (c.attempt a).relatedUrls) →
        (c.checkClear a m).lookup m2 u = c.lookup m2 u) ∧
      StdMap.find m (c.checkClear a m)._connections ≠ some []) ∧
    (¬ (((c.attempt a).attemptCount ≤ 0 ∧ (c.attempt a).state ≠ State.State_Connected) ∨
        (c.attempt a).state = State.State_Error) →
      (c.checkClear a m)._connections = c._connections) := by
  constructor
  · intro hr
    obtain ⟨h1, h2⟩ := lookup_of_cleared c (c.checkClear a m) (c.attempt a).relatedUrls m
      (checkClear_connections_of_rule c a m hr)
    refine ⟨?_, ?_, h2⟩
    · intro u hu
      rw [h1, if_pos ⟨rfl, hu⟩]
    · intro m2 u hn
      rw [h1, if_neg hn]
  · intro hn
    unfold checkClear
    simp only [hn, if_false]

/-- Instance of C28: in `scenarioRace` the two dials for `gamma` are under way;
the attempt 0 is Pending with `attemptCount` 2, so `checkClear` keeps the
map; once the attempt is marked as Error, `checkClear` erases both urls and
the machine entry. -/
theorem checkClear_rule_witness :
    ¬ (((scenarioRace.attempt 0).attemptCount ≤ 0 ∧
        (scenarioRace.attempt 0).state ≠ State.State_Connected) ∨
        (scenarioRace.attempt 0).state = State.State_Error) ∧
    (scenarioRace.checkClear 0 "gamma")._connections = scenarioRace._connections ∧
    ((((scenarioRace.markError 0).attempt 0).attemptCount ≤ 0 ∧
        ((scenarioRace.markError 0).attempt 0).state ≠ State.State_Connected) ∨
        ((scenarioRace.markError 0).attempt 0).state = State.State_Error) ∧
    (∀ u ∈ ((scenarioRace.markError 0).attempt 0).relatedUrls,
      ((scenarioRace.markError 0).checkClear 0 "gamma").lookup "gamma" u = none) ∧
    ((scenarioRace.markError 0).checkClear 0 "gamma")._connections = [] :=
  ⟨by decide,
   (checkClear_rule scenarioRace 0 "gamma").2 (by decide),
   by decide,
   ((checkClear_rule (scenarioRace.markError 0) 0 "gamma").1 (by decide)).1,
   by decide⟩

/-- C27: a failed dial completion on an open cache whose record is present
and Pending decrements `attemptCount` and removes the socket from
`_allPendingConnections`. When the count is still positive the attempt stays
Pending, its promise is not set and `_connections` is unchanged. When the
count reaches 0 the attempt becomes Error, its promise is failed with the
message "Could not connect to service #id: no endpoint replied.", and none
of its related urls is a key of `_connections[machineId]` any more. -/
theorem failed_dial_completion (c : TransportSocketCache) (info : ServiceInfo)
    (s : MessageSocketPtr) (u : Url) (a : Nat) (hd : c._dying = false)
    (hl : c.lookup info.machineId u = some a) (ha : a < c.attempts.length)
    (hs : (c.attempt a).state = State.State_Pending)
    (hp : (c.attempt a).promise < c.promises.length) :
    s ∉ (c.onSocketParallelConnectionAttempt true s u info)._allPendingConnections ∧
    ((c.onSocketParallelConnectionAttempt true s u info).attempt a).attemptCount =
      (c.attempt a).attemptCount - 1 ∧
    (0 < (c.attempt a).attemptCount - 1 →
      ((c.onSocketParallelConnectionAttempt true s u info).attempt a).state =
        State.State_Pending ∧
      (c.onSocketParallelConnectionAttempt true s u info).promise (c.attempt a).promise =
        c.promise (c.attempt a).promise ∧
      (c.onSocketParallelConnectionAttempt true s u info)._connections = c._connections) ∧
    ((c.attempt a).attemptCount - 1 = 0 →
      ((c.onSocketParallelConnectionAttempt true s u info).attempt a).state =
        State.State_Error ∧
      (c.onSocketParallelConnectionAttempt true s u info).promise (c.attempt a).promise =
        c.promise (c.attempt a).promise ++
          [Outcome.error ("Could not connect to service #" ++ toString info.serviceId ++
            ": no endpoint replied.")] ∧
      ∀ u2 ∈ (c.attempt a).relatedUrls,
        (c.onSocketParallelConnectionAttempt true s u info).lookup info.machineId u2 =
          none) := by
  have key := failed_dial_eq c info s u a hd hl ha hs
  by_cases h0 : (c.attempt a).attemptCount - 1 = 0
  · rw [if_pos h0] at key
    obtain ⟨x, hx⟩ : ∃ x, x = ((c.setAttempt a
        { c.attempt a with attemptCount := (c.attempt a).attemptCount - 1 }).removePending
        s).setPromise (c.attempt a).promise
        (Outcome.error ("Could not connect to service #" ++ toString info.serviceId ++
          ": no endpoint replied.")) := ⟨_, rfl⟩
    rw [← hx] at key
    obtain ⟨y, hy⟩ : ∃ y, y = x.setAttempt a
        { c.attempt a with attemptCount := (c.attempt a).attemptCount - 1,
                           state := State.State_Error } := ⟨_, rfl⟩
    rw [← hy] at key
    rw [key]
    have hlen : a < x.attempts.length := by
      rw [hx]
      simpa [removePending, setAttempt, setPromise] using ha
    have hatt : y.attempt a = { c.attempt a with
        attemptCount := (c.attempt a).attemptCount - 1, state := State.State_Error } := by
      rw [hy]
      exact attempt_setAttempt_same _ a _ hlen
    have hst : (y.attempt a).state = State.State_Error := by rw [hatt]
    have hcc := checkClear_of_error y a info.machineId hst
    obtain ⟨f1, -, -, -, -, f6⟩ := checkClear_frame y a info.machineId
    have hattc : (y.checkClear a info.machineId).attempt a = y.attempt a := by
      simp only [attempt, f1]
    refine ⟨?_, ?_, ?_, ?_⟩
    · rw [f6, hy, hx]
      simp [setAttempt, setPromise, removePending]
    · rw [hattc, hatt]
    · intro hpos
      omega
    · intro _
      refine ⟨by rw [hattc, hatt], ?_, ?_⟩
      · rw [checkClear_promise, hy, promise_setAttempt, hx,
          promise_setPromise_same _ _ _ (by simpa [removePending, setAttempt] using hp),
          promise_removePending, promise_setAttempt]
      · intro u2 hu2
        rw [hcc.1, hatt]
        simp only [true_and]
        rw [if_pos hu2]
  · rw [if_neg h0] at key
    rw [key]
    refine ⟨?_, ?_, ?_, ?_⟩
    · simp [setAttempt, removePending]
    · rw [attempt_removePending, attempt_setAttempt_same c a _ ha]
    · intro _
      refine ⟨?_, ?_, ?_⟩
      · rw [attempt_removePending, attempt_setAttempt_same c a _ ha]
        exact hs
      · rw [promise_removePending, promise_setAttempt]
      · simp [removePending, setAttempt]
    · intro h
      exact absurd h h0

/-- Instance of C27: the two dials for `gamma` fail one after the other; after
the first the attempt is still Pending, after the second it is in Error. -/
theorem failed_dial_completion_witness :
    (socket "self" TransportSocketCache.new scenarioGamma "tcp://1.2.3.4:9").2._dying = false ∧
    (((socket "self" TransportSocketCache.new scenarioGamma
        "tcp://1.2.3.4:9").2.onSocketParallelConnectionAttempt true 0 ⟨"tcp", "1.2.3.4", 9⟩
      scenarioGamma).attempt 0).attemptCount = 1 ∧
    (0 : MessageSocketPtr) ∉ ((socket "self" TransportSocketCache.new scenarioGamma
        "tcp://1.2.3.4:9").2.onSocketParallelConnectionAttempt true 0 ⟨"tcp", "1.2.3.4", 9⟩
      scenarioGamma)._allPendingConnections ∧
    ((((socket "self" TransportSocketCache.new scenarioGamma
        "tcp://1.2.3.4:9").2.onSocketParallelConnectionAttempt true 0 ⟨"tcp", "1.2.3.4", 9⟩
      scenarioGamma).onSocketParallelConnectionAttempt true 1 ⟨"tcp", "5.6.7.8", 9⟩
      scenarioGamma).attempt 0).state = State.State_Error :=
  ⟨by decide, by decide,
   (failed_dial_completion
      (socket "self" TransportSocketCache.new scenarioGamma "tcp://1.2.3.4:9").2 scenarioGamma
      0 ⟨"tcp", "1.2.3.4", 9⟩ 0 (by decide) (by decide) (by decide) (by decide)
      (by decide)).1,
   ((failed_dial_completion
      ((socket "self" TransportSocketCache.new scenarioGamma
        "tcp://1.2.3.4:9").2.onSocketParallelConnectionAttempt true 0 ⟨"tcp", "1.2.3.4", 9⟩
        scenarioGamma) scenarioGamma
      1 ⟨"tcp", "5.6.7.8", 9⟩ 0 (by decide) (by decide) (by decide) (by decide)
      (by decide)).2.2.2 (by decide)).1⟩

end TransportSocketCache

/-! ## The gateway: the resolve transition and the pending queue -/

namespace Gateway
namespace GatewayPrivate

/-- C29: the transition C.2 of `handleClientRead`. For a client message `m`
from `c` whose service is absent from `services`, or whose backend socket is
not connected, the gateway appends `(m, c)` at the end of
`pending[m.service]`, keeping the earlier entries and the queues of the other
services, records `serviceToClient[directorySocket][resolveId] = (0, NULL)`,
and sends exactly one message, to the directory socket: the Call to
`Service_ServiceDirectory` / `ServiceDirectoryFunction_Service` with the
fresh id `resolveId` and payload `m.service`. `services` is unchanged. -/
theorem client_read_starts_resolve (g : GatewayPrivate) (c : TransportSocket) (m : Message)
    (h : ∀ s, StdMap.find m.service g._services = some s → g.isConnected s = false) :
    StdMap.find m.service (g.handleClientRead c m)._pendingMessage =
      some ((StdMap.find m.service g._pendingMessage).getD [] ++ [(m, c)]) ∧
    (∀ k, k ≠ m.service → StdMap.find k (g.handleClientRead c m)._pendingMessage =
      StdMap.find k g._pendingMessage) ∧
    StdMap.find g.messageId
      ((g.handleClientRead c m).requests g._socketToServiceDirectory) = some (0, NULL) ∧
    (g.handleClientRead c m).sent =
      g.sent ++ [(g._socketToServiceDirectory,
        { id := g.messageId, type := MessageType.Type_Call,
          service := Service_ServiceDirectory, path := Path_Main,
          function := ServiceDirectoryFunction_Service, buffer := Buffer.uint m.service })] ∧
    (g.handleClientRead c m)._services = g._services := by
  have hnone : (StdMap.find m.service g._services).filter g.isConnected = none := by
    cases hf : StdMap.find m.service g._services with
    | none => rfl
    | some s => simp [Option.filter, h s hf]
  unfold handleClientRead
  rw [hnone]
  simp only
  refine ⟨?_, ?_, ?_, ?_, ?_⟩
  · have := find_storePending (((g.masterMsg m).2).record (g.masterMsg m).2._socketToServiceDirectory
      (g.masterMsg m).1.id (0, NULL)) c m
    simpa [send, record, masterMsg, newMessage] using this
  · intro k hk
    simp only [send, storePending, record, masterMsg, newMessage]
    split
    · simp only [StdMap.find_set, if_neg hk]
    · simp only [StdMap.find_replace_ne _ _ _ _ hk]
  · have hr := find_record { g with messageId := g.messageId + 1 }
      g._socketToServiceDirectory g.messageId (0, NULL)
    have hfin : StdMap.find g.messageId
        (((StdMap.find g._socketToServiceDirectory
          (({ g with messageId := g.messageId + 1 }).record g._socketToServiceDirectory
            g.messageId (0, NULL))._serviceToClient).getD [])) = some (0, NULL) := by
      rw [hr]
      simp [StdMap.find_set]
    simp only [send, storePending, masterMsg, newMessage, requests]
    split <;> exact hfin
  · simp [send, storePending, record, masterMsg, newMessage]
    split <;> rfl
  · simp [send, storePending, record, masterMsg, newMessage]
    split <;> rfl

/-- Instance of C29: the first message of the client 100 for the unknown
service 42. -/
theorem client_read_starts_resolve_witness :
    (∀ s, StdMap.find scenarioCall.service scenarioGateway._services = some s →
      scenarioGateway.isConnected s = false) ∧
    StdMap.find scenarioCall.service
      (scenarioGateway.handleClientRead 100 scenarioCall)._pendingMessage =
      some ((StdMap.find scenarioCall.service scenarioGateway._pendingMessage).getD [] ++
        [(scenarioCall, 100)]) :=
  ⟨by decide, (client_read_starts_resolve scenarioGateway 100 scenarioCall (by decide)).1⟩

/-- C30 (the code at the failing input): the run of the callbacks in which
client 100 asks the directory for service 42, the gateway opens socket 2 to
the backend, and client 100 calls service 42 before socket 2 is connected, so
that the call is queued. After `onSocketConnected(2)` the vector
`pending[42]` still holds its entry, and the queued message has been
forwarded to the backend socket 2 not once but never: the run left defined
behaviour at the read through the queued pointer. -/
theorem pending_entry_kept_and_never_forwarded :
    scenarioQueued.undefined = none ∧
    StdMap.find 42 (scenarioQueued.onSocketConnected 2)._pendingMessage =
      some [(scenarioCall, 100)] ∧
    (scenarioQueued.onSocketConnected 2)._pendingMessage = scenarioQueued._pendingMessage ∧
    (scenarioQueued.onSocketConnected 2).sent.filter (fun e => decide (e.1 = 2)) = [] ∧
    (scenarioQueued.onSocketConnected 2).messageId = scenarioQueued.messageId ∧
    (scenarioQueued.onSocketConnected 2).undefined = some Undefined.danglingMessage := by
  decide

end GatewayPrivate
end Gateway

/-! ## The JSON decoder: lines and columns -/

namespace detail
namespace DocumentConstIterator

theorem increment_it (doc : List Nat) (d : DocumentConstIterator) :
    (d.increment doc)._it = d._it + 1 ∧ (d.increment doc)._begin = d._begin := by
  unfold increment
  split
  · exact ⟨rfl, rfl⟩
  · split <;> exact ⟨rfl, rfl⟩

theorem countLoop_eq_iterate (doc : List Nat) (it n : Nat) (d : DocumentConstIterator)
    (h : d._it + n = it) : countLoop doc it n d = Nat.iterate (increment doc) n d := by
  induction n generalizing d with
  | zero => rfl
  | succ n ih =>
    have hne : d._it ≠ it := by omega
    simp only [countLoop, hne, ne_eq, not_false_eq_true, if_true, Function.iterate_succ_apply]
    exact ih (d.increment doc) (by rw [(increment_it doc d).1]; omega)

theorem new_eq_iterate (doc : List Nat) (it begin : Nat) (h : begin ≤ it) :
    new doc it begin = Nat.iterate (increment doc) (it - begin)
      { _begin := begin, _it := begin, _line := 1, _column := 1 } := by
  unfold new
  exact countLoop_eq_iterate doc it (it - begin) _ (by simp only; omega)

theorem specLine_snoc (l : List Nat) (c : Nat) :
    specLine (l ++ [c]) = if c = ch '\n' then specLine l + 1 else specLine l := by
  unfold specLine
  generalize ch '\n' = nl
  rw [List.count_append]
  by_cases h : c = nl
  · subst h
    simp
    omega
  · rw [if_neg h, List.count_singleton]
    have : (c == nl) = false := by simpa using h
    rw [this]
    simp

theorem specColumn_snoc (l : List Nat) (c : Nat) :
    specColumn (l ++ [c]) =
      if c = ch '\n' then 1
      else if isContinuation c then specColumn l else specColumn l + 1 := by
  unfold specColumn
  generalize ch '\n' = nl
  rw [List.reverse_append, List.reverse_singleton, List.singleton_append, List.takeWhile_cons]
  by_cases h : c = nl
  · subst h
    simp
  · rw [if_neg h]
    have hd : decide (c ≠ nl) = true := by simpa using h
    rw [hd]
    simp only [if_true, List.filter_cons]
    cases hc : isContinuation c
    · simp
      omega
    · simp

theorem iterate_counts (doc : List Nat) (begin n : Nat) (h : begin + n ≤ doc.length) :
    (Nat.iterate (increment doc) n
      { _begin := begin, _it := begin, _line := 1, _column := 1 })._it = begin + n ∧
    (Nat.iterate (increment doc) n
      { _begin := begin, _it := begin, _line := 1, _column := 1 })._begin = begin ∧
    (Nat.iterate (increment doc) n
      { _begin := begin, _it := begin, _line := 1, _column := 1 })._line =
      specLine ((doc.drop begin).take n) ∧
    (Nat.iterate (increment doc) n
      { _begin := begin, _it := begin, _line := 1, _column := 1 })._column =
      specColumn ((doc.drop begin).take n) := by
  induction n with
  | zero => simp [specLine, specColumn]
  | succ n ih =>
    obtain ⟨h1, h2, h3, h4⟩ := ih (by omega)
    have hlt : begin + n < doc.length := by omega
    have hget : (doc.drop begin)[n]? = some (doc.getD (begin + n) 0) := by
      rw [List.getElem?_drop, List.getD_eq_getElem?_getD, List.getElem?_eq_getElem hlt]
      rfl
    have htake : (doc.drop begin).take (n + 1) =
        (doc.drop begin).take n ++ [doc.getD (begin + n) 0] := by
      rw [List.take_succ, hget]
      rfl
    rw [Function.iterate_succ_apply', htake, specLine_snoc, specColumn_snoc]
    generalize Nat.iterate (increment doc) n
      { _begin := begin, _it := begin, _line := 1, _column := 1 } = d at h1 h2 h3 h4
    have hd : d.dereference doc = doc.getD (begin + n) 0 := by
      simp only [dereference, h1]
    unfold increment
    rw [hd]
    generalize doc.getD (begin + n) 0 = c
    by_cases hnl : c = ch '\n'
    · rw [if_pos hnl, if_pos hnl, if_pos hnl]
      exact ⟨by simp only [h1]; omega, h2, by simp only [h3], rfl⟩
    · rw [if_neg hnl, if_neg hnl, if_neg hnl]
      by_cases hc : c &&& 0xc0 = 0x80
      · have hic : isContinuation c = true := by simp [isContinuation, hc]
        rw [if_neg (not_not.2 hc), hic]
        exact ⟨by simp only [h1]; omega, h2, h3, by simp only [h4, if_true]⟩
      · have hic : isContinuation c = false := by simp [isContinuation, hc]
        rw [if_pos hc, hic]
        exact ⟨by simp only [h1]; omega, h2, h3, by simp [h4]⟩

/-- C25: for every document `doc` read from `begin` and every position `i`
of it, the iterator constructed at `i` has as its line 1 plus the number of
newline bytes before `i`, and as its column 1 plus the number of bytes that
are not UTF-8 continuation bytes between the last newline before `i` (or the
start) and `i`; an iterator constructed at an earlier position `j` and
incremented up to `i` is the same iterator, so two iterators at the same
position carry the same line and column, as `equal()` asserts. -/
theorem line_and_column (doc : List Nat) (begin j i : Nat) (hj : begin ≤ j) (hji : j ≤ i)
    (hi : i ≤ doc.length) :
    (new doc i begin)._it = i ∧
    (new doc i begin)._line = specLine ((doc.drop begin).take (i - begin)) ∧
    (new doc i begin)._column = specColumn ((doc.drop begin).take (i - begin)) ∧
    Nat.iterate (increment doc) (i - j) (new doc j begin) = new doc i begin := by
  obtain ⟨h1, -, h3, h4⟩ := iterate_counts doc begin (i - begin) (by omega)
  rw [new_eq_iterate doc i begin (by omega), new_eq_iterate doc j begin hj]
  refine ⟨by rw [h1]; omega, h3, h4, ?_⟩
  rw [← Function.iterate_add_apply]
  congr 1
  omega

/-- Instance of C25: in the document `a\nbc` followed by a two-byte UTF-8
character, the position 6 is on line 2, column 4. -/
theorem line_and_column_witness :
    (0 ≤ 2 ∧ 2 ≤ 6 ∧ 6 ≤ [97, 10, 98, 99, 195, 169].length) ∧
    (new [97, 10, 98, 99, 195, 169] 6 0)._line = 2 ∧
    (new [97, 10, 98, 99, 195, 169] 6 0)._column = 4 ∧
    Nat.iterate (increment [97, 10, 98, 99, 195, 169]) (6 - 2)
      (new [97, 10, 98, 99, 195, 169] 2 0) = new [97, 10, 98, 99, 195, 169] 6 0 :=
  ⟨by decide,
   (line_and_column [97, 10, 98, 99, 195, 169] 0 2 6 (by decide) (by decide)
      (by decide)).2.1.trans (by decide),
   (line_and_column [97, 10, 98, 99, 195, 169] 0 2 6 (by decide) (by decide)
      (by decide)).2.2.1.trans (by decide),
   (line_and_column [97, 10, 98, 99, 195, 169] 0 2 6 (by decide) (by decide)
      (by decide)).2.2.2⟩

end DocumentConstIterator
end detail

/-! ## The JSON decoder: the out-parameter -/

theorem onto_onto (a b : AnyValue) (r : Decoded) : (r.onto a).onto b = r.onto b := by
  cases r with
  | ret result value it => cases result <;> rfl
  | raise error value => rfl
  | bad_lexical_cast value => rfl
  | undefined => rfl
  | fuel => rfl

theorem orElse_onto (f : DocumentConstIterator → AnyValue → Decoded)
    (hf : ∀ it value, f it value = (f it AnyValue.invalid).onto value) (value : AnyValue)
    (r : Decoded) : (r.onto value).orElse f = (r.orElse f).onto value := by
  cases r with
  | ret result value1 it =>
    cases result
    · show f it value = (f it value1).onto value
      rw [hf it value, hf it value1, onto_onto]
    · rfl
  | raise error value1 => rfl
  | bad_lexical_cast value1 => rfl
  | undefined => rfl
  | fuel => rfl

namespace JsonDecoderPrivate

theorem decodeSpecial_onto (doc : List Nat) (_end it : DocumentConstIterator)
    (value : AnyValue) :
    decodeSpecial doc _end it value = (decodeSpecial doc _end it AnyValue.invalid).onto value := by
  unfold decodeSpecial
  split
  · rfl
  · split
    · rfl
    · split
      · rfl
      · split <;> rfl

theorem decodeString_onto (doc : List Nat) (_end it : DocumentConstIterator)
    (value : AnyValue) :
    decodeString doc _end it value = (decodeString doc _end it AnyValue.invalid).onto value := by
  unfold decodeString
  split <;> rfl

theorem decodeFloat_onto (doc : List Nat) (_end it : DocumentConstIterator)
    (value : AnyValue) :
    decodeFloat doc _end it value = (decodeFloat doc _end it AnyValue.invalid).onto value := by
  unfold decodeFloat
  split <;> rfl

theorem decodeInteger_onto (doc : List Nat) (_end it : DocumentConstIterator)
    (value : AnyValue) :
    decodeInteger doc _end it value =
      (decodeInteger doc _end it AnyValue.invalid).onto value := by
  unfold decodeInteger
  split <;> rfl

theorem closeArray_onto (doc : List Nat) (tmpArray : List AnyValue)
    (it : DocumentConstIterator) (value : AnyValue) :
    closeArray doc tmpArray it value = (closeArray doc tmpArray it AnyValue.invalid).onto value := by
  unfold closeArray
  split <;> rfl

theorem arrayLoop_onto (doc : List Nat) (_end : DocumentConstIterator)
    (decodeValue : DocumentConstIterator → AnyValue → Decoded) (n : Nat)
    (tmpArray : List AnyValue) (it : DocumentConstIterator) (value : AnyValue) :
    arrayLoop doc _end decodeValue n tmpArray it value =
      (arrayLoop doc _end decodeValue n tmpArray it AnyValue.invalid).onto value := by
  induction n generalizing tmpArray it with
  | zero => rfl
  | succ n ih =>
    simp only [arrayLoop]
    split
    · exact closeArray_onto _ _ _ _
    · split
      · exact closeArray_onto _ _ _ _
      · exact ih _ _
    · rfl
    · rfl
    · rfl
    · rfl

theorem decodeArray_onto (doc : List Nat) (_end : DocumentConstIterator)
    (decodeValue : DocumentConstIterator → AnyValue → Decoded)
    (it : DocumentConstIterator) (value : AnyValue) :
    decodeArray doc _end decodeValue it value =
      (decodeArray doc _end decodeValue it AnyValue.invalid).onto value := by
  unfold decodeArray
  split
  · rfl
  · exact arrayLoop_onto _ _ _ _ _ _ _

theorem closeObject_onto (doc : List Nat) (_end : DocumentConstIterator)
    (tmpMap : List (List Nat × AnyValue)) (it : DocumentConstIterator) (value : AnyValue) :
    closeObject doc _end tmpMap it value =
      (closeObject doc _end tmpMap it AnyValue.invalid).onto value := by
  unfold closeObject
  split <;> rfl

theorem objectLoop_onto (doc : List Nat) (_end : DocumentConstIterator)
    (decodeValue : DocumentConstIterator → AnyValue → Decoded) (n : Nat)
    (tmpMap : List (List Nat × AnyValue)) (it : DocumentConstIterator) (value : AnyValue) :
    objectLoop doc _end decodeValue n tmpMap it value =
      (objectLoop doc _end decodeValue n tmpMap it AnyValue.invalid).onto value := by
  induction n generalizing tmpMap it with
  | zero => rfl
  | succ n ih =>
    simp only [objectLoop]
    split
    · exact closeObject_onto _ _ _ _ _
    · split
      · rfl
      · split
        · rfl
        · split
          · exact closeObject_onto _ _ _ _ _
          · split
            · exact closeObject_onto _ _ _ _ _
            · exact ih _ _
        · rfl
        · rfl
        · rfl
        · rfl
    · rfl
    · rfl
    · rfl

theorem decodeObject_onto (doc : List Nat) (_end : DocumentConstIterator)
    (decodeValue : DocumentConstIterator → AnyValue → Decoded)
    (it : DocumentConstIterator) (value : AnyValue) :
    decodeObject doc _end decodeValue it value =
      (decodeObject doc _end decodeValue it AnyValue.invalid).onto value := by
  unfold decodeObject
  split
  · rfl
  · exact objectLoop_onto _ _ _ _ _ _ _

theorem decodeValueBody_onto (doc : List Nat) (_end : DocumentConstIterator)
    (decodeValue : DocumentConstIterator → AnyValue → Decoded)
    (it : DocumentConstIterator) (value : AnyValue) :
    decodeValueBody doc _end decodeValue it value =
      (decodeValueBody doc _end decodeValue it AnyValue.invalid).onto value := by
  have key : (((((decodeSpecial doc _end (skipWhiteSpaces doc _end it) value).orElse
      (decodeString doc _end)).orElse
      (decodeFloat doc _end)).orElse
      (decodeInteger doc _end)).orElse
      (decodeArray doc _end decodeValue)).orElse
      (decodeObject doc _end decodeValue) =
      ((((((decodeSpecial doc _end (skipWhiteSpaces doc _end it) AnyValue.invalid).orElse
      (decodeString doc _end)).orElse
      (decodeFloat doc _end)).orElse
      (decodeInteger doc _end)).orElse
      (decodeArray doc _end decodeValue)).orElse
      (decodeObject doc _end decodeValue)).onto value := by
    rw [decodeSpecial_onto,
      orElse_onto _ (decodeString_onto doc _end),
      orElse_onto _ (decodeFloat_onto doc _end),
      orElse_onto _ (decodeInteger_onto doc _end),
      orElse_onto _ (decodeArray_onto doc _end decodeValue),
      orElse_onto _ (decodeObject_onto doc _end decodeValue)]
  unfold decodeValueBody
  rw [key]
  generalize (((((decodeSpecial doc _end (skipWhiteSpaces doc _end it) AnyValue.invalid).orElse
      (decodeString doc _end)).orElse
      (decodeFloat doc _end)).orElse
      (decodeInteger doc _end)).orElse
      (decodeArray doc _end decodeValue)).orElse
      (decodeObject doc _end decodeValue) = r
  cases r with
  | ret result value1 it1 => cases result <;> rfl
  | raise error value1 => rfl
  | bad_lexical_cast value1 => rfl
  | undefined => rfl
  | fuel => rfl

theorem decodeValue_onto (doc : List Nat) (_end : DocumentConstIterator) (depth : Nat)
    (it : DocumentConstIterator) (value : AnyValue) :
    decodeValue doc _end depth it value =
      (decodeValue doc _end depth it AnyValue.invalid).onto value := by
  cases depth with
  | zero => rfl
  | succ depth => exact decodeValueBody_onto _ _ _ _ _

/-- What `decode` leaves in `out`: the decoded value on a normal return, and
`out` untouched when it throws. -/
theorem decode_onto (p : JsonDecoderPrivate) (out : AnyValue) :
    p.decode out = (p.decode AnyValue.invalid).onto out := by
  unfold decode
  rw [decodeValue_onto]
  generalize decodeValue p.doc p._end (p.doc.length + 1) p._begin AnyValue.invalid = r
  cases r with
  | ret result value1 it1 => cases result <;> rfl
  | raise error value1 => rfl
  | bad_lexical_cast value1 => rfl
  | undefined => rfl
  | fuel => rfl

end JsonDecoderPrivate

/-- C21: for every buffer, every range of it and every `target`, when
`decodeJSON(begin, end, target)` throws a `ParseError`, `target` holds the
value it had before the call. -/
theorem decodeJSON_atomic_on_error (doc : List Nat) (begin end_ : Nat) (target : AnyValue)
    (error : ParseError) (left : AnyValue)
    (h : decodeJSONIt doc begin end_ target = Decoded.raise error left) : left = target := by
  unfold decodeJSONIt at h
  rw [JsonDecoderPrivate.decode_onto] at h
  generalize (JsonDecoderPrivate.ofRange doc begin end_).decode AnyValue.invalid = r at h
  cases r with
  | ret result value1 it1 => cases result <;> simp [Decoded.onto] at h
  | raise error1 value1 =>
    simp only [Decoded.onto, Decoded.raise.injEq] at h
    exact h.2.symm
  | bad_lexical_cast value1 => simp [Decoded.onto] at h
  | undefined => simp [Decoded.onto] at h
  | fuel => simp [Decoded.onto] at h

/-- Instance of C21: the unterminated list `[1, 2` is decoded into a target
that holds `true`. -/
theorem decodeJSON_atomic_on_error_witness :
    decodeJSONIt (lit "[1, 2") 0 5 (AnyValue.bool true) =
      Decoded.raise { reason := "unterminated list", line := 1, column := 6 }
        (AnyValue.bool true) ∧
    AnyValue.bool true = AnyValue.bool true :=
  ⟨rfl, decodeJSON_atomic_on_error (lit "[1, 2") 0 5 (AnyValue.bool true)
    { reason := "unterminated list", line := 1, column := 6 } (AnyValue.bool true) rfl⟩

/-- C23: for every string `in_` and every `target`, `decodeJSON(in_)` throws
a `ParseError` exactly when `decodeJSON(in_.begin(), in_.end(), target)`
throws it, with the same reason, line and column, and `decodeJSON(in_)`
returns the value `v` exactly when the overload on iterators returns
normally with `target` set to `v`. -/
theorem decodeJSON_overloads_agree (in_ : List Nat) (target : AnyValue) :
    (∀ error, decodeJSON in_ = Returned.raise error ↔
      ∃ left, decodeJSONIt in_ 0 in_.length target = Decoded.raise error left) ∧
    (∀ v, decodeJSON in_ = Returned.value v ↔
      ∃ it, decodeJSONIt in_ 0 in_.length target = Decoded.ret true v it) := by
  have hsame : JsonDecoderPrivate.ofRange in_ 0 in_.length = JsonDecoderPrivate.ofString in_ :=
    rfl
  have hret : ∀ value1 it, (JsonDecoderPrivate.ofString in_).decode AnyValue.invalid ≠
      Decoded.ret false value1 it := by
    intro value1 it
    unfold JsonDecoderPrivate.decode
    split
    · simp
    · rename_i r hr
      intro h
      exact hr _ _ h
  have hdj : decodeJSON in_ =
      match (JsonDecoderPrivate.ofString in_).decode AnyValue.invalid with
      | Decoded.ret _ value1 _ => Returned.value value1
      | Decoded.raise error _ => Returned.raise error
      | Decoded.bad_lexical_cast _ => Returned.bad_lexical_cast
      | Decoded.undefined => Returned.undefined
      | Decoded.fuel => Returned.fuel := rfl
  unfold decodeJSONIt
  rw [hdj, hsame, JsonDecoderPrivate.decode_onto _ target]
  generalize hr : (JsonDecoderPrivate.ofString in_).decode AnyValue.invalid = r at hret
  cases r with
  | ret result value1 it1 =>
    cases result
    · exact absurd rfl (hret value1 it1)
    · simp only [Decoded.onto]
      constructor
      · intro error
        simp
      · intro v
        simp only [Returned.value.injEq, Decoded.ret.injEq, true_and]
        constructor
        · intro h
          exact ⟨it1, h, rfl⟩
        · rintro ⟨it, h, -⟩
          exact h
  | raise error1 value1 =>
    simp only [Decoded.onto]
    constructor
    · intro error
      simp only [Returned.raise.injEq, Decoded.raise.injEq]
      constructor
      · intro h
        exact ⟨target, h, rfl⟩
      · rintro ⟨left, h, -⟩
        exact h
    · intro v
      simp
  | bad_lexical_cast value1 =>
    simp [Decoded.onto]
  | undefined =>
    simp [Decoded.onto]
  | fuel =>
    simp [Decoded.onto]

/-! ## The JSON decoder: every call returns, throws or reads beyond the buffer -/

namespace detail
namespace DocumentConstIterator

theorem lt_of_dereference (doc : List Nat) (it : DocumentConstIterator)
    (h : it.dereference doc ≠ 0) : it._it < doc.length := by
  by_contra hn
  apply h
  unfold dereference
  rw [List.getD_eq_getElem?_getD, List.getElem?_eq_none (by omega)]
  rfl

theorem equal_iff (it jt : DocumentConstIterator) (hb : it._begin = jt._begin) :
    it.equal jt = true ↔ it._it = jt._it := by
  unfold equal
  simp [hb]

end DocumentConstIterator
end detail

theorem advanced_refl (doc : List Nat) (it : DocumentConstIterator)
    (hi : it._it ≤ doc.length) : Advanced doc it false it :=
  ⟨rfl, hi, Nat.le_refl _, fun h => Bool.noConfusion h⟩

theorem advanced_after (doc : List Nat) (it it1 it2 : DocumentConstIterator)
    (found0 found : Bool) (h : Advanced doc it found0 it1) (h2 : Advanced doc it1 found it2) :
    Advanced doc it found it2 :=
  ⟨h2.1.trans h.1, h2.2.1, Nat.le_trans h.2.2.1 h2.2.2.1,
   fun hf => Nat.lt_of_le_of_lt h.2.2.1 (h2.2.2.2 hf)⟩

theorem advanced_strict (doc : List Nat) (it it1 it2 : DocumentConstIterator)
    (found found2 : Bool) (h : Advanced doc it true it1) (h2 : Advanced doc it1 found it2) :
    Advanced doc it found2 it2 :=
  ⟨h2.1.trans h.1, h2.2.1, Nat.le_of_lt (Nat.lt_of_lt_of_le (h.2.2.2 rfl) h2.2.2.1),
   fun _ => Nat.lt_of_lt_of_le (h.2.2.2 rfl) h2.2.2.1⟩

theorem advanced_increment (doc : List Nat) (it : DocumentConstIterator) (found : Bool)
    (h : it._it < doc.length) : Advanced doc it found (it.increment doc) :=
  ⟨(DocumentConstIterator.increment_it doc it).2,
   by rw [(DocumentConstIterator.increment_it doc it).1]; omega,
   by rw [(DocumentConstIterator.increment_it doc it).1]; omega,
   fun _ => by rw [(DocumentConstIterator.increment_it doc it).1]; omega⟩

theorem advanced_step (doc : List Nat) (it : DocumentConstIterator) (found : Bool)
    (c : Nat) (h : it.dereference doc = c) (hc : c ≠ 0) :
    Advanced doc it found (it.increment doc) :=
  advanced_increment doc it found
    (DocumentConstIterator.lt_of_dereference doc it (by rw [h]; exact hc))

theorem whole_of_advanced (doc : List Nat) (_end it it1 : DocumentConstIterator)
    (found : Bool) (h : Advanced doc it found it1) (hw : Whole doc _end it) :
    Whole doc _end it1 :=
  ⟨hw.1, h.1.trans hw.2⟩

namespace JsonDecoderPrivate

theorem skipLoop_advanced (doc : List Nat) (_end : DocumentConstIterator) (n : Nat)
    (it : DocumentConstIterator) (hi : it._it ≤ doc.length) :
    Advanced doc it false (skipLoop doc _end n it) := by
  induction n generalizing it with
  | zero => exact advanced_refl doc it hi
  | succ n ih =>
    simp only [skipLoop]
    split
    · rename_i h
      simp only [Bool.and_eq_true, Bool.or_eq_true, decide_eq_true_eq] at h
      have hinc : Advanced doc it false (it.increment doc) := by
        rcases h.2 with hc | hc
        · exact advanced_step doc it false _ hc (by decide)
        · exact advanced_step doc it false _ hc (by decide)
      exact advanced_after doc it _ _ false false hinc (ih _ hinc.2.1)
    · exact advanced_refl doc it hi

theorem skipWhiteSpaces_advanced (doc : List Nat) (_end it : DocumentConstIterator)
    (hi : it._it ≤ doc.length) : Advanced doc it false (skipWhiteSpaces doc _end it) :=
  skipLoop_advanced doc _end _ it hi

/-- The rounds allotted to the loop of `skipWhiteSpaces` are enough: the
loop is left at `_end` or at a character that is neither a space nor a
newline. -/
theorem skipWhiteSpaces_stops (doc : List Nat) (_end it : DocumentConstIterator) :
    (skipWhiteSpaces doc _end it).equal _end = true ∨
    ((skipWhiteSpaces doc _end it).dereference doc ≠ ch ' ' ∧
      (skipWhiteSpaces doc _end it).dereference doc ≠ ch '\n') := by
  have key : ∀ (n : Nat) (it : DocumentConstIterator), doc.length ≤ n + it._it →
      (skipLoop doc _end n it).equal _end = true ∨
      ((skipLoop doc _end n it).dereference doc ≠ ch ' ' ∧
        (skipLoop doc _end n it).dereference doc ≠ ch '\n') := by
    intro n
    induction n with
    | zero =>
      intro it hn
      right
      have h0 : it.dereference doc = 0 := by
        unfold DocumentConstIterator.dereference
        rw [List.getD_eq_getElem?_getD, List.getElem?_eq_none (by omega)]
        rfl
      simp only [skipLoop, h0]
      decide
    | succ n ih =>
      intro it hn
      simp only [skipLoop]
      split
      · exact ih _ (by rw [(DocumentConstIterator.increment_it doc it).1]; omega)
      · rename_i h
        simp only [Bool.and_eq_true, Bool.or_eq_true, decide_eq_true_eq, not_and, not_or,
          Bool.not_eq_true', Bool.not_eq_false] at h
        by_cases he : it.equal _end = true
        · exact Or.inl he
        · exact Or.inr (h (by simpa using he))
  exact key _ it (by omega)

theorem digitsLoop_advanced (doc : List Nat) (_end : DocumentConstIterator) (n : Nat)
    (it : DocumentConstIterator) (hi : it._it ≤ doc.length) :
    Advanced doc it false (digitsLoop doc _end n it) := by
  induction n generalizing it with
  | zero => exact advanced_refl doc it hi
  | succ n ih =>
    simp only [digitsLoop]
    split
    · rename_i h
      simp only [Bool.and_eq_true, decide_eq_true_eq] at h
      have hinc : Advanced doc it false (it.increment doc) := by
        apply advanced_increment
        apply DocumentConstIterator.lt_of_dereference
        intro h0
        have h1 := h.1.2
        rw [h0] at h1
        revert h1
        decide
      exact advanced_after doc it _ _ false false hinc (ih _ hinc.2.1)
    · exact advanced_refl doc it hi

/-- The rounds allotted to the loop of `getDigits` are enough: the loop is
left at `_end` or at a character that is not a digit. -/
theorem digitsLoop_stops (doc : List Nat) (_end it : DocumentConstIterator) :
    (digitsLoop doc _end (doc.length - it._it) it).equal _end = true ∨
    ¬ (ch '0' ≤ (digitsLoop doc _end (doc.length - it._it) it).dereference doc ∧
      (digitsLoop doc _end (doc.length - it._it) it).dereference doc ≤ ch '9') := by
  have key : ∀ (n : Nat) (it : DocumentConstIterator), doc.length ≤ n + it._it →
      (digitsLoop doc _end n it).equal _end = true ∨
      ¬ (ch '0' ≤ (digitsLoop doc _end n it).dereference doc ∧
        (digitsLoop doc _end n it).dereference doc ≤ ch '9') := by
    intro n
    induction n with
    | zero =>
      intro it hn
      right
      have h0 : it.dereference doc = 0 := by
        unfold DocumentConstIterator.dereference
        rw [List.getD_eq_getElem?_getD, List.getElem?_eq_none (by omega)]
        rfl
      simp only [digitsLoop, h0]
      decide
    | succ n ih =>
      intro it hn
      simp only [digitsLoop]
      split
      · exact ih _ (by rw [(DocumentConstIterator.increment_it doc it).1]; omega)
      · rename_i h
        simp only [Bool.and_eq_true, decide_eq_true_eq, Bool.not_eq_true'] at h
        by_cases he : it.equal _end = true
        · exact Or.inl he
        · right
          intro hd
          exact h ⟨⟨by simpa using he, hd.1⟩, hd.2⟩
  exact key _ it (by omega)

theorem getDigits_advanced (doc : List Nat) (_end it : DocumentConstIterator)
    (hi : it._it ≤ doc.length) :
    Advanced doc it (getDigits doc _end it).1.isSome (getDigits doc _end it).2 := by
  obtain ⟨h0, h1, h2, -⟩ := digitsLoop_advanced doc _end (doc.length - it._it) it hi
  unfold getDigits
  simp only
  split
  · exact ⟨h0, h1, h2, fun h => Bool.noConfusion h⟩
  · rename_i h
    refine ⟨h0, h1, h2, fun _ => ?_⟩
    have hne : (digitsLoop doc _end (doc.length - it._it) it)._it ≠ it._it := by
      intro hh
      exact h ((DocumentConstIterator.equal_iff _ _ h0).2 hh)
    show it._it < (digitsLoop doc _end (doc.length - it._it) it)._it
    omega

theorem getInteger_advanced (doc : List Nat) (_end it : DocumentConstIterator)
    (hi : it._it ≤ doc.length) :
    Advanced doc it (getInteger doc _end it).1.isSome (getInteger doc _end it).2 := by
  unfold getInteger
  simp only
  by_cases hne : it.equal _end = true
  · rw [if_pos hne]
    exact advanced_refl doc it hi
  · rw [if_neg hne]
    by_cases hm : it.dereference doc = ch '-'
    · simp only [if_pos hm]
      have hinc := advanced_step doc it true _ hm (by decide)
      have hd := getDigits_advanced doc _end _ hinc.2.1
      cases hg : getDigits doc _end (it.increment doc) with
      | mk o it2 =>
        rw [hg] at hd
        cases o with
        | none => exact advanced_refl doc it hi
        | some d => exact advanced_strict doc it _ _ _ _ hinc hd
    · simp only [if_neg hm]
      have hd := getDigits_advanced doc _end it hi
      cases hg : getDigits doc _end it with
      | mk o it2 =>
        rw [hg] at hd
        cases o with
        | none => exact advanced_refl doc it hi
        | some d => exact hd

theorem getIntegerInt64_advanced (doc : List Nat) (_end it : DocumentConstIterator)
    (hi : it._it ≤ doc.length) :
    Advanced doc it (getIntegerInt64 doc _end it).1.isSome
      (getIntegerInt64 doc _end it).2 := by
  have hd := getInteger_advanced doc _end it hi
  unfold getIntegerInt64
  cases hg : getInteger doc _end it with
  | mk o it2 =>
    rw [hg] at hd
    cases o with
    | none => exact hd
    | some d => exact hd

theorem getExponent_advanced (doc : List Nat) (_end it : DocumentConstIterator)
    (hi : it._it ≤ doc.length) :
    Advanced doc it (getExponent doc _end it).1.isSome (getExponent doc _end it).2 := by
  unfold getExponent
  simp only
  split
  · exact advanced_refl doc it hi
  · rename_i hc
    simp only [Bool.or_eq_true, Bool.and_eq_true, decide_eq_true_eq, not_or, not_and,
      Bool.not_eq_true, ne_eq, Decidable.not_not] at hc
    have hinc : Advanced doc it true (it.increment doc) := by
      by_cases h1 : it.dereference doc = ch 'e'
      · exact advanced_step doc it true _ h1 (by decide)
      · exact advanced_step doc it true _ (hc.2 h1) (by decide)
    by_cases hs : (it.increment doc).dereference doc = ch '+' ∨
        (it.increment doc).dereference doc = ch '-'
    · have hs2 : (decide ((it.increment doc).dereference doc = ch '+') ||
          decide ((it.increment doc).dereference doc = ch '-')) = true := by simpa using hs
      simp only [hs2, if_true]
      have hinc2 : Advanced doc (it.increment doc) true ((it.increment doc).increment doc) := by
        rcases hs with h | h
        · exact advanced_step doc _ true _ h (by decide)
        · exact advanced_step doc _ true _ h (by decide)
      have hd := getDigits_advanced doc _end _ hinc2.2.1
      cases hg : getDigits doc _end ((it.increment doc).increment doc) with
      | mk o it2 =>
        rw [hg] at hd
        cases o with
        | none => exact advanced_refl doc it hi
        | some d =>
          exact advanced_strict doc it _ _ _ _ hinc (advanced_after doc _ _ _ _ _ hinc2 hd)
    · have hs2 : (decide ((it.increment doc).dereference doc = ch '+') ||
          decide ((it.increment doc).dereference doc = ch '-')) = false := by simpa using hs
      simp only [hs2, Bool.false_eq_true, if_false]
      have hd := getDigits_advanced doc _end _ hinc.2.1
      cases hg : getDigits doc _end (it.increment doc) with
      | mk o it2 =>
        rw [hg] at hd
        cases o with
        | none => exact advanced_refl doc it hi
        | some d => exact advanced_strict doc it _ _ _ _ hinc hd

theorem getFloatStr_advanced (doc : List Nat) (_end it : DocumentConstIterator)
    (hi : it._it ≤ doc.length) :
    Advanced doc it (getFloatStr doc _end it).1.isSome (getFloatStr doc _end it).2 := by
  unfold getFloatStr
  simp only
  have h1 := getInteger_advanced doc _end it hi
  cases hg : getInteger doc _end it with
  | mk o it1 =>
    rw [hg] at h1
    cases o with
    | none => exact h1
    | some beforePoint =>
      simp only
      have h2 := getExponent_advanced doc _end it1 h1.2.1
      cases hx : getExponent doc _end it1 with
      | mk o2 it2 =>
        rw [hx] at h2
        cases o2 with
        | some exponent => exact advanced_strict doc it _ _ _ _ h1 h2
        | none =>
          simp only
          split
          · exact advanced_refl doc it hi
          · rename_i hc
            simp only [Bool.or_eq_true, decide_eq_true_eq, not_or, Bool.not_eq_true, ne_eq,
              Decidable.not_not] at hc
            have hinc := advanced_step doc it2 true _ hc.2 (by decide)
            have h3 := getDigits_advanced doc _end _ hinc.2.1
            cases hd : getDigits doc _end (it2.increment doc) with
            | mk o3 it4 =>
              rw [hd] at h3
              cases o3 with
              | none => exact advanced_refl doc it hi
              | some afterPoint =>
                simp only
                have h4 := getExponent_advanced doc _end it4 h3.2.1
                have h14 : Advanced doc it true it4 :=
                  advanced_strict doc it _ _ _ _ h1
                    (advanced_after doc _ _ _ _ _ h2 (advanced_after doc _ _ _ _ _ hinc h3))
                cases hy : getExponent doc _end it4 with
                | mk o5 it5 =>
                  rw [hy] at h4
                  cases o5 with
                  | none => exact advanced_strict doc it _ _ _ _ h14 h4
                  | some exponent => exact advanced_strict doc it _ _ _ _ h14 h4

theorem matchLoop_advanced (doc : List Nat) (_end : DocumentConstIterator)
    (expected : List Nat) (hz : ∀ c ∈ expected, c ≠ 0) (it it1 : DocumentConstIterator)
    (hi : it._it ≤ doc.length) (h : matchLoop doc _end expected it = some it1) :
    Advanced doc it (decide (expected ≠ [])) it1 := by
  induction expected generalizing it with
  | nil =>
    simp only [matchLoop, Option.some.injEq] at h
    rw [← h]
    exact ⟨rfl, hi, Nat.le_refl _, fun hh => by simp at hh⟩
  | cons c rest ih =>
    simp only [matchLoop] at h
    split at h
    · cases h
    · split at h
      · cases h
      · rename_i hc
        have hinc := advanced_step doc it true c (not_not.1 hc) (hz c (by simp))
        exact advanced_strict doc it _ _ _ _ hinc
          (ih (fun x hx => hz x (List.mem_cons_of_mem _ hx)) _ hinc.2.1 h)

theorem match_advanced (doc : List Nat) (_end : DocumentConstIterator)
    (expected : List Nat) (hne : expected ≠ []) (hz : ∀ c ∈ expected, c ≠ 0)
    (it : DocumentConstIterator) (hi : it._it ≤ doc.length) :
    Advanced doc it (match_ doc _end it expected).1 (match_ doc _end it expected).2 := by
  unfold match_
  simp only
  cases hm : matchLoop doc _end expected it with
  | none => exact advanced_refl doc it hi
  | some it1 =>
    have := matchLoop_advanced doc _end expected hz it it1 hi hm
    simp only [hne, ne_eq, not_false_eq_true, decide_True] at this
    exact this

theorem decodeSpecial_good (doc : List Nat) (_end it : DocumentConstIterator)
    (hi : it._it ≤ doc.length) (value : AnyValue) :
    (decodeSpecial doc _end it value).Good doc _end it := by
  unfold decodeSpecial
  split
  · exact advanced_refl doc it hi
  · have h1 := match_advanced doc _end (lit "true") (by decide) (by decide) it hi
    cases hm1 : match_ doc _end it (lit "true") with
    | mk b1 it1 =>
      rw [hm1] at h1
      cases b1 with
      | true => exact h1
      | false =>
        simp only
        have h2 := match_advanced doc _end (lit "false") (by decide) (by decide) it1 h1.2.1
        cases hm2 : match_ doc _end it1 (lit "false") with
        | mk b2 it2 =>
          rw [hm2] at h2
          cases b2 with
          | true => exact advanced_after doc it _ _ _ _ h1 h2
          | false =>
            simp only
            have h3 := match_advanced doc _end (lit "null") (by decide) (by decide) it2 h2.2.1
            cases hm3 : match_ doc _end it2 (lit "null") with
            | mk b3 it3 =>
              rw [hm3] at h3
              have h13 := advanced_after doc it _ _ _ _ h1
                (advanced_after doc it1 _ _ _ _ h2 h3)
              cases b3 with
              | true => exact h13
              | false => exact h13

end JsonDecoderPrivate

theorem good_after (doc : List Nat) (_end it it1 : DocumentConstIterator) (found0 : Bool)
    (r : Decoded) (h : Advanced doc it found0 it1) (hr : r.Good doc _end it1) :
    r.Good doc _end it := by
  cases r with
  | ret result value it2 => exact advanced_after doc it it1 it2 found0 result h hr
  | raise error value => trivial
  | bad_lexical_cast value => trivial
  | undefined => exact fun hw => hr (whole_of_advanced doc _end it it1 found0 h hw)
  | fuel => exact hr

theorem good_strict (doc : List Nat) (_end it it1 : DocumentConstIterator)
    (r : Decoded) (h : Advanced doc it true it1) (hr : r.Good doc _end it1) :
    r.Good doc _end it := by
  cases r with
  | ret result value it2 => exact advanced_strict doc it it1 it2 result result h hr
  | raise error value => trivial
  | bad_lexical_cast value => trivial
  | undefined => exact fun hw => hr (whole_of_advanced doc _end it it1 true h hw)
  | fuel => exact hr

theorem good_orElse (doc : List Nat) (_end it : DocumentConstIterator) (r : Decoded)
    (f : DocumentConstIterator → AnyValue → Decoded) (hr : r.Good doc _end it)
    (hf : ∀ it1 value, it1._it ≤ doc.length → it._it ≤ it1._it →
      (f it1 value).Good doc _end it1) : (r.orElse f).Good doc _end it := by
  cases r with
  | ret result value it1 =>
    cases result with
    | false => exact good_after doc _end it it1 false _ hr (hf it1 value hr.2.1 hr.2.2.1)
    | true => exact hr
  | raise error value => trivial
  | bad_lexical_cast value => trivial
  | undefined => exact hr
  | fuel => exact hr

namespace JsonDecoderPrivate

theorem escape_zero : escape 0 = none := by
  decide

/-- The loop of `getCleanString` entered at most one byte after the
terminating zero, and not after it on a whole string, with enough rounds: it
is left at `_end` or at a double quote, or by a throw; it reads beyond the
terminating zero only when the decoder does not work on a whole string. -/
theorem stringLoop_good (doc : List Nat) (_end : DocumentConstIterator) (n : Nat)
    (tmpString : List Nat) (it : DocumentConstIterator) (hi : it._it ≤ doc.length + 1)
    (hw : Whole doc _end it → it._it ≤ doc.length) (hn : doc.length + 1 < n + it._it) :
    match stringLoop doc _end n tmpString it with
    | Step.ret _ it1 =>
      it1._begin = it._begin ∧ it._it ≤ it1._it ∧
      (it1.equal _end = true ∨ it1.dereference doc = dquote)
    | Step.raise _ => True
    | Step.undefined => ¬ Whole doc _end it
    | Step.fuel => False := by
  induction n generalizing tmpString it with
  | zero => omega
  | succ n ih =>
    simp only [stringLoop]
    by_cases heq : it.equal _end = true
    · rw [if_pos heq]
      exact ⟨rfl, Nat.le_refl _, Or.inl heq⟩
    · rw [if_neg heq]
      by_cases hover : doc.length < it._it
      · rw [if_pos hover]
        intro hwh
        have := hw hwh
        omega
      · rw [if_neg hover]
        by_cases hq : it.dereference doc = dquote
        · rw [if_pos hq]
          exact ⟨rfl, Nat.le_refl _, Or.inr hq⟩
        · rw [if_neg hq]
          by_cases hb : it.dereference doc = backslash
          · rw [if_pos hb]
            have hinc := advanced_step doc it true _ hb (by decide)
            by_cases hnx : (it.increment doc).equal _end = true
            · rw [if_pos hnx]
              trivial
            · rw [if_neg hnx]
              cases hesc   : escape ((it.increment doc).dereference doc) with
                | none => trivial
                | some c =>
                  simp only
                  have hnz : (it.increment doc).dereference doc ≠ 0 := by
                    intro h0
                    rw [h0, escape_zero] at hesc
                    cases hesc
                  have hinc2 := advanced_increment doc (it.increment doc) true
                    (DocumentConstIterator.lt_of_dereference doc _ hnz)
                  have h02 := advanced_strict doc it _ _ true true hinc hinc2
                  have hrec := ih (tmpString ++ [c]) ((it.increment doc).increment doc)
                    (by have := h02.2.1; omega) (fun _ => h02.2.1)
                    (by have := h02.2.2.2 rfl; omega)
                  revert hrec
                  cases stringLoop doc _end n (tmpString ++ [c])
                    ((it.increment doc).increment doc) with
                  | ret r it3 =>
                    intro hrec
                    exact ⟨hrec.1.trans h02.1, Nat.le_trans h02.2.2.1 hrec.2.1, hrec.2.2⟩
                  | raise e => intro _; trivial
                  | undefined =>
                    intro hrec hwh
                    exact hrec (whole_of_advanced doc _end it _ true h02 hwh)
                  | fuel => intro h; exact h
          · rw [if_neg hb]
            have hit := DocumentConstIterator.increment_it doc it
            have hrec := ih (tmpString ++ [it.dereference doc]) (it.increment doc)
              (by rw [hit.1]; omega)
              (by
                intro hwh
                rw [hit.1]
                have h1 : it._begin = _end._begin := hit.2.symm.trans hwh.2
                have h2 : it._it ≠ _end._it := fun hh =>
                  heq ((DocumentConstIterator.equal_iff it _end h1).2 hh)
                have h3 := hwh.1
                omega)
              (by rw [hit.1]; omega)
            revert hrec
            cases stringLoop doc _end n (tmpString ++ [it.dereference doc])
              (it.increment doc) with
            | ret r it3 =>
              intro hrec
              exact ⟨hrec.1.trans hit.2, by have := hrec.2.1; rw [hit.1] at this; omega,
                hrec.2.2⟩
            | raise e => intro _; trivial
            | undefined =>
              intro hrec hwh
              exact hrec ⟨hwh.1, hit.2.trans hwh.2⟩
            | fuel => intro h; exact h

theorem getCleanString_good (doc : List Nat) (_end it : DocumentConstIterator)
    (hi : it._it ≤ doc.length) :
    (getCleanString doc _end it).Good doc _end it (fun o => o.isSome) := by
  unfold getCleanString
  split
  · exact advanced_refl doc it hi
  · rename_i hc
    simp only [Bool.or_eq_true, decide_eq_true_eq, not_or, Bool.not_eq_true, ne_eq,
      Decidable.not_not] at hc
    have hinc := advanced_step doc it true _ hc.2 (by decide)
    have hloop := stringLoop_good doc _end (doc.length + 2 - (it.increment doc)._it) []
      (it.increment doc) (by have := hinc.2.1; omega) (fun _ => hinc.2.1)
      (by have := hinc.2.1; omega)
    simp only
    revert hloop
    cases stringLoop doc _end (doc.length + 2 - (it.increment doc)._it) []
      (it.increment doc) with
    | ret r it2 =>
      intro hloop
      simp only
      split
      · trivial
      · rename_i hne
        rcases hloop.2.2 with h | h
        · exact absurd h hne
        · have hinc2 := advanced_step doc it2 true _ h (by decide)
          have hlt2 : it2._it < doc.length :=
            DocumentConstIterator.lt_of_dereference doc it2 (by rw [h]; decide)
          have h12 : Advanced doc (it.increment doc) false it2 :=
            ⟨hloop.1, Nat.le_of_lt hlt2, hloop.2.1, fun hh => Bool.noConfusion hh⟩
          exact advanced_strict doc it _ _ _ _ hinc
            (advanced_after doc _ _ _ _ _ h12 hinc2)
    | raise e => intro _; trivial
    | undefined =>
      intro hloop hwh
      exact hloop (whole_of_advanced doc _end it _ true hinc hwh)
    | fuel => intro h; exact h

theorem decodeString_good (doc : List Nat) (_end it : DocumentConstIterator)
    (hi : it._it ≤ doc.length) (value : AnyValue) :
    (decodeString doc _end it value).Good doc _end it := by
  have h := getCleanString_good doc _end it hi
  unfold decodeString
  revert h
  cases getCleanString doc _end it with
  | ret r it2 =>
    intro h
    cases r with
    | none => exact h
    | some s => exact h
  | raise e => intro _; trivial
  | undefined => intro h; exact h
  | fuel => intro h; exact h

theorem decodeFloat_good (doc : List Nat) (_end it : DocumentConstIterator)
    (hi : it._it ≤ doc.length) (value : AnyValue) :
    (decodeFloat doc _end it value).Good doc _end it := by
  have h := getFloatStr_advanced doc _end it hi
  unfold decodeFloat getFloat
  cases hg : getFloatStr doc _end it with
  | mk o it1 =>
    rw [hg] at h
    cases o with
    | none => exact h
    | some s =>
      simp only
      by_cases hc : lexicalCastThrows s = true
      · rw [if_pos hc]
        trivial
      · rw [if_neg hc]
        exact h

theorem decodeInteger_good (doc : List Nat) (_end it : DocumentConstIterator)
    (hi : it._it ≤ doc.length) (value : AnyValue) :
    (decodeInteger doc _end it value).Good doc _end it := by
  have h := getIntegerInt64_advanced doc _end it hi
  unfold decodeInteger
  cases hg : getIntegerInt64 doc _end it with
  | mk o it1 =>
    rw [hg] at h
    cases o with
    | none => exact h
    | some s => exact h

end JsonDecoderPrivate

namespace JsonDecoderPrivate

theorem closeArray_good (doc : List Nat) (_end : DocumentConstIterator)
    (tmpArray : List AnyValue) (it : DocumentConstIterator) (value : AnyValue) :
    (closeArray doc tmpArray it value).Good doc _end it := by
  unfold closeArray
  split
  · trivial
  · rename_i h
    exact advanced_step doc it true _ (not_not.1 h) (by decide)

theorem arrayLoop_good (doc : List Nat) (_end : DocumentConstIterator)
    (decodeValue : DocumentConstIterator → AnyValue → Decoded) (p0 : Nat)
    (hrec : ∀ it1 value, it1._it ≤ doc.length → p0 ≤ it1._it →
      (decodeValue it1 value).Good doc _end it1)
    (n : Nat) (tmpArray : List AnyValue) (it : DocumentConstIterator)
    (hi : it._it ≤ doc.length) (hp : p0 ≤ it._it) (hn : doc.length < n + it._it)
    (value : AnyValue) :
    (arrayLoop doc _end decodeValue n tmpArray it value).Good doc _end it := by
  induction n generalizing tmpArray it with
  | zero => omega
  | succ n ih =>
    simp only [arrayLoop]
    have hs := skipWhiteSpaces_advanced doc _end it hi
    have hr := hrec (skipWhiteSpaces doc _end it) AnyValue.invalid hs.2.1
      (Nat.le_trans hp hs.2.2.1)
    revert hr
    cases decodeValue (skipWhiteSpaces doc _end it) AnyValue.invalid with
    | ret result sub it2 =>
      intro hr
      have h02 : Advanced doc it false it2 :=
        advanced_after doc it _ _ false false hs
          ⟨hr.1, hr.2.1, hr.2.2.1, fun hh => Bool.noConfusion hh⟩
      cases result with
      | false => exact good_after doc _end it it2 false _ h02 (closeArray_good doc _end _ it2 value)
      | true =>
        simp only
        split
        · exact good_after doc _end it it2 false _ h02 (closeArray_good doc _end _ it2 value)
        · rename_i h
          have hinc := advanced_step doc it2 false _ (not_not.1 h) (by decide)
          have hit := (DocumentConstIterator.increment_it doc it2).1
          have h03 := advanced_after doc it _ _ false false h02 hinc
          exact good_after doc _end it _ false _ h03
            (ih _ (it2.increment doc) hinc.2.1
              (by have := h02.2.2.1; omega) (by have := h02.2.2.1; omega))
    | raise error v => intro _; trivial
    | bad_lexical_cast v => intro _; trivial
    | undefined =>
      intro hr hwh
      exact hr (whole_of_advanced doc _end it _ false hs hwh)
    | fuel => intro h; exact h

theorem decodeArray_good (doc : List Nat) (_end : DocumentConstIterator)
    (decodeValue : DocumentConstIterator → AnyValue → Decoded)
    (it : DocumentConstIterator) (hi : it._it ≤ doc.length)
    (hrec : ∀ it1 value, it1._it ≤ doc.length → it._it + 1 ≤ it1._it →
      (decodeValue it1 value).Good doc _end it1)
    (value : AnyValue) : (decodeArray doc _end decodeValue it value).Good doc _end it := by
  unfold decodeArray
  split
  · exact advanced_refl doc it hi
  · rename_i hc
    simp only [Bool.or_eq_true, decide_eq_true_eq, not_or, Bool.not_eq_true, ne_eq,
      Decidable.not_not] at hc
    have hinc := advanced_step doc it true _ hc.2 (by decide)
    have hit := (DocumentConstIterator.increment_it doc it).1
    exact good_strict doc _end it _ _ hinc
      (arrayLoop_good doc _end decodeValue (it._it + 1) hrec _ [] _ hinc.2.1 (by omega)
        (by have := hinc.2.1; omega) value)

theorem closeObject_good (doc : List Nat) (_end : DocumentConstIterator)
    (tmpMap : List (List Nat × AnyValue)) (it : DocumentConstIterator) (value : AnyValue) :
    (closeObject doc _end tmpMap it value).Good doc _end it := by
  unfold closeObject
  split
  · trivial
  · rename_i hc
    simp only [Bool.or_eq_true, decide_eq_true_eq, not_or, Bool.not_eq_true, ne_eq,
      Decidable.not_not] at hc
    exact advanced_step doc it true _ hc.2 (by decide)

theorem objectLoop_good (doc : List Nat) (_end : DocumentConstIterator)
    (decodeValue : DocumentConstIterator → AnyValue → Decoded) (p0 : Nat)
    (hrec : ∀ it1 value, it1._it ≤ doc.length → p0 ≤ it1._it →
      (decodeValue it1 value).Good doc _end it1)
    (n : Nat) (tmpMap : List (List Nat × AnyValue)) (it : DocumentConstIterator)
    (hi : it._it ≤ doc.length) (hp : p0 ≤ it._it) (hn : doc.length < n + it._it)
    (value : AnyValue) :
    (objectLoop doc _end decodeValue n tmpMap it value).Good doc _end it := by
  induction n generalizing tmpMap it with
  | zero => omega
  | succ n ih =>
    simp only [objectLoop]
    have hs := skipWhiteSpaces_advanced doc _end it hi
    have hg := getCleanString_good doc _end (skipWhiteSpaces doc _end it) hs.2.1
    revert hg
    cases getCleanString doc _end (skipWhiteSpaces doc _end it) with
    | ret o it2 =>
      intro hg
      have h02 : Advanced doc it false it2 :=
        advanced_after doc it _ _ false false hs
          ⟨hg.1, hg.2.1, hg.2.2.1, fun hh => Bool.noConfusion hh⟩
      cases o with
      | none =>
        exact good_after doc _end it it2 false _ h02 (closeObject_good doc _end _ it2 value)
      | some key =>
        simp only
        have hs3 := skipWhiteSpaces_advanced doc _end it2 h02.2.1
        split
        · trivial
        · rename_i hc
          simp only [Bool.or_eq_true, decide_eq_true_eq, not_or, Bool.not_eq_true, ne_eq,
            Decidable.not_not] at hc
          have hinc3 := advanced_step doc (skipWhiteSpaces doc _end it2) false _ hc.2
            (by decide)
          have h03 : Advanced doc it false ((skipWhiteSpaces doc _end it2).increment doc) :=
            advanced_after doc it _ _ false false h02
              (advanced_after doc it2 _ _ false false hs3 hinc3)
          have hr := hrec ((skipWhiteSpaces doc _end it2).increment doc) AnyValue.invalid
            h03.2.1 (Nat.le_trans hp h03.2.2.1)
          revert hr
          cases decodeValue ((skipWhiteSpaces doc _end it2).increment doc)
            AnyValue.invalid with
          | ret result tmpValue it4 =>
            intro hr
            have h04 : Advanced doc it false it4 :=
              advanced_after doc it _ _ false false h03
                ⟨hr.1, hr.2.1, hr.2.2.1, fun hh => Bool.noConfusion hh⟩
            cases result with
            | false => trivial
            | true =>
              simp only
              split
              · exact good_after doc _end it it4 false _ h04
                  (closeObject_good doc _end _ it4 value)
              · split
                · exact good_after doc _end it it4 false _ h04
                    (closeObject_good doc _end _ it4 value)
                · rename_i h
                  have hinc4 := advanced_step doc it4 false _ (not_not.1 h) (by decide)
                  have hit4 := (DocumentConstIterator.increment_it doc it4).1
                  have h05 := advanced_after doc it _ _ false false h04 hinc4
                  exact good_after doc _end it _ false _ h05
                    (ih _ (it4.increment doc) hinc4.2.1
                      (by have := h04.2.2.1; omega) (by have := h04.2.2.1; omega))
          | raise error v => intro _; trivial
          | bad_lexical_cast v => intro _; trivial
          | undefined =>
            intro hr hwh
            exact hr (whole_of_advanced doc _end it _ false h03 hwh)
          | fuel => intro h; exact h
    | raise error => intro _; trivial
    | undefined =>
      intro hg hwh
      exact hg (whole_of_advanced doc _end it _ false hs hwh)
    | fuel => intro h; exact h

theorem decodeObject_good (doc : List Nat) (_end : DocumentConstIterator)
    (decodeValue : DocumentConstIterator → AnyValue → Decoded)
    (it : DocumentConstIterator) (hi : it._it ≤ doc.length)
    (hrec : ∀ it1 value, it1._it ≤ doc.length → it._it + 1 ≤ it1._it →
      (decodeValue it1 value).Good doc _end it1)
    (value : AnyValue) : (decodeObject doc _end decodeValue it value).Good doc _end it := by
  unfold decodeObject
  split
  · exact advanced_refl doc it hi
  · rename_i hc
    simp only [Bool.or_eq_true, decide_eq_true_eq, not_or, Bool.not_eq_true, ne_eq,
      Decidable.not_not] at hc
    have hinc := advanced_step doc it true _ hc.2 (by decide)
    have hit := (DocumentConstIterator.increment_it doc it).1
    exact good_strict doc _end it _ _ hinc
      (objectLoop_good doc _end decodeValue (it._it + 1) hrec _ [] _ hinc.2.1 (by omega)
        (by have := hinc.2.1; omega) value)

theorem decodeValueBody_good (doc : List Nat) (_end : DocumentConstIterator)
    (decodeValue : DocumentConstIterator → AnyValue → Decoded)
    (it : DocumentConstIterator) (hi : it._it ≤ doc.length)
    (hrec : ∀ it1 value, it1._it ≤ doc.length → it._it + 1 ≤ it1._it →
      (decodeValue it1 value).Good doc _end it1)
    (value : AnyValue) : (decodeValueBody doc _end decodeValue it value).Good doc _end it := by
  have hs := skipWhiteSpaces_advanced doc _end it hi
  have hrec2 : ∀ it0 : DocumentConstIterator, (skipWhiteSpaces doc _end it)._it ≤ it0._it →
      ∀ it1 value, it1._it ≤ doc.length → it0._it + 1 ≤ it1._it →
      (decodeValue it1 value).Good doc _end it1 := by
    intro it0 h0 it1 v hi1 h1
    have := hs.2.2.1
    exact hrec it1 v hi1 (by omega)
  have hall : ((((((decodeSpecial doc _end (skipWhiteSpaces doc _end it) value).orElse
      (decodeString doc _end)).orElse
      (decodeFloat doc _end)).orElse
      (decodeInteger doc _end)).orElse
      (decodeArray doc _end decodeValue)).orElse
      (decodeObject doc _end decodeValue)).Good doc _end (skipWhiteSpaces doc _end it) := by
    apply good_orElse
    · apply good_orElse
      · apply good_orElse
        · apply good_orElse
          · apply good_orElse
            · exact decodeSpecial_good doc _end _ hs.2.1 value
            · intro it1 v hi1 _
              exact decodeString_good doc _end it1 hi1 v
          · intro it1 v hi1 _
            exact decodeFloat_good doc _end it1 hi1 v
        · intro it1 v hi1 _
          exact decodeInteger_good doc _end it1 hi1 v
      · intro it1 v hi1 h1
        exact decodeArray_good doc _end decodeValue it1 hi1 (hrec2 it1 h1) v
    · intro it1 v hi1 h1
      exact decodeObject_good doc _end decodeValue it1 hi1 (hrec2 it1 h1) v
  unfold decodeValueBody
  revert hall
  cases (((((decodeSpecial doc _end (skipWhiteSpaces doc _end it) value).orElse
      (decodeString doc _end)).orElse
      (decodeFloat doc _end)).orElse
      (decodeInteger doc _end)).orElse
      (decodeArray doc _end decodeValue)).orElse
      (decodeObject doc _end decodeValue) with
  | ret result value1 it1 =>
    intro hall
    cases result with
    | false => exact advanced_after doc it _ _ _ _ hs hall
    | true =>
      have hs1 := skipWhiteSpaces_advanced doc _end it1 hall.2.1
      exact advanced_strict doc it _ _ false true
        (advanced_after doc it _ _ false true hs hall) hs1
  | raise error v => intro _; trivial
  | bad_lexical_cast v => intro _; trivial
  | undefined =>
    intro h hwh
    exact h (whole_of_advanced doc _end it _ false hs hwh)
  | fuel => intro h; exact h.elim

/-- With a depth that covers the bytes from `it` on, `decodeValue` returns,
having moved `_it` forward when it returns true and never after the
terminating zero, or throws; its only other outcome is a read beyond the
terminating zero, on a decoder that does not work on a whole string. -/
theorem decodeValue_good (doc : List Nat) (_end : DocumentConstIterator) (depth : Nat)
    (it : DocumentConstIterator) (value : AnyValue) (hi : it._it ≤ doc.length)
    (hd : doc.length < depth + it._it) :
    (decodeValue doc _end depth it value).Good doc _end it := by
  induction depth generalizing it value with
  | zero => omega
  | succ depth ih =>
    exact decodeValueBody_good doc _end (decodeValue doc _end depth) it hi
      (fun it1 v hi1 h1 => ih it1 v hi1 (by omega)) value

/-- What `decode` yields on a decoder whose `_begin` points into the buffer:
the depth allotted to the recursion and the rounds allotted to the loops are
enough, a normal return leaves `_it` after `_begin` and not after the
terminating zero, and a read beyond the terminating zero happens only on a
decoder that does not work on a whole string. -/
theorem decode_good (p : JsonDecoderPrivate) (out : AnyValue)
    (hb : p._begin._it ≤ p.doc.length) :
    match p.decode out with
    | Decoded.ret result _ it =>
      result = true ∧ p._begin._it < it._it ∧ it._it ≤ p.doc.length
    | Decoded.raise _ _ => True
    | Decoded.bad_lexical_cast _ => True
    | Decoded.undefined => ¬ Whole p.doc p._end p._begin
    | Decoded.fuel => False := by
  have hg := decodeValue_good p.doc p._end (p.doc.length + 1) p._begin out hb (by omega)
  unfold decode
  revert hg
  cases decodeValue p.doc p._end (p.doc.length + 1) p._begin out with
  | ret result value1 it1 =>
    intro hg
    cases result with
    | false => trivial
    | true => exact ⟨rfl, hg.2.2.2 rfl, hg.2.1⟩
  | raise error v => intro _; trivial
  | bad_lexical_cast v => intro _; trivial
  | undefined => intro h; exact h
  | fuel => intro h; exact h.elim

end JsonDecoderPrivate

/-- For every buffer and every range of it, `decodeJSON(begin, end, target)`
returns, throws, or reads beyond the terminating zero of the buffer: the
depth and the rounds allotted in the embedding are never used up. A normal
return yields an iterator after `begin` and not after the terminating zero. -/
theorem decodeJSONIt_total (doc : List Nat) (begin end_ : Nat) (target : AnyValue)
    (hb : begin ≤ doc.length) :
    decodeJSONIt doc begin end_ target ≠ Decoded.fuel ∧
    ∀ result value it, decodeJSONIt doc begin end_ target = Decoded.ret result value it →
      result = true ∧ begin < it._it ∧ it._it ≤ doc.length := by
  have hbeg : (JsonDecoderPrivate.ofRange doc begin end_)._begin._it = begin := by
    simp [JsonDecoderPrivate.ofRange, DocumentConstIterator.new,
      DocumentConstIterator.countLoop]
  have hg := JsonDecoderPrivate.decode_good (JsonDecoderPrivate.ofRange doc begin end_) target
    (by rw [hbeg]; exact hb)
  unfold decodeJSONIt
  revert hg
  cases (JsonDecoderPrivate.ofRange doc begin end_).decode target with
  | ret result value1 it1 =>
    intro hg
    rw [hbeg] at hg
    refine ⟨by simp, ?_⟩
    intro r v it h
    cases h
    exact hg
  | raise error v => intro _; exact ⟨by simp, by simp⟩
  | bad_lexical_cast v => intro _; exact ⟨by simp, by simp⟩
  | undefined => intro _; exact ⟨by simp, by simp⟩
  | fuel => intro h; exact h.elim

set_option maxRecDepth 10000 in
/-- The conversion of a number that is too large for a `double`: on the
string `1e999`, `boost::lexical_cast<double>` throws in `getFloat` and the
`bad_lexical_cast`, which is not a `ParseError`, escapes `decodeJSON`; the
target of the overload on iterators holds what it held. -/
theorem decodeJSON_overflowing_double :
    decodeJSON (lit "1e999") = Returned.bad_lexical_cast ∧
    decodeJSONIt (lit "1e999") 0 5 (AnyValue.bool true) =
      Decoded.bad_lexical_cast (AnyValue.bool true) ∧
    decodeJSON (lit "[1.5, 2e400]") = Returned.bad_lexical_cast ∧
    decodeJSON (lit "1e308") = Returned.value (AnyValue.double (lit "1e+308")) :=
  ⟨rfl, rfl, rfl, rfl⟩

/-- Instance of C23: on the unterminated list `[1, 2` both overloads throw the
same error. -/
theorem decodeJSON_overloads_agree_witness :
    decodeJSON (lit "[1, 2") =
      Returned.raise { reason := "unterminated list", line := 1, column := 6 } ∧
    ∃ left, decodeJSONIt (lit "[1, 2") 0 (lit "[1, 2").length (AnyValue.bool true) =
      Decoded.raise { reason := "unterminated list", line := 1, column := 6 } left :=
  ⟨rfl, ((decodeJSON_overloads_agree (lit "[1, 2") (AnyValue.bool true)).1
    { reason := "unterminated list", line := 1, column := 6 }).1 rfl⟩

/-- C24 (the code at the failing input): the string is `[1]x` and the range
to decode is its first two characters, `[1`. After the element, `decodeArray`
reads `*_it` at the end of the range without comparing `_it` with `_end`,
finds the `]` that follows the range and steps over it: the call succeeds
with the list `[1]` and returns the iterator at index 3, which is after the
end of the range, at index 2. -/
theorem decodeJSON_returns_beyond_end :
    decodeJSONIt (lit "[1]x") 0 2 AnyValue.invalid =
      Decoded.ret true (AnyValue.list [AnyValue.int 1])
        { _begin := 0, _it := 3, _line := 1, _column := 4 } ∧
    (JsonDecoderPrivate.ofRange (lit "[1]x") 0 2)._end._it = 2 :=
  ⟨rfl, rfl⟩

/-! ## The cache: what checkClear erases, and the states it leaves -/

namespace TransportSocketCache

/-- C34 (as a counterexample): in `scenarioShared` the url `tcp://10.0.0.1:9`
leads to the attempt 1, which is connected with the inserted socket 70, and
is also a related url of the pending attempt 0, which never dialed it. When
the only dial of the attempt 0 fails, `checkClear` runs for the attempt 0 and
erases the entry of the attempt 1 as well. -/
theorem checkClear_evicts_other_attempt :
    scenarioShared.lookup "self" ⟨"tcp", "10.0.0.1", 9⟩ = some 1 ∧
    (scenarioShared.attempt 1).state = State.State_Connected ∧
    (scenarioShared.attempt 1).endpoint = some 70 ∧
    (⟨"tcp", "10.0.0.1", 9⟩ : Url) ∈ (scenarioShared.attempt 0).relatedUrls ∧
    dialedUrls scenarioShared.calls = [⟨"tcp", "127.0.0.1", 9⟩] ∧
    ((scenarioShared.markError 0).checkClear 0 "self").lookup "self" ⟨"tcp", "10.0.0.1", 9⟩ =
      none ∧
    (scenarioShared.onSocketParallelConnectionAttempt true 0 ⟨"tcp", "127.0.0.1", 9⟩
      scenarioLocal).lookup "self" ⟨"tcp", "10.0.0.1", 9⟩ = none ∧
    ((scenarioShared.onSocketParallelConnectionAttempt true 0 ⟨"tcp", "127.0.0.1", 9⟩
      scenarioLocal).attempt 1).state = State.State_Connected ∧
    (scenarioShared.onSocketParallelConnectionAttempt true 0 ⟨"tcp", "127.0.0.1", 9⟩
      scenarioLocal).lookup "self" ⟨"tcp", "10.0.0.2", 9⟩ = some 2 := by
  decide

/-- C34 (amended): for every cache state, `checkClear(attempt, machineId)`
leaves unchanged every entry whose url is not a related url of the
attempt, and every entry of another machine; when it erases, an entry of
`_connections[machineId]` under a related url of the attempt is erased
whichever attempt it leads to. -/
theorem checkClear_erases_by_url (c : TransportSocketCache) (a : Nat) (m : String) :
    (∀ m2 u, ¬ (m2 = m ∧ u ∈ (c.attempt a).relatedUrls) →
      (c.checkClear a m).lookup m2 u = c.lookup m2 u) ∧
    ((((c.attempt a).attemptCount ≤ 0 ∧ (c.attempt a).state ≠ State.State_Connected) ∨
        (c.attempt a).state = State.State_Error) →
      ∀ u b, u ∈ (c.attempt a).relatedUrls → c.lookup m u = some b →
        (c.checkClear a m).lookup m u = none) := by
  by_cases hr : ((c.attempt a).attemptCount ≤ 0 ∧ (c.attempt a).state ≠ State.State_Connected) ∨
      (c.attempt a).state = State.State_Error
  · obtain ⟨h1, -⟩ := lookup_of_cleared c (c.checkClear a m) (c.attempt a).relatedUrls m
      (checkClear_connections_of_rule c a m hr)
    constructor
    · intro m2 u hn
      rw [h1, if_neg hn]
    · intro _ u b hu _
      rw [h1, if_pos ⟨rfl, hu⟩]
  · constructor
    · intro m2 u _
      unfold checkClear
      simp only [hr, if_false]
    · intro h
      exact absurd h hr

/-- Instance of C34 (amended): in `scenarioShared`, once the attempt 0 is in
Error, `checkClear` erases the entry of the attempt 1 under
`tcp://10.0.0.1:9` and keeps the entry of the attempt 2 under
`tcp://10.0.0.2:9`. -/
theorem checkClear_erases_by_url_witness :
    ((scenarioShared.markError 0).checkClear 0 "self").lookup "self" ⟨"tcp", "10.0.0.2", 9⟩ =
      (scenarioShared.markError 0).lookup "self" ⟨"tcp", "10.0.0.2", 9⟩ ∧
    ((scenarioShared.markError 0).checkClear 0 "self").lookup "self" ⟨"tcp", "10.0.0.1", 9⟩ =
      none :=
  ⟨(checkClear_erases_by_url (scenarioShared.markError 0) 0 "self").1 "self"
      ⟨"tcp", "10.0.0.2", 9⟩ (by decide),
   (checkClear_erases_by_url (scenarioShared.markError 0) 0 "self").2 (by decide)
      ⟨"tcp", "10.0.0.1", 9⟩ 1 (by decide) (by decide)⟩

/-- C35 (the code at the failing input): in `scenarioShared` the socket 70 is
tracked for `tcp://10.0.0.1:9` (signal link 0). The only dial of the attempt
0 fails, and `checkClear` erases the related urls of the attempt 0, among
them `tcp://10.0.0.1:9`; the machine `self` keeps its entry for
`tcp://10.0.0.2:9`. When the socket 70 then fires `disconnected`, for the
first time, `onSocketDisconnected` finds the machine entry but no attempt
under the url: `machineIt->second[url]` is a null pointer, which it
dereferences. -/
theorem disconnected_after_eviction :
    SocketCall.track 70 0 ⟨"tcp", "10.0.0.1", 9⟩ (insertInfo "self") ∈ scenarioShared.calls ∧
    (StdMap.find "self" (scenarioShared.onSocketParallelConnectionAttempt true 0
      ⟨"tcp", "127.0.0.1", 9⟩ scenarioLocal)._connections).isSome = true ∧
    (scenarioShared.onSocketParallelConnectionAttempt true 0 ⟨"tcp", "127.0.0.1", 9⟩
      scenarioLocal).lookup "self" ⟨"tcp", "10.0.0.1", 9⟩ = none ∧
    (scenarioShared.onSocketParallelConnectionAttempt true 0 ⟨"tcp", "127.0.0.1", 9⟩
      scenarioLocal).onSocketDisconnected ⟨"tcp", "10.0.0.1", 9⟩ (insertInfo "self") = none := by
  decide

/-- C36 (the code at the failing input): `socket()` for a service that
advertises no endpoint, or for a remote service that advertises a loopback
endpoint only, dials nothing and leaves the machine in `_connections` with
an empty url map. -/
theorem socket_leaves_empty_entry :
    (socket "self" TransportSocketCache.new scenarioDelta "").2._connections =
      [("delta", [])] ∧
    dialedUrls (socket "self" TransportSocketCache.new scenarioDelta "").2.calls = [] ∧
    (socket "self" TransportSocketCache.new scenarioEpsilon "tcp://127.0.0.1:9").2._connections =
      [("epsilon", [])] ∧
    dialedUrls (socket "self" TransportSocketCache.new scenarioEpsilon
      "tcp://127.0.0.1:9").2.calls = [] := by
  decide

end TransportSocketCache

/-! ## The gateway: sockets of the services and the null client -/

namespace Gateway
namespace GatewayPrivate

/-- C38 (the code at the failing input): the client 100 sends a message for
the unknown service 42 and the gateway records the marker `(0, NULL)` for its
resolve request, id 1. When the directory answers the request with an Error
message, branch S.3 sends the answer through the null client pointer of the
marker; when it answers with the Service Reply, branch S.1 does. -/
theorem marker_entry_sends_to_null :
    StdMap.find 1 ((scenarioGateway.handleClientRead 100 scenarioCall).requests 1) =
      some (0, NULL) ∧
    ((scenarioGateway.handleClientRead 100 scenarioCall).handleServiceRead 1
        (scenarioDirectoryError 1)).sent =
      [(1, resolveRequest 1 42),
       (NULL, { id := 0, type := MessageType.Type_Reply, service := Service_ServiceDirectory,
                path := Path_Main, function := ServiceDirectoryFunction_Service,
                buffer := Buffer.raw [4] })] ∧
    (((scenarioGateway.handleClientRead 100 scenarioCall).handleServiceRead 1
        (scenarioDirectoryReply 1)).sent.map (fun e => e.1)) = [1, NULL] := by
  decide

theorem forwardClientMessage_services (g : GatewayPrivate) (client service : TransportSocket)
    (msg : Message) :
    (g.forwardClientMessage client service msg)._services = g._services ∧
    (g.forwardClientMessage client service msg).connects = g.connects ∧
    (g.forwardClientMessage client service msg).nextSocket = g.nextSocket := by
  rw [forwardClientMessage_eq]
  simp [send, record]

theorem forwardPending_services (service : TransportSocket)
    (l : List (Message × TransportSocket)) (g : GatewayPrivate) :
    (forwardPending service l g)._services = g._services ∧
    (forwardPending service l g).connects = g.connects ∧
    (forwardPending service l g).nextSocket = g.nextSocket := by
  cases l <;> exact ⟨rfl, rfl, rfl⟩

theorem handleClientRead_services (g : GatewayPrivate) (client : TransportSocket)
    (msg : Message) :
    (g.handleClientRead client msg)._services = g._services ∧
    (g.handleClientRead client msg).connects = g.connects ∧
    (g.handleClientRead client msg).nextSocket = g.nextSocket := by
  unfold handleClientRead
  split
  · exact forwardClientMessage_services g client _ msg
  · simp only [send, storePending, record, masterMsg, newMessage]
    split <;> exact ⟨rfl, rfl, rfl⟩

theorem handleDirectoryReply_installed (g : GatewayPrivate) (msg : Message)
    (entry : Nat × TransportSocket) (s : TransportSocket)
    (h : StdMap.find msg.buffer.readServiceInfo.serviceId g._services = some s) :
    (g.handleDirectoryReply msg entry)._services = g._services ∧
    (g.handleDirectoryReply msg entry).connects = g.connects ∧
    (g.handleDirectoryReply msg entry).nextSocket = g.nextSocket := by
  unfold handleDirectoryReply
  dsimp only
  cases hurl : msg.buffer.readServiceInfo.endpoints with
  | nil => exact ⟨rfl, rfl, rfl⟩
  | cons url rest =>
    simp only [newMessage, send, h]
    split <;> exact ⟨rfl, rfl, rfl⟩

theorem handleDirectoryReply_new (g : GatewayPrivate) (msg : Message)
    (entry : Nat × TransportSocket) (url : String) (rest : List String)
    (hurl : msg.buffer.readServiceInfo.endpoints = url :: rest) (hclient : entry.2 ≠ NULL)
    (h : StdMap.find msg.buffer.readServiceInfo.serviceId g._services = none) :
    (g.handleDirectoryReply msg entry)._services =
      StdMap.set (fun a b => decide (a < b)) msg.buffer.readServiceInfo.serviceId g.nextSocket
        g._services ∧
    (g.handleDirectoryReply msg entry).connects = g.connects ++ [(g.nextSocket, url)] ∧
    (g.handleDirectoryReply msg entry).nextSocket = g.nextSocket + 1 ∧
    (g.handleDirectoryReply msg entry).undefined = g.undefined := by
  unfold handleDirectoryReply
  simp [hurl, newMessage, send, h, hclient]

theorem handleDirectoryReply_keeps (g : GatewayPrivate) (msg : Message)
    (entry : Nat × TransportSocket) (id : Nat) (s : TransportSocket)
    (h : StdMap.find id g._services = some s) :
    StdMap.find id (g.handleDirectoryReply msg entry)._services = some s := by
  unfold handleDirectoryReply
  dsimp only
  cases hurl : msg.buffer.readServiceInfo.endpoints with
  | nil => exact h
  | cons url rest =>
    simp only [newMessage, send]
    split
    · exact h
    · split
      · exact h
      · rename_i hf
        simp only [StdMap.find_set]
        have hne : id ≠ msg.buffer.readServiceInfo.serviceId := by
          intro he
          rw [he] at h
          rw [h] at hf
          cases hf
        rw [if_neg hne]
        exact h

theorem forwardServiceMessage_services (g : GatewayPrivate) (msg : Message)
    (entry : Nat × TransportSocket) :
    (g.forwardServiceMessage msg entry)._services = g._services ∧
    (g.forwardServiceMessage msg entry).connects = g.connects ∧
    (g.forwardServiceMessage msg entry).nextSocket = g.nextSocket := by
  simp [forwardServiceMessage, newMessage, send]

theorem handleServiceRead_keeps (g : GatewayPrivate) (service : TransportSocket)
    (msg : Message) (id : Nat) (s : TransportSocket)
    (h : StdMap.find id g._services = some s) :
    StdMap.find id (g.handleServiceRead service msg)._services = some s := by
  unfold handleServiceRead
  split
  · exact h
  · split
    · exact h
    · rename_i entry _
      split
      · exact handleDirectoryReply_keeps g msg entry id s h
      · rw [(forwardServiceMessage_services g msg entry).1]
        exact h

/-- In every gateway state, for every handler (`newConnection`,
`onSocketReadyRead` with its two branches `handleClientRead` and
`handleServiceRead`, `onSocketConnected`) and every service id, the socket
that `services[serviceId]` holds before the handler runs is the one it holds
afterwards. When `handleServiceRead` routes a directory Service Reply whose
service is in `services`, it opens no socket and leaves `services` unchanged.
When the service is not in `services`, the `ServiceInfo` has an endpoint and
the client of the routing entry is not the null pointer, it creates exactly
one socket, connects it to the first endpoint of the `ServiceInfo` sent by
the directory, and installs it as `services[serviceId]`. -/
theorem backend_socket_installed_once (g : GatewayPrivate) :
    (∀ client msg id s, StdMap.find id g._services = some s →
      StdMap.find id (g.newConnection client)._services = some s ∧
      StdMap.find id (g.onSocketReadyRead client msg)._services = some s ∧
      StdMap.find id (g.handleClientRead client msg)._services = some s ∧
      StdMap.find id (g.handleServiceRead client msg)._services = some s ∧
      StdMap.find id (g.onSocketConnected client)._services = some s) ∧
    (∀ service msg request entry,
      StdMap.find service g._serviceToClient = some request →
      StdMap.find msg.id request = some entry →
      msg.service = Service_ServiceDirectory →
      msg.function = ServiceDirectoryFunction_Service →
      msg.type = MessageType.Type_Reply →
      ((∃ s, StdMap.find msg.buffer.readServiceInfo.serviceId g._services = some s) →
        (g.handleServiceRead service msg)._services = g._services ∧
        (g.handleServiceRead service msg).connects = g.connects ∧
        (g.handleServiceRead service msg).nextSocket = g.nextSocket) ∧
      (StdMap.find msg.buffer.readServiceInfo.serviceId g._services = none →
        ∀ url rest, msg.buffer.readServiceInfo.endpoints = url :: rest → entry.2 ≠ NULL →
        (g.handleServiceRead service msg)._services =
          StdMap.set (fun a b => decide (a < b)) msg.buffer.readServiceInfo.serviceId
            g.nextSocket g._services ∧
        (g.handleServiceRead service msg).connects = g.connects ++ [(g.nextSocket, url)] ∧
        (g.handleServiceRead service msg).nextSocket = g.nextSocket + 1 ∧
        (g.handleServiceRead service msg).undefined = g.undefined)) := by
  constructor
  · intro client msg id s h
    have hcl : StdMap.find id (g.handleClientRead client msg)._services = some s := by
      rw [(handleClientRead_services g client msg).1]
      exact h
    have hsv := handleServiceRead_keeps g client msg id s h
    refine ⟨?_, ?_, hcl, hsv, ?_⟩
    · unfold newConnection
      split <;> exact h
    · have h1 : ({ g with messageId := g.messageId + 1 } : GatewayPrivate)._services =
          g._services := rfl
      unfold onSocketReadyRead
      simp only [newMessage]
      split
      · rw [(handleClientRead_services _ client msg).1]
        exact h
      · exact handleServiceRead_keeps _ client msg id s h
    · unfold onSocketConnected
      split
      · exact h
      · split
        · exact h
        · rw [(forwardPending_services _ _ _).1]
          unfold touchPending
          split <;> exact h
  · intro service msg request entry hreq hent h1 h2 h3
    have hsr : g.handleServiceRead service msg = g.handleDirectoryReply msg entry := by
      simp [handleServiceRead, hreq, hent, h1, h2, h3]
    rw [hsr]
    constructor
    · rintro ⟨s, hs⟩
      exact handleDirectoryReply_installed g msg entry s hs
    · intro hn url rest hurl hclient
      exact handleDirectoryReply_new g msg entry url rest hurl hclient hn

/-- The reply of the directory to the request of client 100 for service 42,
which is not in `services`, makes the gateway connect the new socket 2 to
`tcp://backend:1`, the endpoint sent by the directory; no later callback of
the run replaces it. -/
theorem backend_socket_installed_once_scenario :
    StdMap.find 42 (scenarioGateway.onSocketReadyRead 100 scenarioAsk)._services = none ∧
    scenarioOpened.connects =
      (scenarioGateway.onSocketReadyRead 100 scenarioAsk).connects ++ [(2, "tcp://backend:1")] ∧
    StdMap.find 42 scenarioOpened._services = some 2 ∧
    StdMap.find 42 scenarioQueued._services = some 2 ∧
    scenarioQueued.connects = scenarioOpened.connects := by
  decide

/-- C31 (the code at the failing input): client 100 calls the unknown
service 42 and the gateway sends the resolve request, id 2, recorded with the
marker `(0, NULL)`. When the directory answers it, service 42 is not in
`services`, so that one new socket is due; branch S.1 calls `send` through
the null pointer of the marker, and the run leaves defined behaviour before
`_services.find` and `new qi::TransportSocket()`: no socket is created,
nothing is connected and `services` has no entry for service 42. The same
happens one statement earlier, at `endpoints()[0]`, when the directory
answers the request of a client with a `ServiceInfo` that has no endpoint. -/
theorem marker_reply_installs_no_socket :
    StdMap.find 42 (scenarioGateway.onSocketReadyRead 100 scenarioCall)._services = none ∧
    StdMap.find 2 ((scenarioGateway.onSocketReadyRead 100 scenarioCall).requests 1) =
      some (0, NULL) ∧
    (scenarioGateway.onSocketReadyRead 100 scenarioCall).undefined = none ∧
    ((scenarioGateway.onSocketReadyRead 100 scenarioCall).onSocketReadyRead 1
      (scenarioDirectoryReply 2)).undefined = some Undefined.nullSocket ∧
    StdMap.find 42 ((scenarioGateway.onSocketReadyRead 100 scenarioCall).onSocketReadyRead 1
      (scenarioDirectoryReply 2))._services = none ∧
    ((scenarioGateway.onSocketReadyRead 100 scenarioCall).onSocketReadyRead 1
      (scenarioDirectoryReply 2)).connects =
      (scenarioGateway.onSocketReadyRead 100 scenarioCall).connects ∧
    ((scenarioGateway.onSocketReadyRead 100 scenarioCall).onSocketReadyRead 1
      (scenarioDirectoryReply 2)).nextSocket =
      (scenarioGateway.onSocketReadyRead 100 scenarioCall).nextSocket ∧
    ((scenarioGateway.onSocketReadyRead 100 scenarioAsk).onSocketReadyRead 1
      (scenarioDirectoryReplyNoEndpoint 2)).undefined = some Undefined.emptyEndpoints ∧
    StdMap.find 42 ((scenarioGateway.onSocketReadyRead 100 scenarioAsk).onSocketReadyRead 1
      (scenarioDirectoryReplyNoEndpoint 2))._services = none ∧
    ((scenarioGateway.onSocketReadyRead 100 scenarioAsk).onSocketReadyRead 1
      (scenarioDirectoryReplyNoEndpoint 2)).connects =
      (scenarioGateway.onSocketReadyRead 100 scenarioAsk).connects := by
  decide

end GatewayPrivate
end Gateway

namespace TransportSocketCache

/-! ### The invariant of the map -/

theorem installed_of_update (c c2 : TransportSocketCache) (hI : Installed c)
    (hl : ∀ m u, c2.lookup m u = c.lookup m u)
    (hk : ∀ r, r < c.attempts.length → r < c2.attempts.length ∧
      (c2.attempt r).relatedUrls = (c.attempt r).relatedUrls ∧
      (Live (c.attempt r) → Live (c2.attempt r))) : Installed c2 := by
  constructor
  · intro m u r h
    rw [hl] at h
    obtain ⟨h1, h2, h3⟩ := hI.1 m u r h
    obtain ⟨k1, k2, k3⟩ := hk r h1
    exact ⟨k1, by rw [k2]; exact h2, k3 h3⟩
  · intro m m2 u u2 r h h2
    rw [hl] at h h2
    exact hI.2 m m2 u u2 r h h2

theorem installed_of_erased (c c2 : TransportSocketCache) (a : Nat) (m : String)
    (hI : Installed c) (hinst : ∃ u, c.lookup m u = some a)
    (hl : ∀ m2 u, c2.lookup m2 u =
      if m2 = m ∧ u ∈ (c.attempt a).relatedUrls then none else c.lookup m2 u)
    (hk : ∀ r, r < c.attempts.length → r < c2.attempts.length ∧
      (r ≠ a → c2.attempt r = c.attempt r)) : Installed c2 := by
  obtain ⟨u0, hu0⟩ := hinst
  have key : ∀ m2 u r, c2.lookup m2 u = some r → c.lookup m2 u = some r ∧ r ≠ a := by
    intro m2 u r h
    rw [hl] at h
    split at h
    · cases h
    · rename_i hn
      refine ⟨h, ?_⟩
      intro hra
      subst hra
      apply hn
      have hm : m2 = m := hI.2 m2 m u u0 r h hu0
      exact ⟨hm, (hI.1 m2 u r h).2.1⟩
  constructor
  · intro m2 u r h
    obtain ⟨h1, hne⟩ := key m2 u r h
    obtain ⟨i1, i2, i3⟩ := hI.1 m2 u r h1
    obtain ⟨k1, k2⟩ := hk r i1
    rw [k2 hne]
    exact ⟨k1, i2, i3⟩
  · intro m1 m2 u u2 r h h2
    exact hI.2 m1 m2 u u2 r (key m1 u r h).1 (key m2 u2 r h2).1

theorem installed_of_installs (c c2 : TransportSocketCache) (m : String) (us : List Url)
    (a0 : ConnectionAttempt) (hI : Installed c)
    (hatt : c2.attempts = c.attempts ++ [a0])
    (hl : ∀ m2 u, c2.lookup m2 u =
      if m2 = m ∧ u ∈ us then some c.attempts.length else c.lookup m2 u)
    (hrel : ∀ u, u ∈ us → u ∈ a0.relatedUrls) (hlive : Live a0) : Installed c2 := by
  have hold : ∀ r, r < c.attempts.length → c2.attempt r = c.attempt r := by
    intro r hr
    simp [attempt, hatt, List.getD_eq_getElem?_getD, List.getElem?_append_left hr]
  have hnew : c2.attempt c.attempts.length = a0 := by
    simp [attempt, hatt, List.getD_eq_getElem?_getD]
  have hlen : c2.attempts.length = c.attempts.length + 1 := by
    simp [hatt]
  constructor
  · intro m2 u r h
    rw [hl] at h
    split at h
    · rename_i hc
      cases h
      exact ⟨by omega, by rw [hnew]; exact hrel u hc.2, by rw [hnew]; exact hlive⟩
    · obtain ⟨i1, i2, i3⟩ := hI.1 m2 u r h
      rw [hold r i1]
      exact ⟨by omega, i2, i3⟩
  · intro m1 m2 u u2 r h h2
    rw [hl] at h h2
    split at h
    · rename_i hc
      cases h
      split at h2
      · rename_i hc2
        rw [hc.1, hc2.1]
      · have := (hI.1 m2 u2 _ h2).1
        omega
    · split at h2
      · cases h2
        have := (hI.1 m1 u _ h).1
        omega
      · exact hI.2 m1 m2 u u2 r h h2

theorem installed_new : Installed TransportSocketCache.new := by
  constructor
  · intro m u r h
    simp [lookup, TransportSocketCache.new, StdMap.find] at h
  · intro m m2 u u2 r h
    simp [lookup, TransportSocketCache.new, StdMap.find] at h

theorem socket_attempts (getMachineId : String) (c : TransportSocketCache)
    (servInfo : ServiceInfo) (url : String) :
    ∃ n, (socket getMachineId c servInfo url).2.attempts =
      c.attempts ++ [freshAttempt c servInfo n] := by
  by_cases hd : c._dying = true
  · rw [socket_dying getMachineId c servInfo url hd]
    exact ⟨0, by simp [makeFutureError, newPromise, setPromise, withFresh]⟩
  · have hopen : c._dying = false := by simpa using hd
    cases hf : c.findConnection servInfo.machineId servInfo.endpoints with
    | some b =>
      rw [socket_reuse getMachineId c servInfo url hopen b hf]
      exact ⟨0, by simp [withFresh]⟩
    | none =>
      rw [socket_fresh getMachineId c servInfo url hopen hf]
      simp only [dial_eq_foldl]
      refine ⟨((connectionCandidates (decide (servInfo.machineId = getMachineId))
        servInfo).length : Int), ?_⟩
      rw [(dials_frame _ _ _ _).1, (touch_frame _ _).1]
      simp only [withFresh]

theorem socket_installed (getMachineId : String) (c : TransportSocketCache)
    (servInfo : ServiceInfo) (url : String) (hI : Installed c) :
    Installed (socket getMachineId c servInfo url).2 := by
  obtain ⟨n, hn⟩ := socket_attempts getMachineId c servInfo url
  apply installed_of_installs c _ servInfo.machineId
    (if c._dying = false ∧ c.findConnection servInfo.machineId servInfo.endpoints = none then
      (connectionCandidates (decide (servInfo.machineId = getMachineId)) servInfo).filter
        (dialable (decide (servInfo.machineId = getMachineId)))
     else []) (freshAttempt c servInfo n) hI hn
  · intro m2 u
    rw [socket_lookup]
    by_cases hc : c._dying = false ∧
        c.findConnection servInfo.machineId servInfo.endpoints = none
    · simp only [hc, and_self, if_true, true_and]
    · have hc2 : ¬ (c._dying = false ∧
          c.findConnection servInfo.machineId servInfo.endpoints = none ∧
          m2 = servInfo.machineId ∧
          u ∈ (connectionCandidates (decide (servInfo.machineId = getMachineId))
            servInfo).filter (dialable (decide (servInfo.machineId = getMachineId)))) :=
        fun h => hc ⟨h.1, h.2.1⟩
      rw [if_neg hc2, if_neg hc]
      simp
  · intro u hu
    split at hu
    · exact connectionCandidates_subset _ servInfo u (List.mem_filter.1 hu).1
    · simp at hu
  · exact Or.inl ⟨rfl, rfl⟩

theorem insert_found_frame (c : TransportSocketCache) (m : String) (u : Url)
    (s : MessageSocketPtr) (r : Nat) (hopen : c._dying = false)
    (hl : c.lookup m u = some r) (hr : r < c.attempts.length) :
    (c.insert m u s)._connections = c._connections ∧
    (c.insert m u s).attempts.length = c.attempts.length ∧
    (∀ q, q ≠ r → (c.insert m u s).attempt q = c.attempt q) ∧
    ((c.insert m u s).attempt r).state = State.State_Connected ∧
    ((c.insert m u s).attempt r).endpoint = some s ∧
    ((c.insert m u s).attempt r).relatedUrls = (c.attempt r).relatedUrls := by
  by_cases hs : (c.attempt r).state = State.State_Pending
  · rw [insert_pending_eq c m u s r hopen hl hr hs]
    refine ⟨rfl, by simp, ?_, ?_, ?_, ?_⟩
    · intro q hq
      simp [attempt, List.getD_eq_getElem?_getD, List.getElem?_set_ne (fun h => hq h.symm)]
    · simp [attempt, List.getD_eq_getElem?_getD, hr, adopted]
    · simp [attempt, List.getD_eq_getElem?_getD, hr, adopted]
    · simp [attempt, List.getD_eq_getElem?_getD, hr, adopted]
  · obtain ⟨dy, conns, pend, atts, proms, calls, ns, nl⟩ := c
    simp only at hopen hr
    subst hopen
    simp only [lookup] at hl
    simp [attempt, List.getD_eq_getElem?_getD, hr] at hs
    simp [insert, trackDisconnection, lookup, attempt, setAttempt, setPromise, promise,
      newPromise, hl, hs, hr, List.getD_eq_getElem?_getD, List.getElem?_set]
    intro q hq
    rw [if_neg (fun h => hq h.symm)]

theorem insert_installed (c : TransportSocketCache) (machineId : String) (url : Url)
    (socket : MessageSocketPtr) (hI : Installed c) :
    Installed (c.insert machineId url socket) := by
  by_cases hd : c._dying = true
  · have : c.insert machineId url socket = c := by simp [insert, hd]
    rw [this]
    exact hI
  · have hopen : c._dying = false := by simpa using hd
    cases hl : c.lookup machineId url with
    | none =>
      rw [insert_fresh_eq c machineId url socket hopen hl]
      apply installed_of_installs c _ machineId [url] (insertedAttempt c url socket) hI
      · rw [(install_frame _ _ _ _).1]
        rfl
      · intro m2 u
        rw [lookup_install]
        have : (c.withInserted machineId url socket).lookup m2 u = c.lookup m2 u := rfl
        rw [this]
        simp
      · intro u hu
        simpa [insertedAttempt] using hu
      · exact Or.inr ⟨rfl, by simp [insertedAttempt]⟩
    | some r =>
      have hr := (hI.1 machineId url r hl).1
      obtain ⟨f1, f2, f3, f4, f5, f6⟩ :=
        insert_found_frame c machineId url socket r hopen hl hr
      apply installed_of_update c _ hI
      · intro m u
        simp only [lookup, f1]
      · intro q hq
        refine ⟨by rw [f2]; exact hq, ?_⟩
        by_cases hqr : q = r
        · subst hqr
          exact ⟨f6, fun _ => Or.inr ⟨f4, by rw [f5]; simp⟩⟩
        · rw [f3 q hqr]
          exact ⟨rfl, fun h => h⟩

theorem installed_of_set (c c2 : TransportSocketCache) (a : Nat) (b : ConnectionAttempt)
    (hI : Installed c) (hc : c2._connections = c._connections)
    (hatt : c2.attempts = c.attempts.set a b)
    (hrel : b.relatedUrls = (c.attempt a).relatedUrls)
    (hlive : Live (c.attempt a) → Live b) : Installed c2 := by
  have hat : ∀ q, c2.attempt q = (c.setAttempt a b).attempt q := by
    intro q
    simp [attempt, setAttempt, hatt]
  apply installed_of_update c c2 hI
  · intro m u
    simp only [lookup, hc]
  · intro q hq
    refine ⟨by rw [hatt]; simpa using hq, ?_⟩
    rw [hat, attempt_setAttempt]
    by_cases h : q = a ∧ a < c.attempts.length
    · rw [if_pos h, h.1]
      exact ⟨hrel, hlive⟩
    · rw [if_neg h]
      exact ⟨rfl, fun x => x⟩

theorem installed_of_frame (c c2 : TransportSocketCache) (hI : Installed c)
    (hc : c2._connections = c._connections) (hatt : c2.attempts = c.attempts) :
    Installed c2 := by
  apply installed_of_update c c2 hI
  · intro m u
    simp only [lookup, hc]
  · intro q hq
    have : c2.attempt q = c.attempt q := by simp [attempt, hatt]
    rw [this, hatt]
    exact ⟨hq, rfl, fun x => x⟩

theorem dialed_installed (c : TransportSocketCache) (hasError : Bool)
    (socket : MessageSocketPtr) (url : Url) (info : ServiceInfo) (hI : Installed c) :
    Installed (c.onSocketParallelConnectionAttempt hasError socket url info) := by
  by_cases hd : c._dying = true
  · apply installed_of_frame c _ hI
    · unfold onSocketParallelConnectionAttempt
      rw [if_pos hd]
      split <;> rfl
    · unfold onSocketParallelConnectionAttempt
      rw [if_pos hd]
      split <;> rfl
  · have hopen : c._dying = false := by simpa using hd
    cases hl : c.lookup info.machineId url with
    | none =>
      have : c.onSocketParallelConnectionAttempt hasError socket url info =
          (c.removePending socket).call (SocketCall.disconnect socket) := by
        unfold onSocketParallelConnectionAttempt
        simp [hopen, hl]
      rw [this]
      exact installed_of_frame c _ hI rfl rfl
    | some a =>
      obtain ⟨ha, hrel, hlive⟩ := hI.1 info.machineId url a hl
      rcases hlive with ⟨hs, he⟩ | ⟨hs, he⟩
      · cases hasError with
        | false =>
          rw [dial_success_eq c info socket url a hopen hl ha hs]
          exact installed_of_set c _ a _ hI rfl rfl rfl (fun _ => Or.inr ⟨rfl, by simp⟩)
        | true =>
          rw [failed_dial_eq c info socket url a hopen hl ha hs]
          by_cases hz : (c.attempt a).attemptCount - 1 = 0
          · rw [if_pos hz]
            obtain ⟨y, hy⟩ : ∃ y, y = (((c.setAttempt a
                { c.attempt a with attemptCount := (c.attempt a).attemptCount - 1 }).removePending
                socket).setPromise (c.attempt a).promise
                (Outcome.error ("Could not connect to service #" ++ toString info.serviceId ++
                  ": no endpoint replied."))).setAttempt a
                { c.attempt a with attemptCount := (c.attempt a).attemptCount - 1,
                                   state := State.State_Error } := ⟨_, rfl⟩
            rw [← hy]
            have hya : y.attempt a = { c.attempt a with
                attemptCount := (c.attempt a).attemptCount - 1,
                state := State.State_Error } := by
              rw [hy]
              apply attempt_setAttempt_same
              simp [setAttempt, setPromise, removePending]
              exact ha
            have hyq : ∀ q, q ≠ a → y.attempt q = c.attempt q := by
              intro q hq
              rw [hy, attempt_setAttempt_ne _ _ _ _ hq, attempt_setPromise,
                attempt_removePending, attempt_setAttempt_ne _ _ _ _ hq]
            have hyl : y.attempts.length = c.attempts.length := by
              rw [hy]
              simp [setAttempt, setPromise, removePending]
            have hyc : ∀ m u, y.lookup m u = c.lookup m u := by
              intro m u
              rw [hy]
              rfl
            have hce := (checkClear_of_error y a info.machineId (by rw [hya])).1
            apply installed_of_erased c _ a info.machineId hI ⟨url, hl⟩
            · intro m2 u
              rw [hce, hya, hyc]
            · intro q hq
              rw [(checkClear_frame y a info.machineId).1]
              refine ⟨by rw [hyl]; exact hq, ?_⟩
              intro hne
              have : (y.checkClear a info.machineId).attempt q = y.attempt q := by
                simp [attempt, (checkClear_frame y a info.machineId).1]
              rw [this, hyq q hne]
          · rw [if_neg hz]
            exact installed_of_set c _ a _ hI rfl rfl rfl (fun _ => Or.inl ⟨hs, he⟩)
      · rw [dial_rejected_eq c hasError info socket url a hopen hl ha hs]
        exact installed_of_set c _ a _ hI rfl rfl rfl (fun _ => Or.inr ⟨hs, he⟩)

theorem disconnected_installed (c c2 : TransportSocketCache) (url : Url) (info : ServiceInfo)
    (hI : Installed c) (h : c.onSocketDisconnected url info = some c2) : Installed c2 := by
  cases hl : c.lookup info.machineId url with
  | some a =>
    rw [onSocketDisconnected_eq c url info a hl] at h
    cases h
    obtain ⟨ha, hrel, hlive⟩ := hI.1 info.machineId url a hl
    have hya : (c.markError a).attempt a = { c.attempt a with state := State.State_Error } :=
      attempt_setAttempt_same c a _ ha
    have hce := (checkClear_of_error (c.markError a) a info.machineId (by rw [hya])).1
    apply installed_of_erased c _ a info.machineId hI ⟨url, hl⟩
    · intro m2 u
      rw [hce, hya]
      rfl
    · intro q hq
      rw [(checkClear_frame (c.markError a) a info.machineId).1]
      refine ⟨by simpa [markError, setAttempt] using hq, ?_⟩
      intro hne
      have : ((c.markError a).checkClear a info.machineId).attempt q =
          (c.markError a).attempt q := by
        simp [attempt, (checkClear_frame (c.markError a) a info.machineId).1]
      rw [this]
      exact attempt_setAttempt_ne c a q _ hne
  | none =>
    unfold onSocketDisconnected at h
    unfold lookup at hl
    cases hf : StdMap.find info.machineId c._connections with
    | none =>
      rw [hf] at h
      cases h
      exact hI
    | some urls =>
      rw [hf] at h hl
      simp only [Option.bind] at hl
      simp only [hl] at h
      cases h

theorem close_installed (c : TransportSocketCache) : Installed c.close := by
  have hc := (close_frame c).2.1
  constructor
  · intro m u r h
    simp [lookup, hc, StdMap.find] at h
  · intro m m2 u u2 r h
    simp [lookup, hc, StdMap.find] at h

theorem reachable_installed (getMachineId : String) (c : TransportSocketCache)
    (h : Reachable getMachineId c) : Installed c := by
  induction h with
  | start => exact installed_new
  | socket c servInfo url _ ih => exact socket_installed getMachineId c servInfo url ih
  | insert c machineId url socket _ ih => exact insert_installed c machineId url socket ih
  | dialed c hasError socket url info _ ih =>
    exact dialed_installed c hasError socket url info ih
  | disconnected c c2 url info _ h2 ih => exact disconnected_installed c c2 url info ih h2
  | close c _ _ => exact close_installed c
  | init c _ ih => exact installed_of_frame c _ ih rfl rfl

/-- C37: no failed attempt stays installed. In every state of the cache that
`socket`, `insert`, dial completions, `disconnected` signals that complete,
`close` and `init` reach from the new cache, every attempt that
`_connections` holds under a key `(m, u)` is Pending with no endpoint or
Connected with an endpoint, so it is not in `State_Error`, and `u` is one of
its related urls. -/
theorem no_failed_attempt_installed (getMachineId : String) (c : TransportSocketCache)
    (h : Reachable getMachineId c) (m : String) (u : Url) (r : Nat)
    (hl : c.lookup m u = some r) :
    (((c.attempt r).state = State.State_Pending ∧ (c.attempt r).endpoint = none) ∨
      ((c.attempt r).state = State.State_Connected ∧ (c.attempt r).endpoint ≠ none)) ∧
    (c.attempt r).state ≠ State.State_Error ∧
    u ∈ (c.attempt r).relatedUrls := by
  obtain ⟨_, hrel, hlive⟩ := (reachable_installed getMachineId c h).1 m u r hl
  refine ⟨hlive, ?_, hrel⟩
  rcases hlive with ⟨hs, _⟩ | ⟨hs, _⟩ <;> rw [hs] <;> decide

theorem no_failed_attempt_installed_witness :
    scenarioShared.lookup "self" ⟨"tcp", "10.0.0.1", 9⟩ = some 1 ∧
    (((scenarioShared.attempt 1).state = State.State_Pending ∧
        (scenarioShared.attempt 1).endpoint = none) ∨
      ((scenarioShared.attempt 1).state = State.State_Connected ∧
        (scenarioShared.attempt 1).endpoint ≠ none)) ∧
    (scenarioShared.attempt 1).state ≠ State.State_Error ∧
    (⟨"tcp", "10.0.0.1", 9⟩ : Url) ∈ (scenarioShared.attempt 1).relatedUrls :=
  ⟨by decide,
    no_failed_attempt_installed "self" scenarioShared
      (Reachable.insert _ _ _ _ (Reachable.insert _ _ _ _
        (Reachable.socket _ _ _ Reachable.start)))
      "self" ⟨"tcp", "10.0.0.1", 9⟩ 1 (by decide)⟩

end TransportSocketCache

/-! ## The decoder: reads at the end position -/

/-- C39 (the code at the failing inputs): the result of decoding a range
depends on the character that follows the range, so `*_it` is read when
`_it` equals `_end`. The range `[` of the buffers `[]` and `[x`: the test
`*_it != ']'` of `decodeArray` reads the character at the end position, and
the call succeeds on the first buffer and throws on the second. The range
`[1` of `[1,2]` and of `[1`: the test `*_it != ','` reads at the end position
and the loop goes on behind it. The range `[1,` of `[1,]`: the closing
bracket is found at the end position. The range `1e` of `1e+5` and of `1e5`:
`getExponent` reads the sign at the end position, and the call yields the
double `1e+5` on the first buffer and the integer 1 on the second. -/
theorem decoder_reads_at_end :
    ((lit "[]").take 1 = (lit "[x").take 1 ∧
      decodeJSONIt (lit "[]") 0 1 AnyValue.invalid =
        Decoded.ret true (AnyValue.list [])
          { _begin := 0, _it := 2, _line := 1, _column := 3 } ∧
      decodeJSONIt (lit "[x") 0 1 AnyValue.invalid =
        Decoded.raise { reason := "unterminated list", line := 1, column := 2 }
          AnyValue.invalid) ∧
    ((lit "[1,2]").take 2 = lit "[1" ∧
      decodeJSONIt (lit "[1,2]") 0 2 AnyValue.invalid =
        Decoded.ret true (AnyValue.list [AnyValue.int 1, AnyValue.int 2])
          { _begin := 0, _it := 5, _line := 1, _column := 6 } ∧
      decodeJSONIt (lit "[1") 0 2 AnyValue.invalid =
        Decoded.raise { reason := "unterminated list", line := 1, column := 3 }
          AnyValue.invalid) ∧
    ((lit "[1,]").take 3 = lit "[1," ∧
      decodeJSONIt (lit "[1,]") 0 3 AnyValue.invalid =
        Decoded.ret true (AnyValue.list [AnyValue.int 1])
          { _begin := 0, _it := 4, _line := 1, _column := 5 } ∧
      decodeJSONIt (lit "[1,") 0 3 AnyValue.invalid =
        Decoded.raise { reason := "unterminated list", line := 1, column := 4 }
          AnyValue.invalid) ∧
    ((lit "1e+5").take 2 = (lit "1e5").take 2 ∧
      decodeJSONIt (lit "1e+5") 0 2 AnyValue.invalid =
        Decoded.ret true (AnyValue.double (lit "1e+5"))
          { _begin := 0, _it := 4, _line := 1, _column := 5 } ∧
      decodeJSONIt (lit "1e5") 0 2 AnyValue.invalid =
        Decoded.ret true (AnyValue.int 1)
          { _begin := 0, _it := 1, _line := 1, _column := 2 }) :=
  ⟨⟨rfl, rfl, rfl⟩, ⟨rfl, rfl, rfl⟩, ⟨rfl, rfl, rfl⟩, ⟨rfl, rfl, rfl⟩⟩

/-! ## The decoder: string literals -/

namespace detail
namespace DocumentConstIterator

theorem iterate_it (doc : List Nat) (k : Nat) (it : DocumentConstIterator) :
    (Nat.iterate (increment doc) k it)._it = it._it + k ∧
    (Nat.iterate (increment doc) k it)._begin = it._begin := by
  induction k generalizing it with
  | zero => exact ⟨rfl, rfl⟩
  | succ k ih =>
    rw [Function.iterate_succ_apply]
    obtain ⟨h1, h2⟩ := ih (it.increment doc)
    rw [h1, h2, (increment_it doc it).1, (increment_it doc it).2]
    exact ⟨by omega, rfl⟩

theorem dereference_of_drop (doc : List Nat) (it : DocumentConstIterator) (c : Nat)
    (t : List Nat) (h : doc.drop it._it = c :: t) :
    it.dereference doc = c ∧ it._it < doc.length := by
  have hlt : it._it < doc.length := by
    by_contra hn
    rw [List.drop_of_length_le (by omega)] at h
    cases h
  refine ⟨?_, hlt⟩
  unfold dereference
  rw [List.getD_eq_getElem?_getD, ← List.head?_drop, h]
  rfl

theorem drop_increment (doc : List Nat) (it : DocumentConstIterator) (c : Nat)
    (t : List Nat) (h : doc.drop it._it = c :: t) :
    doc.drop (it.increment doc)._it = t := by
  rw [(increment_it doc it).1, ← List.tail_drop, h]
  rfl

theorem not_equal_of_lt (it jt : DocumentConstIterator) (h : it._it < jt._it) :
    it.equal jt = false := by
  unfold equal
  have : it._it ≠ jt._it := by omega
  simp [this]

end DocumentConstIterator
end detail

namespace JsonDecoderPrivate

theorem escape_eq_specEscape (c : Nat) : escape c = specEscape c := by
  unfold escape specEscape
  simp only [dquote, backslash, ch, List.lookup]
  by_cases h1 : c = 34
  · subst h1; rfl
  by_cases h2 : c = 92
  · subst h2; rfl
  by_cases h3 : c = 47
  · subst h3; rfl
  by_cases h4 : c = 98
  · subst h4; rfl
  by_cases h5 : c = 102
  · subst h5; rfl
  by_cases h6 : c = 110
  · subst h6; rfl
  by_cases h7 : c = 114
  · subst h7; rfl
  by_cases h8 : c = 116
  · subst h8; rfl
  have e1 : (c == 34) = false := by simpa using h1
  have e2 : (c == 92) = false := by simpa using h2
  have e3 : (c == 47) = false := by simpa using h3
  have e4 : (c == 98) = false := by simpa using h4
  have e5 : (c == 102) = false := by simpa using h5
  have e6 : (c == 110) = false := by simpa using h6
  have e7 : (c == 114) = false := by simpa using h7
  have e8 : (c == 116) = false := by simpa using h8
  have c3 : ¬ c = Char.toNat '/' := h3
  have c4 : ¬ c = Char.toNat 'b' := h4
  have c5 : ¬ c = Char.toNat 'f' := h5
  have c6 : ¬ c = Char.toNat 'n' := h6
  have c7 : ¬ c = Char.toNat 'r' := h7
  have c8 : ¬ c = Char.toNat 't' := h8
  rw [if_neg h1, if_neg h2, if_neg c3, if_neg c4, if_neg c5, if_neg c6, if_neg c7, if_neg c8]
  simp only [e1, e2, e3, e4, e5, e6, e7, e8]

theorem literalBody_cons (p : StringPiece) (ps : List StringPiece) :
    literalBody (p :: ps) = p.bytes ++ literalBody ps := by
  simp [literalBody]

theorem length_le_literalBody (ps : List StringPiece) :
    ps.length ≤ (literalBody ps).length := by
  induction ps with
  | nil => simp
  | cons p ps ih =>
    rw [literalBody_cons]
    cases p <;> simp [StringPiece.bytes] <;> omega

/-- The loop of `getCleanString` over the pieces of a literal that lie before
the end of the range: a round for each piece, which appends the character
that the piece stands for. -/
theorem stringLoop_pieces (doc : List Nat) (_end : DocumentConstIterator)
    (ps : List StringPiece) (n : Nat) (tmpString : List Nat) (it : DocumentConstIterator)
    (rest : List Nat) (hv : ∀ p ∈ ps, p.Valid) (hb : it._begin = _end._begin)
    (hdoc : doc.drop it._it = literalBody ps ++ rest)
    (hend : it._it + (literalBody ps).length ≤ _end._it) :
    stringLoop doc _end (ps.length + n) tmpString it =
      stringLoop doc _end n (tmpString ++ literalText ps)
        (Nat.iterate (DocumentConstIterator.increment doc) (literalBody ps).length it) := by
  induction ps generalizing tmpString it with
  | nil => simp [literalBody, literalText]
  | cons p ps ih =>
    have hvp := hv p (List.mem_cons_self _ _)
    have hvs : ∀ q ∈ ps, q.Valid := fun q hq => hv q (List.mem_cons_of_mem _ hq)
    rw [literalBody_cons] at hdoc hend ⊢
    have hfuel : (p :: ps).length + n = (ps.length + n) + 1 := by
      simp only [List.length_cons]
      omega
    rw [hfuel]
    cases p with
    | plain c =>
      simp only [StringPiece.bytes, List.singleton_append, List.length_cons] at hdoc hend ⊢
      obtain ⟨hd, hlt⟩ := DocumentConstIterator.dereference_of_drop doc it c _ hdoc
      have hne : it.equal _end = false := DocumentConstIterator.not_equal_of_lt it _end (by omega)
      have hnl : ¬ doc.length < it._it := by omega
      have h1 : ¬ c = dquote := hvp.1
      have h2 : ¬ c = backslash := hvp.2
      rw [stringLoop]
      simp only [hne, Bool.false_eq_true, if_false, hnl, hd, h1, h2]
      rw [ih (tmpString ++ [c]) (it.increment doc) hvs
        (by rw [(DocumentConstIterator.increment_it doc it).2]; exact hb)
        (DocumentConstIterator.drop_increment doc it c _ hdoc)
        (by rw [(DocumentConstIterator.increment_it doc it).1]; omega)]
      rw [Function.iterate_succ_apply]
      simp [literalText, StringPiece.value]
    | escaped x =>
      simp only [StringPiece.bytes, List.cons_append, List.nil_append,
        List.length_cons] at hdoc hend ⊢
      obtain ⟨hd, hlt⟩ := DocumentConstIterator.dereference_of_drop doc it backslash _ hdoc
      have hdoc2 := DocumentConstIterator.drop_increment doc it backslash _ hdoc
      obtain ⟨hd2, hlt2⟩ := DocumentConstIterator.dereference_of_drop doc (it.increment doc) x _ hdoc2
      have hne : it.equal _end = false := DocumentConstIterator.not_equal_of_lt it _end (by omega)
      have hne2 : (it.increment doc).equal _end = false :=
        DocumentConstIterator.not_equal_of_lt _ _end (by rw [(DocumentConstIterator.increment_it doc it).1]; omega)
      have hnl : ¬ doc.length < it._it := by omega
      have h1 : ¬ backslash = dquote := by decide
      obtain ⟨v, hv2⟩ : ∃ v, specEscape x = some v := Option.isSome_iff_exists.1 hvp
      rw [stringLoop]
      simp only [hne, hne2, Bool.false_eq_true, if_false, hnl, hd, hd2, h1, if_true,
        escape_eq_specEscape, hv2]
      rw [ih (tmpString ++ [v]) ((it.increment doc).increment doc) hvs
        (by rw [(DocumentConstIterator.increment_it doc _).2, (DocumentConstIterator.increment_it doc it).2]; exact hb)
        (DocumentConstIterator.drop_increment doc _ x _ hdoc2)
        (by rw [(DocumentConstIterator.increment_it doc _).1, (DocumentConstIterator.increment_it doc it).1]; omega)]
      rw [Function.iterate_succ_apply, Function.iterate_succ_apply]
      simp [literalText, StringPiece.value, hv2]

/-- The function `getCleanString` on an opening quote followed by the pieces
`ps`, all before the end of the range: what is left to do is a round of the
loop at the position after the pieces, with the text of the pieces. -/
theorem getCleanString_pieces (doc : List Nat) (_end it : DocumentConstIterator)
    (ps : List StringPiece) (rest : List Nat) (hv : ∀ p ∈ ps, p.Valid)
    (hb : it._begin = _end._begin)
    (hdoc : doc.drop it._it = dquote :: (literalBody ps ++ rest))
    (hend : it._it + (literalBody ps).length + 1 ≤ _end._it) :
    ∃ n itq, itq._it = it._it + (literalBody ps).length + 1 ∧ itq._begin = _end._begin ∧
      doc.drop itq._it = rest ∧ itq._it ≤ doc.length ∧
      getCleanString doc _end it =
        match stringLoop doc _end (n + 1) (literalText ps) itq with
        | Step.ret tmpString it2 =>
          if it2.equal _end then Step.raise (makeParseError "unterminated string" it2)
          else Step.ret (some tmpString) (it2.increment doc)
        | Step.raise error => Step.raise error
        | Step.undefined => Step.undefined
        | Step.fuel => Step.fuel := by
  obtain ⟨hd, hlt⟩ := DocumentConstIterator.dereference_of_drop doc it dquote _ hdoc
  have hdoc1 := DocumentConstIterator.drop_increment doc it dquote _ hdoc
  have hi1 := DocumentConstIterator.increment_it doc it
  have hlen : doc.length - it._it = (literalBody ps).length + rest.length + 1 := by
    have := congrArg List.length hdoc
    simpa using this
  have hps := length_le_literalBody ps
  obtain ⟨n, hn⟩ : ∃ n, doc.length + 2 - (it.increment doc)._it = ps.length + (n + 1) :=
    ⟨(literalBody ps).length - ps.length + rest.length + 1, by rw [hi1.1]; omega⟩
  have hq := DocumentConstIterator.iterate_it doc (literalBody ps).length (it.increment doc)
  refine ⟨n, Nat.iterate (DocumentConstIterator.increment doc) (literalBody ps).length
    (it.increment doc), by rw [hq.1, hi1.1]; omega, by rw [hq.2, hi1.2]; exact hb, ?_,
    by rw [hq.1, hi1.1]; omega, ?_⟩
  · rw [hq.1, ← List.drop_drop, hdoc1]
    simp
  · have hne : it.equal _end = false := DocumentConstIterator.not_equal_of_lt it _end (by omega)
    unfold getCleanString
    simp only [hne, hd, ne_eq, not_true_eq_false, decide_False, Bool.or_self,
      Bool.false_eq_true, if_false]
    rw [hn, stringLoop_pieces doc _end ps (n + 1) [] (it.increment doc) rest hv
      (by rw [hi1.2]; exact hb) hdoc1 (by rw [hi1.1]; omega)]
    simp only [List.nil_append]

/-- C32: string literal decoding. At a position where the buffer holds an
opening quote and then the pieces `ps` (characters other than the quote and
the backslash, and the eight escapes), all before the end of the range:
when a closing quote follows before the end of the range, `getCleanString`
returns the text of the pieces, each escape replaced by its character, and
leaves the position just after the closing quote; when a backslash follows
before the end of the range, and then a character that is not one of the
eight, it throws `incomplete escape sequence` at the backslash; when a
backslash follows and the range ends after it, it throws the same; when the
range ends after the pieces, it throws `unterminated string` there. -/
theorem getCleanString_literal (doc : List Nat) (_end it : DocumentConstIterator)
    (ps : List StringPiece) (hv : ∀ p ∈ ps, p.Valid) (hb : it._begin = _end._begin) :
    (∀ rest, doc.drop it._it = dquote :: (literalBody ps ++ dquote :: rest) →
      it._it + (literalBody ps).length + 1 < _end._it →
      ∃ it2, getCleanString doc _end it = Step.ret (some (literalText ps)) it2 ∧
        it2._it = it._it + (literalBody ps).length + 2) ∧
    (∀ x rest, doc.drop it._it = dquote :: (literalBody ps ++ backslash :: x :: rest) →
      specEscape x = none → it._it + (literalBody ps).length + 1 < _end._it →
      ∃ itb, getCleanString doc _end it =
          Step.raise (makeParseError "incomplete escape sequence" itb) ∧
        itb._it = it._it + (literalBody ps).length + 1) ∧
    (∀ rest, doc.drop it._it = dquote :: (literalBody ps ++ backslash :: rest) →
      _end._it = it._it + (literalBody ps).length + 2 →
      ∃ itb, getCleanString doc _end it =
          Step.raise (makeParseError "incomplete escape sequence" itb) ∧
        itb._it = it._it + (literalBody ps).length + 1) ∧
    (∀ rest, doc.drop it._it = dquote :: (literalBody ps ++ rest) →
      _end._it = it._it + (literalBody ps).length + 1 →
      ∃ ite, getCleanString doc _end it =
          Step.raise (makeParseError "unterminated string" ite) ∧
        ite._it = _end._it) := by
  refine ⟨?_, ?_, ?_, ?_⟩
  · intro rest hdoc hend
    obtain ⟨n, itq, h1, h2, h3, h4, h5⟩ :=
      getCleanString_pieces doc _end it ps (dquote :: rest) hv hb hdoc (by omega)
    obtain ⟨hd, hlt⟩ := DocumentConstIterator.dereference_of_drop doc itq dquote _ h3
    have hne : itq.equal _end = false :=
      DocumentConstIterator.not_equal_of_lt itq _end (by omega)
    have hnl : ¬ doc.length < itq._it := by omega
    refine ⟨itq.increment doc, ?_, by rw [(DocumentConstIterator.increment_it doc itq).1]; omega⟩
    rw [h5, stringLoop]
    simp only [hne, Bool.false_eq_true, if_false, hnl, hd, if_true]
  · intro x rest hdoc hx hend
    obtain ⟨n, itq, h1, h2, h3, h4, h5⟩ :=
      getCleanString_pieces doc _end it ps (backslash :: x :: rest) hv hb hdoc (by omega)
    obtain ⟨hd, hlt⟩ := DocumentConstIterator.dereference_of_drop doc itq backslash _ h3
    have h3b := DocumentConstIterator.drop_increment doc itq backslash _ h3
    obtain ⟨hd2, _⟩ := DocumentConstIterator.dereference_of_drop doc (itq.increment doc) x _ h3b
    have hne : itq.equal _end = false :=
      DocumentConstIterator.not_equal_of_lt itq _end (by omega)
    have hnl : ¬ doc.length < itq._it := by omega
    have hbq : ¬ backslash = dquote := by decide
    refine ⟨itq, ?_, h1⟩
    rw [h5, stringLoop]
    simp only [hne, Bool.false_eq_true, if_false, hnl, hd, hbq, if_true, hd2,
      escape_eq_specEscape, hx, ite_self]
  · intro rest hdoc hend
    obtain ⟨n, itq, h1, h2, h3, h4, h5⟩ :=
      getCleanString_pieces doc _end it ps (backslash :: rest) hv hb hdoc (by omega)
    obtain ⟨hd, hlt⟩ := DocumentConstIterator.dereference_of_drop doc itq backslash _ h3
    have hne : itq.equal _end = false :=
      DocumentConstIterator.not_equal_of_lt itq _end (by omega)
    have heq : (itq.increment doc).equal _end = true :=
      (DocumentConstIterator.equal_iff _ _
        (by rw [(DocumentConstIterator.increment_it doc itq).2]; exact h2)).2
        (by rw [(DocumentConstIterator.increment_it doc itq).1]; omega)
    have hnl : ¬ doc.length < itq._it := by omega
    have hbq : ¬ backslash = dquote := by decide
    refine ⟨itq, ?_, h1⟩
    rw [h5, stringLoop]
    simp only [hne, Bool.false_eq_true, if_false, hnl, hd, hbq, if_true, heq]
  · intro rest hdoc hend
    obtain ⟨n, itq, h1, h2, h3, h4, h5⟩ :=
      getCleanString_pieces doc _end it ps rest hv hb hdoc (by omega)
    have heq : itq.equal _end = true :=
      (DocumentConstIterator.equal_iff _ _ h2).2 (by omega)
    refine ⟨itq, ?_, by omega⟩
    rw [h5, stringLoop]
    simp only [heq, if_true]

theorem scenarioPieces_valid : ∀ p ∈ scenarioPieces, p.Valid := by
  intro p hp
  simp only [scenarioPieces, List.mem_cons, List.mem_singleton, List.mem_nil_iff,
    or_false] at hp
  rcases hp with rfl | rfl
  · exact ⟨by decide, by decide⟩
  · show (specEscape (ch 'n')).isSome = true
    decide

theorem getCleanString_literal_witness :
    (∃ it2, getCleanString (scenarioLiteral ++ [dquote])
        (DocumentConstIterator.end_ (scenarioLiteral ++ [dquote]))
        (DocumentConstIterator.begin (scenarioLiteral ++ [dquote])) =
          Step.ret (some [ch 'a', 10]) it2 ∧ it2._it = 5) ∧
    (∃ itb, getCleanString (scenarioLiteral ++ [backslash, ch 'x', dquote])
        (DocumentConstIterator.end_ (scenarioLiteral ++ [backslash, ch 'x', dquote]))
        (DocumentConstIterator.begin (scenarioLiteral ++ [backslash, ch 'x', dquote])) =
          Step.raise (makeParseError "incomplete escape sequence" itb) ∧ itb._it = 4) ∧
    (∃ itb, getCleanString (scenarioLiteral ++ [backslash])
        (DocumentConstIterator.end_ (scenarioLiteral ++ [backslash]))
        (DocumentConstIterator.begin (scenarioLiteral ++ [backslash])) =
          Step.raise (makeParseError "incomplete escape sequence" itb) ∧ itb._it = 4) ∧
    (∃ ite, getCleanString scenarioLiteral (DocumentConstIterator.end_ scenarioLiteral)
        (DocumentConstIterator.begin scenarioLiteral) =
          Step.raise (makeParseError "unterminated string" ite) ∧ ite._it = 4) :=
  ⟨(getCleanString_literal (scenarioLiteral ++ [dquote])
      (DocumentConstIterator.end_ (scenarioLiteral ++ [dquote]))
      (DocumentConstIterator.begin (scenarioLiteral ++ [dquote])) scenarioPieces
      scenarioPieces_valid rfl).1 [] rfl (by decide),
    (getCleanString_literal (scenarioLiteral ++ [backslash, ch 'x', dquote])
      (DocumentConstIterator.end_ (scenarioLiteral ++ [backslash, ch 'x', dquote]))
      (DocumentConstIterator.begin (scenarioLiteral ++ [backslash, ch 'x', dquote]))
      scenarioPieces scenarioPieces_valid rfl).2.1 (ch 'x') [dquote] rfl (by decide)
      (by decide),
    (getCleanString_literal (scenarioLiteral ++ [backslash])
      (DocumentConstIterator.end_ (scenarioLiteral ++ [backslash]))
      (DocumentConstIterator.begin (scenarioLiteral ++ [backslash])) scenarioPieces
      scenarioPieces_valid rfl).2.2.1 [] rfl (by decide),
    (getCleanString_literal scenarioLiteral (DocumentConstIterator.end_ scenarioLiteral)
      (DocumentConstIterator.begin scenarioLiteral) scenarioPieces
      scenarioPieces_valid rfl).2.2.2 [] rfl (by decide)⟩

end JsonDecoderPrivate

/-! ## The decoder: integer literals -/

namespace detail
namespace DocumentConstIterator

theorem dereference_headD (doc : List Nat) (it : DocumentConstIterator) (rest : List Nat)
    (h : doc.drop it._it = rest) : it.dereference doc = rest.headD 0 := by
  cases rest with
  | nil =>
    have hl : doc.length ≤ it._it := by
      have := congrArg List.length h
      simp at this
      omega
    unfold dereference
    rw [List.getD_eq_getElem?_getD, List.getElem?_eq_none hl]
    rfl
  | cons c t => exact (dereference_of_drop doc it c t h).1

theorem drop_iterate (doc : List Nat) (it : DocumentConstIterator) (s rest : List Nat)
    (h : doc.drop it._it = s ++ rest) :
    doc.drop (Nat.iterate (increment doc) s.length it)._it = rest := by
  rw [(iterate_it doc s.length it).1, ← List.drop_drop, h]
  simp

theorem iterate_add (doc : List Nat) (a b : Nat) (it : DocumentConstIterator) :
    Nat.iterate (increment doc) (a + b) it =
      Nat.iterate (increment doc) b (Nat.iterate (increment doc) a it) := by
  rw [Nat.add_comm, Function.iterate_add_apply]

end DocumentConstIterator
end detail

namespace JsonDecoderPrivate

theorem skipWhiteSpaces_id (doc : List Nat) (_end it : DocumentConstIterator)
    (h : it.equal _end = true ∨
      (it.dereference doc ≠ ch ' ' ∧ it.dereference doc ≠ ch '\n')) :
    skipWhiteSpaces doc _end it = it := by
  unfold skipWhiteSpaces
  cases doc.length - it._it with
  | zero => rfl
  | succ n =>
    rw [skipLoop]
    rcases h with h | h
    · simp [h]
    · simp [h.1, h.2]

theorem skipWhiteSpaces_idem (doc : List Nat) (_end it : DocumentConstIterator) :
    skipWhiteSpaces doc _end (skipWhiteSpaces doc _end it) = skipWhiteSpaces doc _end it :=
  skipWhiteSpaces_id doc _end _ (skipWhiteSpaces_stops doc _end it)

theorem decodeValue_skip (doc : List Nat) (_end : DocumentConstIterator) (depth : Nat)
    (it : DocumentConstIterator) (value : AnyValue) :
    decodeValue doc _end depth (skipWhiteSpaces doc _end it) value =
      decodeValue doc _end depth it value := by
  cases depth with
  | zero => rfl
  | succ depth =>
    simp only [decodeValue, decodeValueBody, skipWhiteSpaces_idem]

theorem match_fails (doc : List Nat) (_end it : DocumentConstIterator) (c : Nat)
    (expected : List Nat) (h : it.dereference doc ≠ c) :
    match_ doc _end it (c :: expected) = (false, it) := by
  unfold match_
  rw [matchLoop]
  by_cases he : it.equal _end = true
  · simp [he]
  · simp [he, h]

theorem decodeSpecial_fails (doc : List Nat) (_end it : DocumentConstIterator)
    (value : AnyValue) (ht : it.dereference doc ≠ ch 't') (hf : it.dereference doc ≠ ch 'f')
    (hn : it.dereference doc ≠ ch 'n') :
    decodeSpecial doc _end it value = Decoded.ret false value it := by
  unfold decodeSpecial
  have h1 : match_ doc _end it (lit "true") = (false, it) :=
    match_fails doc _end it (ch 't') (lit "rue") ht
  have h2 : match_ doc _end it (lit "false") = (false, it) :=
    match_fails doc _end it (ch 'f') (lit "alse") hf
  have h3 : match_ doc _end it (lit "null") = (false, it) :=
    match_fails doc _end it (ch 'n') (lit "ull") hn
  by_cases he : it.equal _end = true
  · simp [he]
  · simp only [he, Bool.false_eq_true, if_false, h1, h2, h3]

theorem decodeString_fails (doc : List Nat) (_end it : DocumentConstIterator)
    (value : AnyValue) (h : it.dereference doc ≠ dquote) :
    decodeString doc _end it value = Decoded.ret false value it := by
  unfold decodeString getCleanString
  simp [h]

theorem decodeArray_fails (doc : List Nat) (_end : DocumentConstIterator)
    (decodeValue : DocumentConstIterator → AnyValue → Decoded)
    (it : DocumentConstIterator) (value : AnyValue) (h : it.dereference doc ≠ ch '[') :
    decodeArray doc _end decodeValue it value = Decoded.ret false value it := by
  unfold decodeArray
  simp [h]

theorem decodeObject_fails (doc : List Nat) (_end : DocumentConstIterator)
    (decodeValue : DocumentConstIterator → AnyValue → Decoded)
    (it : DocumentConstIterator) (value : AnyValue) (h : it.dereference doc ≠ ch '{') :
    decodeObject doc _end decodeValue it value = Decoded.ret false value it := by
  unfold decodeObject
  simp [h]

theorem digitsLoop_run (doc : List Nat) (_end : DocumentConstIterator) (ds rest : List Nat)
    (n : Nat) (it : DocumentConstIterator) (hd : ∀ c ∈ ds, IsDigit c)
    (hdoc : doc.drop it._it = ds ++ rest) (hb : it._begin = _end._begin)
    (hend : it._it + ds.length ≤ _end._it)
    (hstop : it._it + ds.length = _end._it ∨ ¬ IsDigit (rest.headD 0))
    (hn : ds.length ≤ n) :
    digitsLoop doc _end n it =
      Nat.iterate (DocumentConstIterator.increment doc) ds.length it := by
  induction ds generalizing n it with
  | nil =>
    cases n with
    | zero => rfl
    | succ n =>
      rw [digitsLoop]
      have hder := DocumentConstIterator.dereference_headD doc it rest (by simpa using hdoc)
      rcases hstop with h | h
      · have he : it.equal _end = true :=
          (DocumentConstIterator.equal_iff it _end hb).2 (by simpa using h)
        simp [he]
      · rw [← hder] at h
        unfold IsDigit at h
        by_cases he : it.equal _end = true
        · simp [he]
        · have h2 : ¬ (ch '0' ≤ it.dereference doc ∧ it.dereference doc ≤ ch '9') := h
          simp only [Bool.and_eq_true, decide_eq_true_eq, Bool.not_eq_true', Function.iterate_zero,
            id_eq, List.length_nil]
          rw [if_neg]
          intro hc
          exact h2 ⟨hc.1.2, hc.2⟩
  | cons c ds ih =>
    cases n with
    | zero => simp at hn
    | succ n =>
      simp only [List.cons_append, List.length_cons] at hdoc hend hstop hn ⊢
      obtain ⟨hder, hlt⟩ := DocumentConstIterator.dereference_of_drop doc it c _ hdoc
      have hne : it.equal _end = false :=
        DocumentConstIterator.not_equal_of_lt it _end (by omega)
      have hc : IsDigit c := hd c (List.mem_cons_self _ _)
      have hi := DocumentConstIterator.increment_it doc it
      rw [digitsLoop, Function.iterate_succ_apply]
      have hcond : (!it.equal _end && decide (ch '0' ≤ it.dereference doc) &&
          decide (it.dereference doc ≤ ch '9')) = true := by
        rw [hne, hder]
        simp only [Bool.not_false, Bool.true_and, Bool.and_eq_true, decide_eq_true_eq]
        exact hc
      rw [if_pos hcond]
      exact ih n (it.increment doc) (fun x hx => hd x (List.mem_cons_of_mem _ hx))
        (DocumentConstIterator.drop_increment doc it c _ hdoc) (by rw [hi.2]; exact hb)
        (by rw [hi.1]; omega)
        (by rw [hi.1]
            rcases hstop with h | h
            · left; omega
            · right; exact h)
        (by omega)

theorem getDigits_run (doc : List Nat) (_end : DocumentConstIterator) (ds rest : List Nat)
    (it : DocumentConstIterator) (hd : ∀ c ∈ ds, IsDigit c) (hne : ds ≠ [])
    (hdoc : doc.drop it._it = ds ++ rest) (hb : it._begin = _end._begin)
    (hend : it._it + ds.length ≤ _end._it)
    (hstop : it._it + ds.length = _end._it ∨ ¬ IsDigit (rest.headD 0)) :
    getDigits doc _end it =
      (some ds, Nat.iterate (DocumentConstIterator.increment doc) ds.length it) := by
  have hlen : ds.length ≤ doc.length - it._it := by
    have := congrArg List.length hdoc
    simp at this
    omega
  have hpos : 0 < ds.length := List.length_pos.2 hne
  have hq := DocumentConstIterator.iterate_it doc ds.length it
  unfold getDigits
  simp only
  rw [digitsLoop_run doc _end ds rest _ it hd hdoc hb hend hstop hlen]
  have hneq : (Nat.iterate (DocumentConstIterator.increment doc) ds.length it).equal it =
      false := by
    unfold DocumentConstIterator.equal
    have : (Nat.iterate (DocumentConstIterator.increment doc) ds.length it)._it ≠ it._it := by
      rw [hq.1]; omega
    simp [this]
  rw [hneq]
  simp only [Bool.false_eq_true, if_false, hq.1, hdoc]
  have : it._it + ds.length - it._it = ds.length := by omega
  rw [this, List.take_left]

theorem integerText_length_pos (negative : Bool) (ds : List Nat) (hne : ds ≠ []) :
    0 < (integerText negative ds).length := by
  have := List.length_pos.2 hne
  unfold integerText
  simp only [List.length_append]
  omega

theorem getInteger_run (doc : List Nat) (_end : DocumentConstIterator) (negative : Bool)
    (ds rest : List Nat) (it : DocumentConstIterator) (hd : ∀ c ∈ ds, IsDigit c)
    (hne : ds ≠ []) (hdoc : doc.drop it._it = integerText negative ds ++ rest)
    (hb : it._begin = _end._begin)
    (hend : it._it + (integerText negative ds).length ≤ _end._it)
    (hstop : it._it + (integerText negative ds).length = _end._it ∨
      ¬ IsDigit (rest.headD 0)) :
    getInteger doc _end it =
      (some (integerText negative ds),
        Nat.iterate (DocumentConstIterator.increment doc) (integerText negative ds).length
          it) := by
  have hpos := integerText_length_pos negative ds hne
  have hnend : it.equal _end = false :=
    DocumentConstIterator.not_equal_of_lt it _end (by omega)
  cases negative with
  | false =>
    have ht : integerText false ds = ds := by simp [integerText]
    rw [ht] at hdoc hend hstop ⊢
    obtain ⟨c, ds1, hds⟩ := List.exists_cons_of_ne_nil hne
    have hc : IsDigit c := hd c (by rw [hds]; exact List.mem_cons_self _ _)
    have hder : it.dereference doc = c :=
      (DocumentConstIterator.dereference_of_drop doc it c (ds1 ++ rest)
        (by rw [hdoc, hds]; rfl)).1
    have hnm : ¬ it.dereference doc = ch '-' := by
      rw [hder]
      intro h
      rw [h] at hc
      exact absurd hc.1 (by decide)
    unfold getInteger
    simp only [hnend, Bool.false_eq_true, if_false, hnm,
      getDigits_run doc _end ds rest it hd hne hdoc hb hend hstop, List.nil_append]
  | true =>
    have ht : integerText true ds = ch '-' :: ds := by simp [integerText]
    rw [ht] at hdoc hend hstop ⊢
    simp only [List.cons_append, List.length_cons] at hdoc hend hstop ⊢
    have hder : it.dereference doc = ch '-' :=
      (DocumentConstIterator.dereference_of_drop doc it _ _ hdoc).1
    have hi := DocumentConstIterator.increment_it doc it
    unfold getInteger
    simp only [hnend, Bool.false_eq_true, if_false, hder, if_true,
      getDigits_run doc _end ds rest (it.increment doc) hd hne
        (DocumentConstIterator.drop_increment doc it _ _ hdoc) (by rw [hi.2]; exact hb)
        (by rw [hi.1]; omega)
        (by rw [hi.1]
            rcases hstop with h | h
            · left; omega
            · right; exact h),
      Function.iterate_succ_apply, List.singleton_append]

theorem numberStart_ne (c : Nat) (h : c = ch '-' ∨ IsDigit c) :
    c ≠ ch ' ' ∧ c ≠ ch '\n' ∧ c ≠ ch 't' ∧ c ≠ ch 'f' ∧ c ≠ ch 'n' ∧ c ≠ dquote := by
  have e0 : ch '0' = 48 := rfl
  have e9 : ch '9' = 57 := rfl
  have e1 : ch '-' = 45 := rfl
  have e2 : ch ' ' = 32 := rfl
  have e3 : ch '\n' = 10 := rfl
  have e4 : ch 't' = 116 := rfl
  have e5 : ch 'f' = 102 := rfl
  have e6 : ch 'n' = 110 := rfl
  have e7 : dquote = 34 := rfl
  unfold IsDigit at h
  rw [e0, e9, e1] at h
  rw [e2, e3, e4, e5, e6, e7]
  omega

theorem delimiter_ne (c : Nat) (h : Delimiter c) :
    ¬ IsDigit c ∧ c ≠ ch 'e' ∧ c ≠ ch 'E' ∧ c ≠ ch '.' ∧ c ≠ ch ' ' ∧ c ≠ ch '\n' := by
  have e0 : ch '0' = 48 := rfl
  have e9 : ch '9' = 57 := rfl
  have e1 : ch ',' = 44 := rfl
  have e2 : ch ']' = 93 := rfl
  have e3 : ch '}' = 125 := rfl
  have e4 : ch 'e' = 101 := rfl
  have e5 : ch 'E' = 69 := rfl
  have e6 : ch '.' = 46 := rfl
  have e7 : ch ' ' = 32 := rfl
  have e8 : ch '\n' = 10 := rfl
  unfold Delimiter at h
  unfold IsDigit
  rw [e1, e2, e3] at h
  rw [e0, e9, e4, e5, e6, e7, e8]
  omega

theorem getExponent_fails (doc : List Nat) (_end it : DocumentConstIterator)
    (h : it.equal _end = true ∨
      (it.dereference doc ≠ ch 'e' ∧ it.dereference doc ≠ ch 'E')) :
    getExponent doc _end it = (none, it) := by
  unfold getExponent
  rcases h with h | h
  · simp [h]
  · simp [h.1, h.2]

/-- The text of an integer literal, followed by the end of the range or by
a delimiter, is decoded as the integer that `atol` reads in it. -/
theorem decodesAs_integer (negative : Bool) (ds : List Nat) (hd : ∀ c ∈ ds, IsDigit c)
    (hne : ds ≠ []) :
    DecodesAs (integerText negative ds) (AnyValue.int (atol (integerText negative ds))) := by
  intro doc _end it rest depth value hdoc hb hend hfol hdepth
  have hpos := integerText_length_pos negative ds hne
  obtain ⟨depth, rfl⟩ : ∃ d, depth = d + 1 := ⟨depth - 1, by omega⟩
  obtain ⟨q, hq⟩ : ∃ q, q = Nat.iterate (DocumentConstIterator.increment doc)
    (integerText negative ds).length it := ⟨_, rfl⟩
  have hqi := DocumentConstIterator.iterate_it doc (integerText negative ds).length it
  rw [← hq] at hqi ⊢
  have hqd : q.dereference doc = rest.headD 0 :=
    DocumentConstIterator.dereference_headD doc q rest
      (by rw [hq]; exact DocumentConstIterator.drop_iterate doc it _ rest hdoc)
  have hstop : q.equal _end = true ∨ Delimiter (q.dereference doc) := by
    rcases hfol with h | h
    · exact Or.inl ((DocumentConstIterator.equal_iff q _end (by rw [hqi.2]; exact hb)).2
        (by rw [hqi.1]; exact h))
    · exact Or.inr (by rw [hqd]; exact h)
  have hint := getInteger_run doc _end negative ds rest it hd hne hdoc hb hend
    (by rcases hfol with h | h
        · exact Or.inl h
        · exact Or.inr (delimiter_ne _ h).1)
  rw [← hq] at hint
  -- the first character
  have hfirst : it.dereference doc = ch '-' ∨ IsDigit (it.dereference doc) := by
    cases negative with
    | true =>
      left
      exact (DocumentConstIterator.dereference_of_drop doc it (ch '-') (ds ++ rest)
        (by rw [hdoc]; simp [integerText])).1
    | false =>
      right
      obtain ⟨c, ds1, hds⟩ := List.exists_cons_of_ne_nil hne
      have := (DocumentConstIterator.dereference_of_drop doc it c (ds1 ++ rest)
        (by rw [hdoc, hds]; simp [integerText])).1
      rw [this]
      exact hd c (by rw [hds]; exact List.mem_cons_self _ _)
  obtain ⟨n1, n2, n3, n4, n5, n6⟩ := numberStart_ne _ hfirst
  have hexp : getExponent doc _end q = (none, q) :=
    getExponent_fails doc _end q (by
      rcases hstop with h | h
      · exact Or.inl h
      · exact Or.inr ⟨(delimiter_ne _ h).2.1, (delimiter_ne _ h).2.2.1⟩)
  have hfloat : getFloat doc _end it = FloatStep.ret none it := by
    unfold getFloat getFloatStr
    simp only [hint, hexp]
    rcases hstop with h | h
    · simp [h]
    · simp [(delimiter_ne _ h).2.2.2.1]
  have hskip : skipWhiteSpaces doc _end q = q :=
    skipWhiteSpaces_id doc _end q (by
      rcases hstop with h | h
      · exact Or.inl h
      · exact Or.inr ⟨(delimiter_ne _ h).2.2.2.2.1, (delimiter_ne _ h).2.2.2.2.2⟩)
  show decodeValueBody doc _end (decodeValue doc _end depth) it value = _
  unfold decodeValueBody
  rw [skipWhiteSpaces_id doc _end it (Or.inr ⟨n1, n2⟩),
    decodeSpecial_fails doc _end it value n3 n4 n5]
  simp only [Decoded.orElse, decodeString_fails doc _end it value n6, decodeFloat, hfloat,
    decodeInteger, getIntegerInt64, hint, hskip]

/-- On a whole string that is decoded as `v`, `decode` returns with the
value `v` and the iterator at the end of the string. -/
theorem decode_of_decodesAs (s : List Nat) (v : AnyValue) (h : DecodesAs s v)
    (out : AnyValue) :
    (ofString s).decode out = Decoded.ret true v
      (Nat.iterate (DocumentConstIterator.increment s) s.length (DocumentConstIterator.begin s)) := by
  have hnew := DocumentConstIterator.new_eq_iterate s s.length 0 (by omega)
  have hit := DocumentConstIterator.iterate_it s s.length
    { _begin := 0, _it := 0, _line := 1, _column := 1 }
  have he : (DocumentConstIterator.end_ s)._it = s.length := by
    unfold DocumentConstIterator.end_
    rw [hnew]
    simpa using hit.1
  have hbe : (DocumentConstIterator.end_ s)._begin = 0 := by
    unfold DocumentConstIterator.end_
    rw [hnew]
    simpa using hit.2
  have hb0 : DocumentConstIterator.begin s =
      { _begin := 0, _it := 0, _line := 1, _column := 1 } := rfl
  have key := h s (DocumentConstIterator.end_ s) (DocumentConstIterator.begin s) []
    (s.length + 1) out (by rw [hb0]; simp) (by rw [hb0, hbe])
    (by rw [hb0, he]; simp) (Or.inl (by rw [hb0, he]; simp)) (by omega)
  unfold decode
  simp only [ofString]
  rw [key]

end JsonDecoderPrivate

/-! ## The decoder: the comma before a closing bracket or brace -/

namespace detail
namespace DocumentConstIterator

theorem iterate_step (doc : List Nat) (k : Nat) (it : DocumentConstIterator) :
    (Nat.iterate (increment doc) k it).increment doc = Nat.iterate (increment doc) (k + 1) it := by
  rw [Function.iterate_succ_apply']

theorem iterate_iterate (doc : List Nat) (a b : Nat) (it : DocumentConstIterator) :
    Nat.iterate (increment doc) b (Nat.iterate (increment doc) a it) =
      Nat.iterate (increment doc) (a + b) it :=
  (iterate_add doc a b it).symm

end DocumentConstIterator
end detail

namespace JsonDecoderPrivate

theorem decodesAs_ne_nil (s : List Nat) (v : AnyValue) (h : DecodesAs s v) : s ≠ [] := by
  intro hs
  subst hs
  have := h [] { _begin := 0, _it := 0, _line := 1, _column := 1 }
    { _begin := 0, _it := 0, _line := 1, _column := 1 } [] 0 AnyValue.invalid rfl rfl
    (by simp) (Or.inl rfl) (by simp)
  simp [decodeValue] at this

theorem getInteger_fails (doc : List Nat) (_end it : DocumentConstIterator)
    (h1 : it.dereference doc ≠ ch '-') (h2 : ¬ IsDigit (it.dereference doc)) :
    getInteger doc _end it = (none, it) := by
  have hloop : digitsLoop doc _end (doc.length - it._it) it = it := by
    cases doc.length - it._it with
    | zero => rfl
    | succ n =>
      rw [digitsLoop, if_neg]
      intro hc
      simp only [Bool.and_eq_true, decide_eq_true_eq] at hc
      exact h2 ⟨hc.1.2, hc.2⟩
  have heq : it.equal it = true := by simp [DocumentConstIterator.equal]
  unfold getInteger
  by_cases he : it.equal _end = true
  · simp [he]
  · simp only [he, Bool.false_eq_true, if_false, h1, getDigits, hloop, heq, if_true]

theorem closing_ne (c : Nat) (h : c = ch ']' ∨ c = ch '}') :
    c ≠ ch ' ' ∧ c ≠ ch '\n' ∧ c ≠ ch 't' ∧ c ≠ ch 'f' ∧ c ≠ ch 'n' ∧ c ≠ dquote ∧
    c ≠ ch '-' ∧ ¬ IsDigit c ∧ c ≠ ch '[' ∧ c ≠ ch '{' := by
  have e0 : ch '0' = 48 := rfl
  have e9 : ch '9' = 57 := rfl
  have e1 : ch '-' = 45 := rfl
  have e2 : ch ' ' = 32 := rfl
  have e3 : ch '\n' = 10 := rfl
  have e4 : ch 't' = 116 := rfl
  have e5 : ch 'f' = 102 := rfl
  have e6 : ch 'n' = 110 := rfl
  have e7 : dquote = 34 := rfl
  have e8 : ch ']' = 93 := rfl
  have e10 : ch '}' = 125 := rfl
  have e11 : ch '[' = 91 := rfl
  have e12 : ch '{' = 123 := rfl
  unfold IsDigit
  rw [e8, e10] at h
  rw [e0, e9, e1, e2, e3, e4, e5, e6, e7, e11, e12]
  omega

/-- At a closing bracket or brace, `decodeValue` returns false and leaves
`_it` and the value as they are. -/
theorem decodeValue_closing (doc : List Nat) (_end : DocumentConstIterator) (depth : Nat)
    (it : DocumentConstIterator) (value : AnyValue)
    (h : it.dereference doc = ch ']' ∨ it.dereference doc = ch '}') :
    decodeValue doc _end (depth + 1) it value = Decoded.ret false value it := by
  obtain ⟨n1, n2, n3, n4, n5, n6, n7, n8, n9, n10⟩ := closing_ne _ h
  have hint := getInteger_fails doc _end it n7 n8
  show decodeValueBody doc _end (decodeValue doc _end depth) it value = _
  unfold decodeValueBody
  rw [skipWhiteSpaces_id doc _end it (Or.inr ⟨n1, n2⟩),
    decodeSpecial_fails doc _end it value n3 n4 n5]
  simp only [Decoded.orElse, decodeString_fails doc _end it value n6, decodeFloat, getFloat, getFloatStr,
    decodeInteger, getIntegerInt64, hint, decodeArray_fails doc _end _ it value n9,
    decodeObject_fails doc _end _ it value n10]

theorem closingText_head (trailing : Bool) (close : Nat) (h : close = ch ']' ∨ close = ch '}') :
    ∃ c t, closingText trailing close = c :: t ∧ Delimiter c := by
  cases trailing with
  | true => exact ⟨ch ',', [close], rfl, Or.inl rfl⟩
  | false =>
    refine ⟨close, [], rfl, ?_⟩
    rcases h with h | h
    · exact Or.inr (Or.inl h)
    · exact Or.inr (Or.inr h)

/-- A round of the loop of `decodeArray` at the text of a value that a
delimiter follows inside the range. -/
theorem arrayLoop_step (doc : List Nat) (_end : DocumentConstIterator) (d n : Nat)
    (s : List Nat) (v : AnyValue) (c : Nat) (rest : List Nat) (tmpArray : List AnyValue)
    (it : DocumentConstIterator) (value : AnyValue) (hs : DecodesAs s v)
    (hdoc : doc.drop it._it = s ++ c :: rest) (hb : it._begin = _end._begin)
    (hend : it._it + s.length + 1 ≤ _end._it) (hc : Delimiter c) (hd : s.length ≤ d) :
    arrayLoop doc _end (decodeValue doc _end d) (n + 1) tmpArray it value =
      if c ≠ ch ',' then
        closeArray doc (tmpArray ++ [v])
          (Nat.iterate (DocumentConstIterator.increment doc) s.length it) value
      else
        arrayLoop doc _end (decodeValue doc _end d) n (tmpArray ++ [v])
          (Nat.iterate (DocumentConstIterator.increment doc) (s.length + 1) it) value := by
  have hv := hs doc _end it (c :: rest) d AnyValue.invalid hdoc hb (by omega)
    (Or.inr hc) hd
  have hder : (Nat.iterate (DocumentConstIterator.increment doc) s.length it).dereference doc
      = c :=
    DocumentConstIterator.dereference_headD doc _ (c :: rest)
      (DocumentConstIterator.drop_iterate doc it s _ hdoc)
  rw [arrayLoop]
  simp only [decodeValue_skip, hv, hder, DocumentConstIterator.iterate_step]

theorem closeArray_closes (doc : List Nat) (tmpArray : List AnyValue)
    (it : DocumentConstIterator) (value : AnyValue) (h : it.dereference doc = ch ']') :
    closeArray doc tmpArray it value =
      Decoded.ret true (AnyValue.list tmpArray) (it.increment doc) := by
  unfold closeArray
  simp [h]

/-- The round of the loop of `decodeArray` at the closing bracket. -/
theorem arrayLoop_last (doc : List Nat) (_end : DocumentConstIterator) (d n : Nat)
    (tmpArray : List AnyValue) (it : DocumentConstIterator) (value : AnyValue)
    (h : it.dereference doc = ch ']') :
    arrayLoop doc _end (decodeValue doc _end (d + 1)) (n + 1) tmpArray it value =
      Decoded.ret true (AnyValue.list tmpArray) (it.increment doc) := by
  rw [arrayLoop]
  simp only [decodeValue_skip, decodeValue_closing doc _end d it AnyValue.invalid (Or.inl h),
    closeArray_closes doc tmpArray it value h]

theorem commaSeparated_cons_cons (s t : List Nat) (rest : List (List Nat)) :
    commaSeparated (s :: t :: rest) = s ++ ch ',' :: commaSeparated (t :: rest) := rfl

/-- The loop of `decodeArray` over the texts of values with a comma between
one and the next, up to the closing bracket, with or without a comma before
it. -/
theorem arrayLoop_items (doc : List Nat) (_end : DocumentConstIterator) (d : Nat)
    (trailing : Bool) (items : List (List Nat × AnyValue)) (hne : items ≠ [])
    (hall : ∀ p ∈ items, DecodesAs p.1 p.2) (hd : ∀ p ∈ items, p.1.length ≤ d)
    (n : Nat) (tmpArray : List AnyValue) (it : DocumentConstIterator) (rest : List Nat)
    (value : AnyValue)
    (hdoc : doc.drop it._it =
      (commaSeparated (items.map Prod.fst) ++ closingText trailing (ch ']')) ++ rest)
    (hb : it._begin = _end._begin)
    (hend : it._it + (commaSeparated (items.map Prod.fst) ++
      closingText trailing (ch ']')).length ≤ _end._it)
    (hn : items.length + 1 ≤ n) :
    arrayLoop doc _end (decodeValue doc _end d) n tmpArray it value =
      Decoded.ret true (AnyValue.list (tmpArray ++ items.map Prod.snd))
        (Nat.iterate (DocumentConstIterator.increment doc)
          (commaSeparated (items.map Prod.fst) ++ closingText trailing (ch ']')).length it) := by
  induction items generalizing n tmpArray it with
  | nil => exact absurd rfl hne
  | cons p items ih =>
    obtain ⟨s, v⟩ := p
    have hs : DecodesAs s v := hall (s, v) (List.mem_cons_self _ _)
    have hsd : s.length ≤ d := hd (s, v) (List.mem_cons_self _ _)
    have hspos : 0 < s.length := List.length_pos.2 (decodesAs_ne_nil s v hs)
    obtain ⟨n, rfl⟩ : ∃ m, n = m + 1 := ⟨n - 1, by omega⟩
    cases items with
    | nil =>
      simp only [List.map_cons, List.map_nil, commaSeparated, List.append_assoc,
        List.length_append] at hdoc hend ⊢
      cases trailing with
      | false =>
        simp only [closingText, Bool.false_eq_true, if_false, List.singleton_append,
          List.length_singleton] at hdoc hend ⊢
        rw [arrayLoop_step doc _end d n s v (ch ']') rest tmpArray it value hs hdoc hb
          (by omega) (Or.inr (Or.inl rfl)) hsd]
        have hder : (Nat.iterate (DocumentConstIterator.increment doc) s.length
            it).dereference doc = ch ']' :=
          DocumentConstIterator.dereference_headD doc _ (ch ']' :: rest)
            (DocumentConstIterator.drop_iterate doc it s _ hdoc)
        rw [if_pos (by decide), closeArray_closes doc _ _ value hder,
          DocumentConstIterator.iterate_step]
      | true =>
        simp only [closingText, if_true, List.cons_append, List.nil_append,
          List.length_cons, List.length_nil] at hdoc hend ⊢
        rw [arrayLoop_step doc _end d n s v (ch ',') (ch ']' :: rest) tmpArray it value hs
          hdoc hb (by omega) (Or.inl rfl) hsd]
        have hdoc2 : doc.drop (Nat.iterate (DocumentConstIterator.increment doc)
            (s.length + 1) it)._it = ch ']' :: rest := by
          have := DocumentConstIterator.drop_iterate doc it (s ++ [ch ','])
            (ch ']' :: rest) (by simpa using hdoc)
          simpa using this
        have hder := DocumentConstIterator.dereference_headD doc _ _ hdoc2
        obtain ⟨d, rfl⟩ : ∃ e, d = e + 1 := ⟨d - 1, by omega⟩
        obtain ⟨n, rfl⟩ : ∃ m, n = m + 1 := ⟨n - 1, by simp at hn; omega⟩
        rw [if_neg (by simp), arrayLoop_last doc _end d n _ _ value hder,
          DocumentConstIterator.iterate_step]
    | cons p2 items =>
      have hdoc1 : doc.drop it._it = s ++ ch ',' ::
          ((commaSeparated ((p2 :: items).map Prod.fst) ++ closingText trailing (ch ']')) ++
            rest) := by
        rw [hdoc]
        simp [commaSeparated_cons_cons]
      have hlen : (commaSeparated (((s, v) :: p2 :: items).map Prod.fst) ++
          closingText trailing (ch ']')).length =
          s.length + 1 + (commaSeparated ((p2 :: items).map Prod.fst) ++
            closingText trailing (ch ']')).length := by
        simp [commaSeparated_cons_cons]
        omega
      rw [hlen] at hend ⊢
      rw [arrayLoop_step doc _end d n s v (ch ',') _ tmpArray it value hs hdoc1 hb
        (by omega) (Or.inl rfl) hsd, if_neg (by simp)]
      have hi := DocumentConstIterator.iterate_it doc (s.length + 1) it
      have hdoc2 : doc.drop (Nat.iterate (DocumentConstIterator.increment doc)
          (s.length + 1) it)._it =
          (commaSeparated ((p2 :: items).map Prod.fst) ++ closingText trailing (ch ']')) ++
            rest := by
        have := DocumentConstIterator.drop_iterate doc it (s ++ [ch ','])
          ((commaSeparated ((p2 :: items).map Prod.fst) ++ closingText trailing (ch ']')) ++
            rest) (by simpa using hdoc1)
        simpa using this
      rw [ih (by simp) (fun q hq => hall q (List.mem_cons_of_mem _ hq))
        (fun q hq => hd q (List.mem_cons_of_mem _ hq)) n (tmpArray ++ [v]) _ hdoc2
        (by rw [hi.2]; exact hb) (by rw [hi.1]; omega) (by simp at hn ⊢; omega),
        DocumentConstIterator.iterate_iterate]
      simp

theorem skipWhiteSpaces_follower (doc : List Nat) (_end it : DocumentConstIterator)
    (s rest : List Nat) (hdoc : doc.drop it._it = s ++ rest) (hb : it._begin = _end._begin)
    (hfol : it._it + s.length = _end._it ∨ Delimiter (rest.headD 0)) :
    skipWhiteSpaces doc _end (Nat.iterate (DocumentConstIterator.increment doc) s.length it) =
      Nat.iterate (DocumentConstIterator.increment doc) s.length it := by
  have hqi := DocumentConstIterator.iterate_it doc s.length it
  apply skipWhiteSpaces_id
  rcases hfol with h | h
  · exact Or.inl ((DocumentConstIterator.equal_iff _ _end (by rw [hqi.2]; exact hb)).2
      (by rw [hqi.1]; exact h))
  · have hqd := DocumentConstIterator.dereference_headD doc _ rest
      (DocumentConstIterator.drop_iterate doc it s rest hdoc)
    rw [hqd]
    exact Or.inr ⟨(delimiter_ne _ h).2.2.2.2.1, (delimiter_ne _ h).2.2.2.2.2⟩

theorem length_le_commaSeparated (texts : List (List Nat)) (h : ∀ s ∈ texts, s ≠ []) :
    texts.length ≤ (commaSeparated texts).length := by
  induction texts with
  | nil => simp
  | cons s texts ih =>
    have hs : 0 < s.length := List.length_pos.2 (h s (List.mem_cons_self _ _))
    have ih2 := ih (fun t ht => h t (List.mem_cons_of_mem _ ht))
    cases texts with
    | nil =>
      simp only [commaSeparated, List.length_singleton]
      omega
    | cons t texts =>
      rw [commaSeparated_cons_cons]
      simp only [List.length_append, List.length_cons] at ih2 ⊢
      omega

theorem length_le_of_mem_commaSeparated (texts : List (List Nat)) (s : List Nat)
    (h : s ∈ texts) : s.length ≤ (commaSeparated texts).length := by
  induction texts with
  | nil => simp at h
  | cons t texts ih =>
    cases texts with
    | nil =>
      simp only [List.mem_singleton] at h
      subst h
      simp [commaSeparated]
    | cons t2 texts =>
      rw [commaSeparated_cons_cons]
      simp only [List.length_append, List.length_cons]
      rcases List.mem_cons.1 h with h | h
      · subst h
        omega
      · have := ih h
        omega

theorem bracket_ne (c : Nat) (h : c = ch '[' ∨ c = ch '{') :
    c ≠ ch ' ' ∧ c ≠ ch '\n' ∧ c ≠ ch 't' ∧ c ≠ ch 'f' ∧ c ≠ ch 'n' ∧ c ≠ dquote ∧
    c ≠ ch '-' ∧ ¬ IsDigit c := by
  have e0 : ch '0' = 48 := rfl
  have e9 : ch '9' = 57 := rfl
  have e1 : ch '-' = 45 := rfl
  have e2 : ch ' ' = 32 := rfl
  have e3 : ch '\n' = 10 := rfl
  have e4 : ch 't' = 116 := rfl
  have e5 : ch 'f' = 102 := rfl
  have e6 : ch 'n' = 110 := rfl
  have e7 : dquote = 34 := rfl
  have e11 : ch '[' = 91 := rfl
  have e12 : ch '{' = 123 := rfl
  unfold IsDigit
  rw [e11, e12] at h
  rw [e0, e9, e1, e2, e3, e4, e5, e6, e7]
  omega

/-- The text of an array of values, with or without a comma before the
closing bracket, is decoded as the list of the values. -/
theorem decodesAs_array (trailing : Bool) (items : List (List Nat × AnyValue))
    (hne : items ≠ []) (hall : ∀ p ∈ items, DecodesAs p.1 p.2) :
    DecodesAs (arrayText (items.map Prod.fst) trailing) (AnyValue.list (items.map Prod.snd)) := by
  intro doc _end it rest depth value hdoc hb hend hfol hdepth
  have hskip := skipWhiteSpaces_follower doc _end it _ rest hdoc hb hfol
  have htexts : ∀ s ∈ items.map Prod.fst, s ≠ [] := by
    intro s hs
    obtain ⟨p, hp, rfl⟩ := List.mem_map.1 hs
    exact decodesAs_ne_nil p.1 p.2 (hall p hp)
  have hcount := length_le_commaSeparated _ htexts
  simp only [List.length_map] at hcount
  have hclose : 1 ≤ (closingText trailing (ch ']')).length := by
    cases trailing <;> simp [closingText]
  have hlen : (arrayText (items.map Prod.fst) trailing).length =
      (commaSeparated (items.map Prod.fst) ++ closingText trailing (ch ']')).length + 1 := by
    simp [arrayText]
  have hdoc0 : doc.drop it._it = ch '[' ::
      ((commaSeparated (items.map Prod.fst) ++ closingText trailing (ch ']')) ++ rest) := by
    rw [hdoc]
    simp [arrayText]
  obtain ⟨hder, hlt⟩ := DocumentConstIterator.dereference_of_drop doc it _ _ hdoc0
  have hdoc1 := DocumentConstIterator.drop_increment doc it _ _ hdoc0
  have hi := DocumentConstIterator.increment_it doc it
  have hdl : doc.length - it._it =
      (arrayText (items.map Prod.fst) trailing).length + rest.length := by
    have := congrArg List.length hdoc
    simpa using this
  rw [hlen] at hend hdepth hdl
  simp only [List.length_append] at hend hdepth hdl
  obtain ⟨d, rfl⟩ : ∃ e, depth = e + 1 := ⟨depth - 1, by omega⟩
  have hnend : it.equal _end = false :=
    DocumentConstIterator.not_equal_of_lt it _end (by omega)
  obtain ⟨n1, n2, n3, n4, n5, n6, n7, n8⟩ := bracket_ne _ (Or.inl hder)
  have hint := getInteger_fails doc _end it n7 n8
  have hloop := arrayLoop_items doc _end d trailing items hne hall
    (by
      intro p hp
      have := length_le_of_mem_commaSeparated (items.map Prod.fst) p.1
        (List.mem_map.2 ⟨p, hp, rfl⟩)
      omega)
    (doc.length + 1 - (it.increment doc)._it) [] (it.increment doc) rest value hdoc1
    (by rw [hi.2]; exact hb)
    (by rw [hi.1]; simp only [List.length_append]; omega)
    (by rw [hi.1]; omega)
  rw [hlen, Function.iterate_succ_apply] at hskip ⊢
  show decodeValueBody doc _end (decodeValue doc _end d) it value = _
  unfold decodeValueBody
  rw [skipWhiteSpaces_id doc _end it (Or.inr ⟨n1, n2⟩),
    decodeSpecial_fails doc _end it value n3 n4 n5]
  simp only [Decoded.orElse, decodeString_fails doc _end it value n6, decodeFloat, getFloat, getFloatStr,
    decodeInteger, getIntegerInt64, hint, decodeArray, hnend, hder, ne_eq, not_true_eq_false,
    decide_False, Bool.or_self, Bool.false_eq_true, if_false, hloop, List.nil_append, hskip]

/-- The function `getCleanString` on a literal that is closed inside the
range: the text of the pieces, and the position after the closing quote. -/
theorem getCleanString_closed (doc : List Nat) (_end it : DocumentConstIterator)
    (ps : List StringPiece) (rest : List Nat) (hv : ∀ p ∈ ps, p.Valid)
    (hb : it._begin = _end._begin)
    (hdoc : doc.drop it._it = dquote :: (literalBody ps ++ dquote :: rest))
    (hend : it._it + (literalBody ps).length + 1 < _end._it) :
    getCleanString doc _end it = Step.ret (some (literalText ps))
      (Nat.iterate (DocumentConstIterator.increment doc) ((literalBody ps).length + 2) it) := by
  obtain ⟨hd, hlt⟩ := DocumentConstIterator.dereference_of_drop doc it dquote _ hdoc
  have hdoc1 := DocumentConstIterator.drop_increment doc it dquote _ hdoc
  have hi1 := DocumentConstIterator.increment_it doc it
  have hlen : doc.length - it._it = (literalBody ps).length + rest.length + 2 := by
    have := congrArg List.length hdoc
    simp at this
    omega
  have hps := length_le_literalBody ps
  obtain ⟨n, hn⟩ : ∃ n, doc.length + 2 - (it.increment doc)._it = ps.length + (n + 1) :=
    ⟨(literalBody ps).length - ps.length + rest.length + 2, by rw [hi1.1]; omega⟩
  have hq := DocumentConstIterator.iterate_it doc (literalBody ps).length (it.increment doc)
  have hdq : doc.drop (Nat.iterate (DocumentConstIterator.increment doc)
      (literalBody ps).length (it.increment doc))._it = dquote :: rest :=
    DocumentConstIterator.drop_iterate doc (it.increment doc) _ _ hdoc1
  obtain ⟨hderq, hltq⟩ := DocumentConstIterator.dereference_of_drop doc _ dquote _ hdq
  have hneq : (Nat.iterate (DocumentConstIterator.increment doc) (literalBody ps).length
      (it.increment doc)).equal _end = false :=
    DocumentConstIterator.not_equal_of_lt _ _end (by rw [hq.1, hi1.1]; omega)
  have hnl : ¬ doc.length < (Nat.iterate (DocumentConstIterator.increment doc)
      (literalBody ps).length (it.increment doc))._it := by omega
  have hne : it.equal _end = false := DocumentConstIterator.not_equal_of_lt it _end (by omega)
  unfold getCleanString
  simp only [hne, hd, ne_eq, not_true_eq_false, decide_False, Bool.or_self,
    Bool.false_eq_true, if_false]
  rw [hn, stringLoop_pieces doc _end ps (n + 1) [] (it.increment doc) (dquote :: rest) hv
    (by rw [hi1.2]; exact hb) hdoc1 (by rw [hi1.1]; omega), stringLoop]
  simp only [hneq, Bool.false_eq_true, if_false, hnl, hderq, if_true, List.nil_append,
    DocumentConstIterator.iterate_step, Function.iterate_succ_apply]

theorem closeObject_closes (doc : List Nat) (_end : DocumentConstIterator)
    (tmpMap : List (List Nat × AnyValue)) (it : DocumentConstIterator) (value : AnyValue)
    (he : it.equal _end = false) (h : it.dereference doc = ch '}') :
    closeObject doc _end tmpMap it value =
      Decoded.ret true (AnyValue.map tmpMap) (it.increment doc) := by
  unfold closeObject
  simp [he, h]

/-- The round of the loop of `decodeObject` at the closing brace. -/
theorem objectLoop_last (doc : List Nat) (_end : DocumentConstIterator)
    (decodeValue : DocumentConstIterator → AnyValue → Decoded) (n : Nat)
    (tmpMap : List (List Nat × AnyValue)) (it : DocumentConstIterator) (value : AnyValue)
    (he : it.equal _end = false) (h : it.dereference doc = ch '}') :
    objectLoop doc _end decodeValue (n + 1) tmpMap it value =
      Decoded.ret true (AnyValue.map tmpMap) (it.increment doc) := by
  obtain ⟨n1, n2, n3, n4, n5, n6, n7, n8, n9, n10⟩ := closing_ne _ (Or.inr h)
  have hg : getCleanString doc _end it = Step.ret none it := by
    unfold getCleanString
    simp [n6]
  rw [objectLoop]
  simp only [skipWhiteSpaces_id doc _end it (Or.inr ⟨n1, n2⟩), hg,
    closeObject_closes doc _end tmpMap it value he h]

theorem field_length (f : Field) :
    f.bytes.length = (literalBody f.key).length + 3 + f.text.length := by
  simp [Field.bytes]
  omega

/-- A round of the loop of `decodeObject` at the text of a field that a
delimiter follows inside the range. -/
theorem objectLoop_step (doc : List Nat) (_end : DocumentConstIterator) (d n : Nat)
    (f : Field) (c : Nat) (rest : List Nat) (tmpMap : List (List Nat × AnyValue))
    (it : DocumentConstIterator) (value : AnyValue) (hk : ∀ p ∈ f.key, p.Valid)
    (hs : DecodesAs f.text f.value)
    (hdoc : doc.drop it._it = f.bytes ++ c :: rest) (hb : it._begin = _end._begin)
    (hend : it._it + f.bytes.length + 1 ≤ _end._it) (hc : Delimiter c)
    (hd : f.text.length ≤ d) :
    objectLoop doc _end (decodeValue doc _end d) (n + 1) tmpMap it value =
      if c ≠ ch ',' then
        closeObject doc _end (StdMap.set stringLt (literalText f.key) f.value tmpMap)
          (Nat.iterate (DocumentConstIterator.increment doc) f.bytes.length it) value
      else
        objectLoop doc _end (decodeValue doc _end d) n
          (StdMap.set stringLt (literalText f.key) f.value tmpMap)
          (Nat.iterate (DocumentConstIterator.increment doc) (f.bytes.length + 1) it)
          value := by
  have hfl := field_length f
  have hdoc0 : doc.drop it._it =
      dquote :: (literalBody f.key ++ dquote :: (ch ':' :: (f.text ++ c :: rest))) := by
    rw [hdoc]
    simp [Field.bytes]
  obtain ⟨hder, hlt⟩ := DocumentConstIterator.dereference_of_drop doc it dquote _ hdoc0
  have hsk : skipWhiteSpaces doc _end it = it :=
    skipWhiteSpaces_id doc _end it (Or.inr (by rw [hder]; exact ⟨by decide, by decide⟩))
  have hg := getCleanString_closed doc _end it f.key _ hk hb hdoc0 (by omega)
  -- the position of the colon
  obtain ⟨it2, hit2⟩ : ∃ it2, it2 = Nat.iterate (DocumentConstIterator.increment doc)
    ((literalBody f.key).length + 2) it := ⟨_, rfl⟩
  have hi2 := DocumentConstIterator.iterate_it doc ((literalBody f.key).length + 2) it
  rw [← hit2] at hg hi2
  have hdoc2 : doc.drop it2._it = ch ':' :: (f.text ++ c :: rest) := by
    have := DocumentConstIterator.drop_iterate doc it (dquote :: (literalBody f.key ++ [dquote]))
      (ch ':' :: (f.text ++ c :: rest)) (by rw [hdoc0]; simp)
    rw [hit2]
    simpa using this
  obtain ⟨hder2, hlt2⟩ := DocumentConstIterator.dereference_of_drop doc it2 _ _ hdoc2
  have hsk2 : skipWhiteSpaces doc _end it2 = it2 :=
    skipWhiteSpaces_id doc _end it2 (Or.inr (by rw [hder2]; exact ⟨by decide, by decide⟩))
  have hne2 : it2.equal _end = false :=
    DocumentConstIterator.not_equal_of_lt it2 _end (by omega)
  -- the value
  have hi3 := DocumentConstIterator.increment_it doc it2
  have hdoc3 := DocumentConstIterator.drop_increment doc it2 _ _ hdoc2
  have hv := hs doc _end (it2.increment doc) (c :: rest) d AnyValue.invalid hdoc3
    (by rw [hi3.2, hi2.2]; exact hb) (by rw [hi3.1]; omega) (Or.inr hc) hd
  have hq : Nat.iterate (DocumentConstIterator.increment doc) f.text.length
      (it2.increment doc) =
      Nat.iterate (DocumentConstIterator.increment doc) f.bytes.length it := by
    rw [hit2, DocumentConstIterator.iterate_step, DocumentConstIterator.iterate_iterate, hfl]
  rw [hq] at hv
  have hi4 := DocumentConstIterator.iterate_it doc f.bytes.length it
  have hder4 : (Nat.iterate (DocumentConstIterator.increment doc) f.bytes.length
      it).dereference doc = c :=
    DocumentConstIterator.dereference_headD doc _ (c :: rest)
      (DocumentConstIterator.drop_iterate doc it f.bytes _ hdoc)
  have hne4 : (Nat.iterate (DocumentConstIterator.increment doc) f.bytes.length
      it).equal _end = false :=
    DocumentConstIterator.not_equal_of_lt _ _end (by rw [hi4.1]; omega)
  rw [objectLoop]
  simp only [hsk, hg, hsk2, hne2, hder2, ne_eq, not_true_eq_false, decide_False,
    Bool.or_self, Bool.false_eq_true, if_false, hv, hne4, hder4,
    DocumentConstIterator.iterate_step]

/-- The loop of `decodeObject` over the texts of fields with a comma between
one and the next, up to the closing brace, with or without a comma before
it. -/
theorem objectLoop_fields (doc : List Nat) (_end : DocumentConstIterator) (d : Nat)
    (trailing : Bool) (fields : List Field) (hne : fields ≠ [])
    (hk : ∀ f ∈ fields, ∀ p ∈ f.key, p.Valid)
    (hall : ∀ f ∈ fields, DecodesAs f.text f.value) (hd : ∀ f ∈ fields, f.text.length ≤ d)
    (n : Nat) (tmpMap : List (List Nat × AnyValue)) (it : DocumentConstIterator)
    (rest : List Nat) (value : AnyValue)
    (hdoc : doc.drop it._it =
      (commaSeparated (fields.map Field.bytes) ++ closingText trailing (ch '}')) ++ rest)
    (hb : it._begin = _end._begin)
    (hend : it._it + (commaSeparated (fields.map Field.bytes) ++
      closingText trailing (ch '}')).length ≤ _end._it)
    (hn : fields.length + 1 ≤ n) :
    objectLoop doc _end (decodeValue doc _end d) n tmpMap it value =
      Decoded.ret true (AnyValue.map (assignFields fields tmpMap))
        (Nat.iterate (DocumentConstIterator.increment doc)
          (commaSeparated (fields.map Field.bytes) ++
            closingText trailing (ch '}')).length it) := by
  induction fields generalizing n tmpMap it with
  | nil => exact absurd rfl hne
  | cons f fields ih =>
    have hfk := hk f (List.mem_cons_self _ _)
    have hs : DecodesAs f.text f.value := hall f (List.mem_cons_self _ _)
    have hsd : f.text.length ≤ d := hd f (List.mem_cons_self _ _)
    obtain ⟨n, rfl⟩ : ∃ m, n = m + 1 := ⟨n - 1, by omega⟩
    have hi := DocumentConstIterator.iterate_it doc f.bytes.length it
    cases fields with
    | nil =>
      simp only [List.map_cons, List.map_nil, commaSeparated, List.append_assoc,
        List.length_append] at hdoc hend ⊢
      cases trailing with
      | false =>
        simp only [closingText, Bool.false_eq_true, if_false, List.singleton_append,
          List.length_singleton] at hdoc hend ⊢
        rw [objectLoop_step doc _end d n f (ch '}') rest tmpMap it value hfk hs hdoc hb
          (by omega) (Or.inr (Or.inr rfl)) hsd]
        have hder : (Nat.iterate (DocumentConstIterator.increment doc) f.bytes.length
            it).dereference doc = ch '}' :=
          DocumentConstIterator.dereference_headD doc _ (ch '}' :: rest)
            (DocumentConstIterator.drop_iterate doc it f.bytes _ hdoc)
        rw [if_pos (by decide), closeObject_closes doc _end _ _ value
          (DocumentConstIterator.not_equal_of_lt _ _end (by rw [hi.1]; omega)) hder,
          DocumentConstIterator.iterate_step]
        rfl
      | true =>
        simp only [closingText, if_true, List.cons_append, List.nil_append,
          List.length_cons, List.length_nil] at hdoc hend ⊢
        rw [objectLoop_step doc _end d n f (ch ',') (ch '}' :: rest) tmpMap it value hfk hs
          hdoc hb (by omega) (Or.inl rfl) hsd]
        have hdoc2 : doc.drop (Nat.iterate (DocumentConstIterator.increment doc)
            (f.bytes.length + 1) it)._it = ch '}' :: rest := by
          have := DocumentConstIterator.drop_iterate doc it (f.bytes ++ [ch ','])
            (ch '}' :: rest) (by simpa using hdoc)
          simpa using this
        have hder := DocumentConstIterator.dereference_headD doc _ _ hdoc2
        have hi1 := DocumentConstIterator.iterate_it doc (f.bytes.length + 1) it
        obtain ⟨n, rfl⟩ : ∃ m, n = m + 1 := ⟨n - 1, by simp at hn; omega⟩
        rw [if_neg (by simp), objectLoop_last doc _end _ n _ _ value
          (DocumentConstIterator.not_equal_of_lt _ _end (by rw [hi1.1]; omega)) hder,
          DocumentConstIterator.iterate_step]
        rfl
    | cons f2 fields =>
      have hdoc1 : doc.drop it._it = f.bytes ++ ch ',' ::
          ((commaSeparated ((f2 :: fields).map Field.bytes) ++
            closingText trailing (ch '}')) ++ rest) := by
        rw [hdoc]
        simp [commaSeparated_cons_cons]
      have hlen : (commaSeparated ((f :: f2 :: fields).map Field.bytes) ++
          closingText trailing (ch '}')).length =
          f.bytes.length + 1 + (commaSeparated ((f2 :: fields).map Field.bytes) ++
            closingText trailing (ch '}')).length := by
        simp [commaSeparated_cons_cons]
        omega
      rw [hlen] at hend ⊢
      rw [objectLoop_step doc _end d n f (ch ',') _ tmpMap it value hfk hs hdoc1 hb
        (by omega) (Or.inl rfl) hsd, if_neg (by simp)]
      have hi1 := DocumentConstIterator.iterate_it doc (f.bytes.length + 1) it
      have hdoc2 : doc.drop (Nat.iterate (DocumentConstIterator.increment doc)
          (f.bytes.length + 1) it)._it =
          (commaSeparated ((f2 :: fields).map Field.bytes) ++
            closingText trailing (ch '}')) ++ rest := by
        have := DocumentConstIterator.drop_iterate doc it (f.bytes ++ [ch ','])
          ((commaSeparated ((f2 :: fields).map Field.bytes) ++
            closingText trailing (ch '}')) ++ rest) (by simpa using hdoc1)
        simpa using this
      rw [ih (by simp) (fun q hq => hk q (List.mem_cons_of_mem _ hq))
        (fun q hq => hall q (List.mem_cons_of_mem _ hq))
        (fun q hq => hd q (List.mem_cons_of_mem _ hq)) n _ _ hdoc2
        (by rw [hi1.2]; exact hb) (by rw [hi1.1]; omega) (by simp at hn ⊢; omega),
        DocumentConstIterator.iterate_iterate]
      rfl

/-- The text of an object, with or without a comma before the closing
brace, is decoded as the map of its fields. -/
theorem decodesAs_object (trailing : Bool) (fields : List Field) (hne : fields ≠ [])
    (hk : ∀ f ∈ fields, ∀ p ∈ f.key, p.Valid)
    (hall : ∀ f ∈ fields, DecodesAs f.text f.value) :
    DecodesAs (objectText fields trailing) (AnyValue.map (assignFields fields [])) := by
  intro doc _end it rest depth value hdoc hb hend hfol hdepth
  have hskip := skipWhiteSpaces_follower doc _end it _ rest hdoc hb hfol
  have htexts : ∀ s ∈ fields.map Field.bytes, s ≠ [] := by
    intro s hs
    obtain ⟨f, _, rfl⟩ := List.mem_map.1 hs
    simp [Field.bytes]
  have hcount := length_le_commaSeparated _ htexts
  simp only [List.length_map] at hcount
  have hclose : 1 ≤ (closingText trailing (ch '}')).length := by
    cases trailing <;> simp [closingText]
  have hlen : (objectText fields trailing).length =
      (commaSeparated (fields.map Field.bytes) ++ closingText trailing (ch '}')).length + 1 := by
    simp [objectText]
  have hdoc0 : doc.drop it._it = ch '{' ::
      ((commaSeparated (fields.map Field.bytes) ++ closingText trailing (ch '}')) ++ rest) := by
    rw [hdoc]
    simp [objectText]
  obtain ⟨hder, hlt⟩ := DocumentConstIterator.dereference_of_drop doc it _ _ hdoc0
  have hdoc1 := DocumentConstIterator.drop_increment doc it _ _ hdoc0
  have hi := DocumentConstIterator.increment_it doc it
  have hdl : doc.length - it._it = (objectText fields trailing).length + rest.length := by
    have := congrArg List.length hdoc
    simpa using this
  rw [hlen] at hend hdepth hdl
  simp only [List.length_append] at hend hdepth hdl
  obtain ⟨d, rfl⟩ : ∃ e, depth = e + 1 := ⟨depth - 1, by omega⟩
  have hnend : it.equal _end = false :=
    DocumentConstIterator.not_equal_of_lt it _end (by omega)
  obtain ⟨n1, n2, n3, n4, n5, n6, n7, n8⟩ := bracket_ne _ (Or.inr hder)
  have n9 : it.dereference doc ≠ ch '[' := by rw [hder]; decide
  have hint := getInteger_fails doc _end it n7 n8
  have hloop := objectLoop_fields doc _end d trailing fields hne hk hall
    (by
      intro f hf
      have := length_le_of_mem_commaSeparated (fields.map Field.bytes) f.bytes
        (List.mem_map.2 ⟨f, hf, rfl⟩)
      have := field_length f
      omega)
    (doc.length + 1 - (it.increment doc)._it) [] (it.increment doc) rest value hdoc1
    (by rw [hi.2]; exact hb)
    (by rw [hi.1]; simp only [List.length_append]; omega)
    (by rw [hi.1]; omega)
  rw [hlen, Function.iterate_succ_apply] at hskip ⊢
  show decodeValueBody doc _end (decodeValue doc _end d) it value = _
  unfold decodeValueBody
  rw [skipWhiteSpaces_id doc _end it (Or.inr ⟨n1, n2⟩),
    decodeSpecial_fails doc _end it value n3 n4 n5]
  simp only [Decoded.orElse, decodeString_fails doc _end it value n6, decodeFloat, getFloat, getFloatStr,
    decodeInteger, getIntegerInt64, hint, decodeArray_fails doc _end _ it value n9,
    decodeObject, hnend, hder, ne_eq, not_true_eq_false,
    decide_False, Bool.or_self, Bool.false_eq_true, if_false, hloop, hskip]

theorem decodeJSON_of_decodesAs (s : List Nat) (v : AnyValue) (h : DecodesAs s v) :
    decodeJSON s = Returned.value v := by
  unfold decodeJSON
  simp only [decode_of_decodesAs s v h AnyValue.invalid]

theorem scenarioItems_decode : ∀ p ∈ scenarioItems, DecodesAs p.1 p.2 := by
  intro p hp
  simp only [scenarioItems, List.mem_cons, List.mem_singleton, List.mem_nil_iff,
    or_false] at hp
  rcases hp with rfl | rfl | rfl
  · exact decodesAs_integer false (lit "1")
      (show ∀ c ∈ lit "1", ch '0' ≤ c ∧ c ≤ ch '9' by decide) (by decide)
  · exact decodesAs_array true [(lit "2", AnyValue.int 2)] (by simp)
      (by
        intro q hq
        simp only [List.mem_singleton] at hq
        subst hq
        exact decodesAs_integer false (lit "2")
          (show ∀ c ∈ lit "2", ch '0' ≤ c ∧ c ≤ ch '9' by decide) (by decide))
  · exact decodesAs_integer true (lit "3")
      (show ∀ c ∈ lit "3", ch '0' ≤ c ∧ c ≤ ch '9' by decide) (by decide)

theorem scenarioFields_keys : ∀ f ∈ scenarioFields, ∀ p ∈ f.key, p.Valid := by
  intro f hf
  simp only [scenarioFields, List.mem_cons, List.mem_singleton, List.mem_nil_iff,
    or_false] at hf
  rcases hf with rfl | rfl
  · exact scenarioPieces_valid
  · intro p hp
    simp only [List.mem_singleton] at hp
    subst hp
    exact ⟨by decide, by decide⟩

theorem scenarioFields_decode : ∀ f ∈ scenarioFields, DecodesAs f.text f.value := by
  intro f hf
  simp only [scenarioFields, List.mem_cons, List.mem_singleton, List.mem_nil_iff,
    or_false] at hf
  rcases hf with rfl | rfl
  · exact decodesAs_integer false (lit "1")
      (show ∀ c ∈ lit "1", ch '0' ≤ c ∧ c ≤ ch '9' by decide) (by decide)
  · exact decodesAs_array false [(lit "2", AnyValue.int 2)] (by simp)
      (by
        intro q hq
        simp only [List.mem_singleton] at hq
        subst hq
        exact decodesAs_integer false (lit "2")
          (show ∀ c ∈ lit "2", ch '0' ≤ c ∧ c ≤ ch '9' by decide) (by decide))

/-- C40: trailing commas are tolerated. For every sequence of one or more
texts that are decoded as values, the array `[v1,...,vn,]` is decoded as the
same list as `[v1,...,vn]`, by `decodeJSON` and wherever it is nested; and
for every sequence of one or more fields whose keys are string literals and
whose texts are decoded as values, the object with a comma before the
closing brace is decoded as the same map as the object without it. -/
theorem trailing_comma_tolerated (items : List (List Nat × AnyValue)) (fields : List Field)
    (hi : items ≠ []) (hiv : ∀ p ∈ items, DecodesAs p.1 p.2) (hf : fields ≠ [])
    (hk : ∀ f ∈ fields, ∀ p ∈ f.key, p.Valid)
    (hfv : ∀ f ∈ fields, DecodesAs f.text f.value) :
    (decodeJSON (arrayText (items.map Prod.fst) false) =
        Returned.value (AnyValue.list (items.map Prod.snd)) ∧
      decodeJSON (arrayText (items.map Prod.fst) true) =
        Returned.value (AnyValue.list (items.map Prod.snd)) ∧
      DecodesAs (arrayText (items.map Prod.fst) false) (AnyValue.list (items.map Prod.snd)) ∧
      DecodesAs (arrayText (items.map Prod.fst) true) (AnyValue.list (items.map Prod.snd))) ∧
    (decodeJSON (objectText fields false) =
        Returned.value (AnyValue.map (assignFields fields [])) ∧
      decodeJSON (objectText fields true) =
        Returned.value (AnyValue.map (assignFields fields [])) ∧
      DecodesAs (objectText fields false) (AnyValue.map (assignFields fields [])) ∧
      DecodesAs (objectText fields true) (AnyValue.map (assignFields fields []))) :=
  ⟨⟨decodeJSON_of_decodesAs _ _ (decodesAs_array false items hi hiv),
      decodeJSON_of_decodesAs _ _ (decodesAs_array true items hi hiv),
      decodesAs_array false items hi hiv, decodesAs_array true items hi hiv⟩,
    ⟨decodeJSON_of_decodesAs _ _ (decodesAs_object false fields hf hk hfv),
      decodeJSON_of_decodesAs _ _ (decodesAs_object true fields hf hk hfv),
      decodesAs_object false fields hf hk hfv, decodesAs_object true fields hf hk hfv⟩⟩

theorem trailing_comma_tolerated_witness :
    (arrayText (scenarioItems.map Prod.fst) false = lit "[1,[2,],-3]" ∧
      arrayText (scenarioItems.map Prod.fst) true = lit "[1,[2,],-3,]" ∧
      decodeJSON (lit "[1,[2,],-3]") =
        Returned.value
          (AnyValue.list [AnyValue.int 1, AnyValue.list [AnyValue.int 2], AnyValue.int (-3)]) ∧
      decodeJSON (lit "[1,[2,],-3,]") =
        Returned.value
          (AnyValue.list [AnyValue.int 1, AnyValue.list [AnyValue.int 2], AnyValue.int (-3)])) ∧
    (decodeJSON (objectText scenarioFields false) =
        Returned.value (AnyValue.map (assignFields scenarioFields [])) ∧
      decodeJSON (objectText scenarioFields true) =
        Returned.value (AnyValue.map (assignFields scenarioFields []))) :=
  ⟨⟨rfl, rfl,
      (trailing_comma_tolerated scenarioItems scenarioFields (by simp [scenarioItems])
        scenarioItems_decode (by simp [scenarioFields]) scenarioFields_keys
        scenarioFields_decode).1.1,
      (trailing_comma_tolerated scenarioItems scenarioFields (by simp [scenarioItems])
        scenarioItems_decode (by simp [scenarioFields]) scenarioFields_keys
        scenarioFields_decode).1.2.1⟩,
    ⟨(trailing_comma_tolerated scenarioItems scenarioFields (by simp [scenarioItems])
        scenarioItems_decode (by simp [scenarioFields]) scenarioFields_keys
        scenarioFields_decode).2.1,
      (trailing_comma_tolerated scenarioItems scenarioFields (by simp [scenarioItems])
        scenarioItems_decode (by simp [scenarioFields]) scenarioFields_keys
        scenarioFields_decode).2.2.1⟩⟩

end JsonDecoderPrivate

/-! ## The decoder: further texts that are decoded as values -/

namespace JsonDecoderPrivate

/-- A string literal of valid pieces is decoded as the string of its
text. -/
theorem decodesAs_string (ps : List StringPiece) (hv : ∀ p ∈ ps, p.Valid) :
    DecodesAs (dquote :: (literalBody ps ++ [dquote])) (AnyValue.string (literalText ps)) := by
  intro doc _end it rest depth value hdoc hb hend hfol hdepth
  have hskip := skipWhiteSpaces_follower doc _end it _ rest hdoc hb hfol
  have hlen : (dquote :: (literalBody ps ++ [dquote])).length = (literalBody ps).length + 2 := by
    simp
  have hdoc0 : doc.drop it._it = dquote :: (literalBody ps ++ dquote :: rest) := by
    rw [hdoc]
    simp
  obtain ⟨hder, hlt⟩ := DocumentConstIterator.dereference_of_drop doc it _ _ hdoc0
  rw [hlen] at hend hdepth hskip ⊢
  obtain ⟨d, rfl⟩ : ∃ e, depth = e + 1 := ⟨depth - 1, by omega⟩
  have hg := getCleanString_closed doc _end it ps rest hv hb hdoc0 (by omega)
  have n1 : it.dereference doc ≠ ch ' ' := by rw [hder]; decide
  have n2 : it.dereference doc ≠ ch '\n' := by rw [hder]; decide
  have n3 : it.dereference doc ≠ ch 't' := by rw [hder]; decide
  have n4 : it.dereference doc ≠ ch 'f' := by rw [hder]; decide
  have n5 : it.dereference doc ≠ ch 'n' := by rw [hder]; decide
  show decodeValueBody doc _end (decodeValue doc _end d) it value = _
  unfold decodeValueBody
  rw [skipWhiteSpaces_id doc _end it (Or.inr ⟨n1, n2⟩),
    decodeSpecial_fails doc _end it value n3 n4 n5]
  simp only [Decoded.orElse, decodeString, hg, hskip]

theorem matchLoop_run (doc : List Nat) (_end : DocumentConstIterator)
    (expected rest : List Nat) (it : DocumentConstIterator)
    (hdoc : doc.drop it._it = expected ++ rest) (hb : it._begin = _end._begin)
    (hend : it._it + expected.length ≤ _end._it) :
    matchLoop doc _end expected it =
      some (Nat.iterate (DocumentConstIterator.increment doc) expected.length it) := by
  induction expected generalizing it with
  | nil => rfl
  | cons c expected ih =>
    simp only [List.cons_append, List.length_cons] at hdoc hend ⊢
    obtain ⟨hder, hlt⟩ := DocumentConstIterator.dereference_of_drop doc it c _ hdoc
    have hne : it.equal _end = false :=
      DocumentConstIterator.not_equal_of_lt it _end (by omega)
    have hi := DocumentConstIterator.increment_it doc it
    rw [matchLoop, Function.iterate_succ_apply]
    simp only [hne, Bool.false_eq_true, if_false, hder, ne_eq, not_true_eq_false]
    exact ih (it.increment doc) (DocumentConstIterator.drop_increment doc it c _ hdoc)
      (by rw [hi.2]; exact hb) (by rw [hi.1]; omega)

/-- The texts `true`, `false` and `null` are decoded as the two booleans and
as the void value. -/
theorem decodesAs_special :
    DecodesAs (lit "true") (AnyValue.bool true) ∧
    DecodesAs (lit "false") (AnyValue.bool false) ∧
    DecodesAs (lit "null") AnyValue.void := by
  refine ⟨?_, ?_, ?_⟩
  · intro doc _end it rest depth value hdoc hb hend hfol hdepth
    have hskip := skipWhiteSpaces_follower doc _end it _ rest hdoc hb hfol
    have hm := matchLoop_run doc _end (lit "true") rest it hdoc hb hend
    have hder := (DocumentConstIterator.dereference_of_drop doc it (ch 't')
      (lit "rue" ++ rest) hdoc).1
    have hl : (lit "true").length = 4 := rfl
    rw [hl] at hend hdepth
    obtain ⟨d, rfl⟩ : ∃ e, depth = e + 1 := ⟨depth - 1, by omega⟩
    have hne : it.equal _end = false :=
      DocumentConstIterator.not_equal_of_lt it _end (by omega)
    have n1 : it.dereference doc ≠ ch ' ' := by rw [hder]; decide
    have n2 : it.dereference doc ≠ ch '\n' := by rw [hder]; decide
    show decodeValueBody doc _end (decodeValue doc _end d) it value = _
    unfold decodeValueBody
    rw [skipWhiteSpaces_id doc _end it (Or.inr ⟨n1, n2⟩)]
    simp only [decodeSpecial, hne, Bool.false_eq_true, if_false, match_, hm, Decoded.orElse,
      hskip]
  · intro doc _end it rest depth value hdoc hb hend hfol hdepth
    have hskip := skipWhiteSpaces_follower doc _end it _ rest hdoc hb hfol
    have hm := matchLoop_run doc _end (lit "false") rest it hdoc hb hend
    have hder := (DocumentConstIterator.dereference_of_drop doc it (ch 'f')
      (lit "alse" ++ rest) hdoc).1
    have h1 : match_ doc _end it (lit "true") = (false, it) :=
      match_fails doc _end it (ch 't') (lit "rue") (by rw [hder]; decide)
    have hl : (lit "false").length = 5 := rfl
    rw [hl] at hend hdepth
    obtain ⟨d, rfl⟩ : ∃ e, depth = e + 1 := ⟨depth - 1, by omega⟩
    have hne : it.equal _end = false :=
      DocumentConstIterator.not_equal_of_lt it _end (by omega)
    have n1 : it.dereference doc ≠ ch ' ' := by rw [hder]; decide
    have n2 : it.dereference doc ≠ ch '\n' := by rw [hder]; decide
    show decodeValueBody doc _end (decodeValue doc _end d) it value = _
    unfold decodeValueBody
    rw [skipWhiteSpaces_id doc _end it (Or.inr ⟨n1, n2⟩)]
    simp only [decodeSpecial, hne, Bool.false_eq_true, if_false, h1]
    simp only [match_, hm, Decoded.orElse, hskip]
  · intro doc _end it rest depth value hdoc hb hend hfol hdepth
    have hskip := skipWhiteSpaces_follower doc _end it _ rest hdoc hb hfol
    have hm := matchLoop_run doc _end (lit "null") rest it hdoc hb hend
    have hder := (DocumentConstIterator.dereference_of_drop doc it (ch 'n')
      (lit "ull" ++ rest) hdoc).1
    have h1 : match_ doc _end it (lit "true") = (false, it) :=
      match_fails doc _end it (ch 't') (lit "rue") (by rw [hder]; decide)
    have h2 : match_ doc _end it (lit "false") = (false, it) :=
      match_fails doc _end it (ch 'f') (lit "alse") (by rw [hder]; decide)
    have hl : (lit "null").length = 4 := rfl
    rw [hl] at hend hdepth
    obtain ⟨d, rfl⟩ : ∃ e, depth = e + 1 := ⟨depth - 1, by omega⟩
    have hne : it.equal _end = false :=
      DocumentConstIterator.not_equal_of_lt it _end (by omega)
    have n1 : it.dereference doc ≠ ch ' ' := by rw [hder]; decide
    have n2 : it.dereference doc ≠ ch '\n' := by rw [hder]; decide
    show decodeValueBody doc _end (decodeValue doc _end d) it value = _
    unfold decodeValueBody
    rw [skipWhiteSpaces_id doc _end it (Or.inr ⟨n1, n2⟩)]
    simp only [decodeSpecial, hne, Bool.false_eq_true, if_false, h1, h2]
    simp only [match_, hm, Decoded.orElse, hskip]

/-- A decimal number that fits a `double`, an integer literal followed by a
point and digits, is decoded as the double that `boost::lexical_cast` reads
in its text. -/
theorem decodesAs_decimal (negative : Bool) (ds fs : List Nat) (hd : ∀ c ∈ ds, IsDigit c)
    (hne : ds ≠ []) (hf : ∀ c ∈ fs, IsDigit c) (hfne : fs ≠ [])
    (hfit : lexicalCastThrows (integerText negative ds ++ lit "." ++ fs) = false) :
    DecodesAs (integerText negative ds ++ ch '.' :: fs)
      (AnyValue.double (integerText negative ds ++ lit "." ++ fs)) := by
  intro doc _end it rest depth value hdoc hb hend hfol hdepth
  have hskip := skipWhiteSpaces_follower doc _end it _ rest hdoc hb hfol
  have hpos := integerText_length_pos negative ds hne
  have hfpos : 0 < fs.length := List.length_pos.2 hfne
  have hlen : (integerText negative ds ++ ch '.' :: fs).length =
      (integerText negative ds).length + 1 + fs.length := by
    simp
    omega
  have hdoc0 : doc.drop it._it = integerText negative ds ++ (ch '.' :: (fs ++ rest)) := by
    rw [hdoc]
    simp
  rw [hlen] at hend hdepth hfol
  obtain ⟨d, rfl⟩ : ∃ e, depth = e + 1 := ⟨depth - 1, by omega⟩
  -- the integer part
  have hint := getInteger_run doc _end negative ds (ch '.' :: (fs ++ rest)) it hd hne hdoc0 hb
    (by omega) (Or.inr (by
      intro h
      have h1 : ch '0' ≤ ch '.' := h.1
      exact absurd h1 (by decide)))
  obtain ⟨q1, hq1⟩ : ∃ q, q = Nat.iterate (DocumentConstIterator.increment doc)
    (integerText negative ds).length it := ⟨_, rfl⟩
  have hi1 := DocumentConstIterator.iterate_it doc (integerText negative ds).length it
  rw [← hq1] at hint hi1
  have hdoc1 : doc.drop q1._it = ch '.' :: (fs ++ rest) := by
    rw [hq1]
    exact DocumentConstIterator.drop_iterate doc it _ _ hdoc0
  obtain ⟨hder1, _⟩ := DocumentConstIterator.dereference_of_drop doc q1 _ _ hdoc1
  have hexp1 : getExponent doc _end q1 = (none, q1) :=
    getExponent_fails doc _end q1 (Or.inr (by rw [hder1]; exact ⟨by decide, by decide⟩))
  have hne1 : q1.equal _end = false :=
    DocumentConstIterator.not_equal_of_lt q1 _end (by omega)
  -- the digits after the point
  have hi2 := DocumentConstIterator.increment_it doc q1
  have hdoc2 := DocumentConstIterator.drop_increment doc q1 _ _ hdoc1
  have hdig := getDigits_run doc _end fs rest (q1.increment doc) hf hfne hdoc2
    (by rw [hi2.2, hi1.2]; exact hb) (by rw [hi2.1]; omega)
    (by rw [hi2.1]
        rcases hfol with h | h
        · left; omega
        · right; exact (delimiter_ne _ h).1)
  have hq2 : Nat.iterate (DocumentConstIterator.increment doc) fs.length (q1.increment doc) =
      Nat.iterate (DocumentConstIterator.increment doc)
        ((integerText negative ds).length + 1 + fs.length) it := by
    rw [hq1, DocumentConstIterator.iterate_step, DocumentConstIterator.iterate_iterate]
  rw [hq2] at hdig
  rw [hlen] at hskip ⊢
  obtain ⟨q2, hq2e⟩ : ∃ q, q = Nat.iterate (DocumentConstIterator.increment doc)
    ((integerText negative ds).length + 1 + fs.length) it := ⟨_, rfl⟩
  have hi3 := DocumentConstIterator.iterate_it doc
    ((integerText negative ds).length + 1 + fs.length) it
  rw [← hq2e] at hdig hskip hi3 ⊢
  have hdoc3 : doc.drop q2._it = rest := by
    have := DocumentConstIterator.drop_iterate doc it _ rest hdoc
    rw [hlen] at this
    rw [hq2e]
    exact this
  have hder3 := DocumentConstIterator.dereference_headD doc q2 rest hdoc3
  have hexp2 : getExponent doc _end q2 = (none, q2) :=
    getExponent_fails doc _end q2 (by
      rcases hfol with h | h
      · exact Or.inl ((DocumentConstIterator.equal_iff q2 _end
          (by rw [hi3.2]; exact hb)).2 (by rw [hi3.1]; exact h))
      · right
        rw [hder3]
        exact ⟨(delimiter_ne _ h).2.1, (delimiter_ne _ h).2.2.1⟩)
  have hfloat : getFloat doc _end it =
      FloatStep.ret (some (integerText negative ds ++ lit "." ++ fs)) q2 := by
    unfold getFloat getFloatStr
    simp only [hint, hexp1, hne1, hder1, ne_eq, not_true_eq_false, decide_False,
      Bool.or_self, Bool.false_eq_true, if_false, hdig, hexp2, hfit]
  -- the first character
  have hfirst : it.dereference doc = ch '-' ∨ IsDigit (it.dereference doc) := by
    cases negative with
    | true =>
      left
      exact (DocumentConstIterator.dereference_of_drop doc it (ch '-')
        (ds ++ (ch '.' :: (fs ++ rest))) (by rw [hdoc0]; simp [integerText])).1
    | false =>
      right
      obtain ⟨c, ds1, hds⟩ := List.exists_cons_of_ne_nil hne
      have := (DocumentConstIterator.dereference_of_drop doc it c
        (ds1 ++ (ch '.' :: (fs ++ rest))) (by rw [hdoc0, hds]; simp [integerText])).1
      rw [this]
      exact hd c (by rw [hds]; exact List.mem_cons_self _ _)
  obtain ⟨n1, n2, n3, n4, n5, n6⟩ := numberStart_ne _ hfirst
  show decodeValueBody doc _end (decodeValue doc _end d) it value = _
  unfold decodeValueBody
  rw [skipWhiteSpaces_id doc _end it (Or.inr ⟨n1, n2⟩),
    decodeSpecial_fails doc _end it value n3 n4 n5]
  simp only [Decoded.orElse, decodeString_fails doc _end it value n6, decodeFloat, hfloat,
    hskip]

end JsonDecoderPrivate

end qi
